import Mathlib

/-!
# gvoid-cpp: lexer, tokens, AST, recursive-descent parser and C++ emitter

A shallow embedding of `src/src/tokens.hpp`, `src/src/ast.hpp`,
`src/src/parser.hpp`, `src/src/generator.hpp` and `src/src/lexer.hpp`, and of
the prototype translator `src/test.cpp`, followed by theorems about the
embedded functions.

Conventions of the embedding.

* `int` line numbers are `Int`; `std::string` is `String`;
  `std::optional<std::string>` is `Option String`; `std::vector` is `List`.
* A `std::unique_ptr` that the code tests against `nullptr` is an `Option`;
  one that the code dereferences unconditionally is a plain child.
* The parser object `{m_tokens, m_current}` is kept as the token vector split
  at the cursor (`consumed` holds `m_tokens[0 .. m_current)` most recent first,
  `remaining` holds `m_tokens[m_current ..]`).
* A thrown `std::runtime_error` is `Res.error` carrying the `what()` text and
  the parser state at the throw; reading `m_tokens` out of range or calling
  `.value()` on an empty optional is `Res.fault`.
* Recursion of the C++ parser is unbounded; the embedding threads a `fuel`
  counter that every loop iteration and every recursive descent decrements, and
  reports `Res.outOfFuel` when it is exhausted.
* The source text of the lexer is a `List Char`, one `Char` for each `char` of
  the `std::string`; the lexer object `{m_source, m_currentPos, m_cline}` is
  kept as the characters from the cursor on and the line. The `<cctype>`
  classes are those of the "C" locale, in which no character above 127 is a
  space, a letter or a digit.
* The inner loops of the lexer are recursions on the character list. The loop
  of `Lexer::tokenize` threads a `fuel` counter and yields `none` when it is
  exhausted; `tokenize` starts it with one more than the length of the text,
  which `tokenizeLoop_total` shows to suffice.
-/

namespace Gvoid

/-! ## tokens.hpp -/

/-- The enumeration `TokenType` of `tokens.hpp`, constructor for constructor. -/
inductive TokenType where
  | PRINT | RETURN | KEYWORD_VAR_NUM | KEYWORD_VAR_STR | KEYWORD_VAR_ARR
  | ARROW_RIGHT | ARROW_LEFT | FUNCTION | IMPORT | IF | ELIF | ELSE | WHILE
  | DO | FOR | BREAK | CONTINUE
  | STRING_LIT | NUMBER | IDENTIFIER
  | SEMICOLON | COMMA | ASSIGN | PLUS | PLUS_PLUS | MINUS_MINUS | MINUS
  | ASTER | FSLASH | PERCENT | AT | LT | GT | LT_EQ | GT_EQ | BITWISE_NOT
  | STREAM_IN | TRUE | FALSE | NOT | AND | OR | XOR | DOLLAR
  | LOGICAL_OR | LOGICAL_AND | STREAM_OUT
  | PLUS_EQ | MINUS_EQ | ASTER_EQ | FSLASH_EQ | PERCENT_EQ
  | EQ_EQ | BANG_EQ
  | LPAREN | RPAREN | LBRACE | RBRACE | LBRACKET | RBRACKET
  | DOUBLE_FLASH | END_OF_FILE | UNKNOWN
  deriving DecidableEq, Repr

/-- The struct `Token` of `tokens.hpp`. -/
structure Token where
  type : TokenType
  line : Int
  value : Option String := none
  deriving DecidableEq, Repr

/-! ## ast.hpp -/

/-- Expression nodes of `ast.hpp` (`BinaryExpr`, `UnaryExpr`, `LiteralExpr`,
`IdentifierExpr`, `CallExpr`), each with the `line` of its base class. -/
inductive Expr where
  | BinaryExpr (left : Expr) (op : TokenType) (right : Expr) (line : Int)
  | UnaryExpr (op : TokenType) (right : Expr) (line : Int)
  | LiteralExpr (value : String) (type : TokenType) (line : Int)
  | IdentifierExpr (name : String) (line : Int)
  | CallExpr (callee : String) (args : List Expr) (line : Int)
  deriving Repr

/-- Statement nodes of `ast.hpp`. Children the code compares with `nullptr`
(`initializer`, `elseBranch`, the clauses of `ForStmt`, the value of
`ReturnStmt`) are optional. -/
inductive Stmt where
  | ImportStmt (moduleName : String) (line : Int)
  | VarDeclStmt (type : String) (name : String) (initializer : Option Expr) (line : Int)
  | ExprStmt (expr : Expr) (line : Int)
  | BlockStmt (statements : List Stmt) (line : Int)
  | IfStmt (condition : Expr) (thenBranch : Stmt) (elseBranch : Option Stmt) (line : Int)
  | ForStmt (initializer : Option Stmt) (condition : Option Expr) (increment : Option Expr)
      (body : Stmt) (line : Int)
  | WhileStmt (condition : Expr) (body : Stmt) (line : Int)
  | FunctionStmt (name : String) (params : List String) (body : Stmt) (line : Int)
  | ReturnStmt (value : Option Expr) (line : Int)
  deriving Repr

/-! ## parser.hpp -/

/-- The mutable state of `class Parser`: the token vector split at `m_current`. -/
structure Parser where
  consumed : List Token
  remaining : List Token
  deriving DecidableEq, Repr

/-- Outcome of running a parser member function. -/
inductive Res (α : Type) where
  | ok (a : α) (p : Parser)
  | error (what : String) (p : Parser)
  | fault
  | outOfFuel
  deriving Repr

/-- A parser member function: it reads and updates the parser state. -/
abbrev P (α : Type) : Type := Parser → Res α

/-- Sequencing of member-function calls: anything but `ok` propagates. -/
def P.bind {α β : Type} (x : P α) (f : α → P β) : P β := fun p =>
  match x p with
  | .ok a p1 => f a p1
  | .error w p1 => .error w p1
  | .fault => .fault
  | .outOfFuel => .outOfFuel

instance : Monad P where
  pure a := fun p => .ok a p
  bind := P.bind

/-- The statement `throw std::runtime_error(what)`. -/
def raise {α : Type} (what : String) : P α := fun p => .error what p

/-- Reading outside `m_tokens`, or `.value()` of an empty optional. -/
def faulty {α : Type} : P α := fun _ => .fault

/-- Exhausted recursion budget of the embedding. -/
def noFuel {α : Type} : P α := fun _ => .outOfFuel

/-- `Parser::peek`: `m_tokens[m_current]`. -/
def peek : P Token := fun p =>
  match p.remaining with
  | [] => .fault
  | t :: _ => .ok t p

/-- `Parser::previous`: `m_tokens[m_current - 1]`. -/
def previous : P Token := fun p =>
  match p.consumed with
  | [] => .fault
  | t :: _ => .ok t p

/-- `Parser::isAtEnd`. -/
def isAtEnd : P Bool := do
  let t ← peek
  pure (t.type == TokenType.END_OF_FILE)

/-- `Parser::check`. -/
def check (type : TokenType) : P Bool := do
  if (← isAtEnd) then
    pure false
  else
    let t ← peek
    pure (t.type == type)

/-- The increment `m_current++`. -/
def bump : P Unit := fun p =>
  match p.remaining with
  | [] => .fault
  | t :: rest => .ok () ⟨t :: p.consumed, rest⟩

/-- `Parser::advance`. -/
def advance : P Token := do
  if !(← isAtEnd) then
    bump
  previous

/-- `Parser::match(TokenType)`. -/
def matchType (type : TokenType) : P Bool := do
  if (← check type) then
    let _ ← advance
    pure true
  else
    pure false

/-- `Parser::match(std::initializer_list<TokenType>)`. -/
def matchTypes : List TokenType → P Bool
  | [] => pure false
  | type :: types => do
    if (← check type) then
      let _ ← advance
      pure true
    else
      matchTypes types

/-- `Parser::parseError`: the text of the `std::runtime_error` it builds. -/
def parseError (token : Token) (message : String) : String :=
  "[Line " ++ toString token.line ++ "] Error: " ++ message

/-- `Parser::consume`. -/
def consume (type : TokenType) (message : String) : P Token := do
  if (← check type) then
    advance
  else
    let t ← peek
    raise (parseError t message)

/-- The call `token.value.value()`. -/
def valueOf (token : Token) : P String :=
  match token.value with
  | some v => pure v
  | none => faulty

/-- The tokens at which the `switch` of `Parser::synchronize` returns. -/
def isSyncStart : TokenType → Bool
  | .FUNCTION | .KEYWORD_VAR_NUM | .KEYWORD_VAR_STR | .KEYWORD_VAR_ARR
  | .IMPORT | .IF | .WHILE | .FOR | .RETURN => true
  | _ => false

/-- The `while (!isAtEnd())` loop of `Parser::synchronize`, by recursion on the
tokens still ahead of the cursor (each iteration that does not return advances
the cursor by one). -/
def synchronizeLoop : List Token → List Token → Res Unit
  | _, [] => .fault
  | consumed, t :: rest =>
    if t.type == TokenType.END_OF_FILE then .ok () ⟨consumed, t :: rest⟩
    else
      match consumed with
      | [] => .fault
      | prev :: _ =>
        if prev.type == TokenType.SEMICOLON then .ok () ⟨consumed, t :: rest⟩
        else if isSyncStart t.type then .ok () ⟨consumed, t :: rest⟩
        else synchronizeLoop (t :: consumed) rest

/-- `Parser::synchronize`. -/
def synchronize : P Unit := do
  let _ ← advance
  fun p => synchronizeLoop p.consumed p.remaining

/-- The loop `while (match(ops)) { op; right = operand(); expr = Binary(...) }`
shared by `logicalOr`, `logicalAnd`, `bitwiseOr`, `bitwiseXor`, `bitwiseAnd`,
`equality`, `comparison`, `term` and `factor`. -/
def binaryLoop (ops : List TokenType) (operand : P Expr) : Nat → Expr → P Expr
  | 0, _ => noFuel
  | fuel + 1, expr => do
    if (← matchTypes ops) then
      let op := (← previous).type
      let right ← operand
      let line := (← previous).line
      binaryLoop ops operand fuel (Expr.BinaryExpr expr op right line)
    else
      pure expr

/-- `Parser::primary`; the recursive call `expression()` is the parameter. -/
def primary (expression : P Expr) : P Expr := do
  let isNumber ← matchType TokenType.NUMBER
  let isLiteral ← if isNumber then pure true else matchType TokenType.STRING_LIT
  if isLiteral then
    let t ← previous
    let v ← valueOf t
    pure (Expr.LiteralExpr v t.type t.line)
  else if (← matchType TokenType.IDENTIFIER) then
    let t ← previous
    let v ← valueOf t
    pure (Expr.IdentifierExpr v t.line)
  else if (← matchType TokenType.LPAREN) then
    let expr ← expression
    let _ ← consume TokenType.RPAREN "Error expected ')' after expression"
    pure expr
  else
    let t ← peek
    raise (parseError t "Error expected expression")

/-- The `do { arguments.push_back(expression()); } while (match(COMMA));` loop
of `Parser::finishCall`. -/
def argumentsLoop (expression : P Expr) : Nat → List Expr → P (List Expr)
  | 0, _ => noFuel
  | fuel + 1, arguments => do
    let e ← expression
    if (← matchType TokenType.COMMA) then
      argumentsLoop expression fuel (arguments ++ [e])
    else
      pure (arguments ++ [e])

/-- `Parser::finishCall`. -/
def finishCall (expression : P Expr) (fuel : Nat) (callee : Expr) : P Expr := do
  let line := (← previous).line
  let arguments ←
    if !(← check TokenType.RPAREN) then argumentsLoop expression fuel []
    else pure []
  let _ ← consume TokenType.RPAREN "Expect ')' after arguments"
  match callee with
  | Expr.IdentifierExpr name _ => pure (Expr.CallExpr name arguments line)
  | _ =>
    let t ← previous
    raise (parseError t "Can only call functions")

/-- The `while (true)` loop of `Parser::call`. -/
def callLoop (expression : P Expr) : Nat → Expr → P Expr
  | 0, _ => noFuel
  | fuel + 1, expr => do
    if (← matchType TokenType.LPAREN) then
      let expr ← finishCall expression fuel expr
      callLoop expression fuel expr
    else
      pure expr

/-- `Parser::call`. -/
def call (expression : P Expr) (fuel : Nat) : P Expr := do
  let expr ← primary expression
  callLoop expression fuel expr

/-- `Parser::unary`. -/
def unary (expression : P Expr) : Nat → P Expr
  | 0 => noFuel
  | fuel + 1 => do
    if (← matchTypes [TokenType.NOT, TokenType.MINUS, TokenType.PLUS_PLUS,
        TokenType.MINUS_MINUS]) then
      let op := (← previous).type
      let right ← unary expression fuel
      let line := (← previous).line
      pure (Expr.UnaryExpr op right line)
    else
      call expression fuel

/-- `Parser::factor`. -/
def factor (expression : P Expr) (fuel : Nat) : P Expr := do
  let expr ← unary expression fuel
  binaryLoop [TokenType.ASTER, TokenType.FSLASH, TokenType.PERCENT]
    (unary expression fuel) fuel expr

/-- `Parser::term`. -/
def term (expression : P Expr) (fuel : Nat) : P Expr := do
  let expr ← factor expression fuel
  binaryLoop [TokenType.PLUS, TokenType.MINUS] (factor expression fuel) fuel expr

/-- `Parser::comparison`. -/
def comparison (expression : P Expr) (fuel : Nat) : P Expr := do
  let expr ← term expression fuel
  binaryLoop [TokenType.LT, TokenType.GT] (term expression fuel) fuel expr

/-- `Parser::equality`. -/
def equality (expression : P Expr) (fuel : Nat) : P Expr := do
  let expr ← comparison expression fuel
  binaryLoop [TokenType.EQ_EQ, TokenType.BANG_EQ] (comparison expression fuel) fuel expr

/-- `Parser::bitwiseAnd`. -/
def bitwiseAnd (expression : P Expr) (fuel : Nat) : P Expr := do
  let expr ← equality expression fuel
  binaryLoop [TokenType.AND] (equality expression fuel) fuel expr

/-- `Parser::bitwiseXor`. -/
def bitwiseXor (expression : P Expr) (fuel : Nat) : P Expr := do
  let expr ← bitwiseAnd expression fuel
  binaryLoop [TokenType.XOR] (bitwiseAnd expression fuel) fuel expr

/-- `Parser::bitwiseOr`. -/
def bitwiseOr (expression : P Expr) (fuel : Nat) : P Expr := do
  let expr ← bitwiseXor expression fuel
  binaryLoop [TokenType.OR] (bitwiseXor expression fuel) fuel expr

/-- `Parser::logicalAnd`. -/
def logicalAnd (expression : P Expr) (fuel : Nat) : P Expr := do
  let expr ← bitwiseOr expression fuel
  binaryLoop [TokenType.LOGICAL_AND] (bitwiseOr expression fuel) fuel expr

/-- `Parser::logicalOr`. -/
def logicalOr (expression : P Expr) (fuel : Nat) : P Expr := do
  let expr ← logicalAnd expression fuel
  binaryLoop [TokenType.LOGICAL_OR] (logicalAnd expression fuel) fuel expr

/-- The operators matched by `Parser::assignment`. -/
def assignOps : List TokenType :=
  [TokenType.ASSIGN, TokenType.PLUS_EQ, TokenType.MINUS_EQ, TokenType.ASTER_EQ,
   TokenType.FSLASH_EQ, TokenType.PERCENT_EQ]

/-- `Parser::assignment`. -/
def assignment (expression : P Expr) : Nat → P Expr
  | 0 => noFuel
  | fuel + 1 => do
    let expr ← logicalOr expression fuel
    if (← matchTypes assignOps) then
      let op := (← previous).type
      let value ← assignment expression fuel
      match expr with
      | Expr.IdentifierExpr _ _ =>
        let line := (← previous).line
        pure (Expr.BinaryExpr expr op value line)
      | _ =>
        let t ← previous
        raise (parseError t "Invalid assignment target")
    else
      pure expr

/-- `Parser::expression`, which closes the recursion of the expression
grammar. -/
def expression : Nat → P Expr
  | 0 => noFuel
  | fuel + 1 => assignment (expression fuel) fuel

/-- `Parser::expressionStatement`. -/
def expressionStatement (fuel : Nat) : P Stmt := do
  let expr ← expression fuel
  let _ ← consume TokenType.SEMICOLON "Expect ';' after expression"
  let line := (← previous).line
  pure (Stmt.ExprStmt expr line)

/-- `Parser::typedVarDeclaration`. -/
def typedVarDeclaration (fuel : Nat) (type : TokenType) : P Stmt := do
  let line := (← previous).line
  let typeName ←
    match type with
    | TokenType.KEYWORD_VAR_NUM => pure "num"
    | TokenType.KEYWORD_VAR_STR => pure "str"
    | TokenType.KEYWORD_VAR_ARR => pure "arr"
    | _ => do
      let t ← previous
      raise (parseError t "Invalid variable type")
  let name ← valueOf (← consume TokenType.IDENTIFIER "Expect variable name")
  let initializer ←
    if (← matchType TokenType.ASSIGN) then do
      let e ← expression fuel
      pure (some e)
    else pure none
  let _ ← consume TokenType.SEMICOLON "Expect ';' after variable declaration"
  pure (Stmt.VarDeclStmt typeName name initializer line)

/-- `Parser::numVarDeclaration`. -/
def numVarDeclaration (fuel : Nat) : P Stmt :=
  typedVarDeclaration fuel TokenType.KEYWORD_VAR_NUM

/-- `Parser::strVarDeclaration`. -/
def strVarDeclaration (fuel : Nat) : P Stmt :=
  typedVarDeclaration fuel TokenType.KEYWORD_VAR_STR

/-- `Parser::arrVarDeclaration`. -/
def arrVarDeclaration (fuel : Nat) : P Stmt :=
  typedVarDeclaration fuel TokenType.KEYWORD_VAR_ARR

/-- `Parser::importStatement`. -/
def importStatement : P Stmt := do
  let prev ← previous
  let line := prev.line
  let moduleName ←
    match prev.value with
    | some v => pure v
    | none => do
      if (← matchType TokenType.STRING_LIT) then
        valueOf (← previous)
      else
        let t ← peek
        raise (parseError t "Expect module name after import")
  let _ ← consume TokenType.SEMICOLON "Expect ';' after import statement"
  pure (Stmt.ImportStmt moduleName line)

/-- `Parser::ifStatement`; the recursive call `statement()` is the parameter. -/
def ifStatement (statement : P Stmt) (fuel : Nat) : P Stmt := do
  let line := (← previous).line
  let _ ← consume TokenType.LPAREN "Expect '(' after 'if'"
  let condition ← expression fuel
  let _ ← consume TokenType.RPAREN "Expect ')' after if condition"
  let thenBranch ← statement
  let elseBranch ←
    if (← matchType TokenType.ELSE) then do
      let s ← statement
      pure (some s)
    else pure none
  pure (Stmt.IfStmt condition thenBranch elseBranch line)

/-- `Parser::whileStatement`. -/
def whileStatement (statement : P Stmt) (fuel : Nat) : P Stmt := do
  let line := (← previous).line
  let _ ← consume TokenType.LPAREN "Expect '(' after 'while'"
  let condition ← expression fuel
  let _ ← consume TokenType.RPAREN "Expect ')' after condition"
  let body ← statement
  pure (Stmt.WhileStmt condition body line)

/-- The loop `while (!check(RPAREN) && !isAtEnd())` of `Parser::forStatement`
that wraps the increment in a unary node for every `++` or `--` following it. -/
def incrementLoop : Nat → Expr → P Expr
  | 0, _ => noFuel
  | fuel + 1, increment => do
    let atParen ← check TokenType.RPAREN
    let stop ← if atParen then pure true else isAtEnd
    if stop then
      pure increment
    else if (← matchTypes [TokenType.PLUS_PLUS, TokenType.MINUS_MINUS]) then
      let t ← previous
      incrementLoop fuel (Expr.UnaryExpr t.type increment t.line)
    else
      pure increment

/-- `Parser::forStatement`. -/
def forStatement (statement : P Stmt) (fuel : Nat) : P Stmt := do
  let line := (← previous).line
  let _ ← consume TokenType.LPAREN "Expect '(' after 'for'"
  let initializer ←
    if (← matchType TokenType.SEMICOLON) then pure none
    else do
      if (← matchType TokenType.KEYWORD_VAR_NUM) then
        let s ← numVarDeclaration fuel
        pure (some s)
      else
        let s ← expressionStatement fuel
        pure (some s)
  let condition ←
    if !(← check TokenType.SEMICOLON) then do
      let e ← expression fuel
      pure (some e)
    else pure none
  let _ ← consume TokenType.SEMICOLON "Expect ';' after loop condition"
  let increment ←
    if !(← check TokenType.RPAREN) then do
      let e ← expression fuel
      let e ← incrementLoop fuel e
      pure (some e)
    else pure none
  let _ ← consume TokenType.RPAREN "Expect ')' after for clauses"
  let body ← statement
  let whileBody :=
    match increment with
    | some inc => Stmt.BlockStmt [body, Stmt.ExprStmt inc line] line
    | none => body
  let whileLoop :=
    Stmt.WhileStmt
      (match condition with
       | some c => c
       | none => Expr.LiteralExpr "1" TokenType.NUMBER line)
      whileBody line
  match initializer with
  | some init => pure (Stmt.BlockStmt [init, whileLoop] line)
  | none => pure whileLoop

/-- The loop `while (!check(RBRACE) && !isAtEnd())` of `Parser::block`; the
call `declaration()` is the parameter. -/
def blockLoop (declaration : P Stmt) : Nat → List Stmt → P (List Stmt)
  | 0, _ => noFuel
  | fuel + 1, statements => do
    let atBrace ← check TokenType.RBRACE
    let stop ← if atBrace then pure true else isAtEnd
    if stop then
      pure statements
    else
      let s ← declaration
      blockLoop declaration fuel (statements ++ [s])

/-- `Parser::block`. -/
def block (declaration : P Stmt) (fuel : Nat) : P Stmt := do
  let line := (← previous).line
  let statements ← blockLoop declaration fuel []
  let _ ← consume TokenType.RBRACE "Expect '\x7d' after block"
  pure (Stmt.BlockStmt statements line)

/-- `Parser::returnStatement`. -/
def returnStatement (fuel : Nat) : P Stmt := do
  let line := (← previous).line
  let value ←
    if !(← check TokenType.SEMICOLON) then do
      let e ← expression fuel
      pure (some e)
    else pure none
  let _ ← consume TokenType.SEMICOLON "Expect ';' after return value"
  pure (Stmt.ReturnStmt value line)

/-- `Parser::printStatement`. -/
def printStatement (fuel : Nat) : P Stmt := do
  let line := (← previous).line
  let _ ← consume TokenType.LPAREN "Expect '(' after 'print'"
  let value ← expression fuel
  let _ ← consume TokenType.RPAREN "Expect ')' after print expression"
  let _ ← consume TokenType.SEMICOLON "Expect ';' after print statement"
  pure (Stmt.ExprStmt (Expr.CallExpr "print" [value] line) line)

/-- `Parser::statement`. -/
def statement (declaration : P Stmt) : Nat → P Stmt
  | 0 => noFuel
  | fuel + 1 => do
    if (← matchType TokenType.IF) then
      ifStatement (statement declaration fuel) fuel
    else if (← matchType TokenType.WHILE) then
      whileStatement (statement declaration fuel) fuel
    else if (← matchType TokenType.FOR) then
      forStatement (statement declaration fuel) fuel
    else if (← matchType TokenType.LBRACE) then
      block declaration fuel
    else if (← matchType TokenType.RETURN) then
      returnStatement fuel
    else if (← matchType TokenType.PRINT) then
      printStatement fuel
    else
      expressionStatement fuel

/-- The `do { parameters.push_back(...); } while (match(COMMA));` loop of
`Parser::function`. -/
def parametersLoop : Nat → List String → P (List String)
  | 0, _ => noFuel
  | fuel + 1, parameters => do
    let name ← valueOf (← consume TokenType.IDENTIFIER "Expect parameter name")
    if (← matchType TokenType.COMMA) then
      parametersLoop fuel (parameters ++ [name])
    else
      pure (parameters ++ [name])

/-- `Parser::function`. -/
def function (declaration : P Stmt) (fuel : Nat) : P Stmt := do
  let name ← valueOf (← consume TokenType.IDENTIFIER "Expect function name")
  let _ ← consume TokenType.LPAREN "Expect '(' after function name"
  let parameters ←
    if !(← check TokenType.RPAREN) then parametersLoop fuel []
    else pure []
  let _ ← consume TokenType.RPAREN "Expect ')' after parameters"
  let _ ← consume TokenType.LBRACE "Expect '\x7b' before function body"
  let body ← block declaration fuel
  let line := (← previous).line
  pure (Stmt.FunctionStmt name parameters body line)

/-- The handler `catch (const std::runtime_error &) { synchronize(); throw; }`
of `Parser::declaration` around its `try` block. -/
def catchSynchronize {α : Type} (body : P α) : P α := fun p =>
  match body p with
  | .error what p1 =>
    match synchronize p1 with
    | .ok _ p2 => .error what p2
    | .error what2 p2 => .error what2 p2
    | .fault => .fault
    | .outOfFuel => .outOfFuel
  | r => r

/-- The `try` block of `Parser::declaration`; the recursive call
`declaration()` made from `function` and `block` is the parameter. -/
def declarationBody (declaration : P Stmt) (fuel : Nat) : P Stmt := do
  if (← matchType TokenType.FUNCTION) then
    function declaration fuel
  else if (← matchType TokenType.KEYWORD_VAR_NUM) then
    numVarDeclaration fuel
  else if (← matchType TokenType.KEYWORD_VAR_STR) then
    strVarDeclaration fuel
  else if (← matchType TokenType.KEYWORD_VAR_ARR) then
    arrVarDeclaration fuel
  else if (← matchType TokenType.IMPORT) then
    importStatement
  else
    statement declaration fuel

/-- `Parser::declaration`, which closes the recursion of the statement
grammar. -/
def declaration : Nat → P Stmt
  | 0 => noFuel
  | fuel + 1 => catchSynchronize (declarationBody (declaration fuel) fuel)

/-- The loop `while (!isAtEnd()) statements.push_back(declaration());` of
`Parser::parse`. -/
def parseLoop : Nat → List Stmt → P (List Stmt)
  | 0, _ => noFuel
  | fuel + 1, statements => do
    if !(← isAtEnd) then
      let s ← declaration fuel
      parseLoop fuel (statements ++ [s])
    else
      pure statements

/-- What a caller of a public member function observes. -/
inductive Outcome (α : Type) where
  | returned (a : α)
  | threw (what : String)
  | fault
  | outOfFuel
  deriving Repr

/-- Forget the parser state of a result. -/
def Res.outcome {α : Type} : Res α → Outcome α
  | .ok a _ => .returned a
  | .error what _ => .threw what
  | .fault => .fault
  | .outOfFuel => .outOfFuel

/-- The constructor `Parser(tokens)` followed by `Parser::parse`. -/
def parse (fuel : Nat) (tokens : List Token) : Outcome (List Stmt) :=
  (parseLoop fuel [] ⟨[], tokens⟩).outcome

/-! ## generator.hpp -/

/-- A `std::unordered_map<std::string, V>` as an association list; only
lookups by key are ever made, so the iteration order is immaterial. -/
abbrev StringMap (V : Type) : Type := List (String × V)

/-- The call `m.count(key)` as a truth value. -/
def StringMap.count {V : Type} (m : StringMap V) (key : String) : Bool :=
  (m.lookup key).isSome

/-- The value read by `m[key]`, with `dflt` the value-initialised `V`. -/
def StringMap.at {V : Type} (m : StringMap V) (key : String) (dflt : V) : V :=
  (m.lookup key).getD dflt

/-- The map after `m[key]` has been evaluated: a missing key is inserted with
the value-initialised `V`. -/
def StringMap.touch {V : Type} (m : StringMap V) (key : String) (dflt : V) : StringMap V :=
  if m.count key then m else (key, dflt) :: m

/-- The map after `m[key] = value`. -/
def StringMap.set {V : Type} (m : StringMap V) (key : String) (value : V) : StringMap V :=
  (key, value) :: m.filter (fun kv => kv.1 != key)

/-- The data members of `class Generator` other than the reference to the
statement list. -/
structure Generator where
  hasMainFunction : Bool := false
  m_varTypes : StringMap String := []
  m_functionReturnTypes : StringMap String := []
  m_functionParams : StringMap (List (String × String)) := []
  deriving DecidableEq, Repr

/-- `Generator::tokenTypeToString`. -/
def tokenTypeToString : TokenType → String
  | .PLUS => "+" | .MINUS => "-" | .ASTER => "*" | .FSLASH => "/" | .PERCENT => "%"
  | .PLUS_EQ => "+=" | .MINUS_EQ => "-=" | .ASTER_EQ => "*=" | .FSLASH_EQ => "/="
  | .PERCENT_EQ => "%=" | .EQ_EQ => "==" | .BANG_EQ => "!=" | .LT => "<" | .GT => ">"
  | .LT_EQ => "<=" | .GT_EQ => ">=" | .LOGICAL_AND => "&&" | .LOGICAL_OR => "||"
  | .AND => "&" | .OR => "|" | .XOR => "^" | .NOT => "!" | .BITWISE_NOT => "~"
  | .PLUS_PLUS => "++" | .MINUS_MINUS => "--" | .ARROW_RIGHT => "->"
  | .ARROW_LEFT => "<-" | .STREAM_OUT => "<<" | .STREAM_IN => ">>"
  | _ => "/* unknown op */"

/-- The text written by the `switch` of `Generator::generateBinaryExpr`. -/
def binaryOpText : TokenType → String
  | .PLUS => " + " | .MINUS => " - " | .ASTER => " * " | .FSLASH => " / "
  | .PERCENT => " % "
  | .PLUS_EQ => " += " | .MINUS_EQ => " -= " | .ASTER_EQ => " *= "
  | .FSLASH_EQ => " /= " | .PERCENT_EQ => " %= "
  | .EQ_EQ => " == " | .BANG_EQ => " != " | .LT => " < " | .GT => " > "
  | .LT_EQ => " <= " | .GT_EQ => " >= "
  | .LOGICAL_AND => " && " | .LOGICAL_OR => " || "
  | .AND => " & " | .OR => " | " | .XOR => " ^ "
  | .ARROW_RIGHT => "->"
  | op => " " ++ tokenTypeToString op ++ " "

/-- The text written by the `switch` of `Generator::generateUnaryExpr`. -/
def unaryOpText : TokenType → String
  | .MINUS => "-" | .NOT => "!" | .PLUS_PLUS => "++" | .MINUS_MINUS => "--"
  | .BITWISE_NOT => "~"
  | op => tokenTypeToString op

/-- The replacement text of one character in `Generator::escapeString`. -/
def escapeChar (c : Char) : List Char :=
  if c = Char.ofNat 10 then [Char.ofNat 92, 'n']
  else if c = Char.ofNat 9 then [Char.ofNat 92, 't']
  else if c = '"' then [Char.ofNat 92, '"']
  else if c = Char.ofNat 92 then [Char.ofNat 92, Char.ofNat 92]
  else [c]

/-- `Generator::escapeString`. -/
def escapeString (str : String) : String :=
  String.mk (str.data.flatMap escapeChar)

/-- `Generator::generateLiteral`, as the text appended to the stream. -/
def generateLiteral (value : String) (type : TokenType) : String :=
  match type with
  | .STRING_LIT => "\"" ++ escapeString value ++ "\""
  | .NUMBER => value
  | .TRUE => "true"
  | .FALSE => "false"
  | _ => value

mutual
/-- `Generator::generateExpr` together with `generateBinaryExpr`,
`generateUnaryExpr` and `generatePrintCall`; `ss` is the stream written to. -/
def generateExpr : Expr → String → String
  | Expr.BinaryExpr left op right _, ss =>
    if op = TokenType.STREAM_OUT then
      generateExpr right (ss ++ "std::cout << ")
    else
      generateExpr right (generateExpr left (ss ++ "(") ++ binaryOpText op) ++ ")"
  | Expr.UnaryExpr op right _, ss => generateExpr right (ss ++ unaryOpText op)
  | Expr.LiteralExpr value type _, ss => ss ++ generateLiteral value type
  | Expr.IdentifierExpr name _, ss => ss ++ name
  | Expr.CallExpr callee args _, ss =>
    if callee = "print" then
      generatePrintArgs args (ss ++ "cout") ++ " << std::endl"
    else
      generateCallArgs args (ss ++ callee ++ "(") ++ ")"
/-- The loop `for (arg : call.args) { ss << " << "; generateExpr(arg) }`. -/
def generatePrintArgs : List Expr → String → String
  | [], ss => ss
  | arg :: rest, ss => generatePrintArgs rest (generateExpr arg (ss ++ " << "))
/-- The loop over `call->args` that separates the arguments with `", "`. -/
def generateCallArgs : List Expr → String → String
  | [], ss => ss
  | [arg], ss => generateExpr arg ss
  | arg :: next :: rest, ss => generateCallArgs (next :: rest) (generateExpr arg ss ++ ", ")
end

/-- `Generator::mapType`. -/
def mapType (type : String) : String :=
  if type = "num" then "double"
  else if type = "str" then "std::string"
  else if type = "arr" then "std::vector<double>"
  else if type = "bool" then "bool"
  else if type = "void" then "void"
  else type

/-- `Generator::generateImport`, as the text appended to the stream. -/
def generateImport (moduleName : String) : String :=
  if moduleName = "io" then "#include <iostream>\n"
  else if moduleName = "math" then "#include <cmath>\n"
  else if moduleName = "vector" then "#include <vector>\n"
  else if moduleName = "string" then "#include <string>\n"
  else if moduleName = "map" then "#include <unordered_map>\n"
  else "// (Import state is coming soon) Import: " ++ moduleName ++ "\n"

/-- `Generator::inferExprType`. -/
def inferExprType (g : Generator) : Expr → String
  | Expr.LiteralExpr _ type _ =>
    if type = TokenType.STRING_LIT then "std::string"
    else if type = TokenType.NUMBER then "double"
    else "int"
  | Expr.IdentifierExpr name _ =>
    if g.m_varTypes.count name then g.m_varTypes.at name "" else "int"
  | Expr.CallExpr callee _ _ =>
    if g.m_functionReturnTypes.count callee then g.m_functionReturnTypes.at callee ""
    else "int"
  | _ => "int"

/-- The loop of `Generator::inferFunctionReturnType` over the statements of the
body block: it stops at the first `ReturnStmt`. -/
def inferFromStatements (g : Generator) : List Stmt → String
  | [] => "void"
  | Stmt.ReturnStmt (some value) _ :: _ => inferExprType g value
  | Stmt.ReturnStmt none _ :: _ => "void"
  | _ :: rest => inferFromStatements g rest

/-- `Generator::inferFunctionReturnType`, applied to the body of the function. -/
def inferFunctionReturnType (g : Generator) (body : Stmt) : String :=
  match body with
  | Stmt.BlockStmt statements _ => inferFromStatements g statements
  | _ => "void"

/-- The loop writing `int p1, int p2, ...` in
`Generator::generateForwardDeclarations`. -/
def forwardParams : List String → String → String
  | [], ss => ss
  | [param], ss => ss ++ "int " ++ param
  | param :: next :: rest, ss => forwardParams (next :: rest) (ss ++ "int " ++ param ++ ", ")

/-- The loop of `Generator::generateForwardDeclarations` over `m_statements`.
No member function of `Generator` calls `generateForwardDeclarations`. -/
def forwardDeclarationsLoop : List Stmt → Generator → String → Generator × String
  | [], g, ss => (g, ss)
  | Stmt.FunctionStmt name params body _ :: rest, g, ss =>
    let g := if name = "main" then { g with hasMainFunction := true } else g
    let returnType := inferFunctionReturnType g body
    let g := { g with
      m_functionReturnTypes := g.m_functionReturnTypes.set name returnType
      m_functionParams := g.m_functionParams.set name (params.map fun p => ("int", p)) }
    forwardDeclarationsLoop rest g
      (forwardParams params (ss ++ returnType ++ " " ++ name ++ "(") ++ ");\n")
  | _ :: rest, g, ss => forwardDeclarationsLoop rest g ss

/-- `Generator::generateForwardDeclarations`. -/
def generateForwardDeclarations (m_statements : List Stmt) (g : Generator) (ss : String) :
    Generator × String :=
  let (g, ss) := forwardDeclarationsLoop m_statements g ss
  (g, ss ++ "\n")


/-- The text `mapType(type) name [= initializer];` written for a variable
declaration by `generateVarDecl` and by the first loop of `generate`. -/
def varDeclText (type name : String) (initializer : Option Expr) (ss : String) : String :=
  let ss := ss ++ mapType type ++ " " ++ name
  let ss :=
    match initializer with
    | some e => generateExpr e (ss ++ " = ")
    | none => ss
  ss ++ ";\n"

/-- The parameter loop of `Generator::generateFunction`: `params` is the
vector found in `m_functionParams`, `names` the part of `func.params` from
index `i` on. Reading `params[i]` outside the vector has no defined result. -/
def generateParams (params : List (String × String)) :
    List String → Nat → String → Option String
  | [], _, ss => some ss
  | name :: rest, i, ss =>
    match params[i]? with
    | none => none
    | some param =>
      let ss := ss ++ param.1 ++ " " ++ name
      let ss := if rest.isEmpty then ss else ss ++ ", "
      generateParams params rest (i + 1) ss

/-- The effect of `ss.seekp(-1, std::ios_base::end)` in `generateFor` when the
stream ends with a newline: the next write replaces that newline. -/
def dropTrailingNewline (ss : String) : String :=
  match ss.data.getLast? with
  | some c => if c = Char.ofNat 10 then String.mk ss.data.dropLast else ss
  | none => ss

mutual
/-- `Generator::generateStatement` together with `generateVarDecl`,
`generateFunction`, `generateIf`, `generateFor` and `generateWhile`. The
result is `none` when `generateFunction` reads `params[i]` out of range. -/
def generateStatement : Stmt → Generator → String → Option (Generator × String)
  | Stmt.ImportStmt moduleName _, g, ss => some (g, ss ++ generateImport moduleName)
  | Stmt.VarDeclStmt type name initializer _, g, ss =>
    some ({ g with m_varTypes := g.m_varTypes.set name (mapType type) },
      varDeclText type name initializer ss)
  | Stmt.FunctionStmt name params body _, g, ss =>
    let returnType := g.m_functionReturnTypes.at name ""
    let g := { g with m_functionReturnTypes := g.m_functionReturnTypes.touch name "" }
    let ss := ss ++ returnType ++ " " ++ name ++ "("
    let recorded := g.m_functionParams.at name []
    let g := { g with m_functionParams := g.m_functionParams.touch name [] }
    match generateParams recorded params 0 ss with
    | none => none
    | some ss =>
      match generateStatement body g (ss ++ ") ") with
      | none => none
      | some (g, ss) => some (g, ss ++ "\n")
  | Stmt.ExprStmt expr _, g, ss => some (g, generateExpr expr ss ++ ";\n")
  | Stmt.BlockStmt statements _, g, ss =>
    match generateStatements statements g (ss ++ "\x7b\n") with
    | none => none
    | some (g, ss) => some (g, ss ++ "\x7d\n")
  | Stmt.IfStmt condition thenBranch elseBranch _, g, ss =>
    match generateStatement thenBranch g (generateExpr condition (ss ++ "if (") ++ ") ") with
    | none => none
    | some (g, ss) =>
      match elseBranch with
      | some e => generateStatement e g (ss ++ "else ")
      | none => some (g, ss)
  | Stmt.ForStmt initializer condition increment body _, g, ss =>
    let afterInit : Option (Generator × String) :=
      match initializer with
      | some init =>
        match generateStatement init g (ss ++ "for (") with
        | none => none
        | some (g, ss) => some (g, dropTrailingNewline ss)
      | none => some (g, ss ++ "for (" ++ ";")
    match afterInit with
    | none => none
    | some (g, ss) =>
      let ss := ss ++ " "
      let ss :=
        match condition with
        | some c => generateExpr c ss
        | none => ss
      let ss := ss ++ "; "
      let ss :=
        match increment with
        | some u => generateExpr u ss
        | none => ss
      generateStatement body g (ss ++ ") ")
  | Stmt.WhileStmt condition body _, g, ss =>
    generateStatement body g (generateExpr condition (ss ++ "while (") ++ ") ")
  | Stmt.ReturnStmt value _, g, ss =>
    let ss := ss ++ "return "
    let ss :=
      match value with
      | some v => generateExpr v ss
      | none => ss
    some (g, ss ++ ";\n")
/-- The loop `for (s : block->statements) generateStatement(*s, ss)`. -/
def generateStatements : List Stmt → Generator → String → Option (Generator × String)
  | [], g, ss => some (g, ss)
  | s :: rest, g, ss =>
    match generateStatement s g ss with
    | none => none
    | some (g, ss) => generateStatements rest g ss
end

/-- The first loop of `Generator::generate`: top-level variable declarations
and one line per function. -/
def generateDeclarations : List Stmt → Generator → String → Generator × String
  | [], g, ss => (g, ss)
  | Stmt.VarDeclStmt type name initializer _ :: rest, g, ss =>
    generateDeclarations rest g (varDeclText type name initializer ss)
  | Stmt.FunctionStmt name _ _ _ :: rest, g, ss =>
    let returnType := g.m_functionReturnTypes.at name ""
    let g := { g with m_functionReturnTypes := g.m_functionReturnTypes.touch name "" }
    generateDeclarations rest g (ss ++ returnType ++ " " ++ name ++ "(" ++ ");\n")
  | _ :: rest, g, ss => generateDeclarations rest g ss

/-- The second loop of `Generator::generate`: the statements placed inside
`main`. -/
def generateMainBody : List Stmt → Generator → String → Option (Generator × String)
  | [], g, ss => some (g, ss)
  | Stmt.VarDeclStmt _ _ _ _ :: rest, g, ss => generateMainBody rest g ss
  | Stmt.FunctionStmt _ _ _ _ :: rest, g, ss => generateMainBody rest g ss
  | stmt :: rest, g, ss =>
    match generateStatement stmt g ss with
    | none => none
    | some (g, ss) => generateMainBody rest g ss

/-- The third loop of `Generator::generate`: the function definitions. -/
def generateFunctions : List Stmt → Generator → String → Option (Generator × String)
  | [], g, ss => some (g, ss)
  | Stmt.FunctionStmt name params body line :: rest, g, ss =>
    match generateStatement (Stmt.FunctionStmt name params body line) g ss with
    | none => none
    | some (g, ss) => generateFunctions rest g ss
  | _ :: rest, g, ss => generateFunctions rest g ss

/-- The six lines written first by `Generator::generate`. -/
def header : String :=
  "#include <iostream>\n" ++ "#include <vector>\n" ++ "#include <string>\n" ++
  "#include <unordered_map>\n" ++ "#include <cmath>\n\n" ++ "using namespace std;\n\n"

/-- `Generator::generate` run on the generator `g` over the statement list
`m_statements`; the result is the generator afterwards and `ss.str()`. -/
def Generator.generate (g : Generator) (m_statements : List Stmt) :
    Option (Generator × String) :=
  let (g, ss) := generateDeclarations m_statements g header
  match generateMainBody m_statements g (ss ++ "int main() \x7b\n") with
  | none => none
  | some (g, ss) => generateFunctions m_statements g (ss ++ "    return 0;\n" ++ "\x7d\n")

/-- The constructor `Generator(statements)` followed by `generate()`. -/
def generate (statements : List Stmt) : Option String :=
  match Generator.generate {} statements with
  | none => none
  | some (_, ss) => some ss

/-! ## lexer.hpp -/

/-- The call `isspace(c)` of `<cctype>` in the "C" locale: the space and the
characters `\t`, `\n`, `\v`, `\f`, `\r`. -/
def isspace (c : Char) : Bool :=
  c == ' ' || c == Char.ofNat 9 || c == Char.ofNat 10 || c == Char.ofNat 11 ||
    c == Char.ofNat 12 || c == Char.ofNat 13

/-- The call `isdigit(c)`: `0` to `9`. -/
def isdigit (c : Char) : Bool :=
  decide (48 ≤ c.toNat) && decide (c.toNat ≤ 57)

/-- The call `isalpha(c)` in the "C" locale: `A` to `Z` and `a` to `z`. -/
def isalpha (c : Char) : Bool :=
  (decide (65 ≤ c.toNat) && decide (c.toNat ≤ 90)) ||
    (decide (97 ≤ c.toNat) && decide (c.toNat ≤ 122))

/-- The call `isalnum(c)`. -/
def isalnum (c : Char) : Bool :=
  isalpha c || isdigit c

/-- The mutable state of `class Lexer`: `source` holds the characters of
`m_source` from `m_currentPos` on (the lexer never reads behind the cursor),
`m_cline` the current line. -/
structure Lexer where
  source : List Char
  m_cline : Int
  deriving DecidableEq, Repr

namespace Lexer

/-- The table `Lexer::keywords`. -/
def keywords : List (String × TokenType) :=
  [("return", TokenType.RETURN), ("import", TokenType.IMPORT),
   ("num", TokenType.KEYWORD_VAR_NUM), ("str", TokenType.KEYWORD_VAR_STR),
   ("arr", TokenType.KEYWORD_VAR_ARR), ("if", TokenType.IF), ("elif", TokenType.ELIF),
   ("else", TokenType.ELSE), ("while", TokenType.WHILE), ("do", TokenType.DO),
   ("for", TokenType.FOR), ("break", TokenType.BREAK), ("continue", TokenType.CONTINUE),
   ("print", TokenType.PRINT), ("func", TokenType.FUNCTION), ("true", TokenType.TRUE),
   ("false", TokenType.FALSE)]

/-- `Lexer::isAtEnd`. -/
def isAtEnd (l : Lexer) : Bool :=
  l.source.isEmpty

/-- `Lexer::peek`: the character under the cursor, `\0` at the end. -/
def peek (l : Lexer) : Char :=
  match l.source with
  | [] => Char.ofNat 0
  | c :: _ => c

/-- `Lexer::peekNext`: the character after the one under the cursor, `\0` when
there is none. -/
def peekNext (l : Lexer) : Char :=
  match l.source with
  | _ :: c :: _ => c
  | _ => Char.ofNat 0

/-- `Lexer::advance`: the character returned and the lexer afterwards. -/
def advance (l : Lexer) : Char × Lexer :=
  match l.source with
  | [] => (Char.ofNat 0, l)
  | c :: rest => (c, { l with source := rest })

/-- The loop `while (p(peek())) value += advance();` for a class `p` that
does not hold `\0`: the characters appended to `value` and the characters left
in the source. -/
def scanWhile (p : Char → Bool) : List Char → List Char × List Char
  | [] => ([], [])
  | c :: rest =>
    if p c then
      let r := scanWhile p rest
      (c :: r.1, r.2)
    else
      ([], c :: rest)

/-- The loop `while (peek() != '\n' && !isAtEnd()) advance();` of
`Lexer::skipComment`: the characters left in the source. -/
def skipCommentLoop : List Char → List Char
  | [] => []
  | c :: rest => if c != Char.ofNat 10 then skipCommentLoop rest else c :: rest

/-- `Lexer::skipComment`. -/
def skipComment (l : Lexer) : Lexer :=
  { l with source := skipCommentLoop l.source }

/-- The loop `while (isspace(peek())) { if (peek() == '\n') m_cline++; advance(); }`
of the `@import` directive: the characters left and the line reached. -/
def skipSpaces : List Char → Int → List Char × Int
  | [], line => ([], line)
  | c :: rest, line =>
    if isspace c then
      skipSpaces rest (if c == Char.ofNat 10 then line + 1 else line)
    else
      (c :: rest, line)

/-- The loop `while (peek() != '"' && !isAtEnd())` of `Lexer::stringLiteral`:
the characters appended to `value`, the line reached and the characters
left. -/
def stringLoop : List Char → Int → List Char × Int × List Char
  | [], line => ([], line, [])
  | c :: rest, line =>
    if c != '"' then
      let r := stringLoop rest (if c == Char.ofNat 10 then line + 1 else line)
      (c :: r.1, r.2.1, r.2.2)
    else
      ([], line, c :: rest)

/-- `Lexer::stringLiteral`. -/
def stringLiteral (l : Lexer) : Token × Lexer :=
  let l1 := (advance l).2
  let r := stringLoop l1.source l1.m_cline
  let l2 : Lexer := ⟨r.2.2, r.2.1⟩
  if isAtEnd l2 then
    (⟨TokenType.UNKNOWN, l2.m_cline, some (String.mk r.1)⟩, l2)
  else
    (⟨TokenType.STRING_LIT, l2.m_cline, some (String.mk r.1)⟩, (advance l2).2)

/-- `Lexer::numberLiteral`. -/
def numberLiteral (l : Lexer) : Token × Lexer :=
  let r := scanWhile isdigit l.source
  let l1 : Lexer := { l with source := r.2 }
  if peek l1 == '.' && isdigit (peekNext l1) then
    let l2 := (advance l1).2
    let r2 := scanWhile isdigit l2.source
    (⟨TokenType.NUMBER, l.m_cline, some (String.mk (r.1 ++ '.' :: r2.1))⟩,
      { l2 with source := r2.2 })
  else
    (⟨TokenType.NUMBER, l.m_cline, some (String.mk r.1)⟩, l1)

/-- `Lexer::identifier`. -/
def identifier (l : Lexer) : Token × Lexer :=
  let r := scanWhile (fun c => isalnum c || c == '_') l.source
  let l1 : Lexer := { l with source := r.2 }
  match keywords.lookup (String.mk r.1) with
  | some type => (⟨type, l.m_cline, none⟩, l1)
  | none => (⟨TokenType.IDENTIFIER, l.m_cline, some (String.mk r.1)⟩, l1)

/-- The `case '@'` of `Lexer::nextToken`. -/
def directive (l : Lexer) : Token × Lexer :=
  let l1 := (advance l).2
  if isalpha (peek l1) then
    let r := scanWhile isalpha l1.source
    let l2 : Lexer := { l1 with source := r.2 }
    if String.mk r.1 == "import" then
      let s := skipSpaces l2.source l2.m_cline
      let m := scanWhile (fun c => isalnum c || c == '_' || c == '.') s.1
      (⟨TokenType.IMPORT, s.2, some (String.mk m.1)⟩, ⟨m.2, s.2⟩)
    else
      (⟨TokenType.AT, l2.m_cline, none⟩, l2)
  else
    (⟨TokenType.AT, l1.m_cline, none⟩, l1)

/-- The `case '&'` of `Lexer::nextToken`. -/
def ampersand (l : Lexer) : Token × Lexer :=
  let l1 := (advance l).2
  if peek l1 == '&' then
    (⟨TokenType.LOGICAL_AND, l1.m_cline, none⟩, (advance l1).2)
  else
    (⟨TokenType.AND, l1.m_cline, none⟩, l1)

/-- A `Token` returned where `std::optional<Token>` is expected. -/
def ret (r : Token × Lexer) : Option Token × Lexer :=
  (some r.1, r.2)

/-- The statements `advance(); return Token{type, m_cline};`. -/
def one (type : TokenType) (l : Lexer) : Option Token × Lexer :=
  (some ⟨type, l.m_cline, none⟩, (advance l).2)

/-- The statements `advance(); advance(); return Token{type, m_cline};`. -/
def two (type : TokenType) (l : Lexer) : Option Token × Lexer :=
  (some ⟨type, l.m_cline, none⟩, (advance (advance l).2).2)

/-- The `switch (c)` of `Lexer::nextToken` and the tests after it: the token,
if any, and the lexer afterwards. -/
def dispatch (c : Char) (l : Lexer) : Option Token × Lexer :=
  if c == ';' then one TokenType.SEMICOLON l
  else if c == '(' then one TokenType.LPAREN l
  else if c == ')' then one TokenType.RPAREN l
  else if c == Char.ofNat 123 then one TokenType.LBRACE l
  else if c == Char.ofNat 125 then one TokenType.RBRACE l
  else if c == '[' then one TokenType.LBRACKET l
  else if c == ']' then one TokenType.RBRACKET l
  else if c == '+' then
    if peekNext l == '=' then two TokenType.PLUS_EQ l
    else if peekNext l == '+' then two TokenType.PLUS_PLUS l
    else one TokenType.PLUS l
  else if c == '-' then
    if peekNext l == '=' then two TokenType.MINUS_EQ l
    else if peekNext l == '-' then two TokenType.MINUS_MINUS l
    else if peekNext l == '>' then two TokenType.ARROW_RIGHT l
    else one TokenType.MINUS l
  else if c == '@' then
    ret (directive l)
  else if c == '*' then
    if peekNext l == '=' then two TokenType.ASTER_EQ l
    else one TokenType.ASTER l
  else if c == '/' then
    if peekNext l == '=' then two TokenType.FSLASH_EQ l
    else one TokenType.FSLASH l
  else if c == '%' then
    if peekNext l == '=' then two TokenType.PERCENT_EQ l
    else one TokenType.PERCENT l
  else if c == '<' then
    if peekNext l == '<' then two TokenType.STREAM_OUT l
    else if peekNext l == '-' then two TokenType.ARROW_LEFT l
    else one TokenType.LT l
  else if c == '>' then one TokenType.GT l
  else if c == '!' then
    if peekNext l == '=' then two TokenType.BANG_EQ l
    else one TokenType.NOT l
  else if c == '&' then ret (ampersand l)
  else if c == '|' then
    if peekNext l == '|' then two TokenType.LOGICAL_OR l
    else one TokenType.OR l
  else if c == '^' then one TokenType.XOR l
  else if c == '=' then
    if peekNext l == '=' then two TokenType.EQ_EQ l
    else if peekNext l == '<' then two TokenType.LT_EQ l
    else if peekNext l == '>' then two TokenType.GT_EQ l
    else one TokenType.ASSIGN l
  else if c == '~' then one TokenType.BITWISE_NOT l
  else if c == '"' then
    ret (stringLiteral l)
  else if isdigit c then
    ret (numberLiteral l)
  else if isalpha c || c == '_' then
    ret (identifier l)
  else
    (none, l)

/-- `Lexer::nextToken`: `char c = peek();` followed by the dispatch on `c`. -/
def nextToken (l : Lexer) : Option Token × Lexer :=
  dispatch (peek l) l

/-- The loop `while (!isAtEnd())` of `Lexer::tokenize` followed by the push of
the `END_OF_FILE` token. Every iteration moves the cursor forward; `fuel`
bounds the number of iterations. -/
def tokenizeLoop : Nat → Lexer → List Token → Option (List Token)
  | 0, _, _ => none
  | fuel + 1, l, tokens =>
    if isAtEnd l then
      some (tokens ++ [⟨TokenType.END_OF_FILE, l.m_cline, none⟩])
    else if isspace (peek l) then
      let l1 : Lexer :=
        if peek l == Char.ofNat 10 then { l with m_cline := l.m_cline + 1 } else l
      tokenizeLoop fuel (advance l1).2 tokens
    else if peek l == '/' && peekNext l == '/' then
      tokenizeLoop fuel (skipComment l) tokens
    else
      match nextToken l with
      | (some token, l1) => tokenizeLoop fuel l1 (tokens ++ [token])
      | (none, l1) =>
        tokenizeLoop fuel (advance l1).2
          (tokens ++ [⟨TokenType.UNKNOWN, l1.m_cline, some (String.singleton (peek l1))⟩])

/-- The constructor `Lexer(source)` followed by `Lexer::tokenize`; one
iteration per character suffices, so the result is never `none`. -/
def tokenize (source : List Char) : Option (List Token) :=
  tokenizeLoop (source.length + 1) ⟨source, 1⟩ []

end Lexer

/-! ## test.cpp -/

namespace TestCpp

/-- The enumeration `TokenType` of `test.cpp`. -/
inductive TokenType where
  | PRINT | LPAREN | RPAREN | STRING
  deriving DecidableEq, Repr

/-- The struct `Token` of `test.cpp`. -/
structure Token where
  type : TokenType
  lexeme : String
  line : Int
  deriving DecidableEq, Repr

/-- The loop `while (current < source.length() && isalpha(source[current]))`
of `Tokenize`: the characters passed over and the characters left. -/
def scanAlpha : List Char → List Char × List Char
  | [] => ([], [])
  | c :: rest =>
    if isalpha c then
      let r := scanAlpha rest
      (c :: r.1, r.2)
    else
      ([], c :: rest)

/-- The loop `while (current < source.length() && source[current] != '"')` of
`Tokenize`, entered after the opening quote: the characters passed over, the
line reached and the characters left. -/
def scanString : List Char → Int → List Char × Int × List Char
  | [], line => ([], line, [])
  | c :: rest, line =>
    if c != '"' then
      let r := scanString rest (if c == Char.ofNat 10 then line + 1 else line)
      (c :: r.1, r.2.1, r.2.2)
    else
      ([], line, c :: rest)

/-- The loop `while (current < source.length())` of `Tokenize` and the
`return` statements of the function; `source` holds the characters from
`current` on. Every iteration moves `current` forward; `fuel` bounds the number
of iterations. The messages written to `std::cerr` are left out. -/
def TokenizeLoop : Nat → List Char → Int → List Token → Option (List Token)
  | 0, _, _, _ => none
  | _ + 1, [], _, tokens => some tokens
  | fuel + 1, c :: rest, line, tokens =>
    if isspace c then
      TokenizeLoop fuel rest (if c == Char.ofNat 10 then line + 1 else line) tokens
    else if isalpha c then
      let r := scanAlpha (c :: rest)
      let lexeme := String.mk r.1
      if lexeme == "print" then
        TokenizeLoop fuel r.2 line (tokens ++ [⟨TokenType.PRINT, lexeme, line⟩])
      else
        TokenizeLoop fuel r.2 line tokens
    else if c == '(' then
      TokenizeLoop fuel rest line (tokens ++ [⟨TokenType.LPAREN, "(", line⟩])
    else if c == ')' then
      TokenizeLoop fuel rest line (tokens ++ [⟨TokenType.RPAREN, ")", line⟩])
    else if c == '"' then
      let r := scanString rest line
      match r.2.2 with
      | [] => some []
      | _ :: after =>
        TokenizeLoop fuel after r.2.1 (tokens ++ [⟨TokenType.STRING, String.mk r.1, r.2.1⟩])
    else
      TokenizeLoop fuel rest line tokens

/-- The function `Tokenize` of `test.cpp`; one iteration for each character
suffices. -/
def Tokenize (source : List Char) : Option (List Token) :=
  TokenizeLoop (source.length + 1) source 1 []

/-- The loop `for (size_t i = 0; i < tokens.size(); i++)` of `token_to_cpp`,
over the tokens from index `i` on. -/
def token_to_cpp_loop : List Token → String → String
  | [], cpp_code => cpp_code
  | token :: rest, cpp_code =>
    match token.type with
    | TokenType.PRINT => token_to_cpp_loop rest (cpp_code ++ "std::cout << ")
    | TokenType.LPAREN => token_to_cpp_loop rest cpp_code
    | TokenType.RPAREN => token_to_cpp_loop rest (cpp_code ++ ";")
    | TokenType.STRING =>
      let cpp_code := cpp_code ++ ("\"" ++ token.lexeme ++ "\"")
      let more :=
        match rest with
        | next :: _ => next.type != TokenType.RPAREN
        | [] => false
      token_to_cpp_loop rest (if more then cpp_code ++ " << " else cpp_code)

/-- The function `token_to_cpp` of `test.cpp`. -/
def token_to_cpp (tokens : List Token) : String :=
  token_to_cpp_loop tokens ""

end TestCpp

/-! ## Definitions used to state the theorems -/

open TokenType

/-- The nine binary levels of the expression grammar, numbered from the lowest
binding one: the operators matched by `logicalOr` (0), `logicalAnd` (1),
`bitwiseOr` (2), `bitwiseXor` (3), `bitwiseAnd` (4), `equality` (5),
`comparison` (6), `term` (7) and `factor` (8). -/
def binaryLevel : TokenType → Option Nat
  | .LOGICAL_OR => some 0
  | .LOGICAL_AND => some 1
  | .OR => some 2
  | .XOR => some 3
  | .AND => some 4
  | .EQ_EQ | .BANG_EQ => some 5
  | .LT | .GT => some 6
  | .PLUS | .MINUS => some 7
  | .ASTER | .FSLASH | .PERCENT => some 8
  | _ => none

/-- The operator list each level passes to `match`. -/
def levelOps : Nat → List TokenType
  | 0 => [LOGICAL_OR]
  | 1 => [LOGICAL_AND]
  | 2 => [OR]
  | 3 => [XOR]
  | 4 => [AND]
  | 5 => [EQ_EQ, BANG_EQ]
  | 6 => [LT, GT]
  | 7 => [PLUS, MINUS]
  | 8 => [ASTER, FSLASH, PERCENT]
  | _ => []

/-- The parser function of each level; level 9 is `unary`. -/
def levelFn : Nat → P Expr → Nat → P Expr
  | 0 => logicalOr
  | 1 => logicalAnd
  | 2 => bitwiseOr
  | 3 => bitwiseXor
  | 4 => bitwiseAnd
  | 5 => equality
  | 6 => comparison
  | 7 => term
  | 8 => factor
  | _ => unary

/-- A primary made of one token: a number literal or an identifier, with its
text and line. -/
inductive Atom where
  | number (text : String) (line : Int)
  | identifier (name : String) (line : Int)

/-- The token of an atom, as the lexer produces it. -/
def Atom.token : Atom → Token
  | .number text line => ⟨TokenType.NUMBER, line, some text⟩
  | .identifier name line => ⟨TokenType.IDENTIFIER, line, some name⟩

/-- The node `Parser::primary` builds for an atom. -/
def Atom.expr : Atom → Expr
  | .number text line => Expr.LiteralExpr text TokenType.NUMBER line
  | .identifier name line => Expr.IdentifierExpr name line

/-- The lookahead token `t` ends an operand of level `i`: it opens no call and
is no operator of level `i` or above. -/
def StopsAt (i : Nat) (t : Token) : Prop :=
  t.type ≠ LPAREN ∧ ∀ j, binaryLevel t.type = some j → j < i

/-- The tokens of `op p op p ...`: each operator token followed by the token of
its right operand. -/
def chainTokens (rest : List (Token × Atom)) : List Token :=
  rest.flatMap fun x => [x.1, x.2.token]

/-- The left fold of a chain onto the expression `acc`, with the line the
parser gives each node (that of its right operand). -/
def chainExpr (acc : Expr) (rest : List (Token × Atom)) : Expr :=
  rest.foldl (fun acc x => Expr.BinaryExpr acc x.1.type x.2.expr x.2.token.line) acc

/-- The token kinds with which `declaration` and `statement` start a construct
of their own (and the end marker): on any other first token the statement is an
expression statement. -/
def opensStatement : TokenType → Bool
  | .FUNCTION | .KEYWORD_VAR_NUM | .KEYWORD_VAR_STR | .KEYWORD_VAR_ARR | .IMPORT
  | .IF | .WHILE | .FOR | .LBRACE | .RETURN | .PRINT | .END_OF_FILE => true
  | _ => false

/-- The token kinds some production of the grammar matches or consumes. -/
def matched : TokenType → Bool
  | .FUNCTION | .KEYWORD_VAR_NUM | .KEYWORD_VAR_STR | .KEYWORD_VAR_ARR | .IMPORT
  | .IF | .ELSE | .WHILE | .FOR | .LBRACE | .RBRACE | .RETURN | .PRINT
  | .IDENTIFIER | .NUMBER | .STRING_LIT | .LPAREN | .RPAREN | .COMMA | .SEMICOLON
  | .ASSIGN | .PLUS_EQ | .MINUS_EQ | .ASTER_EQ | .FSLASH_EQ | .PERCENT_EQ
  | .NOT | .MINUS | .PLUS_PLUS | .MINUS_MINUS
  | .LOGICAL_OR | .LOGICAL_AND | .OR | .XOR | .AND | .EQ_EQ | .BANG_EQ | .LT | .GT
  | .PLUS | .ASTER | .FSLASH | .PERCENT => true
  | _ => false

/-- The tokens under the cursor of two runs are related by `R` (or both runs
have no token left). -/
def LA (R : Token → Token → Prop) : List Token → List Token → Prop
  | [], [] => True
  | t1 :: _, t2 :: _ => R t1 t2
  | _, _ => False

/-- Locality of a parser computation `x`. Whenever `x` returns or throws, it has
moved the cursor over a prefix `u` of the remaining tokens, all of kinds the
grammar matches, and it has looked at nothing but the last consumed token (only
when `b`), the prefix `u` and the token after it: run on any other state that
agrees on these, `x` gives the same result. For a returned value the tokens
after `u` need only be related by `R`; for a thrown error they must be equal.
With `s`, a returning `x` has consumed at least one token. -/
structure Loc {α : Type} (b s : Bool) (R : Token → Token → Prop) (x : P α) : Prop where
  ok : ∀ (c1 rem1 : List Token) (a : α) (p1 : Parser), x ⟨c1, rem1⟩ = Res.ok a p1 →
    ∃ u s1, rem1 = u ++ s1 ∧ p1 = ⟨u.reverse ++ c1, s1⟩ ∧ (s = true → u ≠ []) ∧
      (∀ t ∈ u, matched t.type = true) ∧
      ∀ (c2 s2 : List Token), LA R s1 s2 → (b = true → c1.head? = c2.head?) →
        x ⟨c2, u ++ s2⟩ = Res.ok a ⟨u.reverse ++ c2, s2⟩
  err : ∀ (c1 rem1 : List Token) (w : String) (p1 : Parser),
    x ⟨c1, rem1⟩ = Res.error w p1 →
    ∃ u s1, rem1 = u ++ s1 ∧ p1 = ⟨u.reverse ++ c1, s1⟩ ∧
      (∀ t ∈ u, matched t.type = true) ∧
      ∀ (c2 s2 : List Token), s1.head? = s2.head? → (b = true → c1.head? = c2.head?) →
        x ⟨c2, u ++ s2⟩ = Res.error w ⟨u.reverse ++ c2, s2⟩

/-- The relation `R` on lookahead tokens does not tell apart a token that
`check(ty)` accepts from one it rejects. -/
def Resp (R : Token → Token → Prop) (ty : TokenType) : Prop :=
  ∀ t1 t2, R t1 t2 →
    ((t1.type ≠ TokenType.END_OF_FILE ∧ t1.type = ty) ↔
      (t2.type ≠ TokenType.END_OF_FILE ∧ t2.type = ty))

/-- The relation `R` on lookahead tokens preserves being the end marker. -/
def RespEnd (R : Token → Token → Prop) : Prop :=
  ∀ t1 t2, R t1 t2 → (t1.type = TokenType.END_OF_FILE ↔ t2.type = TokenType.END_OF_FILE)

/-- The token kinds whose absence ends an expression: the kinds the loops of
the expression grammar test for after a complete operand. -/
def exprTrailing : TokenType → Bool
  | .LPAREN | .COMMA
  | .ASSIGN | .PLUS_EQ | .MINUS_EQ | .ASTER_EQ | .FSLASH_EQ | .PERCENT_EQ
  | .LOGICAL_OR | .LOGICAL_AND | .OR | .XOR | .AND | .EQ_EQ | .BANG_EQ | .LT | .GT
  | .PLUS | .MINUS | .ASTER | .FSLASH | .PERCENT => true
  | _ => false

/-- A lookahead relation under which a complete expression stays complete. -/
def ExprRel (R : Token → Token → Prop) : Prop :=
  (∀ t, R t t) ∧ ∀ ty, exprTrailing ty = true → Resp R ty

/-- The parser without panic-mode recovery: `declaration` without its
`catch` handler, so that the first error thrown ends the run in the state of
the throw. -/
def declarationRaw : Nat → P Stmt
  | 0 => noFuel
  | fuel + 1 => declarationBody (declarationRaw fuel) fuel

/-- The loop of `parse` over `declarationRaw`. -/
def parseLoopRaw : Nat → List Stmt → P (List Stmt)
  | 0, _ => noFuel
  | fuel + 1, statements => do
    if !(← isAtEnd) then
      let s ← declarationRaw fuel
      parseLoopRaw fuel (statements ++ [s])
    else
      pure statements

/-- A lookahead relation under which a complete statement stays complete: it
is reflexive and does not tell apart `else` from another token. -/
def StmtRel (R : Token → Token → Prop) : Prop :=
  (∀ t, R t t) ∧ Resp R TokenType.ELSE

/-- The computation `x2` does whatever `x1` does, unless `x1` runs out of
fuel. -/
def Le {α : Type} (x1 x2 : P α) : Prop :=
  ∀ p, x1 p = Res.outOfFuel ∨ x2 p = x1 p

/-- One target `x =` of a chained assignment: the identifier with its line, and
the operator token that follows it. -/
structure AssignTarget where
  name : String
  line : Int
  op : Token

/-- The identifier token of a target, as the lexer produces it. -/
def AssignTarget.token (x : AssignTarget) : Token :=
  ⟨TokenType.IDENTIFIER, x.line, some x.name⟩

/-- The tokens of `x1 = x2 = ... xn =`. -/
def assignTokens (xs : List AssignTarget) : List Token :=
  xs.flatMap fun x => [x.token, x.op]

/-- The right-nested tree `Binary(x1, =, Binary(x2, =, ... Binary(xn, =, e)))`,
every node carrying the line `line`. -/
def assignExpr (xs : List AssignTarget) (e : Expr) (line : Int) : Expr :=
  xs.foldr (fun x acc =>
    Expr.BinaryExpr (Expr.IdentifierExpr x.name x.line) TokenType.ASSIGN acc line) e

/-- The token kinds with which an expression can start: the prefix operators
of `unary` and the first tokens `primary` matches. -/
def startsExpression : TokenType → Bool
  | .NOT | .MINUS | .PLUS_PLUS | .MINUS_MINUS
  | .NUMBER | .STRING_LIT | .IDENTIFIER | .LPAREN => true
  | _ => false

/-- The state of a run in progress over a token vector that holds the end
marker: the end marker is still ahead, and the cursor has either moved or
stands on a token other than the end marker. -/
def Inv (p : Parser) : Prop :=
  (∃ t ∈ p.remaining, t.type = TokenType.END_OF_FILE) ∧
    (p.consumed ≠ [] ∨ ∃ t r, p.remaining = t :: r ∧ t.type ≠ TokenType.END_OF_FILE)

/-- The computation `x` (with panic-mode recovery) follows `y` (without it):
where `y` returns, `x` returns the same value in the same state; where `y`
throws, `x` returns nothing, and throws the same error when the throw happened
in a state of a run in progress; where `y` reads out of range or runs out of
fuel, so does `x`. -/
structure Sim {α : Type} (x y : P α) : Prop where
  ok : ∀ p a q, y p = Res.ok a q → x p = Res.ok a q
  err : ∀ p w q, y p = Res.error w q →
    (∀ a q2, x p ≠ Res.ok a q2) ∧ (Inv q → ∃ q2, x p = Res.error w q2 ∧ Inv q2)
  fault : ∀ p, y p = Res.fault → x p = Res.fault
  fuel : ∀ p, y p = Res.outOfFuel → x p = Res.outOfFuel

/-- The token kinds with which `statement` can start. -/
def startsStatement : TokenType → Bool
  | .IF | .WHILE | .FOR | .LBRACE | .RETURN | .PRINT => true
  | ty => startsExpression ty

/-- Two lookahead tokens that both close a clause: they are the same token, or
each is a `;` or a `)`. -/
def ClosesClause (t1 t2 : Token) : Prop :=
  t1 = t2 ∨ ((t1.type = TokenType.SEMICOLON ∨ t1.type = TokenType.RPAREN) ∧
    (t2.type = TokenType.SEMICOLON ∨ t2.type = TokenType.RPAREN))

/-- Two lookahead tokens neither of which continues an `if` statement: they
are the same token, or neither is `else`. -/
def NoElse (t1 t2 : Token) : Prop :=
  t1 = t2 ∨ (t1.type ≠ TokenType.ELSE ∧ t2.type ≠ TokenType.ELSE)

/-- The tree `forStatement` builds from an initializer, a condition, an
increment and a body: `{ init; while (cond) { body; incr; } }`, with the lines
of the four nodes it adds. -/
def whileForm (init : Stmt) (cond incr : Expr) (body : Stmt)
    (lineBlock lineWhile lineBody lineIncr : Int) : Stmt :=
  Stmt.BlockStmt
    [init, Stmt.WhileStmt cond
      (Stmt.BlockStmt [body, Stmt.ExprStmt incr lineIncr] lineBody) lineWhile] lineBlock

/-- The tokens of `for (I C; U) B` followed by the end marker. -/
def forSource (forT lp semi rp eof : Token) (I C U B : List Token) : List Token :=
  forT :: lp :: (I ++ (C ++ semi :: (U ++ rp :: (B ++ [eof]))))

/-- The tokens of `{ I while (C) { B U; } }` followed by the end marker. -/
def whileSource (lb1 whileT lp rp lb2 semi rb2 rb1 eof : Token) (I C U B : List Token) :
    List Token :=
  lb1 :: (I ++ whileT :: lp :: (C ++ rp :: lb2 :: (B ++ (U ++ semi :: rb2 :: rb1 :: [eof]))))

/-- The tokens of `for (num i = 0; i < 3; i++) print(i);`. -/
def forExample : List Token :=
  [⟨FOR, 1, none⟩, ⟨LPAREN, 1, none⟩, ⟨KEYWORD_VAR_NUM, 1, none⟩, ⟨IDENTIFIER, 1, some "i"⟩,
   ⟨ASSIGN, 1, none⟩, ⟨NUMBER, 1, some "0"⟩, ⟨SEMICOLON, 1, none⟩,
   ⟨IDENTIFIER, 1, some "i"⟩, ⟨LT, 1, none⟩, ⟨NUMBER, 1, some "3"⟩, ⟨SEMICOLON, 1, none⟩,
   ⟨IDENTIFIER, 1, some "i"⟩, ⟨PLUS_PLUS, 1, none⟩, ⟨RPAREN, 1, none⟩,
   ⟨PRINT, 1, none⟩, ⟨LPAREN, 1, none⟩, ⟨IDENTIFIER, 1, some "i"⟩, ⟨RPAREN, 1, none⟩,
   ⟨SEMICOLON, 1, none⟩, ⟨END_OF_FILE, 1, none⟩]

/-- The tokens of `{ num i = 0; while (i < 3) { print(i); i++; } }`. -/
def whileExample : List Token :=
  [⟨LBRACE, 1, none⟩, ⟨KEYWORD_VAR_NUM, 1, none⟩, ⟨IDENTIFIER, 1, some "i"⟩,
   ⟨ASSIGN, 1, none⟩, ⟨NUMBER, 1, some "0"⟩, ⟨SEMICOLON, 1, none⟩,
   ⟨WHILE, 1, none⟩, ⟨LPAREN, 1, none⟩,
   ⟨IDENTIFIER, 1, some "i"⟩, ⟨LT, 1, none⟩, ⟨NUMBER, 1, some "3"⟩, ⟨RPAREN, 1, none⟩,
   ⟨LBRACE, 1, none⟩,
   ⟨PRINT, 1, none⟩, ⟨LPAREN, 1, none⟩, ⟨IDENTIFIER, 1, some "i"⟩, ⟨RPAREN, 1, none⟩,
   ⟨SEMICOLON, 1, none⟩,
   ⟨IDENTIFIER, 1, some "i"⟩, ⟨PLUS_PLUS, 1, none⟩, ⟨SEMICOLON, 1, none⟩,
   ⟨RBRACE, 1, none⟩, ⟨RBRACE, 1, none⟩, ⟨END_OF_FILE, 1, none⟩]

/-- The invariant of `Token` on lexemes: an identifier, a number literal and a
string literal carry their text. -/
def Lexeme (t : Token) : Prop :=
  (t.type = TokenType.IDENTIFIER ∨ t.type = TokenType.NUMBER ∨
    t.type = TokenType.STRING_LIT) → t.value ≠ none

/-- The tokens ahead of the cursor hold the end marker and respect the
invariant on lexemes. -/
def Valid (p : Parser) : Prop :=
  (∃ e ∈ p.remaining, e.type = TokenType.END_OF_FILE) ∧ ∀ t ∈ p.remaining, Lexeme t

/-- Run with at most `n` tokens ahead (and, with `b`, after a token has been
consumed), the computation `x` neither reads out of range nor runs out of
fuel: it throws, or it returns after moving the cursor over tokens other than
the end marker, at least one of them with `s`. -/
def Safe {α : Type} (b s : Bool) (n : Nat) (x : P α) : Prop :=
  ∀ (c rem : List Token), Valid ⟨c, rem⟩ → (b = true → c ≠ []) → rem.length ≤ n →
    (∃ w q, x ⟨c, rem⟩ = Res.error w q) ∨
    (∃ a u s1, x ⟨c, rem⟩ = Res.ok a ⟨u.reverse ++ c, s1⟩ ∧ rem = u ++ s1 ∧
      (∀ t ∈ u, t.type ≠ TokenType.END_OF_FILE) ∧ (s = true → u ≠ []))

/-- The token kinds no production of the grammar matches, as listed by the
specification. -/
def unmatchedKinds : List TokenType :=
  [UNKNOWN, AT, LBRACKET, RBRACKET, LT_EQ, GT_EQ, BITWISE_NOT, TRUE, FALSE, ELIF, DO, BREAK,
   CONTINUE, STREAM_OUT, ARROW_LEFT, ARROW_RIGHT]

/-! ## Vocabulary of the statements about the lexer -/

/-- The case labels of the `switch` of `Lexer::nextToken`. -/
def switchChars : List Char :=
  [';', '(', ')', Char.ofNat 123, Char.ofNat 125, '[', ']', '+', '-', '@', '*', '/', '%', '<',
   '>', '!', '&', '|', '^', '=', '~', '"']

/-- The characters for which `isspace` holds. -/
def spaceChars : List Char :=
  [' ', Char.ofNat 9, Char.ofNat 10, Char.ofNat 11, Char.ofNat 12, Char.ofNat 13]

/-- The kinds of the tokens that `Lexer::nextToken` returns right after one or
two calls of `advance`, `LT_EQ` and `GT_EQ` apart. -/
def plainKinds : List TokenType :=
  [SEMICOLON, LPAREN, RPAREN, LBRACE, RBRACE, LBRACKET, RBRACKET, PLUS_EQ, PLUS_PLUS, PLUS,
   MINUS_EQ, MINUS_MINUS, ARROW_RIGHT, MINUS, ASTER_EQ, ASTER, FSLASH_EQ, FSLASH, PERCENT_EQ,
   PERCENT, STREAM_OUT, ARROW_LEFT, LT, GT, BANG_EQ, NOT, LOGICAL_OR, OR, XOR, EQ_EQ, ASSIGN,
   BITWISE_NOT]

/-- The number of newline characters of a text, as a line offset. -/
def newlines (t : List Char) : Int :=
  (t.count (Char.ofNat 10) : Nat)

/-- The `END_OF_FILE` token on line `line`. -/
def eofToken (line : Int) : Token :=
  ⟨END_OF_FILE, line, none⟩

/-- The two-character operator spellings of the specification, each with the
kind it is specified to lex to. -/
def specDoubleOperators : List (Char × Char × TokenType) :=
  [('+', '=', PLUS_EQ), ('+', '+', PLUS_PLUS), ('-', '=', MINUS_EQ), ('-', '-', MINUS_MINUS),
   ('-', '>', ARROW_RIGHT), ('*', '=', ASTER_EQ), ('/', '=', FSLASH_EQ), ('%', '=', PERCENT_EQ),
   ('<', '<', STREAM_OUT), ('<', '-', ARROW_LEFT), ('!', '=', BANG_EQ), ('&', '&', LOGICAL_AND),
   ('|', '|', LOGICAL_OR), ('=', '=', EQ_EQ)]

/-- The one-character operators of the specification, each with the next
characters excluded for it (those that form one of its two-character
operators, `/` after `/`, and `<`, `>` after `=`) and the kind it is specified
to lex to. -/
def specSingleOperators : List (Char × List Char × TokenType) :=
  [('+', ['=', '+'], PLUS), ('-', ['=', '-', '>'], MINUS), ('*', ['='], ASTER),
   ('/', ['=', '/'], FSLASH), ('%', ['='], PERCENT), ('<', ['<', '-'], LT), ('!', ['='], NOT),
   ('&', ['&'], AND), ('|', ['|'], OR), ('=', ['=', '<', '>'], ASSIGN)]

/-- The seventeen keywords of the specification. -/
def specKeywords : List String :=
  ["return", "import", "num", "str", "arr", "if", "elif", "else", "while", "do", "for",
   "break", "continue", "print", "func", "true", "false"]

/-- The source text of the lexing scenario. -/
def scenarioSource : List Char :=
  "num x = 5; print(x);".toList

/-- The tokens of the lexing scenario. -/
def scenarioTokens : List Token :=
  [⟨KEYWORD_VAR_NUM, 1, none⟩, ⟨IDENTIFIER, 1, some "x"⟩, ⟨ASSIGN, 1, none⟩,
   ⟨NUMBER, 1, some "5"⟩, ⟨SEMICOLON, 1, none⟩, ⟨PRINT, 1, none⟩, ⟨LPAREN, 1, none⟩,
   ⟨IDENTIFIER, 1, some "x"⟩, ⟨RPAREN, 1, none⟩, ⟨SEMICOLON, 1, none⟩, ⟨END_OF_FILE, 1, none⟩]

/-- The statements of the lexing scenario. -/
def scenarioProgram : List Stmt :=
  [Stmt.VarDeclStmt "num" "x" (some (Expr.LiteralExpr "5" NUMBER 1)) 1,
   Stmt.ExprStmt (Expr.CallExpr "print" [Expr.IdentifierExpr "x" 1] 1) 1]

/-! ## Vocabulary of the statements about calls, imports and the emitter -/

/-- Two lookahead tokens neither of which continues an expression: they are the
same token, or neither is of a kind the loops of the expression grammar test
for. -/
def EndsExpression (t1 t2 : Token) : Prop :=
  t1 = t2 ∨ (exprTrailing t1.type = false ∧ exprTrailing t2.type = false)

/-- Every value the computation `x` returns satisfies `Q`. -/
def Returns {α : Type} (Q : α → Prop) (x : P α) : Prop :=
  ∀ p a q, x p = Res.ok a q → Q a

mutual
/-- A `ForStmt` node occurs in the statement, at any nesting depth: as the
statement itself, in a block, in a branch of an `if`, in the body of a `while`
or of a function. These are the statements `Generator::generateStatement`
recurses into, so it reaches its `ForStmt` branch on such statements only. -/
def Stmt.hasFor : Stmt → Bool
  | Stmt.ForStmt _ _ _ _ _ => true
  | Stmt.BlockStmt statements _ => hasForList statements
  | Stmt.IfStmt _ thenBranch elseBranch _ =>
    thenBranch.hasFor ||
      (match elseBranch with
       | some e => e.hasFor
       | none => false)
  | Stmt.WhileStmt _ body _ => body.hasFor
  | Stmt.FunctionStmt _ _ body _ => body.hasFor
  | _ => false
/-- A `ForStmt` node occurs in one of the statements of the list. -/
def hasForList : List Stmt → Bool
  | [] => false
  | s :: rest => s.hasFor || hasForList rest
end

/-- The text `generateExpr` writes for an expression, on its own. -/
def emit (e : Expr) : String :=
  generateExpr e ""

/-- The text the specification gives for the arguments of a `print` call: for
each argument in order, ` << ` followed by the text of the argument. -/
def specPrintChain : List Expr → String
  | [] => ""
  | a :: rest => " << " ++ emit a ++ specPrintChain rest

/-- The operator table of the specification for `Binary` nodes: each kind with
the text written between the operands. -/
def specBinaryTable : List (TokenType × String) :=
  [(PLUS, " + "), (MINUS, " - "), (ASTER, " * "), (FSLASH, " / "), (PERCENT, " % "),
   (PLUS_EQ, " += "), (MINUS_EQ, " -= "), (ASTER_EQ, " *= "), (FSLASH_EQ, " /= "),
   (PERCENT_EQ, " %= "), (EQ_EQ, " == "), (BANG_EQ, " != "), (LT, " < "), (GT, " > "),
   (LT_EQ, " <= "), (GT_EQ, " >= "), (LOGICAL_AND, " && "), (LOGICAL_OR, " || "),
   (AND, " & "), (OR, " | "), (XOR, " ^ "), (ARROW_RIGHT, "->")]

/-- The reference definition of the type of a returned expression, in the
words of the specification: `std::string` for a string literal, `double` for a
numeric literal, the recorded variable type for an identifier and the recorded
return type for a call (`int` if none is recorded), `int` for anything
else. -/
def specExprType (g : Generator) : Expr → String
  | Expr.LiteralExpr _ TokenType.STRING_LIT _ => "std::string"
  | Expr.LiteralExpr _ TokenType.NUMBER _ => "double"
  | Expr.IdentifierExpr name _ => (g.m_varTypes.lookup name).getD "int"
  | Expr.CallExpr callee _ _ => (g.m_functionReturnTypes.lookup callee).getD "int"
  | _ => "int"

/-- The statement is a `ReturnStmt` node. -/
def Stmt.isReturn : Stmt → Bool
  | Stmt.ReturnStmt _ _ => true
  | _ => false

/-- The reference definition of return-type inference, in the words of the
specification: the first `Return` statement of the immediate statement list of
the body decides; `void` when there is none or when it has no value. -/
def specReturnType (g : Generator) (statements : List Stmt) : String :=
  match statements.find? Stmt.isReturn with
  | some (Stmt.ReturnStmt (some value) _) => specExprType g value
  | _ => "void"

/-- A function undoing `escapeString` on character lists: a backslash
followed by `n`, `t`, a double quote or a backslash stands for a newline, a
tab, a double quote or a backslash. -/
def unescapeChars : List Char → List Char
  | [] => []
  | [c] => [c]
  | c :: d :: rest =>
    if c = Char.ofNat 92 then
      (if d = 'n' then Char.ofNat 10 else if d = 't' then Char.ofNat 9 else d) ::
        unescapeChars rest
    else
      c :: unescapeChars (d :: rest)

/-- The function `unescapeChars` on strings. -/
def unescape (s : String) : String :=
  String.mk (unescapeChars s.data)

/-- The text emitted for the scenario `num x = 5; print(x);`. -/
def scenarioOutput : String :=
  header ++ "double x = 5;\n" ++ "int main() \x7b\n" ++ "cout << x << std::endl;\n" ++
    "    return 0;\n" ++ "\x7d\n"

/-- What it means for a value returned by the parser to hold no `ForStmt`
node: a condition on statements, optional statements and statement lists, and
no condition on values of other types. -/
class Shape (α : Type) where
  forFree : α → Prop

instance (priority := low) shapeAny (α : Type) : Shape α :=
  ⟨fun _ => True⟩

instance shapeStmt : Shape Stmt :=
  ⟨fun s => s.hasFor = false⟩

instance shapeOptionStmt : Shape (Option Stmt) :=
  ⟨fun o => ∀ s, o = some s → s.hasFor = false⟩

instance shapeStmtList : Shape (List Stmt) :=
  ⟨fun l => hasForList l = false⟩

/-- Every value the computation returns holds no `ForStmt` node. -/
def ForFree {α : Type} [Shape α] (x : P α) : Prop :=
  Returns Shape.forFree x

/-! ## Vocabulary of the statements about recovery, arity and repeated emission -/

/-- The kinds at which the specification lets panic-mode recovery stop. -/
def specSyncKinds : List TokenType :=
  [FUNCTION, KEYWORD_VAR_NUM, KEYWORD_VAR_STR, KEYWORD_VAR_ARR, IMPORT, IF, WHILE, FOR, RETURN]

/-- The synchronization points of the specification: position `q` of the token
vector holds `END_OF_FILE` or a token of one of the kinds above, or position
`q - 1` holds `SEMICOLON`. -/
def syncPoint (tokens : List Token) (q : Nat) : Bool :=
  (match tokens[q]? with
   | some t => t.type == END_OF_FILE || specSyncKinds.contains t.type
   | none => false) ||
  (match q with
   | 0 => false
   | q1 + 1 =>
     match tokens[q1]? with
     | some t => t.type == SEMICOLON
     | none => false)

/-- Two generator states answer alike every read `m_functionReturnTypes[name]`
and `m_functionParams[name]`. -/
def Generator.sameTables (g1 g2 : Generator) : Prop :=
  (∀ name : String, g1.m_functionReturnTypes.at name "" = g2.m_functionReturnTypes.at name "") ∧
  ∀ name : String, g1.m_functionParams.at name [] = g2.m_functionParams.at name []

/-- Two runs of the emitter both read out of range, or both return, with the
same text and each with the tables it started from. -/
def Agree (g1 g2 : Generator) (r1 r2 : Option (Generator × String)) : Prop :=
  match r1, r2 with
  | some (h1, out1), some (h2, out2) => out1 = out2 ∧ g1.sameTables h1 ∧ g2.sameTables h2
  | none, none => True
  | _, _ => False

mutual
/-- Every call in the expression has at most one argument. -/
def Expr.narrow : Expr → Bool
  | Expr.BinaryExpr left _ right _ => left.narrow && right.narrow
  | Expr.UnaryExpr _ right _ => right.narrow
  | Expr.LiteralExpr _ _ _ => true
  | Expr.IdentifierExpr _ _ => true
  | Expr.CallExpr _ args _ => decide (args.length ≤ 1) && narrowArgs args
/-- Every call in the expressions of the list has at most one argument. -/
def narrowArgs : List Expr → Bool
  | [] => true
  | a :: rest => a.narrow && narrowArgs rest
end

/-- Every call in the expression, if there is one, has at most one argument. -/
def narrowOption : Option Expr → Bool
  | some e => e.narrow
  | none => true

mutual
/-- Every call in the statement has at most one argument and every function has
at most one parameter. -/
def Stmt.narrow : Stmt → Bool
  | Stmt.ImportStmt _ _ => true
  | Stmt.VarDeclStmt _ _ initializer _ => narrowOption initializer
  | Stmt.ExprStmt expr _ => expr.narrow
  | Stmt.BlockStmt statements _ => narrowList statements
  | Stmt.IfStmt condition thenBranch elseBranch _ =>
    condition.narrow && thenBranch.narrow &&
      (match elseBranch with
       | some e => e.narrow
       | none => true)
  | Stmt.ForStmt initializer condition increment body _ =>
    (match initializer with
     | some i => i.narrow
     | none => true) &&
      narrowOption condition && narrowOption increment && body.narrow
  | Stmt.WhileStmt condition body _ => condition.narrow && body.narrow
  | Stmt.FunctionStmt _ params body _ => decide (params.length ≤ 1) && body.narrow
  | Stmt.ReturnStmt value _ => narrowOption value
/-- Every statement of the list is narrow. -/
def narrowList : List Stmt → Bool
  | [] => true
  | s :: rest => s.narrow && narrowList rest
end

/-- What a value returned by the parser has to satisfy to be narrow: a
condition on expressions, statements, optional ones and lists of them, on the
argument list of a call and the parameter list of a function (at most one
entry), and no condition on values of other types. -/
class Narrow (α : Type) where
  holds : α → Prop

instance (priority := low) narrowAny (α : Type) : Narrow α :=
  ⟨fun _ => True⟩

instance narrowExpr : Narrow Expr :=
  ⟨fun e => e.narrow = true⟩

instance narrowOptionExpr : Narrow (Option Expr) :=
  ⟨fun o => narrowOption o = true⟩

instance narrowExprList : Narrow (List Expr) :=
  ⟨fun l => l.length ≤ 1 ∧ narrowArgs l = true⟩

instance narrowNames : Narrow (List String) :=
  ⟨fun l => l.length ≤ 1⟩

instance narrowStmt : Narrow Stmt :=
  ⟨fun s => s.narrow = true⟩

instance narrowOptionStmt : Narrow (Option Stmt) :=
  ⟨fun o => ∀ s, o = some s → s.narrow = true⟩

instance narrowStmtList : Narrow (List Stmt) :=
  ⟨fun l => narrowList l = true⟩

/-- No token ahead of the cursor is a `COMMA`. -/
def NoComma (p : Parser) : Prop :=
  ∀ t ∈ p.remaining, t.type ≠ COMMA

/-- Run on a state without `COMMA` ahead, the computation returns narrow values
only, in a state without `COMMA` ahead. -/
def Keeps {α : Type} [Narrow α] (x : P α) : Prop :=
  ∀ p a q, NoComma p → x p = Res.ok a q → NoComma q ∧ Narrow.holds a

/-- A scan that started on line `line` with the text `src` ahead accounts for
the newlines it has passed: the line reached plus the number of newlines still
ahead is `line` plus the number of newlines of `src`, the line reached is not
before `line`, and the line of the token returned, if any, lies between the
two. -/
def Accounts (line : Int) (src : List Char) (x : Option Token × Lexer) : Prop :=
  x.2.m_cline + newlines x.2.source = line + newlines src ∧ line ≤ x.2.m_cline ∧
    ∀ t, x.1 = some t → line ≤ t.line ∧ t.line ≤ x.2.m_cline

/-! # Theorems -/

/-! ## Running the primitives on a state with a token under the cursor -/

theorem bind_def {α β : Type} (x : P α) (f : α → P β) (p : Parser) :
    (x >>= f) p = P.bind x f p := rfl

theorem pure_def {α : Type} (a : α) (p : Parser) : (pure a : P α) p = Res.ok a p := rfl

theorem bind_ok {α β : Type} {x : P α} {f : α → P β} {p p1 : Parser} {a : α}
    (h : x p = Res.ok a p1) : (x >>= f) p = f a p1 := by
  simp only [bind_def, P.bind, h]

theorem bind_error {α β : Type} {x : P α} {f : α → P β} {p p1 : Parser} {w : String}
    (h : x p = Res.error w p1) : (x >>= f) p = Res.error w p1 := by
  simp only [bind_def, P.bind, h]

theorem bind_eq_ok {α β : Type} {x : P α} {f : α → P β} {p p2 : Parser} {b : β}
    (h : (x >>= f) p = Res.ok b p2) :
    ∃ a p1, x p = Res.ok a p1 ∧ f a p1 = Res.ok b p2 := by
  rw [bind_def, P.bind] at h
  cases hx : x p with
  | ok a p1 => rw [hx] at h; exact ⟨a, p1, rfl, h⟩
  | error w p1 => rw [hx] at h; cases h
  | fault => rw [hx] at h; cases h
  | outOfFuel => rw [hx] at h; cases h

theorem peek_cons (c : List Token) (t : Token) (r : List Token) :
    peek ⟨c, t :: r⟩ = Res.ok t ⟨c, t :: r⟩ := rfl

theorem isAtEnd_cons (c : List Token) (t : Token) (r : List Token) :
    isAtEnd ⟨c, t :: r⟩ = Res.ok (t.type == END_OF_FILE) ⟨c, t :: r⟩ := rfl

theorem check_cons (ty : TokenType) (c : List Token) (t : Token) (r : List Token) :
    check ty ⟨c, t :: r⟩
      = Res.ok (t.type != END_OF_FILE && t.type == ty) ⟨c, t :: r⟩ := by
  by_cases h : t.type = END_OF_FILE
  · simp [check, bind_def, P.bind, isAtEnd_cons, h, pure_def]
  · simp [check, bind_def, P.bind, isAtEnd_cons, h, pure_def, peek_cons]

theorem advance_cons (c : List Token) (t : Token) (r : List Token)
    (h : t.type ≠ END_OF_FILE) :
    advance ⟨c, t :: r⟩ = Res.ok t ⟨t :: c, r⟩ := by
  simp [advance, bind_def, P.bind, isAtEnd_cons, h, bump, previous]

theorem matchType_cons (ty : TokenType) (c : List Token) (t : Token) (r : List Token) :
    matchType ty ⟨c, t :: r⟩
      = if t.type ≠ END_OF_FILE ∧ t.type = ty then Res.ok true ⟨t :: c, r⟩
        else Res.ok false ⟨c, t :: r⟩ := by
  by_cases h : t.type = END_OF_FILE
  · simp [matchType, bind_def, P.bind, check_cons, h, pure_def]
  · by_cases h2 : t.type = ty
    · subst h2
      simp [matchType, bind_def, P.bind, check_cons, h, pure_def, advance_cons]
    · simp [matchType, bind_def, P.bind, check_cons, h, h2, pure_def]

theorem matchTypes_cons (tys : List TokenType) (c : List Token) (t : Token)
    (r : List Token) :
    matchTypes tys ⟨c, t :: r⟩
      = if t.type ≠ END_OF_FILE ∧ t.type ∈ tys then Res.ok true ⟨t :: c, r⟩
        else Res.ok false ⟨c, t :: r⟩ := by
  induction tys with
  | nil => simp [matchTypes, pure_def]
  | cons ty tys ih =>
    by_cases h : t.type = END_OF_FILE
    · simp [matchTypes, bind_def, P.bind, check_cons, h, pure_def] at ih ⊢
      exact ih
    · by_cases h2 : t.type = ty
      · subst h2
        simp [matchTypes, bind_def, P.bind, check_cons, h, pure_def, advance_cons]
      · simp [matchTypes, bind_def, P.bind, check_cons, h, h2, pure_def, ih]

theorem consume_cons (ty : TokenType) (msg : String) (c : List Token) (t : Token)
    (r : List Token) :
    consume ty msg ⟨c, t :: r⟩
      = if t.type ≠ END_OF_FILE ∧ t.type = ty then Res.ok t ⟨t :: c, r⟩
        else Res.error (parseError t msg) ⟨c, t :: r⟩ := by
  by_cases h : t.type = END_OF_FILE
  · simp [consume, bind_def, P.bind, check_cons, h, peek_cons, raise]
  · by_cases h2 : t.type = ty
    · subst h2
      simp [consume, bind_def, P.bind, check_cons, h, advance_cons]
    · simp [consume, bind_def, P.bind, check_cons, h, h2, peek_cons, raise]

theorem previous_cons (t : Token) (c r : List Token) :
    previous ⟨t :: c, r⟩ = Res.ok t ⟨t :: c, r⟩ := rfl

/-! ## The binary levels of the expression grammar -/

theorem levelFn_succ (i : Nat) (h : i < 9) (e : P Expr) (f : Nat) :
    levelFn i e f
      = (levelFn (i + 1) e f >>= fun x =>
          binaryLoop (levelOps i) (levelFn (i + 1) e f) f x) := by
  interval_cases i <;> rfl

theorem mem_levelOps (ty : TokenType) (i : Nat) (h : i < 9) :
    ty ∈ levelOps i ↔ binaryLevel ty = some i := by
  interval_cases i <;> cases ty <;> simp [levelOps, binaryLevel]

theorem StopsAt.mono {i j : Nat} {t : Token} (h : StopsAt i t) (hij : i ≤ j) :
    StopsAt j t :=
  ⟨h.1, fun k hk => lt_of_lt_of_le (h.2 k hk) hij⟩

theorem primary_atom (e : P Expr) (a : Atom) (c r : List Token) :
    primary e ⟨c, a.token :: r⟩ = Res.ok a.expr ⟨a.token :: c, r⟩ := by
  cases a <;>
    simp [primary, Atom.token, Atom.expr, bind_def, P.bind, matchType_cons, pure_def,
      previous_cons, valueOf]

theorem callLoop_stop (e : P Expr) (f : Nat) (x : Expr) (c : List Token) (t : Token)
    (r : List Token) (h : t.type ≠ LPAREN) :
    callLoop e (f + 1) x ⟨c, t :: r⟩ = Res.ok x ⟨c, t :: r⟩ := by
  simp [callLoop, bind_def, P.bind, matchType_cons, h, pure_def]

theorem unary_atom (e : P Expr) (f : Nat) (a : Atom) (c : List Token) (t : Token)
    (r : List Token) (h : t.type ≠ LPAREN) :
    unary e (f + 2) ⟨c, a.token :: t :: r⟩ = Res.ok a.expr ⟨a.token :: c, t :: r⟩ := by
  have h1 : matchTypes [NOT, MINUS, PLUS_PLUS, MINUS_MINUS] ⟨c, a.token :: t :: r⟩
      = Res.ok false ⟨c, a.token :: t :: r⟩ := by
    cases a <;> simp [matchTypes_cons, Atom.token]
  rw [unary, bind_ok h1]
  simp only [Bool.false_eq_true, if_false, call]
  rw [bind_ok (primary_atom e a c (t :: r))]
  exact callLoop_stop e f _ _ _ _ h

theorem binaryLoop_stop (ops : List TokenType) (o : P Expr) (f : Nat) (x : Expr)
    (c : List Token) (t : Token) (r : List Token) (h : t.type ∉ ops) :
    binaryLoop ops o (f + 1) x ⟨c, t :: r⟩ = Res.ok x ⟨c, t :: r⟩ := by
  simp [binaryLoop, bind_def, P.bind, matchTypes_cons, h, pure_def]

theorem binaryLoop_step (ops : List TokenType) (o : P Expr) (f : Nat) (x y : Expr)
    (c : List Token) (t : Token) (r : List Token) (tl : Token) (c1 r1 : List Token)
    (h : t.type ∈ ops) (hE : t.type ≠ END_OF_FILE)
    (ho : o ⟨t :: c, r⟩ = Res.ok y ⟨tl :: c1, r1⟩) :
    binaryLoop ops o (f + 1) x ⟨c, t :: r⟩
      = binaryLoop ops o f (Expr.BinaryExpr x t.type y tl.line) ⟨tl :: c1, r1⟩ := by
  simp [binaryLoop, bind_def, P.bind, matchTypes_cons, h, hE, pure_def, previous_cons, ho]

theorem level_atom (e : P Expr) (f : Nat) (a : Atom) (c : List Token) (t : Token)
    (r : List Token) (k : Nat) :
    ∀ i, i + k = 9 → StopsAt i t →
      levelFn i e (f + 2) ⟨c, a.token :: t :: r⟩ = Res.ok a.expr ⟨a.token :: c, t :: r⟩ := by
  induction k with
  | zero =>
    intro i hi hs
    have : i = 9 := by omega
    subst this
    exact unary_atom e f a c t r hs.1
  | succ k ih =>
    intro i hi hs
    have hi9 : i < 9 := by omega
    rw [levelFn_succ i hi9]
    rw [bind_ok (ih (i + 1) (by omega) (hs.mono (by omega)))]
    apply binaryLoop_stop
    intro hm
    have := hs.2 i ((mem_levelOps _ _ hi9).1 hm)
    omega

theorem level_pass (e : P Expr) (f : Nat) (p : Parser) (x : Expr) (c1 : List Token)
    (t : Token) (r : List Token) (j : Nat) (hj : j ≤ 9)
    (h : levelFn j e (f + 1) p = Res.ok x ⟨c1, t :: r⟩) (d : Nat) :
    ∀ i, i + d = j → (∀ k, i ≤ k → k < j → t.type ∉ levelOps k) →
      levelFn i e (f + 1) p = Res.ok x ⟨c1, t :: r⟩ := by
  induction d with
  | zero =>
    intro i hi _
    have : i = j := by omega
    subst this
    exact h
  | succ d ih =>
    intro i hi hk
    have hi9 : i < 9 := by omega
    rw [levelFn_succ i hi9]
    rw [bind_ok (ih (i + 1) (by omega) (fun k h1 h2 => hk k (by omega) h2))]
    exact binaryLoop_stop _ _ _ _ _ _ _ (hk i (le_refl _) (by omega))

/-! ## Chains of operators of one level -/

theorem binaryLevel_ne_eof {ty : TokenType} {i : Nat} (h : binaryLevel ty = some i) :
    ty ≠ END_OF_FILE := by
  intro h1
  subst h1
  simp [binaryLevel] at h

theorem binaryLevel_ne_lparen {ty : TokenType} {i : Nat} (h : binaryLevel ty = some i) :
    ty ≠ LPAREN := by
  intro h1
  subst h1
  simp [binaryLevel] at h

theorem stopsAt_of_level {t : Token} {i : Nat} (h : binaryLevel t.type = some i) :
    StopsAt (i + 1) t := by
  refine ⟨binaryLevel_ne_lparen h, fun j hj => ?_⟩
  rw [h] at hj
  cases hj
  omega

theorem chain_head (i : Nat) (rest : List (Token × Atom)) (t : Token) (r : List Token)
    (hr : ∀ x ∈ rest, binaryLevel x.1.type = some i) (ht : StopsAt i t) :
    ∃ t1 r1, chainTokens rest ++ t :: r = t1 :: r1 ∧ StopsAt (i + 1) t1 := by
  cases rest with
  | nil => exact ⟨t, r, rfl, ht.mono (by omega)⟩
  | cons x rest =>
    refine ⟨x.1, x.2.token :: (chainTokens rest ++ t :: r), ?_, ?_⟩
    · simp [chainTokens]
    · exact stopsAt_of_level (hr x (List.mem_cons_self _ _))

theorem chain_loop (e : P Expr) (g : Nat) (i : Nat) (hi : i < 9) (t : Token)
    (r : List Token) (ht : StopsAt i t) (k : Nat) :
    ∀ (rest : List (Token × Atom)) (acc : Expr) (c : List Token),
      (∀ x ∈ rest, binaryLevel x.1.type = some i) →
      binaryLoop (levelOps i) (levelFn (i + 1) e (g + 2)) (rest.length + 1 + k) acc
          ⟨c, chainTokens rest ++ t :: r⟩
        = Res.ok (chainExpr acc rest) ⟨(chainTokens rest).reverse ++ c, t :: r⟩ := by
  intro rest
  induction rest with
  | nil =>
    intro acc c _
    have hn : t.type ∉ levelOps i := by
      intro hm
      have := ht.2 i ((mem_levelOps _ _ hi).1 hm)
      omega
    show binaryLoop (levelOps i) (levelFn (i + 1) e (g + 2)) (0 + 1 + k) acc ⟨c, t :: r⟩
      = Res.ok acc ⟨c, t :: r⟩
    rw [show 0 + 1 + k = k + 1 by omega]
    exact binaryLoop_stop (levelOps i) _ k acc c t r hn
  | cons x rest ih =>
    intro acc c hr
    have hx : binaryLevel x.1.type = some i := hr x (List.mem_cons_self _ _)
    have hrest : ∀ y ∈ rest, binaryLevel y.1.type = some i :=
      fun y hy => hr y (List.mem_cons_of_mem _ hy)
    obtain ⟨t1, r1, h1, hs1⟩ := chain_head i rest t r hrest ht
    have hop : levelFn (i + 1) e (g + 2) ⟨x.1 :: c, x.2.token :: (chainTokens rest ++ t :: r)⟩
        = Res.ok x.2.expr ⟨x.2.token :: x.1 :: c, chainTokens rest ++ t :: r⟩ := by
      rw [h1]
      exact level_atom e g x.2 (x.1 :: c) t1 r1 (9 - (i + 1)) (i + 1) (by omega) hs1
    have hstep := binaryLoop_step (levelOps i) (levelFn (i + 1) e (g + 2))
      (rest.length + 1 + k) acc x.2.expr c x.1 (x.2.token :: (chainTokens rest ++ t :: r))
      x.2.token (x.1 :: c) (chainTokens rest ++ t :: r)
      ((mem_levelOps _ _ hi).2 hx) (binaryLevel_ne_eof hx) hop
    have hlen : (x :: rest).length + 1 + k = (rest.length + 1 + k) + 1 := by
      simp only [List.length_cons]; omega
    have htok : chainTokens (x :: rest) ++ t :: r
        = x.1 :: x.2.token :: (chainTokens rest ++ t :: r) := by
      simp [chainTokens]
    rw [hlen, htok, hstep, ih _ _ hrest]
    simp [chainTokens, chainExpr]

theorem level_chain (e : P Expr) (i : Nat) (hi : i < 9) (a : Atom)
    (rest : List (Token × Atom)) (t : Token) (r c : List Token) (k : Nat)
    (hr : ∀ x ∈ rest, binaryLevel x.1.type = some i) (ht : StopsAt i t) :
    levelFn i e (rest.length + 2 + k) ⟨c, a.token :: (chainTokens rest ++ t :: r)⟩
      = Res.ok (chainExpr a.expr rest)
          ⟨(chainTokens rest).reverse ++ a.token :: c, t :: r⟩ := by
  obtain ⟨t1, r1, h1, hs1⟩ := chain_head i rest t r hr ht
  have hfirst : levelFn (i + 1) e (rest.length + 2 + k)
        ⟨c, a.token :: (chainTokens rest ++ t :: r)⟩
      = Res.ok a.expr ⟨a.token :: c, chainTokens rest ++ t :: r⟩ := by
    rw [h1, show rest.length + 2 + k = (rest.length + k) + 2 by omega]
    exact level_atom e _ a c t1 r1 (9 - (i + 1)) (i + 1) (by omega) hs1
  rw [levelFn_succ i hi, bind_ok hfirst]
  have := chain_loop e (rest.length + k) i hi t r ht (k + 1) rest a.expr (a.token :: c) hr
  rw [show rest.length + 2 + k = rest.length + 1 + (k + 1) by omega]
  rw [show rest.length + 1 + (k + 1) = (rest.length + k) + 2 by omega] at *
  exact this

/-! ## From an expression to a whole parse -/

theorem catchSynchronize_ok {α : Type} {body : P α} {p p1 : Parser} {a : α}
    (h : body p = Res.ok a p1) : catchSynchronize body p = Res.ok a p1 := by
  simp [catchSynchronize, h]

theorem statement_expression (d : P Stmt) (n : Nat) (c : List Token) (t : Token)
    (r : List Token) (h : opensStatement t.type = false) :
    statement d (n + 1) ⟨c, t :: r⟩ = expressionStatement n ⟨c, t :: r⟩ := by
  have h1 : ∀ ty, opensStatement ty = true →
      matchType ty ⟨c, t :: r⟩ = Res.ok false ⟨c, t :: r⟩ := by
    intro ty hty
    rw [matchType_cons, if_neg]
    rintro ⟨_, h2⟩
    rw [h2, hty] at h
    exact absurd h (by decide)
  rw [statement]
  rw [bind_ok (h1 IF rfl)]; simp only [Bool.false_eq_true, if_false]
  rw [bind_ok (h1 WHILE rfl)]; simp only [Bool.false_eq_true, if_false]
  rw [bind_ok (h1 FOR rfl)]; simp only [Bool.false_eq_true, if_false]
  rw [bind_ok (h1 LBRACE rfl)]; simp only [Bool.false_eq_true, if_false]
  rw [bind_ok (h1 RETURN rfl)]; simp only [Bool.false_eq_true, if_false]
  rw [bind_ok (h1 PRINT rfl)]; simp only [Bool.false_eq_true, if_false]

theorem declaration_expression (n : Nat) (c : List Token) (t : Token)
    (r : List Token) (h : opensStatement t.type = false) :
    declaration (n + 2) ⟨c, t :: r⟩
      = catchSynchronize (expressionStatement n) ⟨c, t :: r⟩ := by
  have h1 : ∀ ty, opensStatement ty = true →
      matchType ty ⟨c, t :: r⟩ = Res.ok false ⟨c, t :: r⟩ := by
    intro ty hty
    rw [matchType_cons, if_neg]
    rintro ⟨_, h2⟩
    rw [h2, hty] at h
    exact absurd h (by decide)
  rw [declaration]
  simp only [catchSynchronize, declarationBody]
  rw [bind_ok (h1 FUNCTION rfl)]; simp only [Bool.false_eq_true, if_false]
  rw [bind_ok (h1 KEYWORD_VAR_NUM rfl)]; simp only [Bool.false_eq_true, if_false]
  rw [bind_ok (h1 KEYWORD_VAR_STR rfl)]; simp only [Bool.false_eq_true, if_false]
  rw [bind_ok (h1 KEYWORD_VAR_ARR rfl)]; simp only [Bool.false_eq_true, if_false]
  rw [bind_ok (h1 IMPORT rfl)]; simp only [Bool.false_eq_true, if_false]
  rw [statement_expression _ _ _ _ _ h]

theorem expressionStatement_of_logicalOr (n : Nat) (p : Parser) (x : Expr)
    (c : List Token) (semi : Token) (r : List Token)
    (h : logicalOr (expression (n + 1)) n p = Res.ok x ⟨c, semi :: r⟩)
    (hs : semi.type = SEMICOLON) :
    expressionStatement (n + 2) p = Res.ok (Stmt.ExprStmt x semi.line) ⟨semi :: c, r⟩ := by
  have h1 : expression (n + 2) p = Res.ok x ⟨c, semi :: r⟩ := by
    rw [expression, assignment, bind_ok h]
    simp [bind_def, P.bind, matchTypes_cons, assignOps, hs, pure_def]
  rw [expressionStatement, bind_ok h1]
  simp [bind_def, P.bind, consume_cons, hs, previous_cons, pure_def]

theorem parseLoop_end (f : Nat) (acc : List Stmt) (c : List Token) (t : Token)
    (r : List Token) (h : t.type = END_OF_FILE) :
    parseLoop (f + 1) acc ⟨c, t :: r⟩ = Res.ok acc ⟨c, t :: r⟩ := by
  simp [parseLoop, bind_def, P.bind, isAtEnd_cons, h, pure_def]

theorem parseLoop_step (f : Nat) (acc : List Stmt) (c : List Token) (t : Token)
    (r : List Token) (h : t.type ≠ END_OF_FILE) :
    parseLoop (f + 1) acc ⟨c, t :: r⟩
      = (declaration f >>= fun s => parseLoop f (acc ++ [s])) ⟨c, t :: r⟩ := by
  simp [parseLoop, bind_def, P.bind, isAtEnd_cons, h]

/-- A program made of one expression statement: once `logicalOr` has read the
expression up to a semicolon that the end marker follows, `parse` returns that
statement alone. -/
theorem parse_expressionStatement (n : Nat) (t0 : Token) (r0 : List Token) (x : Expr)
    (c : List Token) (semi eof : Token) (r : List Token)
    (h0 : opensStatement t0.type = false)
    (h : logicalOr (expression (n + 1)) n ⟨[], t0 :: r0⟩ = Res.ok x ⟨c, semi :: eof :: r⟩)
    (hs : semi.type = SEMICOLON) (he : eof.type = END_OF_FILE) :
    parse (n + 5) (t0 :: r0) = Outcome.returned [Stmt.ExprStmt x semi.line] := by
  have hne : t0.type ≠ END_OF_FILE := by
    intro h1
    rw [h1] at h0
    exact absurd h0 (by decide)
  have hd : declaration (n + 4) ⟨[], t0 :: r0⟩
      = Res.ok (Stmt.ExprStmt x semi.line) ⟨semi :: c, eof :: r⟩ := by
    rw [declaration_expression _ _ _ _ h0]
    exact catchSynchronize_ok (expressionStatement_of_logicalOr n _ x c semi _ h hs)
  rw [parse, parseLoop_step _ _ _ _ _ hne, bind_ok hd, parseLoop_end _ _ _ _ _ he]
  rfl

theorem binaryLevel_lt {ty : TokenType} {i : Nat} (h : binaryLevel ty = some i) : i < 9 := by
  cases ty <;> simp [binaryLevel] at h <;> omega

theorem stopsAt_semicolon (i : Nat) (t : Token) (h : t.type = SEMICOLON) : StopsAt i t := by
  refine ⟨by rw [h]; decide, fun j hj => ?_⟩
  rw [h] at hj
  simp [binaryLevel] at hj

theorem semicolon_not_mem_levelOps (k : Nat) (t : Token) (h : t.type = SEMICOLON) :
    t.type ∉ levelOps k := by
  rw [h]
  by_cases hk : k < 9
  · interval_cases k <;> simp [levelOps]
  · have : levelOps k = [] := by
      unfold levelOps
      split <;> first | omega | rfl
    simp [this]

theorem opensStatement_atom (a : Atom) : opensStatement a.token.type = false := by
  cases a <;> rfl

/-- C2. Left associativity of every binary level: a chain
`p1 op p2 op ... pn ;` whose operators all belong to one level of the grammar
(`||`; `&&`; `|`; `^`; `&`; `==`/`!=`; `<`/`>`; `+`/`-`; `*`/`/`/`%`) and whose
operands are identifiers or number literals parses, given enough fuel, to the
expression statement holding the left fold of the operands. -/
theorem left_associative_chain (i : Nat) (a : Atom) (rest : List (Token × Atom))
    (semi eof : Token) (k : Nat)
    (hr : ∀ x ∈ rest, binaryLevel x.1.type = some i)
    (hs : semi.type = SEMICOLON) (he : eof.type = END_OF_FILE) :
    parse (rest.length + k + 7) (a.token :: (chainTokens rest ++ [semi, eof]))
      = Outcome.returned [Stmt.ExprStmt (chainExpr a.expr rest) semi.line] := by
  have key : ∀ i, i < 9 → (∀ x ∈ rest, binaryLevel x.1.type = some i) →
      parse (rest.length + k + 7) (a.token :: (chainTokens rest ++ [semi, eof]))
        = Outcome.returned [Stmt.ExprStmt (chainExpr a.expr rest) semi.line] := by
    intro i hi hr
    have h1 := level_chain (expression (rest.length + 2 + k + 1)) i hi a rest semi [eof] [] k
      hr (stopsAt_semicolon i semi hs)
    have h2 := level_pass (expression (rest.length + 2 + k + 1)) (rest.length + 1 + k)
      ⟨[], a.token :: (chainTokens rest ++ [semi, eof])⟩ _ _ semi [eof] i (by omega)
      (by rw [show rest.length + 1 + k + 1 = rest.length + 2 + k by omega]; exact h1)
      i 0 (by omega) (fun m _ _ => semicolon_not_mem_levelOps m semi hs)
    rw [show rest.length + 1 + k + 1 = rest.length + 2 + k by omega] at h2
    have h3 := parse_expressionStatement (rest.length + 2 + k) a.token
      (chainTokens rest ++ [semi, eof]) _ _ semi eof [] (opensStatement_atom a) h2 hs he
    rw [show rest.length + k + 7 = rest.length + 2 + k + 5 by omega]
    exact h3
  cases rest with
  | nil => exact key 0 (by omega) (fun x hx => absurd hx (List.not_mem_nil x))
  | cons x rest =>
    exact key i (binaryLevel_lt (hr x (List.mem_cons_self _ _))) hr

/-- C2, at `1 - 2 + 3;`. -/
theorem left_associative_chain_witness :
    (∀ x ∈ [((⟨MINUS, 1, none⟩ : Token), Atom.number "2" 1),
            ((⟨PLUS, 1, none⟩ : Token), Atom.number "3" 1)],
        binaryLevel x.1.type = some 7)
    ∧ parse 9 [⟨NUMBER, 1, some "1"⟩, ⟨MINUS, 1, none⟩, ⟨NUMBER, 1, some "2"⟩,
        ⟨PLUS, 1, none⟩, ⟨NUMBER, 1, some "3"⟩, ⟨SEMICOLON, 1, none⟩,
        ⟨END_OF_FILE, 1, none⟩]
      = Outcome.returned [Stmt.ExprStmt
          (Expr.BinaryExpr
            (Expr.BinaryExpr (Expr.LiteralExpr "1" NUMBER 1) MINUS
              (Expr.LiteralExpr "2" NUMBER 1) 1)
            PLUS (Expr.LiteralExpr "3" NUMBER 1) 1) 1] :=
  ⟨by decide,
   left_associative_chain 7 (Atom.number "1" 1)
    [(⟨MINUS, 1, none⟩, Atom.number "2" 1), (⟨PLUS, 1, none⟩, Atom.number "3" 1)]
    ⟨SEMICOLON, 1, none⟩ ⟨END_OF_FILE, 1, none⟩ 0 (by decide) rfl rfl⟩

theorem level_not_mem_levelOps {ty : TokenType} {i k : Nat}
    (h : binaryLevel ty = some i) (hk : k ≠ i) : ty ∉ levelOps k := by
  by_cases hk9 : k < 9
  · intro hm
    rw [mem_levelOps _ _ hk9, h] at hm
    cases hm
    exact hk rfl
  · have : levelOps k = [] := by
      unfold levelOps
      split <;> first | omega | rfl
    simp [this]

/-- C1. Precedence between levels: with `op1` of a strictly lower-binding
level than `op2` (in the order `||` < `&&` < `|` < `^` < `&` < `==`,`!=` <
`<`,`>` < `+`,`-` < `*`,`/`,`%`) and `a`, `b`, `c` identifiers or number
literals, `a op1 b op2 c;` parses to `ExprStmt(Binary(a, op1, Binary(b, op2, c)))`
and `a op2 b op1 c;` parses to `ExprStmt(Binary(Binary(a, op2, b), op1, c))`. -/
theorem precedence_between_levels (a b c : Atom) (op1 op2 : TokenType) (i j : Nat)
    (h1 : binaryLevel op1 = some i) (h2 : binaryLevel op2 = some j) (hij : i < j)
    (l1 l2 : Int) (v1 v2 : Option String) (semi eof : Token)
    (hs : semi.type = SEMICOLON) (he : eof.type = END_OF_FILE) (n : Nat) :
    parse (n + 8) [a.token, ⟨op1, l1, v1⟩, b.token, ⟨op2, l2, v2⟩, c.token, semi, eof]
      = Outcome.returned [Stmt.ExprStmt
          (Expr.BinaryExpr a.expr op1
            (Expr.BinaryExpr b.expr op2 c.expr c.token.line) c.token.line) semi.line]
    ∧ parse (n + 8) [a.token, ⟨op2, l1, v1⟩, b.token, ⟨op1, l2, v2⟩, c.token, semi, eof]
      = Outcome.returned [Stmt.ExprStmt
          (Expr.BinaryExpr (Expr.BinaryExpr a.expr op2 b.expr b.token.line)
            op1 c.expr c.token.line) semi.line] := by
  have hj : j < 9 := binaryLevel_lt h2
  have hi : i < 9 := by omega
  have hsemi : ∀ m, StopsAt m semi := fun m => stopsAt_semicolon m semi hs
  constructor
  · -- the right operand of op1 is all of `b op2 c`
    have hB : levelFn j (expression (n + 4)) (n + 2 + 1)
        ⟨[⟨op1, l1, v1⟩, a.token], [b.token, ⟨op2, l2, v2⟩, c.token, semi, eof]⟩
        = Res.ok (Expr.BinaryExpr b.expr op2 c.expr c.token.line)
          ⟨[c.token, ⟨op2, l2, v2⟩, b.token, ⟨op1, l1, v1⟩, a.token], [semi, eof]⟩ := by
      have := level_chain (expression (n + 4)) j hj b [(⟨op2, l2, v2⟩, c)] semi [eof]
        [⟨op1, l1, v1⟩, a.token] n (by intro x hx; simp at hx; subst hx; exact h2) (hsemi j)
      rw [show [((⟨op2, l2, v2⟩ : Token), c)].length + 2 + n = n + 2 + 1 by
        simp only [List.length_singleton]; omega] at this
      exact this
    have hB1 := level_pass (expression (n + 4)) (n + 2) _ _ _ semi [eof] j (by omega) hB
      (j - (i + 1)) (i + 1) (by omega)
      (fun m _ _ => semicolon_not_mem_levelOps m semi hs)
    have hA := level_atom (expression (n + 4)) (n + 1) a [] ⟨op1, l1, v1⟩
      [b.token, ⟨op2, l2, v2⟩, c.token, semi, eof] (9 - (i + 1)) (i + 1) (by omega)
      (@stopsAt_of_level ⟨op1, l1, v1⟩ i h1)
    have hL : levelFn i (expression (n + 4)) (n + 3)
        ⟨[], [a.token, ⟨op1, l1, v1⟩, b.token, ⟨op2, l2, v2⟩, c.token, semi, eof]⟩
        = Res.ok (Expr.BinaryExpr a.expr op1
            (Expr.BinaryExpr b.expr op2 c.expr c.token.line) c.token.line)
          ⟨[c.token, ⟨op2, l2, v2⟩, b.token, ⟨op1, l1, v1⟩, a.token], [semi, eof]⟩ := by
      rw [levelFn_succ i hi, bind_ok hA]
      rw [binaryLoop_step (levelOps i) _ (n + 2) a.expr _ [a.token] ⟨op1, l1, v1⟩ _
        c.token [⟨op2, l2, v2⟩, b.token, ⟨op1, l1, v1⟩, a.token] [semi, eof]
        ((mem_levelOps _ _ hi).2 h1) (binaryLevel_ne_eof h1) hB1]
      exact binaryLoop_stop _ _ _ _ _ _ _ (semicolon_not_mem_levelOps i semi hs)
    have h0 := level_pass (expression (n + 4)) (n + 2) _ _ _ semi [eof] i (by omega) hL
      i 0 (by omega) (fun m _ _ => semicolon_not_mem_levelOps m semi hs)
    exact parse_expressionStatement (n + 3) a.token _ _ _ semi eof []
      (opensStatement_atom a) h0 hs he
  · -- the left operand of op1 is all of `a op2 b`
    have hA : levelFn j (expression (n + 4)) (n + 2 + 1)
        ⟨[], [a.token, ⟨op2, l1, v1⟩, b.token, ⟨op1, l2, v2⟩, c.token, semi, eof]⟩
        = Res.ok (Expr.BinaryExpr a.expr op2 b.expr b.token.line)
          ⟨[b.token, ⟨op2, l1, v1⟩, a.token], [⟨op1, l2, v2⟩, c.token, semi, eof]⟩ := by
      have := level_chain (expression (n + 4)) j hj a [(⟨op2, l1, v1⟩, b)] ⟨op1, l2, v2⟩
        [c.token, semi, eof] [] n (by intro x hx; simp at hx; subst hx; exact h2)
        ⟨binaryLevel_ne_lparen h1, fun m hm => by
          have : m = i := by
            have h3 : binaryLevel op1 = some m := hm
            rw [h1] at h3
            cases h3
            rfl
          omega⟩
      rw [show [((⟨op2, l1, v1⟩ : Token), b)].length + 2 + n = n + 2 + 1 by
        simp only [List.length_singleton]; omega] at this
      exact this
    have hA1 := level_pass (expression (n + 4)) (n + 2) _ _ _ ⟨op1, l2, v2⟩
      [c.token, semi, eof] j (by omega) hA
      (j - (i + 1)) (i + 1) (by omega)
      (fun m hm1 _ => @level_not_mem_levelOps op1 i m h1 (by omega))
    have hC := level_atom (expression (n + 4)) (n + 1) c
      [⟨op1, l2, v2⟩, b.token, ⟨op2, l1, v1⟩, a.token] semi [eof]
      (9 - (i + 1)) (i + 1) (by omega) (hsemi _)
    have hL : levelFn i (expression (n + 4)) (n + 3)
        ⟨[], [a.token, ⟨op2, l1, v1⟩, b.token, ⟨op1, l2, v2⟩, c.token, semi, eof]⟩
        = Res.ok (Expr.BinaryExpr (Expr.BinaryExpr a.expr op2 b.expr b.token.line)
            op1 c.expr c.token.line)
          ⟨[c.token, ⟨op1, l2, v2⟩, b.token, ⟨op2, l1, v1⟩, a.token], [semi, eof]⟩ := by
      rw [levelFn_succ i hi, bind_ok hA1]
      rw [binaryLoop_step (levelOps i) _ (n + 2) _ _ _ ⟨op1, l2, v2⟩ _
        c.token [⟨op1, l2, v2⟩, b.token, ⟨op2, l1, v1⟩, a.token] [semi, eof]
        ((mem_levelOps _ _ hi).2 h1) (binaryLevel_ne_eof h1) hC]
      exact binaryLoop_stop _ _ _ _ _ _ _ (semicolon_not_mem_levelOps i semi hs)
    have h0 := level_pass (expression (n + 4)) (n + 2) _ _ _ semi [eof] i (by omega) hL
      i 0 (by omega) (fun m _ _ => semicolon_not_mem_levelOps m semi hs)
    exact parse_expressionStatement (n + 3) a.token _ _ _ semi eof []
      (opensStatement_atom a) h0 hs he

/-- C1, at `1 + 2 * 3;` (and `1 * 2 + 3;`). -/
theorem precedence_between_levels_witness :
    (binaryLevel PLUS = some 7 ∧ binaryLevel ASTER = some 8 ∧ 7 < 8)
    ∧ parse 8 [⟨NUMBER, 1, some "1"⟩, ⟨PLUS, 1, none⟩, ⟨NUMBER, 1, some "2"⟩,
        ⟨ASTER, 1, none⟩, ⟨NUMBER, 1, some "3"⟩, ⟨SEMICOLON, 1, none⟩,
        ⟨END_OF_FILE, 1, none⟩]
      = Outcome.returned [Stmt.ExprStmt
          (Expr.BinaryExpr (Expr.LiteralExpr "1" NUMBER 1) PLUS
            (Expr.BinaryExpr (Expr.LiteralExpr "2" NUMBER 1) ASTER
              (Expr.LiteralExpr "3" NUMBER 1) 1) 1) 1] :=
  ⟨⟨rfl, rfl, by decide⟩,
   (precedence_between_levels (Atom.number "1" 1) (Atom.number "2" 1) (Atom.number "3" 1)
    PLUS ASTER 7 8 rfl rfl (by decide) 1 1 none none ⟨SEMICOLON, 1, none⟩
    ⟨END_OF_FILE, 1, none⟩ rfl rfl 0).1⟩

/-! ## Locality: the rules -/

theorem LA_refl {R : Token → Token → Prop} (h : ∀ t, R t t) (l : List Token) : LA R l l := by
  cases l with
  | nil => trivial
  | cons t _ => exact h t

theorem LA_of_head {R : Token → Token → Prop} (h : ∀ t, R t t) {l1 l2 : List Token}
    (hh : l1.head? = l2.head?) : LA R l1 l2 := by
  cases l1 with
  | nil => cases l2 with
    | nil => trivial
    | cons t _ => simp at hh
  | cons t1 _ => cases l2 with
    | nil => simp at hh
    | cons t2 _ =>
      simp only [List.head?_cons, Option.some.injEq] at hh
      subst hh
      exact h t1

theorem LA_mono {R R2 : Token → Token → Prop} (h : ∀ t1 t2, R t1 t2 → R2 t1 t2)
    {l1 l2 : List Token} (hl : LA R l1 l2) : LA R2 l1 l2 := by
  cases l1 with
  | nil => cases l2 with
    | nil => trivial
    | cons t _ => exact hl.elim
  | cons t1 _ => cases l2 with
    | nil => exact hl.elim
    | cons t2 _ => exact h t1 t2 hl

theorem LA_append {R : Token → Token → Prop} (h : ∀ t, R t t) (u : List Token)
    {l1 l2 : List Token} (hl : LA R l1 l2) : LA R (u ++ l1) (u ++ l2) := by
  cases u with
  | nil => exact hl
  | cons t _ => exact h t

theorem LA_append_of_ne {R : Token → Token → Prop} (h : ∀ t, R t t) {u : List Token}
    (hu : u ≠ []) (l1 l2 : List Token) : LA R (u ++ l1) (u ++ l2) := by
  cases u with
  | nil => exact absurd rfl hu
  | cons t _ => exact h t

theorem head_append_eq {u : List Token} {l1 l2 : List Token}
    (h : l1.head? = l2.head?) : (u ++ l1).head? = (u ++ l2).head? := by
  cases u with
  | nil => exact h
  | cons t _ => rfl

theorem head_reverse_append {u c1 c2 : List Token} (h : u ≠ [] ∨ c1.head? = c2.head?) :
    (u.reverse ++ c1).head? = (u.reverse ++ c2).head? := by
  rcases h with h | h
  · have : u.reverse ≠ [] := by simpa using h
    cases hr : u.reverse with
    | nil => exact absurd hr this
    | cons t _ => rfl
  · exact head_append_eq h

theorem Loc.weaken {α : Type} {b s b2 s2 : Bool} {R R2 : Token → Token → Prop} {x : P α}
    (h : Loc b s R x) (hb : b = true → b2 = true) (hs : s2 = true → s = true)
    (hR : ∀ t1 t2, R2 t1 t2 → R t1 t2) : Loc b2 s2 R2 x := by
  constructor
  · intro c1 rem1 a p1 hx
    obtain ⟨u, s1, h1, h2, h3, h4, h5⟩ := h.ok c1 rem1 a p1 hx
    exact ⟨u, s1, h1, h2, fun h => h3 (hs h), h4,
      fun c2 s2 hla hlb => h5 c2 s2 (LA_mono hR hla) (fun h => hlb (hb h))⟩
  · intro c1 rem1 w p1 hx
    obtain ⟨u, s1, h1, h2, h4, h5⟩ := h.err c1 rem1 w p1 hx
    exact ⟨u, s1, h1, h2, h4, fun c2 s2 hla hlb => h5 c2 s2 hla (fun h => hlb (hb h))⟩

theorem Loc.of_pure {α : Type} (b : Bool) (R : Token → Token → Prop) (a : α) :
    Loc b false R (pure a : P α) := by
  constructor
  · intro c1 rem1 a1 p1 hx
    rw [pure_def] at hx
    cases hx
    exact ⟨[], rem1, rfl, rfl, fun h => absurd h (by decide),
      fun t ht => absurd ht (List.not_mem_nil t), fun c2 s2 _ _ => rfl⟩
  · intro c1 rem1 w p1 hx
    rw [pure_def] at hx
    cases hx

theorem Loc.of_raise {α : Type} (b s : Bool) (R : Token → Token → Prop) (w : String) :
    Loc b s R (raise w : P α) := by
  constructor
  · intro c1 rem1 a1 p1 hx
    change Res.error _ _ = _ at hx
    cases hx
  · intro c1 rem1 w1 p1 hx
    change Res.error _ _ = _ at hx
    cases hx
    exact ⟨[], rem1, rfl, rfl, fun t ht => absurd ht (List.not_mem_nil t),
      fun c2 s2 _ _ => rfl⟩

theorem Loc.of_noFuel {α : Type} (b s : Bool) (R : Token → Token → Prop) :
    Loc b s R (noFuel : P α) := by
  constructor <;> intro c1 rem1 a1 p1 hx <;> change Res.outOfFuel = _ at hx <;> cases hx

theorem Loc.of_faulty {α : Type} (b s : Bool) (R : Token → Token → Prop) :
    Loc b s R (faulty : P α) := by
  constructor <;> intro c1 rem1 a1 p1 hx <;> change Res.fault = _ at hx <;> cases hx

theorem bind_eq_error {α β : Type} {x : P α} {f : α → P β} {p p2 : Parser} {w : String}
    (h : (x >>= f) p = Res.error w p2) :
    x p = Res.error w p2 ∨ ∃ a p1, x p = Res.ok a p1 ∧ f a p1 = Res.error w p2 := by
  rw [bind_def, P.bind] at h
  cases hx : x p with
  | ok a p1 => rw [hx] at h; exact Or.inr ⟨a, p1, rfl, h⟩
  | error w1 p1 => rw [hx] at h; cases h; exact Or.inl rfl
  | fault => rw [hx] at h; cases h
  | outOfFuel => rw [hx] at h; cases h

/-- Sequencing. The first computation needs the lookahead relation `Rx`: any
reflexive relation when the continuation always consumes a token, and one
containing `R` otherwise; the continuation may use the last consumed token
when the whole may or when the first computation always consumes one. -/
theorem Loc.bind_gen {α β : Type} {b s1 bf s2 : Bool} {Q R : Token → Token → Prop}
    {x : P α} {f : α → P β}
    (hx : Loc b s1 Q x) (hf : ∀ a, Loc bf s2 R (f a))
    (hxrefl : ∀ t, Q t t)
    (hb : bf = true → b = true ∨ s1 = true)
    (hR : s2 = false → ∀ t1 t2, R t1 t2 → Q t1 t2) :
    Loc b (s1 || s2) R (x >>= f) := by
  constructor
  · intro c1 rem1 b1 p1 h
    obtain ⟨a, q, hxq, hfq⟩ := bind_eq_ok h
    obtain ⟨u1, r1, e1, eq, hs1, hm1, ht1⟩ := hx.ok c1 rem1 a q hxq
    subst eq
    obtain ⟨u2, r2, e2, ep, hs2, hm2, ht2⟩ := (hf a).ok _ _ b1 p1 hfq
    subst ep
    subst e2
    subst e1
    refine ⟨u1 ++ u2, r2, by simp, by simp, ?_, ?_, ?_⟩
    · intro hs
      rcases Bool.or_eq_true_iff.1 hs with h1 | h2
      · simp [hs1 h1]
      · simp [hs2 h2]
    · intro t ht
      rcases List.mem_append.1 ht with h1 | h2
      · exact hm1 t h1
      · exact hm2 t h2
    · intro c2 s2' hla hlb
      have hla1 : LA Q (u2 ++ r2) (u2 ++ s2') := by
        by_cases hu2 : u2 = []
        · subst hu2
          cases hs2v : s2 with
          | true => exact absurd rfl (hs2 hs2v)
          | false => exact LA_mono (hR hs2v) hla
        · exact LA_append_of_ne hxrefl hu2 _ _
      have h1 := ht1 c2 (u2 ++ s2') hla1 hlb
      have hlb2 : bf = true → (u1.reverse ++ c1).head? = (u1.reverse ++ c2).head? := by
        intro hbf
        apply head_reverse_append
        rcases hb hbf with hb1 | hs1v
        · exact Or.inr (hlb hb1)
        · exact Or.inl (hs1 hs1v)
      have h2 := ht2 (u1.reverse ++ c2) s2' hla hlb2
      rw [List.append_assoc, bind_ok h1, h2]
      simp
  · intro c1 rem1 w p1 h
    rcases bind_eq_error h with hxe | ⟨a, q, hxq, hfq⟩
    · obtain ⟨u1, r1, e1, eq, hm1, ht1⟩ := hx.err c1 rem1 w p1 hxe
      exact ⟨u1, r1, e1, eq, hm1, fun c2 s2' hh hlb => bind_error (ht1 c2 s2' hh hlb)⟩
    · obtain ⟨u1, r1, e1, eq, hs1, hm1, ht1⟩ := hx.ok c1 rem1 a q hxq
      subst eq
      obtain ⟨u2, r2, e2, ep, hm2, ht2⟩ := (hf a).err _ _ w p1 hfq
      subst ep
      subst e2
      subst e1
      refine ⟨u1 ++ u2, r2, by simp, by simp, ?_, ?_⟩
      · intro t ht
        rcases List.mem_append.1 ht with h1 | h2
        · exact hm1 t h1
        · exact hm2 t h2
      · intro c2 s2' hh hlb
        have hla1 : LA Q (u2 ++ r2) (u2 ++ s2') := LA_of_head hxrefl (head_append_eq hh)
        have h1 := ht1 c2 (u2 ++ s2') hla1 hlb
        have hlb2 : bf = true → (u1.reverse ++ c1).head? = (u1.reverse ++ c2).head? := by
          intro hbf
          apply head_reverse_append
          rcases hb hbf with hb1 | hs1v
          · exact Or.inr (hlb hb1)
          · exact Or.inl (hs1 hs1v)
        have h2 := ht2 (u1.reverse ++ c2) s2' hh hlb2
        rw [List.append_assoc, bind_ok h1, h2]
        simp

theorem Loc.seq {α β : Type} {b s v : Bool} {R : Token → Token → Prop}
    {x : P α} {f : α → P β} (hrefl : ∀ t, R t t)
    (hx : Loc b s R x) (hf : ∀ a, Loc b v R (f a)) : Loc b s R (x >>= f) :=
  (Loc.bind_gen hx hf hrefl (fun h => by
      cases b with
      | true => exact Or.inl rfl
      | false => exact absurd h (by decide)) (fun _ t1 t2 h => h)).weaken
    (fun h => h) (fun h => by simp [h]) (fun _ _ h => h)

theorem Loc.seq_tail {α β : Type} {b s : Bool} {Q R : Token → Token → Prop}
    {x : P α} {f : α → P β} (hxrefl : ∀ t, Q t t)
    (hx : Loc b s Q x) (hf : ∀ a, Loc b true R (f a)) : Loc b true R (x >>= f) :=
  (Loc.bind_gen hx hf hxrefl (fun h => by
      cases b with
      | true => exact Or.inl rfl
      | false => exact absurd h (by decide)) (fun h => absurd h (by decide))).weaken
    (fun h => h) (fun _ => by simp) (fun _ _ h => h)

theorem Loc.seq_strict {α β : Type} {b v : Bool} {R : Token → Token → Prop}
    {x : P α} {f : α → P β} (hrefl : ∀ t, R t t)
    (hx : Loc b true R x) (hf : ∀ a, Loc true v R (f a)) : Loc b true R (x >>= f) :=
  (Loc.bind_gen hx hf hrefl (fun _ => Or.inr rfl) (fun _ t1 t2 h => h)).weaken
    (fun h => h) (fun _ => by simp) (fun _ _ h => h)

theorem Loc.seq_strict_tail {α β : Type} {b : Bool} {Q R : Token → Token → Prop}
    {x : P α} {f : α → P β} (hxrefl : ∀ t, Q t t)
    (hx : Loc b true Q x) (hf : ∀ a, Loc true true R (f a)) : Loc b true R (x >>= f) :=
  (Loc.bind_gen hx hf hxrefl (fun _ => Or.inr rfl) (fun h => absurd h (by decide))).weaken
    (fun h => h) (fun _ => by simp) (fun _ _ h => h)

theorem Loc.of_previous (R : Token → Token → Prop) : Loc true false R previous := by
  constructor
  · intro c1 rem1 a p1 hx
    cases c1 with
    | nil => cases hx
    | cons t c =>
      rw [previous_cons] at hx
      cases hx
      refine ⟨[], rem1, rfl, rfl, fun h => absurd h (by decide),
        fun t ht => absurd ht (List.not_mem_nil t), ?_⟩
      intro c2 s2 _ hlb
      have h := hlb rfl
      cases c2 with
      | nil => simp at h
      | cons t2 c2 =>
        simp only [List.head?_cons, Option.some.injEq] at h
        subst h
        rfl
  · intro c1 rem1 w p1 hx
    cases c1 with
    | nil => cases hx
    | cons t c => rw [previous_cons] at hx; cases hx

theorem Loc.of_peek_raise {α : Type} (b s : Bool) (R : Token → Token → Prop)
    (g : Token → String) : Loc b s R (peek >>= fun t => (raise (g t) : P α)) := by
  constructor
  · intro c1 rem1 a p1 hx
    cases rem1 with
    | nil => cases hx
    | cons t r => rw [bind_ok (peek_cons c1 t r)] at hx; cases hx
  · intro c1 rem1 w p1 hx
    cases rem1 with
    | nil => cases hx
    | cons t r =>
      rw [bind_ok (peek_cons c1 t r)] at hx
      change Res.error _ _ = _ at hx
      cases hx
      refine ⟨[], t :: r, rfl, rfl, fun t ht => absurd ht (List.not_mem_nil t), ?_⟩
      intro c2 s2 hh _
      cases s2 with
      | nil => simp at hh
      | cons t2 r2 =>
        simp only [List.head?_cons, Option.some.injEq] at hh
        subst hh
        rfl

theorem Loc.of_valueOf (b : Bool) (R : Token → Token → Prop) (t : Token) :
    Loc b false R (valueOf t) := by
  unfold valueOf
  cases t.value with
  | none => exact Loc.of_faulty b false R
  | some v => exact Loc.of_pure b R v

theorem Loc.of_isAtEnd {R : Token → Token → Prop} (b : Bool) (hR : RespEnd R) :
    Loc b false R isAtEnd := by
  constructor
  · intro c1 rem1 a p1 hx
    cases rem1 with
    | nil => cases hx
    | cons t r =>
      rw [isAtEnd_cons] at hx
      cases hx
      refine ⟨[], t :: r, rfl, rfl, fun h => absurd h (by decide),
        fun t ht => absurd ht (List.not_mem_nil t), ?_⟩
      intro c2 s2 hla _
      cases s2 with
      | nil => exact hla.elim
      | cons t2 r2 =>
        have h := hR t t2 hla
        show isAtEnd ⟨c2, t2 :: r2⟩ = _
        rw [isAtEnd_cons]
        have : (t2.type == END_OF_FILE) = (t.type == END_OF_FILE) := by
          by_cases h1 : t.type = END_OF_FILE
          · simp [h1, h.1 h1]
          · have h2 : t2.type ≠ END_OF_FILE := fun h3 => h1 (h.2 h3)
            simp [h1, h2]
        rw [this]
        rfl
  · intro c1 rem1 w p1 hx
    cases rem1 with
    | nil => cases hx
    | cons t r => rw [isAtEnd_cons] at hx; cases hx

theorem Loc.of_check {R : Token → Token → Prop} (b : Bool) {ty : TokenType} (hR : Resp R ty) :
    Loc b false R (check ty) := by
  constructor
  · intro c1 rem1 a p1 hx
    cases rem1 with
    | nil => cases hx
    | cons t r =>
      rw [check_cons] at hx
      cases hx
      refine ⟨[], t :: r, rfl, rfl, fun h => absurd h (by decide),
        fun t ht => absurd ht (List.not_mem_nil t), ?_⟩
      intro c2 s2 hla _
      cases s2 with
      | nil => exact hla.elim
      | cons t2 r2 =>
        have h := hR t t2 hla
        show check ty ⟨c2, t2 :: r2⟩ = _
        rw [check_cons]
        have : (t2.type != END_OF_FILE && t2.type == ty)
            = (t.type != END_OF_FILE && t.type == ty) := by
          by_cases h1 : t.type ≠ END_OF_FILE ∧ t.type = ty
          · have h2 := h.1 h1
            simp [h1.1, h1.2, h2.1, h2.2]
          · have h2 : ¬ (t2.type ≠ END_OF_FILE ∧ t2.type = ty) := fun h3 => h1 (h.2 h3)
            have e1 : (t.type != END_OF_FILE && t.type == ty) = false := by
              simpa [Bool.and_eq_false_iff, bne_iff_ne, imp_iff_not_or] using h1
            have e2 : (t2.type != END_OF_FILE && t2.type == ty) = false := by
              simpa [Bool.and_eq_false_iff, bne_iff_ne, imp_iff_not_or] using h2
            rw [e1, e2]
        rw [this]
        rfl
  · intro c1 rem1 w p1 hx
    cases rem1 with
    | nil => cases hx
    | cons t r => rw [check_cons] at hx; cases hx

theorem Loc.of_consume (b : Bool) (R : Token → Token → Prop) {ty : TokenType}
    (hty : matched ty = true) (msg : String) : Loc b true R (consume ty msg) := by
  constructor
  · intro c1 rem1 a p1 hx
    cases rem1 with
    | nil => cases hx
    | cons t r =>
      rw [consume_cons] at hx
      by_cases h : t.type ≠ END_OF_FILE ∧ t.type = ty
      · rw [if_pos h] at hx
        cases hx
        refine ⟨[a], r, rfl, rfl, fun _ => by simp, ?_, ?_⟩
        · intro t1 ht1
          simp only [List.mem_singleton] at ht1
          subst ht1
          rw [h.2]; exact hty
        · intro c2 s2 _ _
          show consume ty msg ⟨c2, a :: s2⟩ = _
          rw [consume_cons, if_pos h]
          rfl
      · rw [if_neg h] at hx
        cases hx
  · intro c1 rem1 w p1 hx
    cases rem1 with
    | nil => cases hx
    | cons t r =>
      rw [consume_cons] at hx
      by_cases h : t.type ≠ END_OF_FILE ∧ t.type = ty
      · rw [if_pos h] at hx
        cases hx
      · rw [if_neg h] at hx
        cases hx
        refine ⟨[], t :: r, rfl, rfl, fun t ht => absurd ht (List.not_mem_nil t), ?_⟩
        intro c2 s2 hh _
        cases s2 with
        | nil => simp at hh
        | cons t2 r2 =>
          simp only [List.head?_cons, Option.some.injEq] at hh
          subst hh
          show consume ty msg ⟨c2, t :: r2⟩ = _
          rw [consume_cons, if_neg h]
          rfl

/-- The pattern `if (match(types)) A else B`: `A` runs after a token was
consumed, so it may use the last consumed token; the test itself must not
depend on the lookahead relation unless `B` always consumes a token. -/
theorem Loc.matchTypes_if {α : Type} {b u s : Bool} {R : Token → Token → Prop}
    {tys : List TokenType} {A B : P α}
    (hty : ∀ ty ∈ tys, matched ty = true)
    (hA : Loc true u R A) (hB : Loc b s R B)
    (hresp : s = true ∨ ∀ ty ∈ tys, Resp R ty) :
    Loc b s R (matchTypes tys >>= fun m => if m = true then A else B) := by
  constructor
  · intro c1 rem1 a p1 hx
    cases rem1 with
    | nil =>
      cases tys with
      | nil =>
        rw [show matchTypes [] = (pure false : P Bool) from rfl, bind_ok (pure_def _ _)] at hx
        simp only [Bool.false_eq_true, if_false] at hx
        obtain ⟨u, s1, e1, e2, h3, h4, h5⟩ := hB.ok c1 [] a p1 hx
        refine ⟨u, s1, e1, e2, h3, h4, ?_⟩
        intro c2 s2 hla hlb
        rw [show matchTypes [] = (pure false : P Bool) from rfl, bind_ok (pure_def _ _)]
        simp only [Bool.false_eq_true, if_false]
        exact h5 c2 s2 hla hlb
      | cons ty tys => cases hx
    | cons t r =>
      rw [bind_def, P.bind, matchTypes_cons] at hx
      by_cases h : t.type ≠ END_OF_FILE ∧ t.type ∈ tys
      · rw [if_pos h] at hx
        simp only [if_true] at hx
        obtain ⟨u, s1, e1, e2, _, h4, h5⟩ := hA.ok (t :: c1) r a p1 hx
        subst e1
        subst e2
        refine ⟨t :: u, s1, rfl, by simp, fun _ => by simp, ?_, ?_⟩
        · intro t1 ht1
          rcases List.mem_cons.1 ht1 with rfl | hm
          · exact hty _ h.2
          · exact h4 t1 hm
        · intro c2 s2 hla _
          show (matchTypes tys >>= _) ⟨c2, t :: (u ++ s2)⟩ = _
          rw [bind_def, P.bind, matchTypes_cons, if_pos h]
          simp only [if_true]
          rw [h5 (t :: c2) s2 hla (fun _ => rfl)]
          simp
      · rw [if_neg h] at hx
        simp only [Bool.false_eq_true, if_false] at hx
        obtain ⟨u, s1, e1, e2, h3, h4, h5⟩ := hB.ok c1 (t :: r) a p1 hx
        refine ⟨u, s1, e1, e2, h3, h4, ?_⟩
        intro c2 s2 hla hlb
        have hB2 := h5 c2 s2 hla hlb
        cases u with
        | nil =>
          simp only [List.nil_append] at e1 hB2 ⊢
          subst e1
          cases s2 with
          | nil => exact hla.elim
          | cons t2 r2 =>
            have hr : ∀ ty ∈ tys, Resp R ty := by
              rcases hresp with hs | hr
              · exact absurd rfl (h3 hs)
              · exact hr
            have h2 : ¬ (t2.type ≠ END_OF_FILE ∧ t2.type ∈ tys) := by
              rintro ⟨h21, h22⟩
              have h3 := (hr _ h22 t t2 hla).2 ⟨h21, rfl⟩
              exact h ⟨h3.1, by rw [h3.2]; exact h22⟩
            rw [bind_def, P.bind, matchTypes_cons, if_neg h2]
            simp only [Bool.false_eq_true, if_false]
            exact hB2
        | cons t1 u =>
          simp only [List.cons_append, List.cons.injEq] at e1
          obtain ⟨rfl, _⟩ := e1
          show (matchTypes tys >>= _) ⟨c2, t :: (u ++ s2)⟩ = _
          rw [bind_def, P.bind, matchTypes_cons, if_neg h]
          simp only [Bool.false_eq_true, if_false]
          exact hB2
  · intro c1 rem1 w p1 hx
    cases rem1 with
    | nil =>
      cases tys with
      | nil =>
        rw [show matchTypes [] = (pure false : P Bool) from rfl, bind_ok (pure_def _ _)] at hx
        simp only [Bool.false_eq_true, if_false] at hx
        obtain ⟨u, s1, e1, e2, h4, h5⟩ := hB.err c1 [] w p1 hx
        refine ⟨u, s1, e1, e2, h4, ?_⟩
        intro c2 s2 hla hlb
        rw [show matchTypes [] = (pure false : P Bool) from rfl, bind_ok (pure_def _ _)]
        simp only [Bool.false_eq_true, if_false]
        exact h5 c2 s2 hla hlb
      | cons ty tys => cases hx
    | cons t r =>
      rw [bind_def, P.bind, matchTypes_cons] at hx
      by_cases h : t.type ≠ END_OF_FILE ∧ t.type ∈ tys
      · rw [if_pos h] at hx
        simp only [if_true] at hx
        obtain ⟨u, s1, e1, e2, h4, h5⟩ := hA.err (t :: c1) r w p1 hx
        subst e1
        subst e2
        refine ⟨t :: u, s1, rfl, by simp, ?_, ?_⟩
        · intro t1 ht1
          rcases List.mem_cons.1 ht1 with rfl | hm
          · exact hty _ h.2
          · exact h4 t1 hm
        · intro c2 s2 hla _
          show (matchTypes tys >>= _) ⟨c2, t :: (u ++ s2)⟩ = _
          rw [bind_def, P.bind, matchTypes_cons, if_pos h]
          simp only [if_true]
          rw [h5 (t :: c2) s2 hla (fun _ => rfl)]
          simp
      · rw [if_neg h] at hx
        simp only [Bool.false_eq_true, if_false] at hx
        obtain ⟨u, s1, e1, e2, h4, h5⟩ := hB.err c1 (t :: r) w p1 hx
        refine ⟨u, s1, e1, e2, h4, ?_⟩
        intro c2 s2 hh hlb
        have hB2 := h5 c2 s2 hh hlb
        have hhead : (u ++ s2).head? = some t := by
          rw [← head_append_eq hh, ← e1]
          rfl
        cases hus : u ++ s2 with
        | nil => rw [hus] at hhead; simp at hhead
        | cons t2 r2 =>
          rw [hus] at hhead hB2
          simp only [List.head?_cons, Option.some.injEq] at hhead
          subst hhead
          rw [bind_def, P.bind, matchTypes_cons, if_neg h]
          simp only [Bool.false_eq_true, if_false]
          exact hB2

theorem raise_bind {α β : Type} (w : String) (f : α → P β) :
    ((raise w : P α) >>= f) = raise w := rfl

theorem Loc.of_peek_raise_bind {α β : Type} (b s : Bool) (R : Token → Token → Prop)
    (g : Token → String) (f : α → P β) :
    Loc b s R (peek >>= fun t => (raise (g t) : P α) >>= f) :=
  Loc.of_peek_raise b s R g

/-! ## Locality of the expression grammar -/

theorem matchType_eq_matchTypes (ty : TokenType) : matchType ty = matchTypes [ty] := rfl

theorem Loc.matchType_if {α : Type} {b u s : Bool} {R : Token → Token → Prop}
    {ty : TokenType} {A B : P α} (hty : matched ty = true)
    (hA : Loc true u R A) (hB : Loc b s R B) (hresp : s = true ∨ Resp R ty) :
    Loc b s R (matchType ty >>= fun m => if m = true then A else B) := by
  rw [matchType_eq_matchTypes]
  refine Loc.matchTypes_if ?_ hA hB ?_
  · intro ty1 h1
    simp only [List.mem_singleton] at h1
    subst h1
    exact hty
  · rcases hresp with h | h
    · exact Or.inl h
    · refine Or.inr ?_
      intro ty1 h1
      simp only [List.mem_singleton] at h1
      subst h1
      exact h

theorem resp_eq (ty : TokenType) : Resp Eq ty := by
  intro t1 t2 h
  subst h
  exact Iff.rfl

theorem exprRel_eq : ExprRel Eq := ⟨fun _ => rfl, fun ty _ => resp_eq ty⟩

theorem Loc.to_eq {α : Type} {b s : Bool} {R : Token → Token → Prop} {x : P α}
    (hrefl : ∀ t, R t t) (h : Loc b s R x) : Loc b s Eq x :=
  h.weaken (fun h => h) (fun h => h) (fun t1 _ e => e ▸ hrefl t1)

theorem Loc.to_lb {α : Type} {b s : Bool} {R : Token → Token → Prop} {x : P α}
    (h : Loc b s R x) : Loc true s R x :=
  h.weaken (fun _ => rfl) (fun h => h) (fun _ _ h => h)

theorem Loc.to_lax {α : Type} {b s : Bool} {R : Token → Token → Prop} {x : P α}
    (h : Loc b s R x) : Loc b false R x :=
  h.weaken (fun h => h) (fun h => absurd h (by decide)) (fun _ _ h => h)

/-- The node built from the token just consumed by `primary` for a literal. -/
theorem primary_eq (e : P Expr) :
    primary e
      = (matchTypes [NUMBER, STRING_LIT] >>= fun m =>
          if m = true then
            (previous >>= fun t => valueOf t >>= fun v =>
              pure (Expr.LiteralExpr v t.type t.line))
          else
            (matchType IDENTIFIER >>= fun m =>
              if m = true then
                (previous >>= fun t => valueOf t >>= fun v =>
                  pure (Expr.IdentifierExpr v t.line))
              else
                (matchType LPAREN >>= fun m =>
                  if m = true then
                    (e >>= fun expr =>
                      consume RPAREN "Error expected ')' after expression" >>= fun _ =>
                        pure expr)
                  else
                    (peek >>= fun t => raise (parseError t "Error expected expression"))))) := by
  funext p
  obtain ⟨c, rem⟩ := p
  cases rem with
  | nil => rfl
  | cons t r =>
    by_cases h1 : t.type = NUMBER
    · simp [primary, bind_def, P.bind, matchType_cons, matchTypes_cons, h1, pure_def]
    · by_cases h2 : t.type = STRING_LIT
      · simp [primary, bind_def, P.bind, matchType_cons, matchTypes_cons, h2, pure_def]
      · simp [primary, bind_def, P.bind, matchType_cons, matchTypes_cons, h1, h2, pure_def]

theorem primary_loc {R : Token → Token → Prop} (hR : ExprRel R) {e : P Expr}
    (he : Loc false true R e) : Loc false true R (primary e) := by
  rw [primary_eq]
  refine Loc.matchTypes_if (u := false) (by decide) ?_ ?_ (Or.inl rfl)
  · exact Loc.seq hR.1 (Loc.of_previous R) fun t =>
      Loc.seq hR.1 (Loc.of_valueOf true R t) fun v => Loc.of_pure true R _
  · refine Loc.matchType_if (u := false) (by decide) ?_ ?_ (Or.inl rfl)
    · exact Loc.seq hR.1 (Loc.of_previous R) fun t =>
        Loc.seq hR.1 (Loc.of_valueOf true R t) fun v => Loc.of_pure true R _
    · refine Loc.matchType_if (u := true) (by decide) ?_ ?_ (Or.inl rfl)
      · exact Loc.seq hR.1 he.to_lb fun x =>
          Loc.seq hR.1 (Loc.of_consume true R (by decide) _) fun _ => Loc.of_pure true R _
      · exact Loc.of_peek_raise false true R _

theorem argumentsLoop_loc {R : Token → Token → Prop} (hR : ExprRel R) {e : P Expr}
    (he : Loc false true R e) (fuel : Nat) :
    ∀ args, Loc false true R (argumentsLoop e fuel args) := by
  induction fuel with
  | zero => intro args; exact Loc.of_noFuel false true R
  | succ fuel ih =>
    intro args
    rw [argumentsLoop]
    refine Loc.seq (v := false) hR.1 he fun x => ?_
    exact Loc.matchType_if (by decide) (ih _).to_lb.to_lax (Loc.of_pure false R _)
      (Or.inr (hR.2 COMMA rfl))

theorem finishCall_loc {R : Token → Token → Prop} (hR : ExprRel R) {e : P Expr}
    (he : Loc false true R e) (fuel : Nat) (callee : Expr) :
    Loc true true R (finishCall e fuel callee) := by
  unfold finishCall
  refine Loc.seq_tail hR.1 (Loc.of_previous R) fun t => ?_
  refine Loc.seq_tail (Q := Eq) (fun _ => rfl) (Loc.of_check true (resp_eq RPAREN))
    fun m => ?_
  have tail : ∀ args : List Expr, Loc true true R
      (consume RPAREN "Expect ')' after arguments" >>= fun _ =>
        match callee with
        | Expr.IdentifierExpr name _ => pure (Expr.CallExpr name args t.line)
        | _ => previous >>= fun t => raise (parseError t "Can only call functions")) := by
    intro args
    refine Loc.seq_strict (v := false) hR.1 (Loc.of_consume true R (by decide) _) fun _ => ?_
    cases callee with
    | IdentifierExpr name line => exact Loc.of_pure true R _
    | BinaryExpr _ _ _ _ =>
      exact Loc.seq hR.1 (Loc.of_previous R) fun t => Loc.of_raise true false R _
    | UnaryExpr _ _ _ =>
      exact Loc.seq hR.1 (Loc.of_previous R) fun t => Loc.of_raise true false R _
    | LiteralExpr _ _ _ =>
      exact Loc.seq hR.1 (Loc.of_previous R) fun t => Loc.of_raise true false R _
    | CallExpr _ _ _ =>
      exact Loc.seq hR.1 (Loc.of_previous R) fun t => Loc.of_raise true false R _
  cases m with
  | true =>
    exact Loc.seq_tail (Q := Eq) (fun _ => rfl) (Loc.of_pure true Eq _) tail
  | false =>
    exact Loc.seq_tail (Q := Eq) (fun _ => rfl)
      (argumentsLoop_loc exprRel_eq (he.to_eq hR.1) fuel []).to_lb tail

theorem callLoop_loc {R : Token → Token → Prop} (hR : ExprRel R) {e : P Expr}
    (he : Loc false true R e) (fuel : Nat) :
    ∀ x, Loc false false R (callLoop e fuel x) := by
  induction fuel with
  | zero => intro x; exact Loc.of_noFuel false false R
  | succ fuel ih =>
    intro x
    rw [callLoop]
    refine Loc.matchType_if (u := true) (by decide) ?_ (Loc.of_pure false R _)
      (Or.inr (hR.2 LPAREN rfl))
    exact Loc.seq hR.1 (finishCall_loc hR he fuel x) fun y => (ih y).to_lb

theorem call_loc {R : Token → Token → Prop} (hR : ExprRel R) {e : P Expr}
    (he : Loc false true R e) (fuel : Nat) : Loc false true R (call e fuel) := by
  unfold call
  exact Loc.seq hR.1 (primary_loc hR he) fun x => callLoop_loc hR he fuel x

theorem unary_loc {R : Token → Token → Prop} (hR : ExprRel R) {e : P Expr}
    (he : Loc false true R e) (fuel : Nat) : Loc false true R (unary e fuel) := by
  induction fuel with
  | zero => exact Loc.of_noFuel false true R
  | succ fuel ih =>
    rw [unary]
    refine Loc.matchTypes_if (u := false) (by decide) ?_ (call_loc hR he fuel) (Or.inl rfl)
    exact Loc.seq hR.1 (Loc.of_previous R) fun t =>
      Loc.seq hR.1 ih.to_lb.to_lax fun x =>
        Loc.seq hR.1 (Loc.of_previous R) fun t2 => Loc.of_pure true R _

theorem binaryLoop_loc {R : Token → Token → Prop} (hR : ExprRel R) {o : P Expr}
    (ho : Loc false true R o) (ops : List TokenType)
    (hops : ∀ ty ∈ ops, matched ty = true ∧ exprTrailing ty = true) (fuel : Nat) :
    ∀ x, Loc false false R (binaryLoop ops o fuel x) := by
  induction fuel with
  | zero => intro x; exact Loc.of_noFuel false false R
  | succ fuel ih =>
    intro x
    rw [binaryLoop]
    refine Loc.matchTypes_if (u := false) (fun ty h => (hops ty h).1) ?_ (Loc.of_pure false R _)
      (Or.inr fun ty h => hR.2 ty (hops ty h).2)
    exact Loc.seq hR.1 (Loc.of_previous R) fun t =>
      Loc.seq hR.1 ho.to_lb.to_lax fun y =>
        Loc.seq hR.1 (Loc.of_previous R) fun t2 => (ih _).to_lb

theorem levelOps_trailing (i : Nat) :
    ∀ ty ∈ levelOps i, matched ty = true ∧ exprTrailing ty = true := by
  intro ty h
  by_cases hi : i < 9
  · have := (mem_levelOps ty i hi).1 h
    cases ty <;> simp [binaryLevel] at this <;> exact ⟨rfl, rfl⟩
  · have : levelOps i = [] := by
      unfold levelOps
      split <;> first | omega | rfl
    rw [this] at h
    cases h

theorem level_loc {R : Token → Token → Prop} (hR : ExprRel R) {e : P Expr}
    (he : Loc false true R e) (fuel : Nat) (k : Nat) :
    ∀ i, i + k = 9 → Loc false true R (levelFn i e fuel) := by
  induction k with
  | zero =>
    intro i hi
    have : i = 9 := by omega
    subst this
    exact unary_loc hR he fuel
  | succ k ih =>
    intro i hi
    rw [levelFn_succ i (by omega)]
    exact Loc.seq hR.1 (ih (i + 1) (by omega)) fun x =>
      binaryLoop_loc hR (ih (i + 1) (by omega)) _ (levelOps_trailing i) fuel x

theorem logicalOr_loc {R : Token → Token → Prop} (hR : ExprRel R) {e : P Expr}
    (he : Loc false true R e) (fuel : Nat) : Loc false true R (logicalOr e fuel) :=
  level_loc hR he fuel 9 0 (by omega)

theorem assignment_loc {R : Token → Token → Prop} (hR : ExprRel R) {e : P Expr}
    (he : Loc false true R e) (fuel : Nat) : Loc false true R (assignment e fuel) := by
  induction fuel with
  | zero => exact Loc.of_noFuel false true R
  | succ fuel ih =>
    rw [assignment]
    refine Loc.seq (v := false) hR.1 (logicalOr_loc hR he fuel) fun x => ?_
    refine Loc.matchTypes_if (u := false) (by decide) ?_ (Loc.of_pure false R _)
      (Or.inr fun ty h => hR.2 ty (by
        simp only [assignOps, List.mem_cons, List.mem_singleton, List.not_mem_nil,
          or_false] at h
        rcases h with h | h | h | h | h | h <;> subst h <;> rfl))
    refine Loc.seq (v := false) hR.1 (Loc.of_previous R) fun t => ?_
    refine Loc.seq (v := false) hR.1 ih.to_lb.to_lax fun v => ?_
    cases x with
    | IdentifierExpr name line =>
      exact Loc.seq hR.1 (Loc.of_previous R) fun t2 => Loc.of_pure true R _
    | BinaryExpr _ _ _ _ =>
      exact Loc.seq hR.1 (Loc.of_previous R) fun t2 => Loc.of_raise true false R _
    | UnaryExpr _ _ _ =>
      exact Loc.seq hR.1 (Loc.of_previous R) fun t2 => Loc.of_raise true false R _
    | LiteralExpr _ _ _ =>
      exact Loc.seq hR.1 (Loc.of_previous R) fun t2 => Loc.of_raise true false R _
    | CallExpr _ _ _ =>
      exact Loc.seq hR.1 (Loc.of_previous R) fun t2 => Loc.of_raise true false R _

theorem expression_loc {R : Token → Token → Prop} (hR : ExprRel R) (fuel : Nat) :
    Loc false true R (expression fuel) := by
  induction fuel with
  | zero => exact Loc.of_noFuel false true R
  | succ fuel ih =>
    rw [expression]
    exact assignment_loc hR ih fuel

/-! ## Locality of the statement grammar -/

theorem expressionStatement_loc {R : Token → Token → Prop} (hR : ∀ t, R t t) (fuel : Nat) :
    Loc false true R (expressionStatement fuel) := by
  unfold expressionStatement
  refine Loc.seq_tail (Q := Eq) (fun _ => rfl) (expression_loc exprRel_eq fuel) fun e => ?_
  refine Loc.seq_strict (v := false) hR (Loc.of_consume false R (by decide) _) fun _ => ?_
  exact Loc.seq hR (Loc.of_previous R) fun t => Loc.of_pure true R _

theorem typedVarDeclaration_loc {R : Token → Token → Prop} (hR : ∀ t, R t t) (fuel : Nat)
    (type : TokenType) : Loc true true R (typedVarDeclaration fuel type) := by
  unfold typedVarDeclaration
  refine Loc.seq_tail hR (Loc.of_previous R) fun t => ?_
  have tail : ∀ typeName : String, Loc true true R
      (consume IDENTIFIER "Expect variable name" >>= fun tok =>
        valueOf tok >>= fun name =>
          matchType ASSIGN >>= fun m =>
            if m = true then
              (expression fuel >>= fun e =>
                consume SEMICOLON "Expect ';' after variable declaration" >>= fun _ =>
                  pure (Stmt.VarDeclStmt typeName name (some e) t.line))
            else
              (consume SEMICOLON "Expect ';' after variable declaration" >>= fun _ =>
                pure (Stmt.VarDeclStmt typeName name none t.line))) := by
    intro typeName
    refine Loc.seq_strict (v := true) hR (Loc.of_consume true R (by decide) _) fun tok => ?_
    refine Loc.seq_tail (s := false) hR (Loc.of_valueOf true R tok) fun name => ?_
    refine Loc.matchType_if (u := true) (by decide) ?_ ?_ (Or.inl rfl)
    · refine Loc.seq_tail (Q := Eq) (fun _ => rfl) (expression_loc exprRel_eq fuel).to_lb
        fun e => ?_
      exact Loc.seq hR (Loc.of_consume true R (by decide) _) fun _ => Loc.of_pure true R _
    · exact Loc.seq hR (Loc.of_consume true R (by decide) _) fun _ => Loc.of_pure true R _
  cases type <;>
    first
      | exact Loc.seq_tail hR (Loc.of_pure true R _) tail
      | exact Loc.seq_tail hR (Loc.of_previous R) fun t =>
          Loc.seq hR (Loc.of_raise true true R _) tail

theorem numVarDeclaration_loc {R : Token → Token → Prop} (hR : ∀ t, R t t) (fuel : Nat) :
    Loc true true R (numVarDeclaration fuel) :=
  typedVarDeclaration_loc hR fuel _

theorem importStatement_loc {R : Token → Token → Prop} (hR : ∀ t, R t t) :
    Loc true true R importStatement := by
  unfold importStatement
  refine Loc.seq_tail hR (Loc.of_previous R) fun prev => ?_
  have tail : ∀ moduleName : String, Loc true true R
      (consume SEMICOLON "Expect ';' after import statement" >>= fun _ =>
        pure (Stmt.ImportStmt moduleName prev.line)) := fun moduleName =>
    Loc.seq hR (Loc.of_consume true R (by decide) _) fun _ => Loc.of_pure true R _
  cases prev.value with
  | some v => exact Loc.seq_tail hR (Loc.of_pure true R _) tail
  | none =>
    refine Loc.matchType_if (u := true) (by decide) ?_ ?_ (Or.inl rfl)
    · exact Loc.seq_tail hR (Loc.of_previous R) fun t =>
        Loc.seq_tail hR (Loc.of_valueOf true R t) tail
    · exact Loc.of_peek_raise_bind true true R _ _

theorem ifStatement_loc {R : Token → Token → Prop} (hR : StmtRel R) {st : P Stmt}
    (hs : Loc false true R st) (fuel : Nat) : Loc true true R (ifStatement st fuel) := by
  unfold ifStatement
  refine Loc.seq_tail hR.1 (Loc.of_previous R) fun t => ?_
  refine Loc.seq_strict (v := true) hR.1 (Loc.of_consume true R (by decide) _) fun _ => ?_
  refine Loc.seq_tail (Q := Eq) (fun _ => rfl) (expression_loc exprRel_eq fuel).to_lb
    fun cond => ?_
  refine Loc.seq_strict (v := true) hR.1 (Loc.of_consume true R (by decide) _) fun _ => ?_
  refine Loc.seq (v := false) hR.1 hs.to_lb fun th => ?_
  refine Loc.matchType_if (u := true) (by decide) ?_ ?_ (Or.inr hR.2)
  · exact Loc.seq hR.1 hs.to_lb fun el =>
      Loc.seq hR.1 (Loc.of_pure true R _) fun _ => Loc.of_pure true R _
  · exact Loc.seq hR.1 (Loc.of_pure true R _) fun _ => Loc.of_pure true R _

theorem whileStatement_loc {R : Token → Token → Prop} (hR : ∀ t, R t t) {st : P Stmt}
    (hs : Loc false true R st) (fuel : Nat) : Loc true true R (whileStatement st fuel) := by
  unfold whileStatement
  refine Loc.seq_tail hR (Loc.of_previous R) fun t => ?_
  refine Loc.seq_strict (v := true) hR (Loc.of_consume true R (by decide) _) fun _ => ?_
  refine Loc.seq_tail (Q := Eq) (fun _ => rfl) (expression_loc exprRel_eq fuel).to_lb
    fun cond => ?_
  refine Loc.seq_strict (v := true) hR (Loc.of_consume true R (by decide) _) fun _ => ?_
  exact Loc.seq hR hs.to_lb fun body => Loc.of_pure true R _

theorem respEnd_eq : RespEnd Eq := by
  intro t1 t2 h
  subst h
  exact Iff.rfl

theorem incrementLoop_loc (fuel : Nat) :
    ∀ inc, Loc false false Eq (incrementLoop fuel inc) := by
  induction fuel with
  | zero => intro inc; exact Loc.of_noFuel false false Eq
  | succ fuel ih =>
    intro inc
    rw [incrementLoop]
    refine Loc.seq (v := false) (fun _ => rfl) (Loc.of_check false (resp_eq RPAREN))
      fun atParen => ?_
    have tail : ∀ stop : Bool, Loc false false Eq
        (if stop = true then pure inc
         else matchTypes [PLUS_PLUS, MINUS_MINUS] >>= fun m =>
           if m = true then
             (previous >>= fun t => incrementLoop fuel (Expr.UnaryExpr t.type inc t.line))
           else pure inc) := by
      intro stop
      cases stop with
      | true => exact Loc.of_pure false Eq _
      | false =>
        refine Loc.matchTypes_if (u := false) (by decide) ?_ (Loc.of_pure false Eq _)
          (Or.inr fun ty _ => resp_eq ty)
        exact Loc.seq (fun _ => rfl) (Loc.of_previous Eq) fun t => (ih _).to_lb
    cases atParen with
    | true => exact Loc.seq (fun _ => rfl) (Loc.of_pure false Eq _) tail
    | false => exact Loc.seq (fun _ => rfl) (Loc.of_isAtEnd false respEnd_eq) tail

theorem forStatement_loc {R : Token → Token → Prop} (hR : ∀ t, R t t) {st : P Stmt}
    (hs : Loc false true R st) (fuel : Nat) : Loc true true R (forStatement st fuel) := by
  unfold forStatement
  refine Loc.seq_tail hR (Loc.of_previous R) fun t => ?_
  refine Loc.seq_strict (v := true) hR (Loc.of_consume true R (by decide) _) fun _ => ?_
  have tail3 : ∀ (initializer : Option Stmt) (condition increment : Option Expr),
      Loc true true R
        (consume RPAREN "Expect ')' after for clauses" >>= fun _ =>
          st >>= fun body =>
            match initializer with
            | some init =>
              pure (Stmt.BlockStmt [init,
                Stmt.WhileStmt
                  (match condition with
                   | some c => c
                   | none => Expr.LiteralExpr "1" NUMBER t.line)
                  (match increment with
                   | some inc => Stmt.BlockStmt [body, Stmt.ExprStmt inc t.line] t.line
                   | none => body) t.line] t.line)
            | none =>
              pure (Stmt.WhileStmt
                  (match condition with
                   | some c => c
                   | none => Expr.LiteralExpr "1" NUMBER t.line)
                  (match increment with
                   | some inc => Stmt.BlockStmt [body, Stmt.ExprStmt inc t.line] t.line
                   | none => body) t.line)) := by
    intro initializer condition increment
    refine Loc.seq_strict (v := true) hR (Loc.of_consume true R (by decide) _) fun _ => ?_
    refine Loc.seq (v := false) hR hs.to_lb fun body => ?_
    cases initializer with
    | some init => exact Loc.of_pure true R _
    | none => exact Loc.of_pure true R _
  have tail2 : ∀ (initializer : Option Stmt) (condition : Option Expr),
      Loc true true R
        (consume SEMICOLON "Expect ';' after loop condition" >>= fun _ =>
          check RPAREN >>= fun m =>
            if (!m) = true then
              (expression fuel >>= fun e => incrementLoop fuel e >>= fun e =>
                consume RPAREN "Expect ')' after for clauses" >>= fun _ =>
                st >>= fun body =>
                  match initializer with
                  | some init =>
                    pure (Stmt.BlockStmt [init,
                      Stmt.WhileStmt
                        (match condition with
                         | some c => c
                         | none => Expr.LiteralExpr "1" NUMBER t.line)
                        (Stmt.BlockStmt [body, Stmt.ExprStmt e t.line] t.line)
                        t.line] t.line)
                  | none =>
                    pure (Stmt.WhileStmt
                        (match condition with
                         | some c => c
                         | none => Expr.LiteralExpr "1" NUMBER t.line)
                        (Stmt.BlockStmt [body, Stmt.ExprStmt e t.line] t.line)
                        t.line))
            else
              (consume RPAREN "Expect ')' after for clauses" >>= fun _ =>
                st >>= fun body =>
                  match initializer with
                  | some init =>
                    pure (Stmt.BlockStmt [init,
                      Stmt.WhileStmt
                        (match condition with
                         | some c => c
                         | none => Expr.LiteralExpr "1" NUMBER t.line)
                        body t.line] t.line)
                  | none =>
                    pure (Stmt.WhileStmt
                        (match condition with
                         | some c => c
                         | none => Expr.LiteralExpr "1" NUMBER t.line)
                        body t.line))) := by
    intro initializer condition
    refine Loc.seq_strict (v := true) hR (Loc.of_consume true R (by decide) _) fun _ => ?_
    refine Loc.seq_tail (Q := Eq) (fun _ => rfl) (Loc.of_check true (resp_eq RPAREN))
      fun m => ?_
    cases m with
    | true => exact tail3 initializer condition none
    | false =>
      refine Loc.seq_tail (Q := Eq) (fun _ => rfl) (expression_loc exprRel_eq fuel).to_lb
        fun e => ?_
      exact Loc.seq_tail (Q := Eq) (fun _ => rfl) (incrementLoop_loc fuel e).to_lb
        fun e2 => tail3 initializer condition (some e2)
  have tail1 : ∀ (initializer : Option Stmt),
      Loc true true R
        (check SEMICOLON >>= fun m =>
          if (!m) = true then
            (expression fuel >>= fun e =>
              consume SEMICOLON "Expect ';' after loop condition" >>= fun _ =>
              check RPAREN >>= fun m =>
                if (!m) = true then
                  (expression fuel >>= fun e2 => incrementLoop fuel e2 >>= fun e2 =>
                    consume RPAREN "Expect ')' after for clauses" >>= fun _ =>
                    st >>= fun body =>
                      match initializer with
                      | some init =>
                        pure (Stmt.BlockStmt [init,
                          Stmt.WhileStmt e
                            (Stmt.BlockStmt [body, Stmt.ExprStmt e2 t.line] t.line)
                            t.line] t.line)
                      | none =>
                        pure (Stmt.WhileStmt e
                            (Stmt.BlockStmt [body, Stmt.ExprStmt e2 t.line] t.line)
                            t.line))
                else
                  (consume RPAREN "Expect ')' after for clauses" >>= fun _ =>
                    st >>= fun body =>
                      match initializer with
                      | some init =>
                        pure (Stmt.BlockStmt [init, Stmt.WhileStmt e body t.line] t.line)
                      | none => pure (Stmt.WhileStmt e body t.line)))
          else
            (consume SEMICOLON "Expect ';' after loop condition" >>= fun _ =>
              check RPAREN >>= fun m =>
                if (!m) = true then
                  (expression fuel >>= fun e2 => incrementLoop fuel e2 >>= fun e2 =>
                    consume RPAREN "Expect ')' after for clauses" >>= fun _ =>
                    st >>= fun body =>
                      match initializer with
                      | some init =>
                        pure (Stmt.BlockStmt [init,
                          Stmt.WhileStmt (Expr.LiteralExpr "1" NUMBER t.line)
                            (Stmt.BlockStmt [body, Stmt.ExprStmt e2 t.line] t.line)
                            t.line] t.line)
                      | none =>
                        pure (Stmt.WhileStmt (Expr.LiteralExpr "1" NUMBER t.line)
                            (Stmt.BlockStmt [body, Stmt.ExprStmt e2 t.line] t.line)
                            t.line))
                else
                  (consume RPAREN "Expect ')' after for clauses" >>= fun _ =>
                    st >>= fun body =>
                      match initializer with
                      | some init =>
                        pure (Stmt.BlockStmt [init,
                          Stmt.WhileStmt (Expr.LiteralExpr "1" NUMBER t.line) body
                            t.line] t.line)
                      | none =>
                        pure (Stmt.WhileStmt (Expr.LiteralExpr "1" NUMBER t.line) body
                          t.line)))) := by
    intro initializer
    refine Loc.seq_tail (Q := Eq) (fun _ => rfl) (Loc.of_check true (resp_eq SEMICOLON))
      fun m => ?_
    cases m with
    | true => exact tail2 initializer none
    | false =>
      exact Loc.seq_tail (Q := Eq) (fun _ => rfl) (expression_loc exprRel_eq fuel).to_lb
        fun e => tail2 initializer (some e)
  refine Loc.matchType_if (u := true) (by decide) ?_ ?_ (Or.inl rfl)
  · exact tail1 none
  · refine Loc.matchType_if (u := true) (by decide) ?_ ?_ (Or.inl rfl)
    · exact Loc.seq_tail (Q := Eq) (fun _ => rfl) (numVarDeclaration_loc (fun _ => rfl) fuel)
        fun s => tail1 (some s)
    · exact Loc.seq_tail (Q := Eq) (fun _ => rfl)
        (expressionStatement_loc (fun _ => rfl) fuel).to_lb fun s => tail1 (some s)

theorem blockLoop_loc {d : P Stmt} (hd : Loc false true Eq d) (fuel : Nat) :
    ∀ stmts, Loc false false Eq (blockLoop d fuel stmts) := by
  induction fuel with
  | zero => intro stmts; exact Loc.of_noFuel false false Eq
  | succ fuel ih =>
    intro stmts
    rw [blockLoop]
    refine Loc.seq (v := false) (fun _ => rfl) (Loc.of_check false (resp_eq RBRACE))
      fun atBrace => ?_
    have tail : ∀ stop : Bool, Loc false false Eq
        (if stop = true then pure stmts
         else d >>= fun s => blockLoop d fuel (stmts ++ [s])) := by
      intro stop
      cases stop with
      | true => exact Loc.of_pure false Eq _
      | false => exact (Loc.seq (fun _ => rfl) hd fun s => ih _).to_lax
    cases atBrace with
    | true => exact Loc.seq (fun _ => rfl) (Loc.of_pure false Eq _) tail
    | false => exact Loc.seq (fun _ => rfl) (Loc.of_isAtEnd false respEnd_eq) tail

theorem block_loc {R : Token → Token → Prop} (hR : ∀ t, R t t) {d : P Stmt}
    (hd : Loc false true R d) (fuel : Nat) : Loc true true R (block d fuel) := by
  unfold block
  refine Loc.seq_tail hR (Loc.of_previous R) fun t => ?_
  refine Loc.seq_tail (Q := Eq) (fun _ => rfl) (blockLoop_loc (hd.to_eq hR) fuel []).to_lb
    fun stmts => ?_
  exact Loc.seq hR (Loc.of_consume true R (by decide) _) fun _ => Loc.of_pure true R _

theorem returnStatement_loc {R : Token → Token → Prop} (hR : ∀ t, R t t) (fuel : Nat) :
    Loc true true R (returnStatement fuel) := by
  unfold returnStatement
  refine Loc.seq_tail hR (Loc.of_previous R) fun t => ?_
  refine Loc.seq_tail (Q := Eq) (fun _ => rfl) (Loc.of_check true (resp_eq SEMICOLON))
    fun m => ?_
  have tail : ∀ value : Option Expr, Loc true true R
      (consume SEMICOLON "Expect ';' after return value" >>= fun _ =>
        pure (Stmt.ReturnStmt value t.line)) := fun value =>
    Loc.seq hR (Loc.of_consume true R (by decide) _) fun _ => Loc.of_pure true R _
  cases m with
  | true => exact tail none
  | false =>
    exact Loc.seq_tail (Q := Eq) (fun _ => rfl) (expression_loc exprRel_eq fuel).to_lb
      fun e => tail (some e)

theorem printStatement_loc {R : Token → Token → Prop} (hR : ∀ t, R t t) (fuel : Nat) :
    Loc true true R (printStatement fuel) := by
  unfold printStatement
  refine Loc.seq_tail hR (Loc.of_previous R) fun t => ?_
  refine Loc.seq_strict (v := true) hR (Loc.of_consume true R (by decide) _) fun _ => ?_
  refine Loc.seq_tail (Q := Eq) (fun _ => rfl) (expression_loc exprRel_eq fuel).to_lb
    fun e => ?_
  refine Loc.seq_strict (v := true) hR (Loc.of_consume true R (by decide) _) fun _ => ?_
  exact Loc.seq hR (Loc.of_consume true R (by decide) _) fun _ => Loc.of_pure true R _

theorem statement_loc {R : Token → Token → Prop} (hR : StmtRel R) {d : P Stmt}
    (hd : Loc false true R d) (fuel : Nat) : Loc false true R (statement d fuel) := by
  induction fuel with
  | zero => exact Loc.of_noFuel false true R
  | succ fuel ih =>
    rw [statement]
    refine Loc.matchType_if (by decide) (ifStatement_loc hR ih fuel) ?_ (Or.inl rfl)
    refine Loc.matchType_if (by decide) (whileStatement_loc hR.1 ih fuel) ?_ (Or.inl rfl)
    refine Loc.matchType_if (by decide) (forStatement_loc hR.1 ih fuel) ?_ (Or.inl rfl)
    refine Loc.matchType_if (by decide) (block_loc hR.1 hd fuel) ?_ (Or.inl rfl)
    refine Loc.matchType_if (by decide) (returnStatement_loc hR.1 fuel) ?_ (Or.inl rfl)
    refine Loc.matchType_if (by decide) (printStatement_loc hR.1 fuel) ?_ (Or.inl rfl)
    exact expressionStatement_loc hR.1 fuel

theorem parametersLoop_loc (fuel : Nat) :
    ∀ params, Loc false true Eq (parametersLoop fuel params) := by
  induction fuel with
  | zero => intro params; exact Loc.of_noFuel false true Eq
  | succ fuel ih =>
    intro params
    rw [parametersLoop]
    refine Loc.seq_strict (v := false) (fun _ => rfl)
      (Loc.of_consume false Eq (by decide) _) fun tok => ?_
    refine Loc.seq (v := false) (fun _ => rfl) (Loc.of_valueOf true Eq tok) fun name => ?_
    exact Loc.matchType_if (by decide) (ih _).to_lb.to_lax (Loc.of_pure true Eq _)
      (Or.inr (resp_eq COMMA))

theorem function_loc {R : Token → Token → Prop} (hR : ∀ t, R t t) {d : P Stmt}
    (hd : Loc false true R d) (fuel : Nat) : Loc false true R (function d fuel) := by
  unfold function
  refine Loc.seq_strict (v := true) hR (Loc.of_consume false R (by decide) _) fun tok => ?_
  refine Loc.seq_tail (s := false) hR (Loc.of_valueOf true R tok) fun name => ?_
  refine Loc.seq_strict (v := true) hR (Loc.of_consume true R (by decide) _) fun _ => ?_
  refine Loc.seq_tail (Q := Eq) (fun _ => rfl) (Loc.of_check true (resp_eq RPAREN))
    fun m => ?_
  have tail : ∀ params : List String, Loc true true R
      (consume RPAREN "Expect ')' after parameters" >>= fun _ =>
        consume LBRACE "Expect '\x7b' before function body" >>= fun _ =>
          block d fuel >>= fun body => previous >>= fun t =>
            pure (Stmt.FunctionStmt name params body t.line)) := by
    intro params
    refine Loc.seq_strict (v := true) hR (Loc.of_consume true R (by decide) _) fun _ => ?_
    refine Loc.seq_strict (v := true) hR (Loc.of_consume true R (by decide) _) fun _ => ?_
    refine Loc.seq (v := false) hR (block_loc hR hd fuel) fun body => ?_
    exact Loc.seq hR (Loc.of_previous R) fun t => Loc.of_pure true R _
  cases m with
  | true => exact tail []
  | false =>
    exact Loc.seq_tail (Q := Eq) (fun _ => rfl) (parametersLoop_loc fuel []).to_lb tail

theorem declarationBody_loc {R : Token → Token → Prop} (hR : StmtRel R) {d : P Stmt}
    (hd : Loc false true R d) (fuel : Nat) : Loc false true R (declarationBody d fuel) := by
  unfold declarationBody
  refine Loc.matchType_if (by decide) (function_loc hR.1 hd fuel).to_lb ?_ (Or.inl rfl)
  refine Loc.matchType_if (by decide) (typedVarDeclaration_loc hR.1 fuel _) ?_ (Or.inl rfl)
  refine Loc.matchType_if (by decide) (typedVarDeclaration_loc hR.1 fuel _) ?_ (Or.inl rfl)
  refine Loc.matchType_if (by decide) (typedVarDeclaration_loc hR.1 fuel _) ?_ (Or.inl rfl)
  refine Loc.matchType_if (by decide) (importStatement_loc hR.1) ?_ (Or.inl rfl)
  exact statement_loc hR hd fuel

theorem declarationRaw_loc {R : Token → Token → Prop} (hR : StmtRel R) (fuel : Nat) :
    Loc false true R (declarationRaw fuel) := by
  induction fuel with
  | zero => exact Loc.of_noFuel false true R
  | succ fuel ih =>
    rw [declarationRaw]
    exact declarationBody_loc hR ih fuel

theorem stmtRel_eq : StmtRel Eq := ⟨fun _ => rfl, resp_eq _⟩

theorem parseLoopRaw_loc (fuel : Nat) :
    ∀ stmts, Loc false false Eq (parseLoopRaw fuel stmts) := by
  induction fuel with
  | zero => intro stmts; exact Loc.of_noFuel false false Eq
  | succ fuel ih =>
    intro stmts
    rw [parseLoopRaw]
    refine Loc.seq (v := false) (fun _ => rfl) (Loc.of_isAtEnd false respEnd_eq) fun m => ?_
    cases m with
    | true => exact Loc.of_pure false Eq _
    | false =>
      exact (Loc.seq (fun _ => rfl) (declarationRaw_loc stmtRel_eq fuel) fun s => ih _).to_lax

/-! ## More fuel changes no result -/

theorem Le.refl {α : Type} (x : P α) : Le x x := fun _ => Or.inr rfl

theorem Le.bot {α : Type} (x : P α) : Le noFuel x := fun _ => Or.inl rfl

theorem Le.bind {α β : Type} {x1 x2 : P α} {f1 f2 : α → P β}
    (hx : Le x1 x2) (hf : ∀ a, Le (f1 a) (f2 a)) : Le (x1 >>= f1) (x2 >>= f2) := by
  intro p
  rcases hx p with h | h
  · left
    rw [bind_def, P.bind, h]
  · rw [bind_def, bind_def, P.bind, P.bind, h]
    cases hx1 : x1 p with
    | ok a p1 => exact hf a p1
    | error w p1 => exact Or.inr rfl
    | fault => exact Or.inr rfl
    | outOfFuel => exact Or.inl rfl

theorem Le.ite {α : Type} {c : Prop} [Decidable c] {A1 A2 B1 B2 : P α}
    (hA : Le A1 A2) (hB : Le B1 B2) :
    Le (if c then A1 else B1) (if c then A2 else B2) := by
  by_cases h : c
  · rw [if_pos h, if_pos h]; exact hA
  · rw [if_neg h, if_neg h]; exact hB

theorem Le.catch {α : Type} {b1 b2 : P α} (h : Le b1 b2) :
    Le (catchSynchronize b1) (catchSynchronize b2) := by
  intro p
  rcases h p with h1 | h1
  · left
    simp [catchSynchronize, h1]
  · right
    simp [catchSynchronize, h1]

theorem Le.ok {α : Type} {x1 x2 : P α} (h : Le x1 x2) {p p1 : Parser} {a : α}
    (hx : x1 p = Res.ok a p1) : x2 p = Res.ok a p1 := by
  rcases h p with h1 | h1
  · rw [hx] at h1; cases h1
  · rw [h1, hx]

theorem Le.error {α : Type} {x1 x2 : P α} (h : Le x1 x2) {p p1 : Parser} {w : String}
    (hx : x1 p = Res.error w p1) : x2 p = Res.error w p1 := by
  rcases h p with h1 | h1
  · rw [hx] at h1; cases h1
  · rw [h1, hx]

theorem primary_le {e1 e2 : P Expr} (he : Le e1 e2) : Le (primary e1) (primary e2) := by
  rw [primary_eq, primary_eq]
  repeat' first
    | with_reducible exact Le.refl _
    | with_reducible exact he
    | apply Le.bind
    | apply Le.ite
    | intro _

theorem argumentsLoop_le {e1 e2 : P Expr} (he : Le e1 e2) (n : Nat) :
    ∀ m, n ≤ m → ∀ args, Le (argumentsLoop e1 n args) (argumentsLoop e2 m args) := by
  induction n with
  | zero => intro m _ args; exact Le.bot _
  | succ n ih =>
    intro m hm args
    obtain ⟨m, rfl⟩ : ∃ k, m = k + 1 := ⟨m - 1, by omega⟩
    rw [argumentsLoop, argumentsLoop]
    repeat' first
      | with_reducible exact Le.refl _
      | with_reducible exact he
      | with_reducible exact ih m (by omega) _
      | apply Le.bind
      | apply Le.ite
      | intro _

theorem finishCall_le {e1 e2 : P Expr} (he : Le e1 e2) (n m : Nat) (h : n ≤ m)
    (callee : Expr) : Le (finishCall e1 n callee) (finishCall e2 m callee) := by
  unfold finishCall
  repeat' first
    | with_reducible exact Le.refl _
    | with_reducible exact argumentsLoop_le he n m h _
    | apply Le.bind
    | apply Le.ite
    | intro _

theorem callLoop_le {e1 e2 : P Expr} (he : Le e1 e2) (n : Nat) :
    ∀ m, n ≤ m → ∀ x, Le (callLoop e1 n x) (callLoop e2 m x) := by
  induction n with
  | zero => intro m _ x; exact Le.bot _
  | succ n ih =>
    intro m hm x
    obtain ⟨m, rfl⟩ : ∃ k, m = k + 1 := ⟨m - 1, by omega⟩
    rw [callLoop, callLoop]
    repeat' first
      | with_reducible exact Le.refl _
      | with_reducible exact finishCall_le he n m (by omega) _
      | with_reducible exact ih m (by omega) _
      | apply Le.bind
      | apply Le.ite
      | intro _

theorem call_le {e1 e2 : P Expr} (he : Le e1 e2) (n m : Nat) (h : n ≤ m) :
    Le (call e1 n) (call e2 m) := by
  unfold call
  exact Le.bind (primary_le he) fun x => callLoop_le he n m h x

theorem unary_le {e1 e2 : P Expr} (he : Le e1 e2) (n : Nat) :
    ∀ m, n ≤ m → Le (unary e1 n) (unary e2 m) := by
  induction n with
  | zero => intro m _; exact Le.bot _
  | succ n ih =>
    intro m hm
    obtain ⟨m, rfl⟩ : ∃ k, m = k + 1 := ⟨m - 1, by omega⟩
    rw [unary, unary]
    repeat' first
      | with_reducible exact Le.refl _
      | with_reducible exact call_le he n m (by omega)
      | with_reducible exact ih m (by omega)
      | apply Le.bind
      | apply Le.ite
      | intro _

theorem binaryLoop_le {o1 o2 : P Expr} (ho : Le o1 o2) (ops : List TokenType) (n : Nat) :
    ∀ m, n ≤ m → ∀ x, Le (binaryLoop ops o1 n x) (binaryLoop ops o2 m x) := by
  induction n with
  | zero => intro m _ x; exact Le.bot _
  | succ n ih =>
    intro m hm x
    obtain ⟨m, rfl⟩ : ∃ k, m = k + 1 := ⟨m - 1, by omega⟩
    rw [binaryLoop, binaryLoop]
    repeat' first
      | with_reducible exact Le.refl _
      | with_reducible exact ho
      | with_reducible exact ih m (by omega) _
      | apply Le.bind
      | apply Le.ite
      | intro _

theorem level_le {e1 e2 : P Expr} (he : Le e1 e2) (n m : Nat) (h : n ≤ m) (k : Nat) :
    ∀ i, i + k = 9 → Le (levelFn i e1 n) (levelFn i e2 m) := by
  induction k with
  | zero =>
    intro i hi
    have : i = 9 := by omega
    subst this
    exact unary_le he n m h
  | succ k ih =>
    intro i hi
    rw [levelFn_succ i (by omega), levelFn_succ i (by omega)]
    exact Le.bind (ih (i + 1) (by omega)) fun x =>
      binaryLoop_le (ih (i + 1) (by omega)) _ n m h x

theorem logicalOr_le {e1 e2 : P Expr} (he : Le e1 e2) (n m : Nat) (h : n ≤ m) :
    Le (logicalOr e1 n) (logicalOr e2 m) :=
  level_le he n m h 9 0 (by omega)

theorem assignment_le {e1 e2 : P Expr} (he : Le e1 e2) (n : Nat) :
    ∀ m, n ≤ m → Le (assignment e1 n) (assignment e2 m) := by
  induction n with
  | zero => intro m _; exact Le.bot _
  | succ n ih =>
    intro m hm
    obtain ⟨m, rfl⟩ : ∃ k, m = k + 1 := ⟨m - 1, by omega⟩
    rw [assignment, assignment]
    repeat' first
      | with_reducible exact Le.refl _
      | with_reducible exact logicalOr_le he n m (by omega)
      | with_reducible exact ih m (by omega)
      | apply Le.bind
      | apply Le.ite
      | intro _

theorem expression_le (n : Nat) : ∀ m, n ≤ m → Le (expression n) (expression m) := by
  induction n with
  | zero => intro m _; exact Le.bot _
  | succ n ih =>
    intro m hm
    obtain ⟨m, rfl⟩ : ∃ k, m = k + 1 := ⟨m - 1, by omega⟩
    rw [expression, expression]
    exact assignment_le (ih m (by omega)) n m (by omega)

theorem expressionStatement_le (n m : Nat) (h : n ≤ m) :
    Le (expressionStatement n) (expressionStatement m) := by
  unfold expressionStatement
  exact Le.bind (expression_le n m h) fun _ => Le.refl _

theorem typedVarDeclaration_le (n m : Nat) (h : n ≤ m) (type : TokenType) :
    Le (typedVarDeclaration n type) (typedVarDeclaration m type) := by
  unfold typedVarDeclaration
  cases type <;> repeat' first
    | with_reducible exact Le.refl _
    | with_reducible exact expression_le n m h
    | apply Le.bind
    | apply Le.ite
    | intro _

theorem ifStatement_le {s1 s2 : P Stmt} (hs : Le s1 s2) (n m : Nat) (h : n ≤ m) :
    Le (ifStatement s1 n) (ifStatement s2 m) := by
  unfold ifStatement
  repeat' first
    | with_reducible exact Le.refl _
    | with_reducible exact expression_le n m h
    | with_reducible exact hs
    | apply Le.bind
    | apply Le.ite
    | intro _

theorem whileStatement_le {s1 s2 : P Stmt} (hs : Le s1 s2) (n m : Nat) (h : n ≤ m) :
    Le (whileStatement s1 n) (whileStatement s2 m) := by
  unfold whileStatement
  repeat' first
    | with_reducible exact Le.refl _
    | with_reducible exact expression_le n m h
    | with_reducible exact hs
    | apply Le.bind
    | apply Le.ite
    | intro _

theorem incrementLoop_le (n : Nat) :
    ∀ m, n ≤ m → ∀ x, Le (incrementLoop n x) (incrementLoop m x) := by
  induction n with
  | zero => intro m _ x; exact Le.bot _
  | succ n ih =>
    intro m hm x
    obtain ⟨m, rfl⟩ : ∃ k, m = k + 1 := ⟨m - 1, by omega⟩
    rw [incrementLoop, incrementLoop]
    repeat' first
      | with_reducible exact Le.refl _
      | with_reducible exact ih m (by omega) _
      | apply Le.bind
      | apply Le.ite
      | intro _

theorem forStatement_le {s1 s2 : P Stmt} (hs : Le s1 s2) (n m : Nat) (h : n ≤ m) :
    Le (forStatement s1 n) (forStatement s2 m) := by
  unfold forStatement
  repeat' first
    | with_reducible exact Le.refl _
    | with_reducible exact expression_le n m h
    | with_reducible exact expressionStatement_le n m h
    | with_reducible exact typedVarDeclaration_le n m h _
    | with_reducible exact incrementLoop_le n m h _
    | with_reducible exact hs
    | apply Le.bind
    | apply Le.ite
    | intro _

theorem blockLoop_le {d1 d2 : P Stmt} (hd : Le d1 d2) (n : Nat) :
    ∀ m, n ≤ m → ∀ x, Le (blockLoop d1 n x) (blockLoop d2 m x) := by
  induction n with
  | zero => intro m _ x; exact Le.bot _
  | succ n ih =>
    intro m hm x
    obtain ⟨m, rfl⟩ : ∃ k, m = k + 1 := ⟨m - 1, by omega⟩
    rw [blockLoop, blockLoop]
    repeat' first
      | with_reducible exact Le.refl _
      | with_reducible exact hd
      | with_reducible exact ih m (by omega) _
      | apply Le.bind
      | apply Le.ite
      | intro _

theorem block_le {d1 d2 : P Stmt} (hd : Le d1 d2) (n m : Nat) (h : n ≤ m) :
    Le (block d1 n) (block d2 m) := by
  unfold block
  repeat' first
    | with_reducible exact Le.refl _
    | with_reducible exact blockLoop_le hd n m h _
    | apply Le.bind
    | apply Le.ite
    | intro _

theorem returnStatement_le (n m : Nat) (h : n ≤ m) :
    Le (returnStatement n) (returnStatement m) := by
  unfold returnStatement
  repeat' first
    | with_reducible exact Le.refl _
    | with_reducible exact expression_le n m h
    | apply Le.bind
    | apply Le.ite
    | intro _

theorem printStatement_le (n m : Nat) (h : n ≤ m) :
    Le (printStatement n) (printStatement m) := by
  unfold printStatement
  repeat' first
    | with_reducible exact Le.refl _
    | with_reducible exact expression_le n m h
    | apply Le.bind
    | apply Le.ite
    | intro _

theorem statement_le {d1 d2 : P Stmt} (hd : Le d1 d2) (n : Nat) :
    ∀ m, n ≤ m → Le (statement d1 n) (statement d2 m) := by
  induction n with
  | zero => intro m _; exact Le.bot _
  | succ n ih =>
    intro m hm
    obtain ⟨m, rfl⟩ : ∃ k, m = k + 1 := ⟨m - 1, by omega⟩
    rw [statement, statement]
    repeat' first
      | with_reducible exact Le.refl _
      | with_reducible exact ifStatement_le (ih m (by omega)) n m (by omega)
      | with_reducible exact whileStatement_le (ih m (by omega)) n m (by omega)
      | with_reducible exact forStatement_le (ih m (by omega)) n m (by omega)
      | with_reducible exact block_le hd n m (by omega)
      | with_reducible exact returnStatement_le n m (by omega)
      | with_reducible exact printStatement_le n m (by omega)
      | with_reducible exact expressionStatement_le n m (by omega)
      | apply Le.bind
      | apply Le.ite
      | intro _

theorem parametersLoop_le (n : Nat) :
    ∀ m, n ≤ m → ∀ x, Le (parametersLoop n x) (parametersLoop m x) := by
  induction n with
  | zero => intro m _ x; exact Le.bot _
  | succ n ih =>
    intro m hm x
    obtain ⟨m, rfl⟩ : ∃ k, m = k + 1 := ⟨m - 1, by omega⟩
    rw [parametersLoop, parametersLoop]
    repeat' first
      | with_reducible exact Le.refl _
      | with_reducible exact ih m (by omega) _
      | apply Le.bind
      | apply Le.ite
      | intro _

theorem function_le {d1 d2 : P Stmt} (hd : Le d1 d2) (n m : Nat) (h : n ≤ m) :
    Le (function d1 n) (function d2 m) := by
  unfold function
  repeat' first
    | with_reducible exact Le.refl _
    | with_reducible exact parametersLoop_le n m h _
    | with_reducible exact block_le hd n m h
    | apply Le.bind
    | apply Le.ite
    | intro _

theorem declarationBody_le {d1 d2 : P Stmt} (hd : Le d1 d2) (n m : Nat) (h : n ≤ m) :
    Le (declarationBody d1 n) (declarationBody d2 m) := by
  unfold declarationBody numVarDeclaration strVarDeclaration arrVarDeclaration
  repeat' first
    | with_reducible exact Le.refl _
    | with_reducible exact function_le hd n m h
    | with_reducible exact typedVarDeclaration_le n m h _
    | with_reducible exact statement_le hd n m h
    | apply Le.bind
    | apply Le.ite
    | intro _

theorem declaration_le (n : Nat) : ∀ m, n ≤ m → Le (declaration n) (declaration m) := by
  induction n with
  | zero => intro m _; exact Le.bot _
  | succ n ih =>
    intro m hm
    obtain ⟨m, rfl⟩ : ∃ k, m = k + 1 := ⟨m - 1, by omega⟩
    rw [declaration, declaration]
    exact Le.catch (declarationBody_le (ih m (by omega)) n m (by omega))

theorem declarationRaw_le (n : Nat) :
    ∀ m, n ≤ m → Le (declarationRaw n) (declarationRaw m) := by
  induction n with
  | zero => intro m _; exact Le.bot _
  | succ n ih =>
    intro m hm
    obtain ⟨m, rfl⟩ : ∃ k, m = k + 1 := ⟨m - 1, by omega⟩
    rw [declarationRaw, declarationRaw]
    exact declarationBody_le (ih m (by omega)) n m (by omega)

theorem parseLoop_le (n : Nat) :
    ∀ m, n ≤ m → ∀ x, Le (parseLoop n x) (parseLoop m x) := by
  induction n with
  | zero => intro m _ x; exact Le.bot _
  | succ n ih =>
    intro m hm x
    obtain ⟨m, rfl⟩ : ∃ k, m = k + 1 := ⟨m - 1, by omega⟩
    rw [parseLoop, parseLoop]
    repeat' first
      | with_reducible exact Le.refl _
      | with_reducible exact declaration_le n m (by omega)
      | with_reducible exact ih m (by omega) _
      | apply Le.bind
      | apply Le.ite
      | intro _

theorem parseLoopRaw_le (n : Nat) :
    ∀ m, n ≤ m → ∀ x, Le (parseLoopRaw n x) (parseLoopRaw m x) := by
  induction n with
  | zero => intro m _ x; exact Le.bot _
  | succ n ih =>
    intro m hm x
    obtain ⟨m, rfl⟩ : ∃ k, m = k + 1 := ⟨m - 1, by omega⟩
    rw [parseLoopRaw, parseLoopRaw]
    repeat' first
      | with_reducible exact Le.refl _
      | with_reducible exact declarationRaw_le n m (by omega)
      | with_reducible exact ih m (by omega) _
      | apply Le.bind
      | apply Le.ite
      | intro _

/-- More fuel does not change what `parse` returns or throws. -/
theorem parse_mono {n m : Nat} (h : n ≤ m) {toks : List Token} {o : Outcome (List Stmt)}
    (ho : parse n toks = o) (hne : o ≠ Outcome.outOfFuel) : parse m toks = o := by
  unfold parse at *
  rcases parseLoop_le n m h [] ⟨[], toks⟩ with h1 | h1
  · rw [h1] at ho
    exact absurd ho.symm hne
  · rw [h1]; exact ho

/-! ## The parser with and without panic-mode recovery -/

theorem Sim.same {α : Type} (x : P α) : Sim x x where
  ok := fun _ _ _ h => h
  err := fun p w q h =>
    ⟨fun a q2 h2 => (by rw [h] at h2; cases h2), fun hq => ⟨q, h, hq⟩⟩
  fault := fun _ h => h
  fuel := fun _ h => h

theorem Sim.step {α β : Type} {x1 y1 : P α} {f g : α → P β}
    (h1 : Sim x1 y1) (h2 : ∀ a, Sim (f a) (g a)) : Sim (x1 >>= f) (y1 >>= g) := by
  constructor
  · intro p b q h
    obtain ⟨a, p1, ha, hb⟩ := bind_eq_ok h
    rw [bind_ok (h1.ok p a p1 ha)]
    exact (h2 a).ok p1 b q hb
  · intro p w q h
    rcases bind_eq_error h with ha | ⟨a, p1, ha, hb⟩
    · obtain ⟨hn, hi⟩ := h1.err p w q ha
      constructor
      · intro b q2 hx
        obtain ⟨a, p1, hxa, _⟩ := bind_eq_ok hx
        exact hn a p1 hxa
      · intro hq
        obtain ⟨q2, hx, hq2⟩ := hi hq
        exact ⟨q2, by rw [bind_error hx], hq2⟩
    · rw [bind_ok (h1.ok p a p1 ha)]
      exact (h2 a).err p1 w q hb
  · intro p h
    rw [bind_def, P.bind] at h
    cases hy : y1 p with
    | ok a p1 =>
      rw [hy] at h
      rw [bind_ok (h1.ok p a p1 hy)]
      exact (h2 a).fault p1 h
    | error w p1 => rw [hy] at h; cases h
    | fault =>
      rw [bind_def, P.bind, h1.fault p hy]
    | outOfFuel => rw [hy] at h; cases h
  · intro p h
    rw [bind_def, P.bind] at h
    cases hy : y1 p with
    | ok a p1 =>
      rw [hy] at h
      rw [bind_ok (h1.ok p a p1 hy)]
      exact (h2 a).fuel p1 h
    | error w p1 => rw [hy] at h; cases h
    | fault => rw [hy] at h; cases h
    | outOfFuel =>
      rw [bind_def, P.bind, h1.fuel p hy]

theorem Sim.cond {α : Type} {c : Prop} [Decidable c] {A1 A2 B1 B2 : P α}
    (hA : Sim A1 A2) (hB : Sim B1 B2) :
    Sim (if c then A1 else B1) (if c then A2 else B2) := by
  by_cases h : c
  · rw [if_pos h, if_pos h]; exact hA
  · rw [if_neg h, if_neg h]; exact hB

theorem synchronizeLoop_inv (rem : List Token) :
    ∀ (t0 : Token) (c : List Token), (∃ t ∈ rem, t.type = END_OF_FILE) →
      ∃ q, synchronizeLoop (t0 :: c) rem = Res.ok () q ∧ Inv q := by
  induction rem with
  | nil => intro t0 c h; obtain ⟨t, ht, _⟩ := h; cases ht
  | cons t rest ih =>
    intro t0 c h
    have hq : Inv ⟨t0 :: c, t :: rest⟩ := ⟨h, Or.inl (List.cons_ne_nil _ _)⟩
    rw [synchronizeLoop]
    by_cases h1 : t.type = END_OF_FILE
    · exact ⟨_, by simp [h1], hq⟩
    · by_cases h2 : t0.type = SEMICOLON
      · exact ⟨_, by simp [h1, h2], hq⟩
      · by_cases h3 : isSyncStart t.type = true
        · exact ⟨_, by simp [h1, h2, h3], hq⟩
        · have hrest : ∃ t1 ∈ rest, t1.type = END_OF_FILE := by
            obtain ⟨t1, ht1, he⟩ := h
            rcases List.mem_cons.1 ht1 with rfl | hm
            · exact absurd he h1
            · exact ⟨t1, hm, he⟩
          obtain ⟨q, hp, hq2⟩ := ih t (t0 :: c) hrest
          exact ⟨q, by simp [h1, h2, h3, hp], hq2⟩

/-- From a state of a run in progress `synchronize` returns, in such a
state. -/
theorem synchronize_inv (p : Parser) (h : Inv p) :
    ∃ q, synchronize p = Res.ok () q ∧ Inv q := by
  obtain ⟨c, rem⟩ := p
  obtain ⟨heof, hc⟩ := h
  cases rem with
  | nil => obtain ⟨t, ht, _⟩ := heof; cases ht
  | cons t rest =>
    by_cases h1 : t.type = END_OF_FILE
    · rcases hc with hc | ⟨t2, r2, hr, hne⟩
      · cases c with
        | nil => exact absurd rfl hc
        | cons t0 c =>
          refine ⟨⟨t0 :: c, t :: rest⟩, ?_, heof, Or.inl (List.cons_ne_nil _ _)⟩
          simp [synchronize, advance, bind_def, P.bind, isAtEnd_cons, h1, previous,
            synchronizeLoop, pure_def]
      · simp only [List.cons.injEq] at hr
        rw [← hr.1] at hne
        exact absurd h1 hne
    · have hrest : ∃ t1 ∈ rest, t1.type = END_OF_FILE := by
        obtain ⟨t1, ht1, he⟩ := heof
        rcases List.mem_cons.1 ht1 with rfl | hm
        · exact absurd he h1
        · exact ⟨t1, hm, he⟩
      obtain ⟨q, hp, hq⟩ := synchronizeLoop_inv rest t c hrest
      refine ⟨q, ?_, hq⟩
      rw [synchronize, bind_ok (advance_cons _ _ _ h1)]
      exact hp

theorem Sim.recover {α : Type} {x y : P α} (h : Sim x y) : Sim (catchSynchronize x) y := by
  constructor
  · intro p a q hy
    exact catchSynchronize_ok (h.ok p a q hy)
  · intro p w q hy
    obtain ⟨hn, hi⟩ := h.err p w q hy
    constructor
    · intro a q2 hx
      unfold catchSynchronize at hx
      cases hxp : x p with
      | ok a1 q1 => exact hn a1 q1 hxp
      | error w1 q1 =>
        rw [hxp] at hx
        simp only at hx
        cases hs : synchronize q1 <;> rw [hs] at hx <;> cases hx
      | fault => rw [hxp] at hx; cases hx
      | outOfFuel => rw [hxp] at hx; cases hx
    · intro hq
      obtain ⟨q2, hx, hq2⟩ := hi hq
      obtain ⟨q3, hs, hq3⟩ := synchronize_inv q2 hq2
      exact ⟨q3, by simp [catchSynchronize, hx, hs], hq3⟩
  · intro p hy
    simp [catchSynchronize, h.fault p hy]
  · intro p hy
    simp [catchSynchronize, h.fuel p hy]

theorem ifStatement_sim {s1 s2 : P Stmt} (hs : Sim s1 s2) (n : Nat) :
    Sim (ifStatement s1 n) (ifStatement s2 n) := by
  unfold ifStatement
  repeat' first
    | with_reducible exact Sim.same _
    | with_reducible exact hs
    | apply Sim.step
    | apply Sim.cond
    | intro _

theorem whileStatement_sim {s1 s2 : P Stmt} (hs : Sim s1 s2) (n : Nat) :
    Sim (whileStatement s1 n) (whileStatement s2 n) := by
  unfold whileStatement
  repeat' first
    | with_reducible exact Sim.same _
    | with_reducible exact hs
    | apply Sim.step
    | apply Sim.cond
    | intro _

theorem forStatement_sim {s1 s2 : P Stmt} (hs : Sim s1 s2) (n : Nat) :
    Sim (forStatement s1 n) (forStatement s2 n) := by
  unfold forStatement
  repeat' first
    | with_reducible exact Sim.same _
    | with_reducible exact hs
    | apply Sim.step
    | apply Sim.cond
    | intro _

theorem blockLoop_sim {d1 d2 : P Stmt} (hd : Sim d1 d2) (n : Nat) :
    ∀ x, Sim (blockLoop d1 n x) (blockLoop d2 n x) := by
  induction n with
  | zero => intro x; exact Sim.same _
  | succ n ih =>
    intro x
    rw [blockLoop, blockLoop]
    repeat' first
      | with_reducible exact Sim.same _
      | with_reducible exact hd
      | with_reducible exact ih _
      | apply Sim.step
      | apply Sim.cond
      | intro _

theorem block_sim {d1 d2 : P Stmt} (hd : Sim d1 d2) (n : Nat) :
    Sim (block d1 n) (block d2 n) := by
  unfold block
  repeat' first
    | with_reducible exact Sim.same _
    | with_reducible exact blockLoop_sim hd n _
    | apply Sim.step
    | apply Sim.cond
    | intro _

theorem statement_sim {d1 d2 : P Stmt} (hd : Sim d1 d2) (n : Nat) :
    Sim (statement d1 n) (statement d2 n) := by
  induction n with
  | zero => exact Sim.same _
  | succ n ih =>
    rw [statement, statement]
    repeat' first
      | with_reducible exact Sim.same _
      | with_reducible exact ifStatement_sim ih n
      | with_reducible exact whileStatement_sim ih n
      | with_reducible exact forStatement_sim ih n
      | with_reducible exact block_sim hd n
      | apply Sim.step
      | apply Sim.cond
      | intro _

theorem function_sim {d1 d2 : P Stmt} (hd : Sim d1 d2) (n : Nat) :
    Sim (function d1 n) (function d2 n) := by
  unfold function
  repeat' first
    | with_reducible exact Sim.same _
    | with_reducible exact block_sim hd n
    | apply Sim.step
    | apply Sim.cond
    | intro _

theorem declarationBody_sim {d1 d2 : P Stmt} (hd : Sim d1 d2) (n : Nat) :
    Sim (declarationBody d1 n) (declarationBody d2 n) := by
  unfold declarationBody
  repeat' first
    | with_reducible exact Sim.same _
    | with_reducible exact function_sim hd n
    | with_reducible exact statement_sim hd n
    | apply Sim.step
    | apply Sim.cond
    | intro _

theorem declaration_sim (n : Nat) : Sim (declaration n) (declarationRaw n) := by
  induction n with
  | zero => exact Sim.same _
  | succ n ih =>
    rw [declaration, declarationRaw]
    exact Sim.recover (declarationBody_sim ih n)

theorem parseLoop_sim (n : Nat) : ∀ x, Sim (parseLoop n x) (parseLoopRaw n x) := by
  induction n with
  | zero => intro x; exact Sim.same _
  | succ n ih =>
    intro x
    rw [parseLoop, parseLoopRaw]
    repeat' first
      | with_reducible exact Sim.same _
      | with_reducible exact declaration_sim n
      | with_reducible exact ih _
      | apply Sim.step
      | apply Sim.cond
      | intro _

/-- Where the parser with recovery returns, the parser without it returns the
same. -/
theorem Sim.ok_iff {α : Type} {x y : P α} (h : Sim x y) (p : Parser) (a : α) (q : Parser) :
    x p = Res.ok a q ↔ y p = Res.ok a q := by
  constructor
  · intro hx
    cases hy : y p with
    | ok a1 q1 =>
      have := h.ok p a1 q1 hy
      rw [hx] at this
      exact this.symm
    | error w q1 => exact absurd hx ((h.err p w q1 hy).1 a q)
    | fault => rw [h.fault p hy] at hx; cases hx
    | outOfFuel => rw [h.fuel p hy] at hx; cases hx
  · exact h.ok p a q

/-! ## Neither out-of-range reads nor exhausted fuel -/

theorem valid_nonempty {c rem : List Token} (h : Valid ⟨c, rem⟩) :
    ∃ t r, rem = t :: r := by
  obtain ⟨⟨e, he, _⟩, _⟩ := h
  cases rem with
  | nil => cases he
  | cons t r => exact ⟨t, r, rfl⟩

theorem valid_suffix {c c2 u s1 : List Token} (h : Valid ⟨c, u ++ s1⟩)
    (hu : ∀ t ∈ u, t.type ≠ END_OF_FILE) : Valid ⟨c2, s1⟩ := by
  obtain ⟨⟨e, he, hty⟩, hl⟩ := h
  refine ⟨?_, fun t ht => hl t (List.mem_append_right _ ht)⟩
  rcases List.mem_append.1 he with h1 | h1
  · exact absurd hty (hu e h1)
  · exact ⟨e, h1, hty⟩

theorem valid_tail {c c2 : List Token} {t : Token} {r : List Token}
    (h : Valid ⟨c, t :: r⟩) (ht : t.type ≠ END_OF_FILE) : Valid ⟨c2, r⟩ :=
  valid_suffix (u := [t]) h (by
    intro t2 h2
    simp only [List.mem_singleton] at h2
    subst h2
    exact ht)

theorem safe_zero {α : Type} (b s : Bool) (x : P α) : Safe b s 0 x := by
  intro c rem hv _ hn
  obtain ⟨t, r, h⟩ := valid_nonempty hv
  subst h
  simp at hn

theorem safe_mono {α : Type} {b s : Bool} {n m : Nat} {x : P α} (h : Safe b s n x)
    (hm : m ≤ n) : Safe b s m x :=
  fun c rem hv hb hn => h c rem hv hb (le_trans hn hm)

theorem safe_weaken {α : Type} {b s b2 s2 : Bool} {n : Nat} {x : P α} (h : Safe b s n x)
    (hb : b = true → b2 = true) (hs : s2 = true → s = true) : Safe b2 s2 n x := by
  intro c rem hv hb2 hn
  rcases h c rem hv (fun h1 => hb2 (hb h1)) hn with h1 | ⟨a, u, s1, h1, h2, h3, h4⟩
  · exact Or.inl h1
  · exact Or.inr ⟨a, u, s1, h1, h2, h3, fun h5 => h4 (hs h5)⟩

theorem safe_to_lb {α : Type} {b s : Bool} {n : Nat} {x : P α} (h : Safe b s n x) :
    Safe true s n x :=
  safe_weaken h (fun _ => rfl) (fun h => h)

theorem safe_to_lax {α : Type} {b s : Bool} {n : Nat} {x : P α} (h : Safe b s n x) :
    Safe b false n x :=
  safe_weaken h (fun h => h) (fun h => absurd h (by decide))

theorem safe_bind_gen {α β : Type} {b s1 b2 s2 : Bool} {n n2 : Nat} {x : P α}
    {f : α → P β} (hx : Safe b s1 n x) (hf : ∀ a, Safe b2 s2 n2 (f a))
    (hb : b2 = true → b = true ∨ s1 = true)
    (hn : n ≤ n2 ∨ (s1 = true ∧ n ≤ n2 + 1)) : Safe b (s1 || s2) n (x >>= f) := by
  intro c rem hv hbc hlen
  rcases hx c rem hv hbc hlen with ⟨w, q, h1⟩ | ⟨a, u, s3, h1, h2, h3, h4⟩
  · exact Or.inl ⟨w, q, bind_error h1⟩
  · subst h2
    have hv2 : Valid ⟨u.reverse ++ c, s3⟩ := valid_suffix hv h3
    have hc2 : b2 = true → u.reverse ++ c ≠ [] := by
      intro h5
      rcases hb h5 with h6 | h6
      · have := hbc h6
        simp [this]
      · have := h4 h6
        simp [this]
    have hl2 : s3.length ≤ n2 := by
      simp only [List.length_append] at hlen
      rcases hn with h5 | ⟨h5, h6⟩
      · omega
      · have := h4 h5
        have : 0 < u.length := List.length_pos.2 this
        omega
    rw [bind_ok h1]
    rcases hf a _ _ hv2 hc2 hl2 with ⟨w, q, h5⟩ | ⟨a2, u2, s4, h5, h6, h7, h8⟩
    · exact Or.inl ⟨w, q, h5⟩
    · subst h6
      refine Or.inr ⟨a2, u ++ u2, s4, ?_, by simp, ?_, ?_⟩
      · rw [h5]; simp
      · intro t ht
        rcases List.mem_append.1 ht with h9 | h9
        · exact h3 t h9
        · exact h7 t h9
      · intro h9
        simp only [Bool.or_eq_true] at h9
        rcases h9 with h9 | h9
        · have := h4 h9
          simp [this]
        · have := h8 h9
          simp [this]

theorem safe_seq {α β : Type} {b s v : Bool} {n : Nat} {x : P α} {f : α → P β}
    (hx : Safe b s n x) (hf : ∀ a, Safe b v n (f a)) : Safe b s n (x >>= f) :=
  safe_weaken (safe_bind_gen hx hf (fun h => Or.inl h) (Or.inl (le_refl n))) (fun h => h)
    (fun h => by simp [h])

theorem safe_seq_tail {α β : Type} {b s : Bool} {n : Nat} {x : P α} {f : α → P β}
    (hx : Safe b s n x) (hf : ∀ a, Safe b true n (f a)) : Safe b true n (x >>= f) :=
  safe_weaken (safe_bind_gen hx hf (fun h => Or.inl h) (Or.inl (le_refl n))) (fun h => h)
    (fun _ => by simp)

theorem safe_seq_strict {α β : Type} {b v : Bool} {n : Nat} {x : P α} {f : α → P β}
    (hx : Safe b true n x) (hf : ∀ a, Safe true v (n - 1) (f a)) :
    Safe b true n (x >>= f) :=
  safe_weaken (safe_bind_gen hx hf (fun _ => Or.inr rfl) (Or.inr ⟨rfl, by omega⟩))
    (fun h => h) (fun _ => by simp)

theorem safe_pure {α : Type} (b : Bool) (n : Nat) (a : α) :
    Safe b false n (pure a : P α) := by
  intro c rem _ _ _
  exact Or.inr ⟨a, [], rem, rfl, rfl, by simp, fun h => absurd h (by decide)⟩

theorem safe_raise {α : Type} (b s : Bool) (n : Nat) (w : String) :
    Safe b s n (raise w : P α) := by
  intro c rem _ _ _
  exact Or.inl ⟨w, _, rfl⟩

theorem safe_previous (n : Nat) : Safe true false n previous := by
  intro c rem _ hc _
  cases c with
  | nil => exact absurd rfl (hc rfl)
  | cons t c =>
    exact Or.inr ⟨t, [], rem, rfl, rfl, by simp, fun h => absurd h (by decide)⟩

theorem safe_peek_raise {α : Type} (b s : Bool) (n : Nat) (f : Token → String) :
    Safe b s n (peek >>= fun t => (raise (f t) : P α)) := by
  intro c rem hv _ _
  obtain ⟨t, r, h⟩ := valid_nonempty hv
  subst h
  exact Or.inl ⟨f t, _, rfl⟩

theorem safe_check (b : Bool) (n : Nat) (ty : TokenType) : Safe b false n (check ty) := by
  intro c rem hv _ _
  obtain ⟨t, r, h⟩ := valid_nonempty hv
  subst h
  exact Or.inr ⟨_, [], t :: r, check_cons ty c t r, rfl, by simp,
    fun h => absurd h (by decide)⟩

theorem safe_isAtEnd (b : Bool) (n : Nat) : Safe b false n isAtEnd := by
  intro c rem hv _ _
  obtain ⟨t, r, h⟩ := valid_nonempty hv
  subst h
  exact Or.inr ⟨_, [], t :: r, isAtEnd_cons c t r, rfl, by simp,
    fun h => absurd h (by decide)⟩

theorem safe_consume (b : Bool) (n : Nat) (ty : TokenType) (msg : String) :
    Safe b true n (consume ty msg) := by
  intro c rem hv _ _
  obtain ⟨t, r, h⟩ := valid_nonempty hv
  subst h
  rw [consume_cons]
  by_cases h1 : t.type ≠ END_OF_FILE ∧ t.type = ty
  · rw [if_pos h1]
    refine Or.inr ⟨t, [t], r, rfl, rfl, ?_, fun _ => by simp⟩
    intro t2 h2
    simp only [List.mem_singleton] at h2
    subst h2
    exact h1.1
  · rw [if_neg h1]
    exact Or.inl ⟨_, _, rfl⟩

/-- A branch on `match(types)`: the branch taken after a match runs with one
token less ahead. -/
theorem safe_matchTypes_if {α : Type} {b u s : Bool} {n : Nat} {tys : List TokenType}
    {A B : P α} (hA : Safe true u (n - 1) A) (hB : Safe b s n B) :
    Safe b s n (matchTypes tys >>= fun m => if m = true then A else B) := by
  intro c rem hv hbc hlen
  obtain ⟨t, r, h⟩ := valid_nonempty hv
  subst h
  rw [bind_def, P.bind, matchTypes_cons]
  by_cases h1 : t.type ≠ END_OF_FILE ∧ t.type ∈ tys
  · rw [if_pos h1]
    simp only [if_true]
    have hl : r.length ≤ n - 1 := by
      simp only [List.length_cons] at hlen
      omega
    rcases hA (t :: c) r (valid_tail hv h1.1) (fun _ => List.cons_ne_nil _ _) hl with
      ⟨w, q, h2⟩ | ⟨a, u2, s2, h2, h3, h4, _⟩
    · exact Or.inl ⟨w, q, h2⟩
    · subst h3
      refine Or.inr ⟨a, t :: u2, s2, ?_, rfl, ?_, fun _ => List.cons_ne_nil _ _⟩
      · rw [h2]; simp
      · intro t2 h5
        rcases List.mem_cons.1 h5 with h6 | h6
        · subst h6; exact h1.1
        · exact h4 t2 h6
  · rw [if_neg h1]
    simp only [Bool.false_eq_true, if_false]
    exact hB c (t :: r) hv hbc hlen

theorem safe_matchType_if {α : Type} {b u s : Bool} {n : Nat} {ty : TokenType}
    {A B : P α} (hA : Safe true u (n - 1) A) (hB : Safe b s n B) :
    Safe b s n (matchType ty >>= fun m => if m = true then A else B) := by
  rw [matchType_eq_matchTypes]
  exact safe_matchTypes_if hA hB

/-- A branch on `match(types)` over kinds that carry a lexeme, whose taken
branch reads the text of the token just consumed. -/
theorem safe_matchTypes_value {α : Type} {b u s : Bool} {n : Nat} {tys : List TokenType}
    {K : Token → String → P α} {B : P α}
    (htys : ∀ ty ∈ tys, ty = IDENTIFIER ∨ ty = NUMBER ∨ ty = STRING_LIT)
    (hK : ∀ t v, Safe true u (n - 1) (K t v)) (hB : Safe b s n B) :
    Safe b s n (matchTypes tys >>= fun m =>
      if m = true then (previous >>= fun t => valueOf t >>= fun v => K t v) else B) := by
  intro c rem hv hbc hlen
  obtain ⟨t, r, h⟩ := valid_nonempty hv
  subst h
  rw [bind_def, P.bind, matchTypes_cons]
  by_cases h1 : t.type ≠ END_OF_FILE ∧ t.type ∈ tys
  · rw [if_pos h1]
    simp only [if_true]
    have hl : r.length ≤ n - 1 := by
      simp only [List.length_cons] at hlen
      omega
    have hlex : t.value ≠ none := hv.2 t (List.mem_cons_self _ _) (htys _ h1.2)
    obtain ⟨v, hval⟩ : ∃ v, t.value = some v := by
      cases hv : t.value with
      | none => exact absurd hv hlex
      | some v => exact ⟨v, rfl⟩
    have hrun : (previous >>= fun t => valueOf t >>= fun v => K t v) ⟨t :: c, r⟩
        = K t v ⟨t :: c, r⟩ := by
      rw [bind_ok (previous_cons _ _ _)]
      have : valueOf t ⟨t :: c, r⟩ = Res.ok v ⟨t :: c, r⟩ := by
        simp [valueOf, hval, pure_def]
      rw [bind_ok this]
    rw [hrun]
    rcases hK t v (t :: c) r (valid_tail hv h1.1) (fun _ => List.cons_ne_nil _ _) hl with
      ⟨w, q, h2⟩ | ⟨a, u2, s2, h2, h3, h4, _⟩
    · exact Or.inl ⟨w, q, h2⟩
    · subst h3
      refine Or.inr ⟨a, t :: u2, s2, ?_, rfl, ?_, fun _ => List.cons_ne_nil _ _⟩
      · rw [h2]; simp
      · intro t2 h5
        rcases List.mem_cons.1 h5 with h6 | h6
        · subst h6; exact h1.1
        · exact h4 t2 h6
  · rw [if_neg h1]
    simp only [Bool.false_eq_true, if_false]
    exact hB c (t :: r) hv hbc hlen

/-- The call `consume(type, message).value.value()` for a kind that carries a
lexeme. -/
theorem safe_consume_value {α : Type} {b u : Bool} {n : Nat} {ty : TokenType}
    {msg : String} {K : String → P α}
    (hty : ty = IDENTIFIER ∨ ty = NUMBER ∨ ty = STRING_LIT)
    (hK : ∀ v, Safe true u (n - 1) (K v)) :
    Safe b true n (consume ty msg >>= fun t => valueOf t >>= fun v => K v) := by
  intro c rem hv hbc hlen
  obtain ⟨t, r, h⟩ := valid_nonempty hv
  subst h
  rw [bind_def, P.bind, consume_cons]
  by_cases h1 : t.type ≠ END_OF_FILE ∧ t.type = ty
  · rw [if_pos h1]
    simp only []
    have hl : r.length ≤ n - 1 := by
      simp only [List.length_cons] at hlen
      omega
    have hlex : t.value ≠ none := hv.2 t (List.mem_cons_self _ _) (h1.2 ▸ hty)
    obtain ⟨v, hval⟩ : ∃ v, t.value = some v := by
      cases hv : t.value with
      | none => exact absurd hv hlex
      | some v => exact ⟨v, rfl⟩
    have : valueOf t ⟨t :: c, r⟩ = Res.ok v ⟨t :: c, r⟩ := by
      simp [valueOf, hval, pure_def]
    rw [bind_ok this]
    rcases hK v (t :: c) r (valid_tail hv h1.1) (fun _ => List.cons_ne_nil _ _) hl with
      ⟨w, q, h2⟩ | ⟨a, u2, s2, h2, h3, h4, _⟩
    · exact Or.inl ⟨w, q, h2⟩
    · subst h3
      refine Or.inr ⟨a, t :: u2, s2, ?_, rfl, ?_, fun _ => List.cons_ne_nil _ _⟩
      · rw [h2]; simp
      · intro t2 h5
        rcases List.mem_cons.1 h5 with h6 | h6
        · subst h6; exact h1.1
        · exact h4 t2 h6
  · rw [if_neg h1]
    exact Or.inl ⟨_, _, rfl⟩

theorem safe_matchType_value {α : Type} {b u s : Bool} {n : Nat} {ty : TokenType}
    {K : Token → String → P α} {B : P α}
    (hty : ty = IDENTIFIER ∨ ty = NUMBER ∨ ty = STRING_LIT)
    (hK : ∀ t v, Safe true u (n - 1) (K t v)) (hB : Safe b s n B) :
    Safe b s n (matchType ty >>= fun m =>
      if m = true then (previous >>= fun t => valueOf t >>= fun v => K t v) else B) := by
  rw [matchType_eq_matchTypes]
  refine safe_matchTypes_value ?_ hK hB
  intro ty1 h1
  simp only [List.mem_singleton] at h1
  subst h1
  exact hty

theorem primary_safe {n : Nat} {e : P Expr} (he : Safe false true n e) :
    Safe false true (n + 1) (primary e) := by
  rw [primary_eq]
  refine safe_matchTypes_value (u := false) ?_ (fun t v => safe_pure true _ _) ?_
  · intro ty h
    simp only [List.mem_cons, List.mem_singleton, List.not_mem_nil, or_false] at h
    rcases h with h | h
    · exact Or.inr (Or.inl h)
    · exact Or.inr (Or.inr h)
  · refine safe_matchType_value (u := false) (Or.inl rfl) (fun t v => safe_pure true _ _) ?_
    refine safe_matchType_if (u := true) ?_ (safe_peek_raise false true _ _)
    exact safe_seq (safe_to_lb he) fun x =>
      safe_seq (safe_consume true _ _ _) fun _ => safe_pure true _ _

theorem argumentsLoop_safe {n : Nat} {e : P Expr} (he : Safe false true n e) (fuel : Nat) :
    ∀ (m : Nat) (args : List Expr), m ≤ n → m ≤ fuel →
      Safe false true m (argumentsLoop e fuel args) := by
  induction fuel with
  | zero =>
    intro m args _ hf
    have : m = 0 := by omega
    subst this
    exact safe_zero _ _ _
  | succ fuel ih =>
    intro m args hm hf
    rw [argumentsLoop]
    refine safe_seq_strict (v := false) (safe_mono he hm) fun x => ?_
    exact safe_matchType_if (safe_to_lb (ih (m - 1 - 1) _ (by omega) (by omega)))
      (safe_pure true _ _)

theorem finishCall_safe {n : Nat} {e : P Expr} (he : Safe false true n e) (fuel m : Nat)
    (callee : Expr) (hm : m ≤ n) (hf : m ≤ fuel) :
    Safe true true m (finishCall e fuel callee) := by
  unfold finishCall
  refine safe_seq_tail (safe_previous _) fun t => ?_
  refine safe_seq_tail (safe_check true _ RPAREN) fun mm => ?_
  have tail : ∀ args : List Expr, Safe true true m
      (consume RPAREN "Expect ')' after arguments" >>= fun _ =>
        match callee with
        | Expr.IdentifierExpr name _ => pure (Expr.CallExpr name args t.line)
        | _ => previous >>= fun t => raise (parseError t "Can only call functions")) := by
    intro args
    refine safe_seq_strict (v := false) (safe_consume true _ _ _) fun _ => ?_
    cases callee with
    | IdentifierExpr name line => exact safe_pure true _ _
    | BinaryExpr _ _ _ _ =>
      exact safe_seq (safe_previous _) fun t => safe_raise true false _ _
    | UnaryExpr _ _ _ =>
      exact safe_seq (safe_previous _) fun t => safe_raise true false _ _
    | LiteralExpr _ _ _ =>
      exact safe_seq (safe_previous _) fun t => safe_raise true false _ _
    | CallExpr _ _ _ =>
      exact safe_seq (safe_previous _) fun t => safe_raise true false _ _
  cases mm with
  | true => exact safe_seq_tail (safe_pure true _ _) tail
  | false => exact safe_seq_tail (safe_to_lb (argumentsLoop_safe he fuel m [] hm hf)) tail

theorem callLoop_safe {n : Nat} {e : P Expr} (he : Safe false true n e) (fuel : Nat) :
    ∀ (m : Nat) (x : Expr), m ≤ n + 1 → m ≤ fuel → Safe false false m (callLoop e fuel x) := by
  induction fuel with
  | zero =>
    intro m x _ hf
    have : m = 0 := by omega
    subst this
    exact safe_zero _ _ _
  | succ fuel ih =>
    intro m x hm hf
    rw [callLoop]
    refine safe_matchType_if (u := true) ?_ (safe_pure false _ _)
    exact safe_seq (finishCall_safe he fuel (m - 1) x (by omega) (by omega)) fun y =>
      safe_to_lb (ih (m - 1) y (by omega) (by omega))

theorem call_safe {n : Nat} {e : P Expr} (he : Safe false true n e) (fuel m : Nat)
    (hm : m ≤ n + 1) (hf : m ≤ fuel + 1) : Safe false true m (call e fuel) := by
  unfold call
  exact safe_seq_strict (safe_mono (primary_safe he) hm) fun x =>
    safe_to_lb (callLoop_safe he fuel (m - 1) x (by omega) (by omega))

theorem unary_safe {n : Nat} {e : P Expr} (he : Safe false true n e) (fuel : Nat) :
    ∀ m : Nat, m ≤ n + 1 → m ≤ fuel → Safe false true m (unary e fuel) := by
  induction fuel with
  | zero =>
    intro m _ hf
    have : m = 0 := by omega
    subst this
    exact safe_zero _ _ _
  | succ fuel ih =>
    intro m hm hf
    rw [unary]
    refine safe_matchTypes_if (u := false) ?_ (call_safe he fuel m hm (by omega))
    exact safe_seq (safe_previous _) fun t =>
      safe_seq (safe_to_lax (safe_to_lb (ih (m - 1) (by omega) (by omega)))) fun x =>
        safe_seq (safe_previous _) fun t2 => safe_pure true _ _

theorem binaryLoop_safe {M : Nat} {o : P Expr} (ho : Safe false true M o)
    (ops : List TokenType) (fuel : Nat) :
    ∀ (m : Nat) (x : Expr), m ≤ M → m ≤ fuel →
      Safe false false m (binaryLoop ops o fuel x) := by
  induction fuel with
  | zero =>
    intro m x _ hf
    have : m = 0 := by omega
    subst this
    exact safe_zero _ _ _
  | succ fuel ih =>
    intro m x hm hf
    rw [binaryLoop]
    refine safe_matchTypes_if (u := false) ?_ (safe_pure false _ _)
    exact safe_seq (safe_previous _) fun t =>
      safe_seq (safe_to_lax (safe_to_lb (safe_mono ho (by omega : m - 1 ≤ M)))) fun y =>
        safe_seq (safe_previous _) fun t2 =>
          safe_to_lb (ih (m - 1) _ (by omega) (by omega))

theorem level_safe {n : Nat} {e : P Expr} (he : Safe false true n e) (fuel m : Nat)
    (hm : m ≤ n + 1) (hf : m ≤ fuel) (k : Nat) :
    ∀ i, i + k = 9 → Safe false true m (levelFn i e fuel) := by
  induction k with
  | zero =>
    intro i hi
    have : i = 9 := by omega
    subst this
    exact unary_safe he fuel m hm hf
  | succ k ih =>
    intro i hi
    rw [levelFn_succ i (by omega)]
    exact safe_seq (ih (i + 1) (by omega)) fun x =>
      binaryLoop_safe (ih (i + 1) (by omega)) _ fuel m x (le_refl m) hf

theorem logicalOr_safe {n : Nat} {e : P Expr} (he : Safe false true n e) (fuel m : Nat)
    (hm : m ≤ n + 1) (hf : m ≤ fuel) : Safe false true m (logicalOr e fuel) :=
  level_safe he fuel m hm hf 9 0 (by omega)

theorem assignment_safe {n : Nat} {e : P Expr} (he : Safe false true n e) (fuel : Nat) :
    ∀ m : Nat, m ≤ n + 1 → m + 1 ≤ fuel → Safe false true m (assignment e fuel) := by
  induction fuel with
  | zero => intro m _ hf; omega
  | succ fuel ih =>
    intro m hm hf
    rcases Nat.eq_zero_or_pos m with h0 | h0
    · subst h0; exact safe_zero _ _ _
    rw [assignment]
    refine safe_seq (v := false) (logicalOr_safe he fuel m hm (by omega)) fun x => ?_
    refine safe_matchTypes_if (u := false) ?_ (safe_pure false _ _)
    refine safe_seq (v := false) (safe_previous _) fun t => ?_
    refine safe_seq (v := false) (safe_to_lax (safe_to_lb (ih (m - 1) (by omega) (by omega)))) fun v => ?_
    cases x with
    | IdentifierExpr name line =>
      exact safe_seq (safe_previous _) fun t2 => safe_pure true _ _
    | BinaryExpr _ _ _ _ =>
      exact safe_seq (safe_previous _) fun t2 => safe_raise true false _ _
    | UnaryExpr _ _ _ =>
      exact safe_seq (safe_previous _) fun t2 => safe_raise true false _ _
    | LiteralExpr _ _ _ =>
      exact safe_seq (safe_previous _) fun t2 => safe_raise true false _ _
    | CallExpr _ _ _ =>
      exact safe_seq (safe_previous _) fun t2 => safe_raise true false _ _

/-- With two units of fuel more than tokens ahead, `expression` throws or
returns. -/
theorem expression_safe (n : Nat) :
    ∀ fuel : Nat, n + 2 ≤ fuel → Safe false true n (expression fuel) := by
  induction n with
  | zero => intro fuel _; exact safe_zero _ _ _
  | succ n ih =>
    intro fuel hf
    obtain ⟨f, rfl⟩ : ∃ f, fuel = f + 1 := ⟨fuel - 1, by omega⟩
    rw [expression]
    exact assignment_safe (ih f (by omega)) f (n + 1) (le_refl _) (by omega)

theorem safe_peek_raise_bind {α β : Type} (b s : Bool) (n : Nat) (g : Token → String)
    (f : α → P β) : Safe b s n (peek >>= fun t => (raise (g t) : P α) >>= f) :=
  safe_peek_raise b s n g

theorem expressionStatement_safe (n fuel : Nat) (hf : n + 2 ≤ fuel) :
    Safe false true n (expressionStatement fuel) := by
  unfold expressionStatement
  exact safe_seq (v := true) (expression_safe n fuel hf) fun e =>
    safe_seq_strict (v := false) (safe_consume false _ _ _) fun _ =>
      safe_seq (safe_previous _) fun t => safe_pure true _ _

theorem typedVarDeclaration_safe (n fuel : Nat) (hf : n + 2 ≤ fuel) (type : TokenType) :
    Safe true true n (typedVarDeclaration fuel type) := by
  unfold typedVarDeclaration
  refine safe_seq_tail (safe_previous _) fun t => ?_
  have tail : ∀ typeName : String, Safe true true n
      (consume IDENTIFIER "Expect variable name" >>= fun tok =>
        valueOf tok >>= fun name =>
          matchType ASSIGN >>= fun m =>
            if m = true then
              (expression fuel >>= fun e =>
                consume SEMICOLON "Expect ';' after variable declaration" >>= fun _ =>
                  pure (Stmt.VarDeclStmt typeName name (some e) t.line))
            else
              (consume SEMICOLON "Expect ';' after variable declaration" >>= fun _ =>
                pure (Stmt.VarDeclStmt typeName name none t.line))) := by
    intro typeName
    refine safe_consume_value (u := true) (Or.inl rfl) fun name => ?_
    refine safe_matchType_if (u := true) ?_ ?_
    · exact safe_seq_tail (safe_to_lb (expression_safe (n - 1 - 1) fuel (by omega))) fun e =>
        safe_seq (safe_consume true _ _ _) fun _ => safe_pure true _ _
    · exact safe_seq (safe_consume true _ _ _) fun _ => safe_pure true _ _
  cases type <;>
    first
      | exact safe_seq_tail (safe_pure true _ _) tail
      | exact safe_seq_tail (safe_previous _) fun t =>
          safe_seq (safe_raise true true _ _) tail

theorem importStatement_safe (n : Nat) : Safe true true n importStatement := by
  unfold importStatement
  refine safe_seq_tail (safe_previous _) fun prev => ?_
  have tail : ∀ moduleName : String, Safe true true n
      (consume SEMICOLON "Expect ';' after import statement" >>= fun _ =>
        pure (Stmt.ImportStmt moduleName prev.line)) := fun moduleName =>
    safe_seq (safe_consume true _ _ _) fun _ => safe_pure true _ _
  cases prev.value with
  | some v => exact safe_seq_tail (safe_pure true _ _) tail
  | none =>
    refine safe_matchType_value (u := true) (K := fun _ v =>
      consume SEMICOLON "Expect ';' after import statement" >>= fun _ =>
        pure (Stmt.ImportStmt v prev.line)) (Or.inr (Or.inr rfl)) ?_ ?_
    · exact fun t v => safe_mono (tail v) (by omega)
    · exact safe_peek_raise_bind true true _ _ _

theorem ifStatement_safe {n : Nat} {st : P Stmt} (hs : Safe false true n st) (fuel : Nat)
    (hf : n + 2 ≤ fuel) : Safe true true n (ifStatement st fuel) := by
  unfold ifStatement
  refine safe_seq_tail (safe_previous _) fun t => ?_
  refine safe_seq_tail (safe_consume true _ _ _) fun _ => ?_
  refine safe_seq_tail (safe_to_lb (expression_safe n fuel hf)) fun cond => ?_
  refine safe_seq_tail (safe_consume true _ _ _) fun _ => ?_
  refine safe_seq (v := false) (safe_to_lb hs) fun th => ?_
  refine safe_matchType_if (u := true) ?_ ?_
  · exact safe_seq (safe_mono (safe_to_lb hs) (by omega)) fun el =>
      safe_seq (safe_pure true _ _) fun _ => safe_pure true _ _
  · exact safe_seq (safe_pure true _ _) fun _ => safe_pure true _ _

theorem whileStatement_safe {n : Nat} {st : P Stmt} (hs : Safe false true n st)
    (fuel : Nat) (hf : n + 2 ≤ fuel) : Safe true true n (whileStatement st fuel) := by
  unfold whileStatement
  refine safe_seq_tail (safe_previous _) fun t => ?_
  refine safe_seq_tail (safe_consume true _ _ _) fun _ => ?_
  refine safe_seq_tail (safe_to_lb (expression_safe n fuel hf)) fun cond => ?_
  refine safe_seq_tail (safe_consume true _ _ _) fun _ => ?_
  exact safe_seq (safe_to_lb hs) fun body => safe_pure true _ _

theorem incrementLoop_safe (fuel : Nat) :
    ∀ (m : Nat) (inc : Expr), m ≤ fuel → Safe false false m (incrementLoop fuel inc) := by
  induction fuel with
  | zero =>
    intro m inc hf
    have : m = 0 := by omega
    subst this
    exact safe_zero _ _ _
  | succ fuel ih =>
    intro m inc hf
    rw [incrementLoop]
    refine safe_seq (v := false) (safe_check false _ RPAREN) fun atParen => ?_
    have tail : ∀ stop : Bool, Safe false false m
        (if stop = true then pure inc
         else matchTypes [PLUS_PLUS, MINUS_MINUS] >>= fun m =>
           if m = true then
             (previous >>= fun t => incrementLoop fuel (Expr.UnaryExpr t.type inc t.line))
           else pure inc) := by
      intro stop
      cases stop with
      | true => exact safe_pure false _ _
      | false =>
        refine safe_matchTypes_if (u := false) ?_ (safe_pure false _ _)
        exact safe_seq (safe_previous _) fun t => safe_to_lb (ih (m - 1) _ (by omega))
    cases atParen with
    | true => exact safe_seq (safe_pure false _ _) tail
    | false => exact safe_seq (safe_isAtEnd false _) tail

theorem blockLoop_safe {n : Nat} {d : P Stmt} (hd : Safe false true n d) (fuel : Nat) :
    ∀ (m : Nat) (stmts : List Stmt), m ≤ n → m ≤ fuel →
      Safe false false m (blockLoop d fuel stmts) := by
  induction fuel with
  | zero =>
    intro m stmts _ hf
    have : m = 0 := by omega
    subst this
    exact safe_zero _ _ _
  | succ fuel ih =>
    intro m stmts hm hf
    rw [blockLoop]
    refine safe_seq (v := false) (safe_check false _ RBRACE) fun atBrace => ?_
    have tail : ∀ stop : Bool, Safe false false m
        (if stop = true then pure stmts
         else d >>= fun s => blockLoop d fuel (stmts ++ [s])) := by
      intro stop
      cases stop with
      | true => exact safe_pure false _ _
      | false =>
        exact safe_to_lax (safe_seq_strict (safe_mono hd hm) fun s =>
          safe_to_lb (ih (m - 1) _ (by omega) (by omega)))
    cases atBrace with
    | true => exact safe_seq (safe_pure false _ _) tail
    | false => exact safe_seq (safe_isAtEnd false _) tail

theorem block_safe {n : Nat} {d : P Stmt} (hd : Safe false true n d) (fuel : Nat)
    (hf : n ≤ fuel) : Safe true true n (block d fuel) := by
  unfold block
  refine safe_seq_tail (safe_previous _) fun t => ?_
  refine safe_seq_tail (safe_to_lb (blockLoop_safe hd fuel n [] (le_refl n) hf))
    fun stmts => ?_
  exact safe_seq (safe_consume true _ _ _) fun _ => safe_pure true _ _

theorem forStatement_safe {n : Nat} {st : P Stmt} (hs : Safe false true n st) (fuel : Nat)
    (hf : n + 2 ≤ fuel) : Safe true true n (forStatement st fuel) := by
  unfold forStatement
  refine safe_seq_tail (safe_previous _) fun t => ?_
  refine safe_seq_tail (safe_consume true _ _ _) fun _ => ?_
  have tail3 : ∀ (initializer : Option Stmt) (condition increment : Option Expr),
      Safe true true n
        (consume RPAREN "Expect ')' after for clauses" >>= fun _ =>
          st >>= fun body =>
            match initializer with
            | some init =>
              pure (Stmt.BlockStmt [init,
                Stmt.WhileStmt
                  (match condition with
                   | some c => c
                   | none => Expr.LiteralExpr "1" NUMBER t.line)
                  (match increment with
                   | some inc => Stmt.BlockStmt [body, Stmt.ExprStmt inc t.line] t.line
                   | none => body) t.line] t.line)
            | none =>
              pure (Stmt.WhileStmt
                  (match condition with
                   | some c => c
                   | none => Expr.LiteralExpr "1" NUMBER t.line)
                  (match increment with
                   | some inc => Stmt.BlockStmt [body, Stmt.ExprStmt inc t.line] t.line
                   | none => body) t.line)) := by
    intro initializer condition increment
    refine safe_seq_tail (safe_consume true _ _ _) fun _ => ?_
    refine safe_seq (v := false) (safe_to_lb hs) fun body => ?_
    cases initializer with
    | some init => exact safe_pure true _ _
    | none => exact safe_pure true _ _
  have tail2 : ∀ (initializer : Option Stmt) (condition : Option Expr),
      Safe true true n
        (consume SEMICOLON "Expect ';' after loop condition" >>= fun _ =>
          check RPAREN >>= fun m =>
            if (!m) = true then
              (expression fuel >>= fun e => incrementLoop fuel e >>= fun e =>
                consume RPAREN "Expect ')' after for clauses" >>= fun _ =>
                st >>= fun body =>
                  match initializer with
                  | some init =>
                    pure (Stmt.BlockStmt [init,
                      Stmt.WhileStmt
                        (match condition with
                         | some c => c
                         | none => Expr.LiteralExpr "1" NUMBER t.line)
                        (Stmt.BlockStmt [body, Stmt.ExprStmt e t.line] t.line)
                        t.line] t.line)
                  | none =>
                    pure (Stmt.WhileStmt
                        (match condition with
                         | some c => c
                         | none => Expr.LiteralExpr "1" NUMBER t.line)
                        (Stmt.BlockStmt [body, Stmt.ExprStmt e t.line] t.line)
                        t.line))
            else
              (consume RPAREN "Expect ')' after for clauses" >>= fun _ =>
                st >>= fun body =>
                  match initializer with
                  | some init =>
                    pure (Stmt.BlockStmt [init,
                      Stmt.WhileStmt
                        (match condition with
                         | some c => c
                         | none => Expr.LiteralExpr "1" NUMBER t.line)
                        body t.line] t.line)
                  | none =>
                    pure (Stmt.WhileStmt
                        (match condition with
                         | some c => c
                         | none => Expr.LiteralExpr "1" NUMBER t.line)
                        body t.line))) := by
    intro initializer condition
    refine safe_seq_tail (safe_consume true _ _ _) fun _ => ?_
    refine safe_seq_tail (safe_check true _ RPAREN) fun m => ?_
    cases m with
    | true => exact tail3 initializer condition none
    | false =>
      refine safe_seq_tail (safe_to_lb (expression_safe n fuel hf)) fun e => ?_
      exact safe_seq_tail (safe_to_lb (incrementLoop_safe fuel n e (by omega)))
        fun e2 => tail3 initializer condition (some e2)
  have tail1 : ∀ (initializer : Option Stmt),
      Safe true true n
        (check SEMICOLON >>= fun m =>
          if (!m) = true then
            (expression fuel >>= fun e =>
              consume SEMICOLON "Expect ';' after loop condition" >>= fun _ =>
              check RPAREN >>= fun m =>
                if (!m) = true then
                  (expression fuel >>= fun e2 => incrementLoop fuel e2 >>= fun e2 =>
                    consume RPAREN "Expect ')' after for clauses" >>= fun _ =>
                    st >>= fun body =>
                      match initializer with
                      | some init =>
                        pure (Stmt.BlockStmt [init,
                          Stmt.WhileStmt e
                            (Stmt.BlockStmt [body, Stmt.ExprStmt e2 t.line] t.line)
                            t.line] t.line)
                      | none =>
                        pure (Stmt.WhileStmt e
                            (Stmt.BlockStmt [body, Stmt.ExprStmt e2 t.line] t.line)
                            t.line))
                else
                  (consume RPAREN "Expect ')' after for clauses" >>= fun _ =>
                    st >>= fun body =>
                      match initializer with
                      | some init =>
                        pure (Stmt.BlockStmt [init, Stmt.WhileStmt e body t.line] t.line)
                      | none => pure (Stmt.WhileStmt e body t.line)))
          else
            (consume SEMICOLON "Expect ';' after loop condition" >>= fun _ =>
              check RPAREN >>= fun m =>
                if (!m) = true then
                  (expression fuel >>= fun e2 => incrementLoop fuel e2 >>= fun e2 =>
                    consume RPAREN "Expect ')' after for clauses" >>= fun _ =>
                    st >>= fun body =>
                      match initializer with
                      | some init =>
                        pure (Stmt.BlockStmt [init,
                          Stmt.WhileStmt (Expr.LiteralExpr "1" NUMBER t.line)
                            (Stmt.BlockStmt [body, Stmt.ExprStmt e2 t.line] t.line)
                            t.line] t.line)
                      | none =>
                        pure (Stmt.WhileStmt (Expr.LiteralExpr "1" NUMBER t.line)
                            (Stmt.BlockStmt [body, Stmt.ExprStmt e2 t.line] t.line)
                            t.line))
                else
                  (consume RPAREN "Expect ')' after for clauses" >>= fun _ =>
                    st >>= fun body =>
                      match initializer with
                      | some init =>
                        pure (Stmt.BlockStmt [init,
                          Stmt.WhileStmt (Expr.LiteralExpr "1" NUMBER t.line) body
                            t.line] t.line)
                      | none =>
                        pure (Stmt.WhileStmt (Expr.LiteralExpr "1" NUMBER t.line) body
                          t.line)))) := by
    intro initializer
    refine safe_seq_tail (safe_check true _ SEMICOLON) fun m => ?_
    cases m with
    | true => exact tail2 initializer none
    | false =>
      exact safe_seq_tail (safe_to_lb (expression_safe n fuel hf))
        fun e => tail2 initializer (some e)
  refine safe_matchType_if (u := true) ?_ ?_
  · exact safe_mono (tail1 none) (by omega)
  · refine safe_matchType_if (u := true) ?_ ?_
    · exact safe_seq_tail (safe_mono (typedVarDeclaration_safe n fuel hf _) (by omega))
        fun s => safe_mono (tail1 (some s)) (by omega)
    · exact safe_seq_tail (safe_to_lb (expressionStatement_safe n fuel hf))
        fun s => tail1 (some s)

theorem returnStatement_safe (n fuel : Nat) (hf : n + 2 ≤ fuel) :
    Safe true true n (returnStatement fuel) := by
  unfold returnStatement
  refine safe_seq_tail (safe_previous _) fun t => ?_
  refine safe_seq_tail (safe_check true _ SEMICOLON) fun m => ?_
  have tail : ∀ value : Option Expr, Safe true true n
      (consume SEMICOLON "Expect ';' after return value" >>= fun _ =>
        pure (Stmt.ReturnStmt value t.line)) := fun value =>
    safe_seq (safe_consume true _ _ _) fun _ => safe_pure true _ _
  cases m with
  | true => exact tail none
  | false =>
    exact safe_seq_tail (safe_to_lb (expression_safe n fuel hf)) fun e => tail (some e)

theorem printStatement_safe (n fuel : Nat) (hf : n + 2 ≤ fuel) :
    Safe true true n (printStatement fuel) := by
  unfold printStatement
  refine safe_seq_tail (safe_previous _) fun t => ?_
  refine safe_seq_tail (safe_consume true _ _ _) fun _ => ?_
  refine safe_seq_tail (safe_to_lb (expression_safe n fuel hf)) fun e => ?_
  refine safe_seq_tail (safe_consume true _ _ _) fun _ => ?_
  exact safe_seq (safe_consume true _ _ _) fun _ => safe_pure true _ _

theorem statement_safe {n : Nat} {d : P Stmt} (hd : Safe false true n d) (fuel : Nat) :
    ∀ m : Nat, m ≤ n + 1 → m + 3 ≤ fuel → Safe false true m (statement d fuel) := by
  induction fuel with
  | zero => intro m _ hf; omega
  | succ fuel ih =>
    intro m hm hf
    rcases Nat.eq_zero_or_pos m with h0 | h0
    · subst h0; exact safe_zero _ _ _
    have hst : Safe false true (m - 1) (statement d fuel) :=
      ih (m - 1) (by omega) (by omega)
    rw [statement]
    refine safe_matchType_if (ifStatement_safe hst fuel (by omega)) ?_
    refine safe_matchType_if (whileStatement_safe hst fuel (by omega)) ?_
    refine safe_matchType_if (forStatement_safe hst fuel (by omega)) ?_
    refine safe_matchType_if
      (block_safe (safe_mono hd (by omega : m - 1 ≤ n)) fuel (by omega)) ?_
    refine safe_matchType_if (returnStatement_safe (m - 1) fuel (by omega)) ?_
    refine safe_matchType_if (printStatement_safe (m - 1) fuel (by omega)) ?_
    exact expressionStatement_safe m fuel (by omega)

theorem parametersLoop_safe (fuel : Nat) :
    ∀ (m : Nat) (params : List String), m ≤ fuel →
      Safe false true m (parametersLoop fuel params) := by
  induction fuel with
  | zero =>
    intro m params hf
    have : m = 0 := by omega
    subst this
    exact safe_zero _ _ _
  | succ fuel ih =>
    intro m params hf
    rw [parametersLoop]
    refine safe_consume_value (u := false) (Or.inl rfl) fun name => ?_
    exact safe_matchType_if (safe_to_lb (ih (m - 1 - 1) _ (by omega))) (safe_pure true _ _)

theorem function_safe {n : Nat} {d : P Stmt} (hd : Safe false true n d) (fuel : Nat)
    (hf : n ≤ fuel) : Safe false true n (function d fuel) := by
  unfold function
  refine safe_consume_value (u := true) (Or.inl rfl) fun name => ?_
  refine safe_seq_tail (safe_consume true _ _ _) fun _ => ?_
  refine safe_seq_tail (safe_check true _ RPAREN) fun m => ?_
  have tail : ∀ params : List String, Safe true true (n - 1)
      (consume RPAREN "Expect ')' after parameters" >>= fun _ =>
        consume LBRACE "Expect '\x7b' before function body" >>= fun _ =>
          block d fuel >>= fun body => previous >>= fun t =>
            pure (Stmt.FunctionStmt name params body t.line)) := by
    intro params
    refine safe_seq_tail (safe_consume true _ _ _) fun _ => ?_
    refine safe_seq_tail (safe_consume true _ _ _) fun _ => ?_
    refine safe_seq (v := false) (block_safe (safe_mono hd (by omega)) fuel (by omega))
      fun body => ?_
    exact safe_seq (safe_previous _) fun t => safe_pure true _ _
  cases m with
  | true => exact tail []
  | false =>
    exact safe_seq_tail (safe_to_lb (parametersLoop_safe fuel (n - 1) [] (by omega))) tail

theorem declarationBody_safe {n : Nat} {d : P Stmt} (hd : Safe false true n d)
    (fuel m : Nat) (hm : m ≤ n + 1) (hf : m + 3 ≤ fuel) :
    Safe false true m (declarationBody d fuel) := by
  unfold declarationBody
  refine safe_matchType_if
    (safe_to_lb (function_safe (safe_mono hd (by omega : m - 1 ≤ n)) fuel (by omega))) ?_
  refine safe_matchType_if (typedVarDeclaration_safe (m - 1) fuel (by omega) _) ?_
  refine safe_matchType_if (typedVarDeclaration_safe (m - 1) fuel (by omega) _) ?_
  refine safe_matchType_if (typedVarDeclaration_safe (m - 1) fuel (by omega) _) ?_
  refine safe_matchType_if (importStatement_safe (m - 1)) ?_
  exact statement_safe hd fuel m hm hf

/-- With four units of fuel more than tokens ahead, the declaration without
recovery throws or returns. -/
theorem declarationRaw_safe (n : Nat) :
    ∀ fuel : Nat, n + 4 ≤ fuel → Safe false true n (declarationRaw fuel) := by
  induction n with
  | zero => intro fuel _; exact safe_zero _ _ _
  | succ n ih =>
    intro fuel hf
    obtain ⟨f, rfl⟩ : ∃ f, fuel = f + 1 := ⟨fuel - 1, by omega⟩
    rw [declarationRaw]
    exact declarationBody_safe (ih f (by omega)) f (n + 1) (le_refl _) (by omega)

theorem parseLoopRaw_safe (fuel : Nat) :
    ∀ (m : Nat) (stmts : List Stmt), m + 5 ≤ fuel →
      Safe false false m (parseLoopRaw fuel stmts) := by
  induction fuel with
  | zero => intro m stmts hf; omega
  | succ fuel ih =>
    intro m stmts hf
    rcases Nat.eq_zero_or_pos m with h0 | h0
    · subst h0; exact safe_zero _ _ _
    rw [parseLoopRaw]
    refine safe_seq (v := false) (safe_isAtEnd false _) fun mm => ?_
    cases mm with
    | true => exact safe_pure false _ _
    | false =>
      exact safe_to_lax (safe_seq_strict (declarationRaw_safe m fuel (by omega)) fun s =>
        safe_to_lb (ih (m - 1) _ (by omega)))

/-! ## The emitter on functions -/

/-- C6, evaluated at `func f(a) { }`: the parser returns a function with one
parameter; `generate` never runs `generateForwardDeclarations`, so
`m_functionParams["f"]` is the empty vector and `generateFunction` reads
`params[0]` outside it: no output text is produced. -/
theorem generate_reads_unrecorded_parameter :
    parse 8 [⟨FUNCTION, 1, none⟩, ⟨IDENTIFIER, 1, some "f"⟩, ⟨LPAREN, 1, none⟩,
        ⟨IDENTIFIER, 1, some "a"⟩, ⟨RPAREN, 1, none⟩, ⟨LBRACE, 1, none⟩,
        ⟨RBRACE, 1, none⟩, ⟨END_OF_FILE, 1, none⟩]
      = Outcome.returned [Stmt.FunctionStmt "f" ["a"] (Stmt.BlockStmt [] 1) 1]
    ∧ generate [Stmt.FunctionStmt "f" ["a"] (Stmt.BlockStmt [] 1) 1] = none
    ∧ ((Generator.mk false [] [] []).m_functionParams.at "f" [])[0]? = none :=
  ⟨rfl, by decide, rfl⟩

/-- C7, evaluated at `func f() { return 1; }`: the return type inferred from
the body is `double`, but `generate` never records it, and both the declaration
line and the definition of `f` are emitted with an empty return type. -/
theorem generate_omits_inferred_return_type :
    parse 9 [⟨FUNCTION, 1, none⟩, ⟨IDENTIFIER, 1, some "f"⟩, ⟨LPAREN, 1, none⟩,
        ⟨RPAREN, 1, none⟩, ⟨LBRACE, 1, none⟩, ⟨RETURN, 1, none⟩,
        ⟨NUMBER, 1, some "1"⟩, ⟨SEMICOLON, 1, none⟩, ⟨RBRACE, 1, none⟩,
        ⟨END_OF_FILE, 1, none⟩]
      = Outcome.returned [Stmt.FunctionStmt "f" []
          (Stmt.BlockStmt [Stmt.ReturnStmt (some (Expr.LiteralExpr "1" NUMBER 1)) 1] 1) 1]
    ∧ inferFunctionReturnType (Generator.mk false [] [] [])
        (Stmt.BlockStmt [Stmt.ReturnStmt (some (Expr.LiteralExpr "1" NUMBER 1)) 1] 1)
      = "double"
    ∧ generate [Stmt.FunctionStmt "f" []
          (Stmt.BlockStmt [Stmt.ReturnStmt (some (Expr.LiteralExpr "1" NUMBER 1)) 1] 1) 1]
      = some (header ++ " f();\n" ++ "int main() \x7b\n" ++ "    return 0;\n\x7d\n"
          ++ " f() \x7b\nreturn 1;\n\x7d\n\n") :=
  ⟨rfl, by decide, by rfl⟩

/-- C8, evaluated at the statements of `num x = 5; func g(n) { return n; }`:
the third loop of `generate` reaches `generateFunction`, which reads the
unrecorded parameter types of `g`, so no text of any layout is returned. -/
theorem generate_layout_lost_on_parameter :
    generate [Stmt.VarDeclStmt "num" "x" (some (Expr.LiteralExpr "5" NUMBER 1)) 1,
      Stmt.FunctionStmt "g" ["n"]
        (Stmt.BlockStmt [Stmt.ReturnStmt (some (Expr.IdentifierExpr "n" 1)) 1] 1) 1]
      = none
    ∧ generate [Stmt.VarDeclStmt "num" "x" (some (Expr.LiteralExpr "5" NUMBER 1)) 1,
      Stmt.FunctionStmt "g" []
        (Stmt.BlockStmt [Stmt.ReturnStmt (some (Expr.IdentifierExpr "n" 1)) 1] 1) 1]
      = some (header ++ "double x = 5;\n" ++ " g();\n" ++ "int main() \x7b\n"
          ++ "    return 0;\n\x7d\n" ++ " g() \x7b\nreturn n;\n\x7d\n\n") :=
  ⟨by decide, by rfl⟩

/-! ## Assignment targets -/

theorem synchronizeLoop_ok (rem : List Token) :
    ∀ (t0 : Token) (c : List Token), (∃ t ∈ rem, t.type = END_OF_FILE) →
      ∃ p, synchronizeLoop (t0 :: c) rem = Res.ok () p := by
  induction rem with
  | nil => intro t0 c h; obtain ⟨t, ht, _⟩ := h; cases ht
  | cons t rest ih =>
    intro t0 c h
    rw [synchronizeLoop]
    by_cases h1 : t.type = END_OF_FILE
    · simp [h1]
    · by_cases h2 : t0.type = SEMICOLON
      · simp [h1, h2]
      · by_cases h3 : isSyncStart t.type = true
        · simp [h1, h2, h3]
        · have hrest : ∃ t1 ∈ rest, t1.type = END_OF_FILE := by
            obtain ⟨t1, ht1, he⟩ := h
            rcases List.mem_cons.1 ht1 with rfl | hm
            · exact absurd he h1
            · exact ⟨t1, hm, he⟩
          obtain ⟨p, hp⟩ := ih t (t0 :: c) hrest
          simp [h1, h2, h3, hp]

/-- After a throw at a state that has consumed a token and still has the end
marker ahead, `synchronize` returns. -/
theorem synchronize_ok (t0 : Token) (c rem : List Token)
    (h : ∃ t ∈ rem, t.type = END_OF_FILE) :
    ∃ p, synchronize ⟨t0 :: c, rem⟩ = Res.ok () p := by
  cases rem with
  | nil => obtain ⟨t, ht, _⟩ := h; cases ht
  | cons t rest =>
    by_cases h1 : t.type = END_OF_FILE
    · refine ⟨⟨t0 :: c, t :: rest⟩, ?_⟩
      simp [synchronize, advance, bind_def, P.bind, isAtEnd_cons, h1, previous,
        synchronizeLoop, pure_def]
    · have hrest : ∃ t1 ∈ rest, t1.type = END_OF_FILE := by
        obtain ⟨t1, ht1, he⟩ := h
        rcases List.mem_cons.1 ht1 with rfl | hm
        · exact absurd he h1
        · exact ⟨t1, hm, he⟩
      obtain ⟨p, hp⟩ := synchronizeLoop_ok rest t (t0 :: c) hrest
      refine ⟨p, ?_⟩
      rw [synchronize, bind_ok (advance_cons _ _ _ h1)]
      exact hp

theorem catchSynchronize_error {α : Type} {body : P α} {p : Parser} {w : String}
    {t0 : Token} {c rem : List Token} (h : body p = Res.error w ⟨t0 :: c, rem⟩)
    (he : ∃ t ∈ rem, t.type = END_OF_FILE) :
    ∃ p2, catchSynchronize body p = Res.error w p2 := by
  obtain ⟨p2, hp⟩ := synchronize_ok t0 c rem he
  exact ⟨p2, by simp [catchSynchronize, h, hp]⟩

theorem unary_ok_starts (e : P Expr) (fuel : Nat) (c rem : List Token) (x : Expr)
    (p1 : Parser) (h : unary e fuel ⟨c, rem⟩ = Res.ok x p1) :
    ∃ t r, rem = t :: r ∧ startsExpression t.type = true := by
  cases fuel with
  | zero => simp [unary, noFuel] at h
  | succ fuel =>
    cases rem with
    | nil =>
      simp [unary, matchTypes, check, isAtEnd, peek, bind_def, P.bind] at h
    | cons t r =>
      refine ⟨t, r, rfl, ?_⟩
      by_contra hop
      have hty : ∀ ty, startsExpression ty = true → t.type ≠ ty := by
        intro ty hty h1
        rw [h1] at hop
        exact hop hty
      rw [unary] at h
      have hm : matchTypes [NOT, MINUS, PLUS_PLUS, MINUS_MINUS] ⟨c, t :: r⟩
          = Res.ok false ⟨c, t :: r⟩ := by
        rw [matchTypes_cons, if_neg]
        rintro ⟨_, hmem⟩
        simp only [List.mem_cons, List.mem_singleton, List.not_mem_nil, or_false] at hmem
        rcases hmem with h1 | h1 | h1 | h1
        exacts [hty NOT rfl h1, hty MINUS rfl h1, hty PLUS_PLUS rfl h1, hty MINUS_MINUS rfl h1]
      rw [bind_ok hm] at h
      simp only [Bool.false_eq_true, if_false, call, primary] at h
      have hn : matchType NUMBER ⟨c, t :: r⟩ = Res.ok false ⟨c, t :: r⟩ := by
        rw [matchType_cons, if_neg]; rintro ⟨_, h1⟩; exact hty NUMBER rfl h1
      have hs : matchType STRING_LIT ⟨c, t :: r⟩ = Res.ok false ⟨c, t :: r⟩ := by
        rw [matchType_cons, if_neg]; rintro ⟨_, h1⟩; exact hty STRING_LIT rfl h1
      have hi : matchType IDENTIFIER ⟨c, t :: r⟩ = Res.ok false ⟨c, t :: r⟩ := by
        rw [matchType_cons, if_neg]; rintro ⟨_, h1⟩; exact hty IDENTIFIER rfl h1
      have hl : matchType LPAREN ⟨c, t :: r⟩ = Res.ok false ⟨c, t :: r⟩ := by
        rw [matchType_cons, if_neg]; rintro ⟨_, h1⟩; exact hty LPAREN rfl h1
      simp [bind_def, P.bind, hn, hs, hi, hl, pure_def, peek_cons, raise] at h

theorem level_ok_starts (e : P Expr) (fuel : Nat) (c rem : List Token) (k : Nat) :
    ∀ i, i + k = 9 → ∀ (x : Expr) (p1 : Parser),
      levelFn i e fuel ⟨c, rem⟩ = Res.ok x p1 →
      ∃ t r, rem = t :: r ∧ startsExpression t.type = true := by
  induction k with
  | zero =>
    intro i hi x p1 h
    have : i = 9 := by omega
    subst this
    exact unary_ok_starts e fuel c rem x p1 h
  | succ k ih =>
    intro i hi x p1 h
    rw [levelFn_succ i (by omega)] at h
    obtain ⟨a, p2, h1, _⟩ := bind_eq_ok h
    exact ih (i + 1) (by omega) a p2 h1

theorem startsExpression_not_opens {ty : TokenType} (h : startsExpression ty = true) :
    opensStatement ty = false := by
  cases ty <;> first | rfl | exact absurd h (by decide)

theorem level_ok_head (e : P Expr) (fuel : Nat) (c rem : List Token) (k : Nat)
    (i : Nat) (hi : i + k = 9) (x : Expr) (p1 : Parser)
    (h : levelFn i e fuel ⟨c, rem⟩ = Res.ok x p1) :
    ∃ t r, rem = t :: r ∧ opensStatement t.type = false := by
  obtain ⟨t, r, h1, h2⟩ := level_ok_starts e fuel c rem k i hi x p1 h
  exact ⟨t, r, h1, startsExpression_not_opens h2⟩

theorem assignment_ok_starts (e : P Expr) (fuel : Nat) (c rem : List Token) (x : Expr)
    (p1 : Parser) (h : assignment e fuel ⟨c, rem⟩ = Res.ok x p1) :
    ∃ t r, rem = t :: r ∧ startsExpression t.type = true := by
  cases fuel with
  | zero => simp [assignment, noFuel] at h
  | succ fuel =>
    rw [assignment] at h
    obtain ⟨a, p2, h1, _⟩ := bind_eq_ok h
    exact level_ok_starts e fuel c rem 9 0 (by omega) a p2 h1

theorem expression_ok_starts (fuel : Nat) (c rem : List Token) (x : Expr)
    (p1 : Parser) (h : expression fuel ⟨c, rem⟩ = Res.ok x p1) :
    ∃ t r, rem = t :: r ∧ startsExpression t.type = true := by
  cases fuel with
  | zero => simp [expression, noFuel] at h
  | succ fuel =>
    rw [expression] at h
    exact assignment_ok_starts _ fuel c rem x p1 h

/-- C4. Invalid assignment target: when the left operand read by `logicalOr`
is not an `Identifier` node, an assignment operator (`=`, `+=`, `-=`, `*=`,
`/=`, `%=`) follows it and the right-hand side parses, `assignment` throws
"Invalid assignment target" tagged with the line of the last token of the
right-hand side; and when this happens in the first statement of a token
sequence that has the end marker ahead, `parse` as a whole throws that error
and returns no statement list, with any fuel from `fuel + 5` on. -/
theorem invalid_assignment_target (e : P Expr) (fuel : Nat) (p : Parser) (lhs : Expr)
    (c : List Token) (op : Token) (r : List Token) (value : Expr) (last : Token)
    (c2 r2 : List Token)
    (hl : logicalOr e fuel p = Res.ok lhs ⟨c, op :: r⟩)
    (hop : op.type ∈ assignOps)
    (hid : ∀ name line, lhs ≠ Expr.IdentifierExpr name line)
    (hv : assignment e fuel ⟨op :: c, r⟩ = Res.ok value ⟨last :: c2, r2⟩) :
    assignment e (fuel + 1) p
        = Res.error (parseError last "Invalid assignment target") ⟨last :: c2, r2⟩
    ∧ ∀ toks, p = ⟨[], toks⟩ → e = expression (fuel + 1) →
        (∃ t ∈ r2, t.type = END_OF_FILE) → ∀ N, fuel + 5 ≤ N →
        parse N toks
          = Outcome.threw (parseError last "Invalid assignment target") := by
  have hne : op.type ≠ END_OF_FILE := by
    intro h
    rw [h] at hop
    simp [assignOps] at hop
  have hA : assignment e (fuel + 1) p
      = Res.error (parseError last "Invalid assignment target") ⟨last :: c2, r2⟩ := by
    rw [assignment, bind_ok hl]
    have hm : matchTypes assignOps ⟨c, op :: r⟩ = Res.ok true ⟨op :: c, r⟩ := by
      rw [matchTypes_cons, if_pos ⟨hne, hop⟩]
    rw [bind_ok hm]
    simp only [if_true]
    rw [bind_ok (previous_cons op c r), bind_ok hv]
    cases lhs with
    | IdentifierExpr name line => exact absurd rfl (hid name line)
    | BinaryExpr _ _ _ _ => rfl
    | UnaryExpr _ _ _ => rfl
    | LiteralExpr _ _ _ => rfl
    | CallExpr _ _ _ => rfl
  refine ⟨hA, ?_⟩
  intro toks hp he heof N hN
  refine parse_mono hN ?_ (by intro h; cases h)
  subst hp
  subst he
  obtain ⟨t0, r0, ht, hopen⟩ :=
    level_ok_head (expression (fuel + 1)) fuel [] toks 9 0 (by omega) lhs _ hl
  subst ht
  have hne0 : t0.type ≠ END_OF_FILE := by
    intro h
    rw [h] at hopen
    cases hopen
  have hstmt : expressionStatement (fuel + 2) ⟨[], t0 :: r0⟩
      = Res.error (parseError last "Invalid assignment target") ⟨last :: c2, r2⟩ := by
    rw [expressionStatement]
    have hx : expression (fuel + 2) ⟨[], t0 :: r0⟩
        = Res.error (parseError last "Invalid assignment target") ⟨last :: c2, r2⟩ := by
      rw [expression]; exact hA
    rw [bind_error hx]
  obtain ⟨p3, hd⟩ := catchSynchronize_error hstmt heof
  have hdecl : declaration (fuel + 4) ⟨[], t0 :: r0⟩
      = Res.error (parseError last "Invalid assignment target") p3 := by
    rw [declaration_expression _ _ _ _ hopen]
    exact hd
  rw [parse, parseLoop_step _ _ _ _ _ hne0, bind_error hdecl]
  rfl

/-- C4, at `a + b = 3;`. -/
theorem invalid_assignment_target_witness :
    parse 12 [⟨IDENTIFIER, 1, some "a"⟩, ⟨PLUS, 1, none⟩, ⟨IDENTIFIER, 1, some "b"⟩,
        ⟨ASSIGN, 1, none⟩, ⟨NUMBER, 1, some "3"⟩, ⟨SEMICOLON, 1, none⟩,
        ⟨END_OF_FILE, 1, none⟩]
      = Outcome.threw "[Line 1] Error: Invalid assignment target" :=
  (invalid_assignment_target (expression 8) 7
    ⟨[], [⟨IDENTIFIER, 1, some "a"⟩, ⟨PLUS, 1, none⟩, ⟨IDENTIFIER, 1, some "b"⟩,
        ⟨ASSIGN, 1, none⟩, ⟨NUMBER, 1, some "3"⟩, ⟨SEMICOLON, 1, none⟩,
        ⟨END_OF_FILE, 1, none⟩]⟩
    (Expr.BinaryExpr (Expr.IdentifierExpr "a" 1) PLUS (Expr.IdentifierExpr "b" 1) 1)
    [⟨IDENTIFIER, 1, some "b"⟩, ⟨PLUS, 1, none⟩, ⟨IDENTIFIER, 1, some "a"⟩]
    ⟨ASSIGN, 1, none⟩
    [⟨NUMBER, 1, some "3"⟩, ⟨SEMICOLON, 1, none⟩, ⟨END_OF_FILE, 1, none⟩]
    (Expr.LiteralExpr "3" NUMBER 1) ⟨NUMBER, 1, some "3"⟩
    [⟨ASSIGN, 1, none⟩, ⟨IDENTIFIER, 1, some "b"⟩, ⟨PLUS, 1, none⟩,
      ⟨IDENTIFIER, 1, some "a"⟩]
    [⟨SEMICOLON, 1, none⟩, ⟨END_OF_FILE, 1, none⟩]
    rfl (by decide) (by intro name line h; cases h) rfl).2 _ rfl rfl
    ⟨⟨END_OF_FILE, 1, none⟩, by decide, rfl⟩ 12 (by decide)

/-! ## Chained assignment -/

/-- A returning local computation, moved to another state that holds the same
tokens up to the lookahead. -/
theorem Loc.ok_move {α : Type} {s : Bool} {R : Token → Token → Prop} {x : P α}
    (h : Loc false s R x) {c1 u s1 : List Token} {a : α} {p1 : Parser}
    (hx : x ⟨c1, u ++ s1⟩ = Res.ok a p1) (hp : p1.remaining = s1) :
    p1 = ⟨u.reverse ++ c1, s1⟩ ∧
      ∀ (c2 s2 : List Token), LA R s1 s2 →
        x ⟨c2, u ++ s2⟩ = Res.ok a ⟨u.reverse ++ c2, s2⟩ := by
  obtain ⟨u2, s3, h1, h2, _, _, h5⟩ := h.ok c1 (u ++ s1) a p1 hx
  have hs : s3 = s1 := by rw [h2] at hp; exact hp
  subst hs
  have hu : u = u2 := List.append_cancel_right h1
  subst hu
  exact ⟨h2, fun c2 s2 hla => h5 c2 s2 hla (fun hb => absurd hb (by decide))⟩

theorem assignTokens_cons (x : AssignTarget) (xs : List AssignTarget) :
    assignTokens (x :: xs) = x.token :: x.op :: assignTokens xs := by
  simp [assignTokens, List.flatMap_cons]

theorem assignExpr_cons (x : AssignTarget) (xs : List AssignTarget) (e : Expr) (line : Int) :
    assignExpr (x :: xs) e line
      = Expr.BinaryExpr (Expr.IdentifierExpr x.name x.line) ASSIGN
          (assignExpr xs e line) line := rfl

theorem logicalOr_identifier (e : P Expr) (f : Nat) (x : AssignTarget) (c r : List Token)
    (h : x.op.type = ASSIGN) :
    logicalOr e (f + 2) ⟨c, x.token :: x.op :: r⟩
      = Res.ok (Expr.IdentifierExpr x.name x.line) ⟨x.token :: c, x.op :: r⟩ := by
  have hs : StopsAt 0 x.op := by
    constructor
    · rw [h]; decide
    · intro j hj
      rw [h] at hj
      cases hj
  exact level_atom e f (Atom.identifier x.name x.line) c x.op r 9 0 (by omega) hs

/-- The chain `x1 = ... xn = e` at the level of `assignment`. -/
theorem assignment_chain (ex : P Expr) (k : Nat) (e : Expr) (E : List Token)
    (last semi : Token) (rest : List Token) (hs : semi.type = SEMICOLON)
    (hE : ∀ c, logicalOr ex k ⟨c, E ++ last :: semi :: rest⟩
        = Res.ok e ⟨last :: (E.reverse ++ c), semi :: rest⟩) :
    ∀ (xs : List AssignTarget), (∀ x ∈ xs, x.op.type = ASSIGN) → ∀ c, ∃ c1,
      assignment ex (k + 2 + xs.length) ⟨c, assignTokens xs ++ (E ++ last :: semi :: rest)⟩
        = Res.ok (assignExpr xs e last.line) ⟨last :: c1, semi :: rest⟩ := by
  intro xs
  induction xs with
  | nil =>
    intro _ c
    refine ⟨E.reverse ++ c, ?_⟩
    have h1 : logicalOr ex (k + 1) ⟨c, E ++ last :: semi :: rest⟩
        = Res.ok e ⟨last :: (E.reverse ++ c), semi :: rest⟩ :=
      (logicalOr_le (Le.refl ex) k (k + 1) (by omega)).ok (hE c)
    show assignment ex (k + 1 + 1) ⟨c, [] ++ (E ++ last :: semi :: rest)⟩ = _
    rw [List.nil_append, assignment, bind_ok h1]
    simp [bind_def, P.bind, matchTypes_cons, assignOps, hs, pure_def, assignExpr]
  | cons x xs ih =>
    intro hx c
    have hop : x.op.type = ASSIGN := hx x (List.mem_cons_self _ _)
    obtain ⟨c1, h2⟩ := ih (fun y hy => hx y (List.mem_cons_of_mem _ hy)) (x.op :: x.token :: c)
    refine ⟨c1, ?_⟩
    have h1 := logicalOr_identifier ex (k + xs.length) x c
      (assignTokens xs ++ (E ++ last :: semi :: rest)) hop
    have hm : matchTypes assignOps
        ⟨x.token :: c, x.op :: (assignTokens xs ++ (E ++ last :: semi :: rest))⟩
        = Res.ok true ⟨x.op :: x.token :: c, assignTokens xs ++ (E ++ last :: semi :: rest)⟩ := by
      rw [matchTypes_cons, if_pos]
      rw [hop]
      exact ⟨by decide, by decide⟩
    rw [show k + 2 + (x :: xs).length = (k + 2 + xs.length) + 1 by simp; omega]
    rw [assignTokens_cons, List.cons_append, List.cons_append, assignment]
    rw [show k + 2 + xs.length = k + xs.length + 2 by omega, bind_ok h1, bind_ok hm]
    simp only [if_true]
    rw [bind_ok (previous_cons _ _ _)]
    rw [show k + xs.length + 2 = k + 2 + xs.length by omega, bind_ok h2]
    show (previous >>= fun t => pure _) _ = _
    rw [bind_ok (previous_cons _ _ _), assignExpr_cons, hop]
    rfl

/-- A program made of one expression statement, from the run of `expression`. -/
theorem parse_of_expression (n : Nat) (t0 : Token) (r0 : List Token) (x : Expr)
    (c : List Token) (semi eof : Token) (r : List Token)
    (h0 : opensStatement t0.type = false)
    (h : expression n ⟨[], t0 :: r0⟩ = Res.ok x ⟨c, semi :: eof :: r⟩)
    (hs : semi.type = SEMICOLON) (he : eof.type = END_OF_FILE) :
    parse (n + 3) (t0 :: r0) = Outcome.returned [Stmt.ExprStmt x semi.line] := by
  have hne : t0.type ≠ END_OF_FILE := by
    intro h1
    rw [h1] at h0
    exact absurd h0 (by decide)
  have hst : expressionStatement n ⟨[], t0 :: r0⟩
      = Res.ok (Stmt.ExprStmt x semi.line) ⟨semi :: c, eof :: r⟩ := by
    rw [expressionStatement, bind_ok h]
    simp [bind_def, P.bind, consume_cons, hs, previous_cons, pure_def]
  have hd : declaration (n + 2) ⟨[], t0 :: r0⟩
      = Res.ok (Stmt.ExprStmt x semi.line) ⟨semi :: c, eof :: r⟩ := by
    rw [declaration_expression _ _ _ _ h0]
    exact catchSynchronize_ok hst
  rw [parse, parseLoop_step _ _ _ _ _ hne, bind_ok hd, parseLoop_end _ _ _ _ _ he]
  rfl

/-- C3. Assignment is right-associative: for identifiers `x1 .. xn` (`n >= 1`)
and an expression `e` that `logicalOr` reads from the tokens `E ++ [last]` when
a semicolon follows, `parse` of `x1 = x2 = ... = xn = e;` returns, with any
fuel from `m + k + n + 7` on, the single expression statement whose tree is
`Binary(x1, ASSIGN, Binary(x2, ASSIGN, ... Binary(xn, ASSIGN, e)))`; each
`Binary` node carries the line of the last token of `e`. -/
theorem assignment_right_associative (x1 : AssignTarget) (xs : List AssignTarget)
    (m k : Nat) (c0 E : List Token) (last semi eof : Token) (r0 : List Token) (e : Expr)
    (hx : ∀ x ∈ x1 :: xs, x.op.type = ASSIGN)
    (hs : semi.type = SEMICOLON) (he : eof.type = END_OF_FILE)
    (hE : logicalOr (expression m) k ⟨c0, E ++ last :: semi :: r0⟩
        = Res.ok e ⟨last :: (E.reverse ++ c0), semi :: r0⟩)
    (fuel : Nat) (hf : m + k + (x1 :: xs).length + 7 ≤ fuel) :
    parse fuel (assignTokens (x1 :: xs) ++ (E ++ [last, semi, eof]))
      = Outcome.returned
          [Stmt.ExprStmt (assignExpr (x1 :: xs) e last.line) semi.line] := by
  have hloc : Loc false true Eq (logicalOr (expression m) k) :=
    logicalOr_loc exprRel_eq (expression_loc exprRel_eq m) k
  have hE2 : logicalOr (expression m) k ⟨c0, (E ++ [last]) ++ semi :: r0⟩
      = Res.ok e ⟨last :: (E.reverse ++ c0), semi :: r0⟩ := by
    rw [List.append_assoc]; exact hE
  have hmove := (hloc.ok_move hE2 rfl).2
  have hE3 : ∀ c, logicalOr (expression (m + k + xs.length + 3)) k
      ⟨c, E ++ last :: semi :: [eof]⟩
      = Res.ok e ⟨last :: (E.reverse ++ c), semi :: [eof]⟩ := by
    intro c
    have h3 := hmove c (semi :: [eof]) rfl
    rw [List.append_assoc, List.reverse_append] at h3
    exact (logicalOr_le (expression_le m _ (by omega)) k k (le_refl k)).ok h3
  obtain ⟨c1, h4⟩ := assignment_chain _ k e E last semi [eof] hs hE3 (x1 :: xs) hx []
  have h5 : expression (m + k + xs.length + 4)
      ⟨[], assignTokens (x1 :: xs) ++ (E ++ [last, semi, eof])⟩
      = Res.ok (assignExpr (x1 :: xs) e last.line) ⟨last :: c1, semi :: [eof]⟩ := by
    rw [expression]
    exact (assignment_le (Le.refl _) _ _ (by simp; omega)).ok h4
  rw [assignTokens_cons, List.cons_append] at h5 ⊢
  have h6 := parse_of_expression _ x1.token _ _ _ semi eof [] rfl h5 hs he
  exact parse_mono (by simp at hf; omega) h6 (by intro h; cases h)

/-- C3, at `a = b = 3;`. -/
theorem assignment_right_associative_witness :
    parse 12 [⟨IDENTIFIER, 1, some "a"⟩, ⟨ASSIGN, 1, none⟩, ⟨IDENTIFIER, 1, some "b"⟩,
        ⟨ASSIGN, 1, none⟩, ⟨NUMBER, 1, some "3"⟩, ⟨SEMICOLON, 1, none⟩,
        ⟨END_OF_FILE, 1, none⟩]
      = Outcome.returned [Stmt.ExprStmt
          (Expr.BinaryExpr (Expr.IdentifierExpr "a" 1) ASSIGN
            (Expr.BinaryExpr (Expr.IdentifierExpr "b" 1) ASSIGN
              (Expr.LiteralExpr "3" NUMBER 1) 1) 1) 1] :=
  assignment_right_associative ⟨"a", 1, ⟨ASSIGN, 1, none⟩⟩ [⟨"b", 1, ⟨ASSIGN, 1, none⟩⟩]
    1 2 [] [] ⟨NUMBER, 1, some "3"⟩ ⟨SEMICOLON, 1, none⟩ ⟨END_OF_FILE, 1, none⟩ []
    (Expr.LiteralExpr "3" NUMBER 1)
    (by decide) rfl rfl rfl 12 (by decide)

/-! ## The `for` statement and its `while` form -/

theorem Loc.ok_move_b {α : Type} {b s : Bool} {R : Token → Token → Prop} {x : P α}
    (h : Loc b s R x) {c1 u s1 : List Token} {a : α} {p1 : Parser}
    (hx : x ⟨c1, u ++ s1⟩ = Res.ok a p1) (hp : p1.remaining = s1) :
    ∀ (c2 s2 : List Token), LA R s1 s2 → (b = true → c1.head? = c2.head?) →
      x ⟨c2, u ++ s2⟩ = Res.ok a ⟨u.reverse ++ c2, s2⟩ := by
  obtain ⟨u2, s3, h1, h2, _, _, h5⟩ := h.ok c1 (u ++ s1) a p1 hx
  have hs : s3 = s1 := by rw [h2] at hp; exact hp
  subst hs
  have hu : u = u2 := List.append_cancel_right h1
  subst hu
  exact h5

theorem exprRel_closesClause : ExprRel ClosesClause := by
  refine ⟨fun t => Or.inl rfl, fun ty hty t1 t2 h => ?_⟩
  rcases h with h | ⟨h1, h2⟩
  · subst h; exact Iff.rfl
  · constructor
    · rintro ⟨_, h3⟩
      rw [← h3] at hty
      rcases h1 with h1 | h1 <;> rw [h1] at hty <;> cases hty
    · rintro ⟨_, h3⟩
      rw [← h3] at hty
      rcases h2 with h2 | h2 <;> rw [h2] at hty <;> cases hty

theorem stmtRel_noElse : StmtRel NoElse := by
  refine ⟨fun t => Or.inl rfl, fun t1 t2 h => ?_⟩
  rcases h with h | ⟨h1, h2⟩
  · subst h; exact Iff.rfl
  · exact ⟨fun h => absurd h.2 h1, fun h => absurd h.2 h2⟩

/-- An expression read in full before a `;` or a `)` is read the same, with
any fuel not smaller, in every state that holds its tokens before a `;` or a
`)`. -/
theorem expression_move {n : Nat} {X : List Token} {t : Token} {e : Expr}
    (h : expression n ⟨[], X ++ [t]⟩ = Res.ok e ⟨X.reverse, [t]⟩)
    (ht : t.type = SEMICOLON ∨ t.type = RPAREN) (k : Nat) (hk : n ≤ k)
    (c : List Token) (t2 : Token) (r2 : List Token)
    (ht2 : t2.type = SEMICOLON ∨ t2.type = RPAREN) :
    expression k ⟨c, X ++ t2 :: r2⟩ = Res.ok e ⟨X.reverse ++ c, t2 :: r2⟩ :=
  (expression_le n k hk).ok
    ((expression_loc exprRel_closesClause n).ok_move_b h rfl c (t2 :: r2)
      (Or.inr ⟨ht, ht2⟩) (fun hb => absurd hb (by decide)))

theorem expression_move_starts {n : Nat} {X : List Token} {t : Token} {e : Expr}
    (h : expression n ⟨[], X ++ [t]⟩ = Res.ok e ⟨X.reverse, [t]⟩)
    (ht : t.type = SEMICOLON ∨ t.type = RPAREN) :
    ∃ x0 X2, X = x0 :: X2 ∧ startsExpression x0.type = true := by
  obtain ⟨x0, r, h1, h2⟩ := expression_ok_starts n [] _ e _ h
  cases X with
  | nil =>
    simp only [List.nil_append, List.cons.injEq] at h1
    rw [← h1.1] at h2
    rcases ht with ht | ht <;> rw [ht] at h2 <;> cases h2
  | cons y Y =>
    simp only [List.cons_append, List.cons.injEq] at h1
    exact ⟨y, Y, rfl, by rw [h1.1]; exact h2⟩

theorem expressionStatement_move {n : Nat} {X : List Token} {t : Token} {s : Stmt}
    (h : expressionStatement n ⟨[], X ++ [t]⟩ = Res.ok s ⟨X.reverse, [t]⟩)
    (k : Nat) (hk : n ≤ k) (c : List Token) (t2 : Token) (r2 : List Token) :
    expressionStatement k ⟨c, X ++ t2 :: r2⟩ = Res.ok s ⟨X.reverse ++ c, t2 :: r2⟩ :=
  (expressionStatement_le n k hk).ok
    ((expressionStatement_loc (R := fun _ _ => True) (fun _ => trivial) n).ok_move_b h rfl
      c (t2 :: r2) trivial (fun hb => absurd hb (by decide)))

theorem expressionStatement_move_starts {n : Nat} {X : List Token} {t : Token} {s : Stmt}
    (h : expressionStatement n ⟨[], X ++ [t]⟩ = Res.ok s ⟨X.reverse, [t]⟩) :
    ∃ x0 X2, X = x0 :: X2 ∧ startsExpression x0.type = true := by
  have h0 := h
  rw [expressionStatement] at h
  obtain ⟨e, p1, he, h2⟩ := bind_eq_ok h
  obtain ⟨x0, r, h1, hs⟩ := expression_ok_starts n [] _ e _ he
  cases X with
  | nil =>
    exfalso
    obtain ⟨u, s1, hu1, hu2, hu3, _⟩ :=
      (expressionStatement_loc (R := Eq) (fun _ => rfl) n).ok [] _ s _ h0
    have hc := congrArg Parser.consumed hu2
    simp at hc
    exact hu3 rfl hc
  | cons y Y =>
    simp only [List.cons_append, List.cons.injEq] at h1
    exact ⟨y, Y, rfl, by rw [h1.1]; exact hs⟩

theorem numVarDeclaration_move {n : Nat} {X : List Token} {numT t : Token} {s : Stmt}
    (h : numVarDeclaration n ⟨[numT], X ++ [t]⟩ = Res.ok s ⟨X.reverse ++ [numT], [t]⟩)
    (k : Nat) (hk : n ≤ k) (c : List Token) (t2 : Token) (r2 : List Token) :
    numVarDeclaration k ⟨numT :: c, X ++ t2 :: r2⟩
      = Res.ok s ⟨X.reverse ++ numT :: c, t2 :: r2⟩ :=
  (typedVarDeclaration_le n k hk _).ok
    ((numVarDeclaration_loc (R := fun _ _ => True) (fun _ => trivial) n).ok_move_b h rfl
      (numT :: c) (t2 :: r2) trivial (fun _ => rfl))

theorem statement_real_raw (n : Nat) :
    Sim (statement (declaration n) n) (statement (declarationRaw n) n) :=
  statement_sim (declaration_sim n) n

/-- A statement read in full before the end marker is read the same, with any
fuel not smaller, in every state that holds its tokens before a token other
than `else`. -/
theorem statement_move {n : Nat} {X : List Token} {t : Token} {s : Stmt}
    (h : statement (declaration n) n ⟨[], X ++ [t]⟩ = Res.ok s ⟨X.reverse, [t]⟩)
    (ht : t.type = END_OF_FILE) (a k : Nat) (ha : n ≤ a) (hk : n ≤ k)
    (c : List Token) (t2 : Token) (r2 : List Token) (ht2 : t2.type ≠ ELSE) :
    statement (declaration a) k ⟨c, X ++ t2 :: r2⟩
      = Res.ok s ⟨X.reverse ++ c, t2 :: r2⟩ := by
  have h1 := ((statement_real_raw n).ok_iff _ _ _).1 h
  have h2 := (statement_loc stmtRel_noElse (declarationRaw_loc stmtRel_noElse n) n).ok_move_b
    h1 rfl c (t2 :: r2) (Or.inr ⟨by rw [ht]; decide, ht2⟩) (fun hb => absurd hb (by decide))
  exact (statement_le (declaration_le n a ha) n k hk).ok ((statement_real_raw n).ok _ _ _ h2)

theorem matchType_false {ty : TokenType} {c : List Token} {t : Token} {r : List Token}
    (h : t.type ≠ ty) : matchType ty ⟨c, t :: r⟩ = Res.ok false ⟨c, t :: r⟩ := by
  rw [matchType_cons, if_neg]
  exact fun h2 => h h2.2

theorem matchType_true {ty : TokenType} {c : List Token} {t : Token} {r : List Token}
    (h : t.type = ty) (hne : ty ≠ END_OF_FILE) :
    matchType ty ⟨c, t :: r⟩ = Res.ok true ⟨t :: c, r⟩ := by
  rw [matchType_cons, if_pos]
  exact ⟨by rw [h]; exact hne, h⟩

theorem check_false {ty : TokenType} {c : List Token} {t : Token} {r : List Token}
    (h : t.type ≠ ty) : check ty ⟨c, t :: r⟩ = Res.ok false ⟨c, t :: r⟩ := by
  rw [check_cons]
  simp [h]

theorem check_true {ty : TokenType} {c : List Token} {t : Token} {r : List Token}
    (h : t.type = ty) (hne : ty ≠ END_OF_FILE) :
    check ty ⟨c, t :: r⟩ = Res.ok true ⟨c, t :: r⟩ := by
  rw [check_cons]
  simp [h, hne]

theorem consume_ok {ty : TokenType} {msg : String} {c : List Token} {t : Token}
    {r : List Token} (h : t.type = ty) (hne : ty ≠ END_OF_FILE) :
    consume ty msg ⟨c, t :: r⟩ = Res.ok t ⟨t :: c, r⟩ := by
  rw [consume_cons, if_pos]
  exact ⟨by rw [h]; exact hne, h⟩

theorem statement_other (d : P Stmt) (n : Nat) (c : List Token) (t : Token)
    (r : List Token)
    (h : ∀ ty ∈ [IF, WHILE, FOR, LBRACE, RETURN, PRINT], t.type ≠ ty) :
    statement d (n + 1) ⟨c, t :: r⟩ = expressionStatement n ⟨c, t :: r⟩ := by
  rw [statement]
  rw [bind_ok (matchType_false (h IF (by simp)))]; simp only [Bool.false_eq_true, if_false]
  rw [bind_ok (matchType_false (h WHILE (by simp)))]; simp only [Bool.false_eq_true, if_false]
  rw [bind_ok (matchType_false (h FOR (by simp)))]; simp only [Bool.false_eq_true, if_false]
  rw [bind_ok (matchType_false (h LBRACE (by simp)))]; simp only [Bool.false_eq_true, if_false]
  rw [bind_ok (matchType_false (h RETURN (by simp)))]; simp only [Bool.false_eq_true, if_false]
  rw [bind_ok (matchType_false (h PRINT (by simp)))]; simp only [Bool.false_eq_true, if_false]

theorem declarationBody_other (d : P Stmt) (n : Nat) (c : List Token) (t : Token)
    (r : List Token)
    (h : ∀ ty ∈ [FUNCTION, KEYWORD_VAR_NUM, KEYWORD_VAR_STR, KEYWORD_VAR_ARR, IMPORT],
      t.type ≠ ty) :
    declarationBody d n ⟨c, t :: r⟩ = statement d n ⟨c, t :: r⟩ := by
  rw [declarationBody]
  rw [bind_ok (matchType_false (h FUNCTION (by simp)))]
  simp only [Bool.false_eq_true, if_false]
  rw [bind_ok (matchType_false (h KEYWORD_VAR_NUM (by simp)))]
  simp only [Bool.false_eq_true, if_false]
  rw [bind_ok (matchType_false (h KEYWORD_VAR_STR (by simp)))]
  simp only [Bool.false_eq_true, if_false]
  rw [bind_ok (matchType_false (h KEYWORD_VAR_ARR (by simp)))]
  simp only [Bool.false_eq_true, if_false]
  rw [bind_ok (matchType_false (h IMPORT (by simp)))]
  simp only [Bool.false_eq_true, if_false]

theorem startsStatement_other {ty : TokenType} (h : startsStatement ty = true) :
    ∀ ty2 ∈ [FUNCTION, KEYWORD_VAR_NUM, KEYWORD_VAR_STR, KEYWORD_VAR_ARR, IMPORT],
      ty ≠ ty2 := by
  intro ty2 h2 h3
  subst h3
  simp only [List.mem_cons, List.mem_singleton, List.not_mem_nil, or_false] at h2
  rcases h2 with h2 | h2 | h2 | h2 | h2 <;> rw [h2] at h <;> cases h

theorem statement_ok_starts (d : P Stmt) (k : Nat) (c rem : List Token) (s : Stmt)
    (p1 : Parser) (h : statement d k ⟨c, rem⟩ = Res.ok s p1) :
    ∃ t r, rem = t :: r ∧ startsStatement t.type = true := by
  cases k with
  | zero => simp [statement, noFuel] at h
  | succ k =>
    cases rem with
    | nil =>
      simp [statement, matchType, check, isAtEnd, peek, bind_def, P.bind] at h
    | cons t r =>
      refine ⟨t, r, rfl, ?_⟩
      by_contra hs
      have hty : ∀ ty, startsStatement ty = true → t.type ≠ ty := by
        intro ty hty h1
        rw [h1] at hs
        exact hs hty
      rw [statement_other d k c t r (by
        intro ty hm
        simp only [List.mem_cons, List.mem_singleton, List.not_mem_nil, or_false] at hm
        rcases hm with h1 | h1 | h1 | h1 | h1 | h1 <;> subst h1 <;> exact hty _ rfl)] at h
      rw [expressionStatement] at h
      obtain ⟨e, p2, he, _⟩ := bind_eq_ok h
      obtain ⟨x0, r0, h1, h2⟩ := expression_ok_starts k c _ e p2 he
      simp only [List.cons.injEq] at h1
      rw [← h1.1] at h2
      apply hs
      cases hx : t.type <;> rw [hx] at h2 <;> first | rfl | cases h2

theorem statement_move_starts {n : Nat} {X : List Token} {t : Token} {s : Stmt}
    (h : statement (declaration n) n ⟨[], X ++ [t]⟩ = Res.ok s ⟨X.reverse, [t]⟩)
    (ht : t.type = END_OF_FILE) :
    ∃ x0 X2, X = x0 :: X2 ∧ startsStatement x0.type = true := by
  obtain ⟨x0, r, h1, h2⟩ := statement_ok_starts _ n [] _ s _ h
  cases X with
  | nil =>
    simp only [List.nil_append, List.cons.injEq] at h1
    rw [← h1.1, ht] at h2
    cases h2
  | cons y Y =>
    simp only [List.cons_append, List.cons.injEq] at h1
    exact ⟨y, Y, rfl, by rw [h1.1]; exact h2⟩

/-- One iteration of the loop of `block`. -/
theorem blockLoop_step (d : P Stmt) (k : Nat) (acc : List Stmt) (c : List Token)
    (t : Token) (r : List Token) (s : Stmt) (p1 : Parser)
    (h1 : t.type ≠ RBRACE) (h2 : t.type ≠ END_OF_FILE)
    (hd : d ⟨c, t :: r⟩ = Res.ok s p1) :
    blockLoop d (k + 1) acc ⟨c, t :: r⟩ = blockLoop d k (acc ++ [s]) p1 := by
  rw [blockLoop, bind_ok (check_false h1)]
  simp only [Bool.false_eq_true, if_false]
  rw [bind_ok (isAtEnd_cons _ _ _)]
  have : (t.type == END_OF_FILE) = false := by simp [h2]
  rw [this]
  simp only [Bool.false_eq_true, if_false]
  rw [bind_ok hd]

theorem blockLoop_stop (d : P Stmt) (k : Nat) (acc : List Stmt) (c : List Token)
    (t : Token) (r : List Token) (h1 : t.type = RBRACE) :
    blockLoop d (k + 1) acc ⟨c, t :: r⟩ = Res.ok acc ⟨c, t :: r⟩ := by
  rw [blockLoop, bind_ok (check_true h1 (by decide))]
  rfl

theorem block_run (d : P Stmt) (k : Nat) (lb : Token) (c r : List Token)
    (acc : List Stmt) (c1 : List Token) (rb : Token) (r1 : List Token)
    (hb : rb.type = RBRACE)
    (h : blockLoop d k [] ⟨lb :: c, r⟩ = Res.ok acc ⟨c1, rb :: r1⟩) :
    block d k ⟨lb :: c, r⟩ = Res.ok (Stmt.BlockStmt acc lb.line) ⟨rb :: c1, r1⟩ := by
  rw [block, bind_ok (previous_cons _ _ _), bind_ok h, bind_ok (consume_ok hb (by decide))]
  rfl

theorem statement_block (d : P Stmt) (k : Nat) (lb : Token) (c r : List Token)
    (h : lb.type = LBRACE) :
    statement d (k + 1) ⟨c, lb :: r⟩ = block d k ⟨lb :: c, r⟩ := by
  rw [statement]
  rw [bind_ok (matchType_false (by rw [h]; decide))]; simp only [Bool.false_eq_true, if_false]
  rw [bind_ok (matchType_false (by rw [h]; decide))]; simp only [Bool.false_eq_true, if_false]
  rw [bind_ok (matchType_false (by rw [h]; decide))]; simp only [Bool.false_eq_true, if_false]
  rw [bind_ok (matchType_true h (by decide))]; simp only [if_true]

theorem statement_while (d : P Stmt) (k : Nat) (w : Token) (c r : List Token)
    (h : w.type = WHILE) :
    statement d (k + 1) ⟨c, w :: r⟩ = whileStatement (statement d k) k ⟨w :: c, r⟩ := by
  rw [statement]
  rw [bind_ok (matchType_false (by rw [h]; decide))]; simp only [Bool.false_eq_true, if_false]
  rw [bind_ok (matchType_true h (by decide))]; simp only [if_true]

theorem statement_for (d : P Stmt) (k : Nat) (f : Token) (c r : List Token)
    (h : f.type = FOR) :
    statement d (k + 1) ⟨c, f :: r⟩ = forStatement (statement d k) k ⟨f :: c, r⟩ := by
  rw [statement]
  rw [bind_ok (matchType_false (by rw [h]; decide))]; simp only [Bool.false_eq_true, if_false]
  rw [bind_ok (matchType_false (by rw [h]; decide))]; simp only [Bool.false_eq_true, if_false]
  rw [bind_ok (matchType_true h (by decide))]; simp only [if_true]

theorem whileStatement_run (s : P Stmt) (k : Nat) (w lp rp : Token) (c C r : List Token)
    (e : Expr) (body : Stmt) (p1 : Parser)
    (hlp : lp.type = LPAREN) (hrp : rp.type = RPAREN)
    (he : expression k ⟨lp :: w :: c, C ++ rp :: r⟩
      = Res.ok e ⟨C.reverse ++ lp :: w :: c, rp :: r⟩)
    (hs : s ⟨rp :: (C.reverse ++ lp :: w :: c), r⟩ = Res.ok body p1) :
    whileStatement s k ⟨w :: c, lp :: (C ++ rp :: r)⟩
      = Res.ok (Stmt.WhileStmt e body w.line) p1 := by
  rw [whileStatement, bind_ok (previous_cons _ _ _), bind_ok (consume_ok hlp (by decide)),
    bind_ok he, bind_ok (consume_ok hrp (by decide)), bind_ok hs]
  rfl

/-- A declaration that is a statement, once the statement has been read. -/
theorem declaration_of_statement (a : Nat) (c : List Token) (t : Token) (r : List Token)
    (s : Stmt) (p1 : Parser) (ht : startsStatement t.type = true)
    (h : statement (declaration a) a ⟨c, t :: r⟩ = Res.ok s p1) :
    declaration (a + 1) ⟨c, t :: r⟩ = Res.ok s p1 := by
  rw [declaration]
  apply catchSynchronize_ok
  rw [declarationBody_other _ _ _ _ _ (startsStatement_other ht)]
  exact h

theorem incrementLoop_stop (k : Nat) (e : Expr) (c : List Token) (t : Token)
    (r : List Token) (h : t.type = RPAREN) :
    incrementLoop (k + 1) e ⟨c, t :: r⟩ = Res.ok e ⟨c, t :: r⟩ := by
  rw [incrementLoop, bind_ok (check_true h (by decide))]
  rfl

theorem forStatement_run (s : P Stmt) (k : Nat) (forT lp semi rp : Token)
    (c : List Token) (i0 : Token) (I : List Token) (c0 : Token) (C U r : List Token)
    (sI : Stmt) (eC eU : Expr) (sB : Stmt) (p1 : Parser) (cI cC cU : List Token)
    (hlp : lp.type = LPAREN) (hsemi : semi.type = SEMICOLON) (hrp : rp.type = RPAREN)
    (hi0 : i0.type ≠ SEMICOLON)
    (hI : (i0.type = KEYWORD_VAR_NUM ∧
        numVarDeclaration (k + 1) ⟨i0 :: lp :: forT :: c, I ++ c0 :: (C ++ semi :: (U ++ rp :: r))⟩
          = Res.ok sI ⟨cI, c0 :: (C ++ semi :: (U ++ rp :: r))⟩) ∨
      (i0.type ≠ KEYWORD_VAR_NUM ∧
        expressionStatement (k + 1) ⟨lp :: forT :: c, i0 :: (I ++ c0 :: (C ++ semi :: (U ++ rp :: r)))⟩
          = Res.ok sI ⟨cI, c0 :: (C ++ semi :: (U ++ rp :: r))⟩))
    (hc0 : c0.type ≠ SEMICOLON)
    (hC : expression (k + 1) ⟨cI, c0 :: (C ++ semi :: (U ++ rp :: r))⟩
      = Res.ok eC ⟨cC, semi :: (U ++ rp :: r)⟩)
    (hU : ∃ u0 U2, U = u0 :: U2 ∧ u0.type ≠ RPAREN)
    (hUe : expression (k + 1) ⟨semi :: cC, U ++ rp :: r⟩ = Res.ok eU ⟨cU, rp :: r⟩)
    (hs : s ⟨rp :: cU, r⟩ = Res.ok sB p1) :
    forStatement s (k + 1) ⟨forT :: c, lp :: i0 :: (I ++ c0 :: (C ++ semi :: (U ++ rp :: r)))⟩
      = Res.ok (whileForm sI eC eU sB forT.line forT.line forT.line forT.line) p1 := by
  obtain ⟨u0, U2, hU0, hu0⟩ := hU
  rw [forStatement, bind_ok (previous_cons _ _ _), bind_ok (consume_ok hlp (by decide))]
  simp only []
  rw [bind_ok (matchType_false hi0)]
  simp only [Bool.false_eq_true, if_false]
  have hinit : ∀ (K : Option Stmt → P Stmt),
      (matchType KEYWORD_VAR_NUM >>= fun b =>
        if b = true then numVarDeclaration (k + 1) >>= fun s => pure (some s) >>= K
        else expressionStatement (k + 1) >>= fun s => pure (some s) >>= K)
        ⟨lp :: forT :: c, i0 :: (I ++ c0 :: (C ++ semi :: (U ++ rp :: r)))⟩
      = K (some sI) ⟨cI, c0 :: (C ++ semi :: (U ++ rp :: r))⟩ := by
    intro K
    rcases hI with ⟨h1, h2⟩ | ⟨h1, h2⟩
    · rw [bind_ok (matchType_true h1 (by decide))]
      simp only [if_true]
      rw [bind_ok h2]
      rfl
    · rw [bind_ok (matchType_false h1)]
      simp only [Bool.false_eq_true, if_false]
      rw [bind_ok h2]
      rfl
  refine (hinit _).trans ?_
  simp only []
  rw [bind_ok (check_false hc0)]
  simp only [Bool.not_false, if_true]
  rw [bind_ok hC, bind_ok (pure_def _ _), bind_ok (consume_ok hsemi (by decide))]
  subst hU0
  rw [List.cons_append] at hUe ⊢
  rw [bind_ok (check_false hu0)]
  simp only [Bool.not_false, if_true]
  rw [bind_ok hUe, bind_ok (incrementLoop_stop k eU cU rp r hrp), bind_ok (pure_def _ _),
    bind_ok (consume_ok hrp (by decide)), bind_ok hs]
  rfl

/-- The text emitted for the tree of a `for` statement does not depend on the
lines of the four nodes `forStatement` adds. -/
theorem generateStatement_whileForm (init : Stmt) (cond incr : Expr) (body : Stmt)
    (l1 l2 l3 l4 m1 m2 m3 m4 : Int) (g : Generator) (ss : String) :
    generateStatement (whileForm init cond incr body l1 l2 l3 l4) g ss
      = generateStatement (whileForm init cond incr body m1 m2 m3 m4) g ss := rfl

theorem generate_whileForm (init : Stmt) (cond incr : Expr) (body : Stmt)
    (l1 l2 l3 l4 m1 m2 m3 m4 : Int) :
    generate [whileForm init cond incr body l1 l2 l3 l4]
      = generate [whileForm init cond incr body m1 m2 m3 m4] := rfl

theorem startsExpression_statement {ty : TokenType} (h : startsExpression ty = true) :
    startsStatement ty = true := by
  cases ty <;> first | rfl | cases h

/-- A declaration that is an expression statement, as the loop of `block`
reads it. -/
theorem declaration_expression_move {n : Nat} {U : List Token} {rp : Token} {eU : Expr}
    (hU : expression n ⟨[], U ++ [rp]⟩ = Res.ok eU ⟨U.reverse, [rp]⟩)
    (hrp : rp.type = RPAREN) (a : Nat) (ha : n ≤ a) (c : List Token) (semi : Token)
    (r : List Token) (hsemi : semi.type = SEMICOLON) :
    declaration (a + 2) ⟨c, U ++ semi :: r⟩
      = Res.ok (Stmt.ExprStmt eU semi.line) ⟨semi :: (U.reverse ++ c), r⟩ := by
  obtain ⟨u0, U2, hU0, hu0⟩ := expression_move_starts hU (Or.inr hrp)
  have h1 := expression_move hU (Or.inr hrp) a ha c semi r (Or.inl hsemi)
  subst hU0
  rw [List.cons_append] at h1 ⊢
  rw [declaration_expression _ _ _ _ (startsExpression_not_opens hu0)]
  apply catchSynchronize_ok
  rw [expressionStatement, bind_ok h1, bind_ok (consume_ok hsemi (by decide)),
    bind_ok (previous_cons _ _ _)]
  rfl

/-- A declaration that is a statement, as the loop of `block` reads it. -/
theorem declaration_statement_move {n : Nat} {B : List Token} {eof : Token} {sB : Stmt}
    (hB : statement (declaration n) n ⟨[], B ++ [eof]⟩ = Res.ok sB ⟨B.reverse, [eof]⟩)
    (heof : eof.type = END_OF_FILE) (a : Nat) (ha : n ≤ a) (c : List Token) (t2 : Token)
    (r2 : List Token) (ht2 : t2.type ≠ ELSE) :
    declaration (a + 1) ⟨c, B ++ t2 :: r2⟩ = Res.ok sB ⟨B.reverse ++ c, t2 :: r2⟩ := by
  obtain ⟨b0, B2, hB0, hb0⟩ := statement_move_starts hB heof
  have h1 := statement_move hB heof a a ha ha c t2 r2 ht2
  subst hB0
  rw [List.cons_append] at h1 ⊢
  exact declaration_of_statement a c b0 _ sB _ hb0 h1

/-- The initializer of a `for` statement, read as a declaration by the loop of
`block`. -/
theorem declaration_initializer_move {n : Nat} {I : List Token} {eof : Token} {sI : Stmt}
    (hI : (∃ numT I2, I = numT :: I2 ∧ numT.type = KEYWORD_VAR_NUM ∧
        numVarDeclaration n ⟨[numT], I2 ++ [eof]⟩
          = Res.ok sI ⟨I2.reverse ++ [numT], [eof]⟩) ∨
      expressionStatement n ⟨[], I ++ [eof]⟩ = Res.ok sI ⟨I.reverse, [eof]⟩)
    (a : Nat) (ha : n ≤ a) (c : List Token) (t2 : Token) (r2 : List Token) :
    declaration (a + 2) ⟨c, I ++ t2 :: r2⟩ = Res.ok sI ⟨I.reverse ++ c, t2 :: r2⟩ := by
  rcases hI with ⟨numT, I2, hI0, hnum, h⟩ | h
  · have h1 := numVarDeclaration_move h (a + 1) (by omega) c t2 r2
    subst hI0
    rw [List.cons_append, declaration]
    apply catchSynchronize_ok
    rw [declarationBody, bind_ok (matchType_false (by rw [hnum]; decide))]
    simp only [Bool.false_eq_true, if_false]
    rw [bind_ok (matchType_true hnum (by decide))]
    simp only [if_true]
    rw [h1]
    simp
  · obtain ⟨i0, I2, hI0, hi0⟩ := expressionStatement_move_starts h
    have h1 := expressionStatement_move h a ha c t2 r2
    subst hI0
    rw [List.cons_append] at h1 ⊢
    rw [declaration_expression _ _ _ _ (startsExpression_not_opens hi0)]
    exact catchSynchronize_ok h1

theorem blockLoop_step_append (d : P Stmt) (k : Nat) (acc : List Stmt) (c X r : List Token)
    (s : Stmt) (p1 : Parser)
    (hX : ∃ x0 X2, X = x0 :: X2 ∧ x0.type ≠ RBRACE ∧ x0.type ≠ END_OF_FILE)
    (hd : d ⟨c, X ++ r⟩ = Res.ok s p1) :
    blockLoop d (k + 1) acc ⟨c, X ++ r⟩ = blockLoop d k (acc ++ [s]) p1 := by
  obtain ⟨x0, X2, hX0, hx1, hx2⟩ := hX
  subst hX0
  rw [List.cons_append] at hd ⊢
  exact blockLoop_step d k acc c x0 _ s p1 hx1 hx2 hd

theorem startsStatement_inner {X : List Token}
    (h : ∃ x0 X2, X = x0 :: X2 ∧ startsStatement x0.type = true) :
    ∃ x0 X2, X = x0 :: X2 ∧ x0.type ≠ RBRACE ∧ x0.type ≠ END_OF_FILE := by
  obtain ⟨x0, X2, hX0, hx0⟩ := h
  exact ⟨x0, X2, hX0, (by intro h; rw [h] at hx0; cases hx0),
    (by intro h; rw [h] at hx0; cases hx0)⟩

/-- The `for` statement, read from its clauses. -/
theorem forStatement_of_clauses {n : Nat} (forT : Token) {lp rp semi eof : Token}
    {I C U B : List Token} {sI : Stmt} {eC eU : Expr} {sB : Stmt}
    (hlp : lp.type = LPAREN) (hrp : rp.type = RPAREN) (hsemi : semi.type = SEMICOLON)
    (heof : eof.type = END_OF_FILE)
    (hI : (∃ numT I2, I = numT :: I2 ∧ numT.type = KEYWORD_VAR_NUM ∧
        numVarDeclaration n ⟨[numT], I2 ++ [eof]⟩
          = Res.ok sI ⟨I2.reverse ++ [numT], [eof]⟩) ∨
      expressionStatement n ⟨[], I ++ [eof]⟩ = Res.ok sI ⟨I.reverse, [eof]⟩)
    (hC : expression n ⟨[], C ++ [semi]⟩ = Res.ok eC ⟨C.reverse, [semi]⟩)
    (hU : expression n ⟨[], U ++ [rp]⟩ = Res.ok eU ⟨U.reverse, [rp]⟩)
    (hB : statement (declaration n) n ⟨[], B ++ [eof]⟩ = Res.ok sB ⟨B.reverse, [eof]⟩)
    (a : Nat) (ha : n ≤ a) (c : List Token) (t2 : Token) (r2 : List Token)
    (ht2 : t2.type ≠ ELSE) :
    ∃ c1, forStatement (statement (declaration a) (n + 1)) (n + 1)
        ⟨forT :: c, lp :: (I ++ (C ++ semi :: (U ++ rp :: (B ++ t2 :: r2))))⟩
      = Res.ok (whileForm sI eC eU sB forT.line forT.line forT.line forT.line)
          ⟨c1, t2 :: r2⟩ := by
  obtain ⟨c0, C2, hC0, hc0⟩ := expression_move_starts hC (Or.inl hsemi)
  obtain ⟨u0, U2, hU0, hu0⟩ := expression_move_starts hU (Or.inr hrp)
  have hCm := fun c => expression_move hC (Or.inl hsemi) (n + 1) (by omega) c semi
    (U ++ rp :: (B ++ t2 :: r2)) (Or.inl hsemi)
  have hUm := fun c => expression_move hU (Or.inr hrp) (n + 1) (by omega) c rp
    (B ++ t2 :: r2) (Or.inr hrp)
  have hBm := fun c => statement_move hB heof a (n + 1) ha (by omega) c t2 r2 ht2
  have hc0s : c0.type ≠ SEMICOLON := by intro h; rw [h] at hc0; cases hc0
  have hu0r : ∃ u0 U2, U = u0 :: U2 ∧ u0.type ≠ RPAREN :=
    ⟨u0, U2, hU0, by intro h; rw [h] at hu0; cases hu0⟩
  subst hC0
  simp only [List.cons_append] at hCm ⊢
  rcases hI with ⟨numT, I2, hI0, hnum, h⟩ | h
  · have h1 := numVarDeclaration_move h (n + 1) (by omega) (lp :: forT :: c) c0
      (C2 ++ semi :: (U ++ rp :: (B ++ t2 :: r2)))
    subst hI0
    exact ⟨_, forStatement_run _ n forT lp semi rp c numT I2 c0 C2 U (B ++ t2 :: r2)
      sI eC eU sB _ _ _ _ hlp hsemi hrp (by rw [hnum]; decide) (Or.inl ⟨hnum, h1⟩) hc0s
      (hCm _) hu0r (hUm _) (hBm _)⟩
  · obtain ⟨i0, I2, hI0, hi0⟩ := expressionStatement_move_starts h
    have h1 := expressionStatement_move h (n + 1) (by omega) (lp :: forT :: c) c0
      (C2 ++ semi :: (U ++ rp :: (B ++ t2 :: r2)))
    subst hI0
    exact ⟨_, forStatement_run _ n forT lp semi rp c i0 I2 c0 C2 U (B ++ t2 :: r2)
      sI eC eU sB _ _ _ _ hlp hsemi hrp (by intro h; rw [h] at hi0; cases hi0)
      (Or.inr ⟨(by intro h; rw [h] at hi0; cases hi0), h1⟩) hc0s
      (hCm _) hu0r (hUm _) (hBm _)⟩

/-- The `while` form of a `for` statement, read from the same clauses. -/
theorem block_of_clauses {n : Nat} {whileT lp rp semi lb2 rb1 rb2 eof : Token}
    {I C U B : List Token} {sI : Stmt} {eC eU : Expr} {sB : Stmt}
    (hwhile : whileT.type = WHILE) (hlp : lp.type = LPAREN) (hrp : rp.type = RPAREN)
    (hsemi : semi.type = SEMICOLON) (hlb2 : lb2.type = LBRACE)
    (hrb1 : rb1.type = RBRACE) (hrb2 : rb2.type = RBRACE) (heof : eof.type = END_OF_FILE)
    (hI : (∃ numT I2, I = numT :: I2 ∧ numT.type = KEYWORD_VAR_NUM ∧
        numVarDeclaration n ⟨[numT], I2 ++ [eof]⟩
          = Res.ok sI ⟨I2.reverse ++ [numT], [eof]⟩) ∨
      expressionStatement n ⟨[], I ++ [eof]⟩ = Res.ok sI ⟨I.reverse, [eof]⟩)
    (hC : expression n ⟨[], C ++ [semi]⟩ = Res.ok eC ⟨C.reverse, [semi]⟩)
    (hU : expression n ⟨[], U ++ [rp]⟩ = Res.ok eU ⟨U.reverse, [rp]⟩)
    (hB : statement (declaration n) n ⟨[], B ++ [eof]⟩ = Res.ok sB ⟨B.reverse, [eof]⟩)
    (lb1 : Token) (c r : List Token) :
    ∃ c1, block (declaration (n + 6)) (n + 5)
        ⟨lb1 :: c,
          I ++ whileT :: lp :: (C ++ rp :: lb2 :: (B ++ (U ++ semi :: rb2 :: rb1 :: r)))⟩
      = Res.ok (whileForm sI eC eU sB lb1.line whileT.line lb2.line semi.line)
          ⟨c1, r⟩ := by
  obtain ⟨u0, U2, hU0, hu0⟩ := expression_move_starts hU (Or.inr hrp)
  have hI1 := declaration_initializer_move hI (n + 4) (by omega) (lb1 :: c) whileT
    (lp :: (C ++ rp :: lb2 :: (B ++ (U ++ semi :: rb2 :: rb1 :: r))))
  have hIs : ∃ x0 X2, I = x0 :: X2 ∧ x0.type ≠ RBRACE ∧ x0.type ≠ END_OF_FILE := by
    rcases hI with ⟨numT, I2, hI0, hnum, _⟩ | h
    · exact ⟨numT, I2, hI0, (by rw [hnum]; decide), (by rw [hnum]; decide)⟩
    · obtain ⟨i0, I2, hI0, hi0⟩ := expressionStatement_move_starts h
      exact startsStatement_inner ⟨i0, I2, hI0, startsExpression_statement hi0⟩
  -- the inner block
  have hB1 := fun c => declaration_statement_move hB heof (n + 4) (by omega) c u0
    (U2 ++ semi :: rb2 :: rb1 :: r) (by intro h; rw [h] at hu0; cases hu0)
  have hU1 := fun c => declaration_expression_move hU hrp (n + 3) (by omega) c semi
    (rb2 :: rb1 :: r) hsemi
  have hinner : ∀ c, blockLoop (declaration (n + 5)) (n + 3) []
      ⟨c, B ++ (U ++ semi :: rb2 :: rb1 :: r)⟩
      = Res.ok [sB, Stmt.ExprStmt eU semi.line]
          ⟨semi :: (U.reverse ++ (B.reverse ++ c)), rb2 :: rb1 :: r⟩ := by
    intro c
    have hb := hB1 c
    subst hU0
    refine (blockLoop_step_append _ (n + 2) _ _ _ _ _ _
      (startsStatement_inner (statement_move_starts hB heof)) hb).trans ?_
    refine (blockLoop_step_append _ (n + 1) _ _ _ _ _ _
      (startsStatement_inner ⟨u0, U2, rfl, startsExpression_statement hu0⟩) (hU1 _)).trans ?_
    exact blockLoop_stop _ n _ _ _ _ hrb2
  have hbody : ∀ c, statement (declaration (n + 5)) (n + 4)
      ⟨c, lb2 :: (B ++ (U ++ semi :: rb2 :: rb1 :: r))⟩
      = Res.ok (Stmt.BlockStmt [sB, Stmt.ExprStmt eU semi.line] lb2.line)
          ⟨rb2 :: semi :: (U.reverse ++ (B.reverse ++ lb2 :: c)), rb1 :: r⟩ := by
    intro c
    refine (statement_block _ (n + 3) _ _ _ hlb2).trans ?_
    exact block_run _ _ _ _ _ _ _ _ _ hrb2 (hinner _)
  have hCm := fun c => expression_move hC (Or.inl hsemi) (n + 4) (by omega) c rp
    (lb2 :: (B ++ (U ++ semi :: rb2 :: rb1 :: r))) (Or.inr hrp)
  have hw : ∀ c, declaration (n + 6)
      ⟨c, whileT :: lp :: (C ++ rp :: lb2 :: (B ++ (U ++ semi :: rb2 :: rb1 :: r)))⟩
      = Res.ok (Stmt.WhileStmt eC (Stmt.BlockStmt [sB, Stmt.ExprStmt eU semi.line] lb2.line)
          whileT.line)
          ⟨rb2 :: semi :: (U.reverse ++ (B.reverse ++ lb2 :: rp ::
            (C.reverse ++ lp :: whileT :: c))), rb1 :: r⟩ := by
    intro c
    apply declaration_of_statement (n + 5) c whileT _ _ _ (by rw [hwhile]; rfl)
    refine (statement_while _ (n + 4) _ _ _ hwhile).trans ?_
    exact whileStatement_run _ _ _ _ _ _ _ _ _ _ _ hlp hrp (hCm _) (hbody _)
  have hloop : blockLoop (declaration (n + 6)) (n + 5) []
      ⟨lb1 :: c,
        I ++ whileT :: lp :: (C ++ rp :: lb2 :: (B ++ (U ++ semi :: rb2 :: rb1 :: r)))⟩
      = Res.ok [sI, Stmt.WhileStmt eC
            (Stmt.BlockStmt [sB, Stmt.ExprStmt eU semi.line] lb2.line) whileT.line]
          ⟨rb2 :: semi :: (U.reverse ++ (B.reverse ++ lb2 :: rp ::
            (C.reverse ++ lp :: whileT :: (I.reverse ++ lb1 :: c)))), rb1 :: r⟩ := by
    refine (blockLoop_step_append _ (n + 4) _ _ _ _ _ _ hIs hI1).trans ?_
    refine (blockLoop_step _ (n + 3) _ _ _ _ _ _ (by rw [hwhile]; decide)
      (by rw [hwhile]; decide) (hw _)).trans ?_
    exact blockLoop_stop _ (n + 2) _ _ _ _ hrb1
  exact ⟨_, block_run _ _ _ _ _ _ _ rb1 r hrb1 hloop⟩

/-- C5, counterexample. The source `for (num i = 0; i < 3; i++) print(i);`
parses, its increment `i++` being completed by the loop of `forStatement`; the
source `{ num i = 0; while (i < 3) { print(i); i++; } }` does not parse:
`expressionStatement` reads `i` and then finds `++` where it expects `;`. -/
theorem for_postfix_increment_has_no_while_form :
    (∀ fuel, 12 ≤ fuel → parse fuel forExample = Outcome.returned
      [whileForm (Stmt.VarDeclStmt "num" "i" (some (Expr.LiteralExpr "0" NUMBER 1)) 1)
        (Expr.BinaryExpr (Expr.IdentifierExpr "i" 1) LT (Expr.LiteralExpr "3" NUMBER 1) 1)
        (Expr.UnaryExpr PLUS_PLUS (Expr.IdentifierExpr "i" 1) 1)
        (Stmt.ExprStmt (Expr.CallExpr "print" [Expr.IdentifierExpr "i" 1] 1) 1) 1 1 1 1]) ∧
    (∀ fuel, 14 ≤ fuel → parse fuel whileExample
      = Outcome.threw "[Line 1] Error: Expect ';' after expression") :=
  ⟨fun _ h => parse_mono h rfl (by intro h; cases h),
   fun _ h => parse_mono h rfl (by intro h; cases h)⟩

/-- C5, amended. For-loop desugaring agrees with the hand-written while form
when the increment is an expression of the grammar: for an initializer `I` (a
`num` declaration or an expression statement, with its `;`), a condition `C`
and an increment `U` that `expression` reads in full, and a body `B` that
`statement` reads in full, `parse` returns for `for (I C; U) B` and for
`{ I while (C) { B U; } }` the same tree up to the lines of the four nodes
around the clauses, with any fuel from `n + 8` on, and `generate` gives the
same result for the two trees. -/
theorem for_desugars_to_while (n : Nat)
    (forT whileT lp rp semi lb1 lb2 rb1 rb2 eof : Token)
    (I C U B : List Token) (sI : Stmt) (eC eU : Expr) (sB : Stmt)
    (hfor : forT.type = FOR) (hwhile : whileT.type = WHILE) (hlp : lp.type = LPAREN)
    (hrp : rp.type = RPAREN) (hsemi : semi.type = SEMICOLON)
    (hlb1 : lb1.type = LBRACE) (hlb2 : lb2.type = LBRACE)
    (hrb1 : rb1.type = RBRACE) (hrb2 : rb2.type = RBRACE) (heof : eof.type = END_OF_FILE)
    (hI : (∃ numT I2, I = numT :: I2 ∧ numT.type = KEYWORD_VAR_NUM ∧
        numVarDeclaration n ⟨[numT], I2 ++ [eof]⟩
          = Res.ok sI ⟨I2.reverse ++ [numT], [eof]⟩) ∨
      expressionStatement n ⟨[], I ++ [eof]⟩ = Res.ok sI ⟨I.reverse, [eof]⟩)
    (hC : expression n ⟨[], C ++ [semi]⟩ = Res.ok eC ⟨C.reverse, [semi]⟩)
    (hU : expression n ⟨[], U ++ [rp]⟩ = Res.ok eU ⟨U.reverse, [rp]⟩)
    (hB : statement (declaration n) n ⟨[], B ++ [eof]⟩ = Res.ok sB ⟨B.reverse, [eof]⟩)
    (fuel : Nat) (hfuel : n + 8 ≤ fuel) :
    parse fuel (forSource forT lp semi rp eof I C U B)
        = Outcome.returned
            [whileForm sI eC eU sB forT.line forT.line forT.line forT.line] ∧
      parse fuel (whileSource lb1 whileT lp rp lb2 semi rb2 rb1 eof I C U B)
        = Outcome.returned
            [whileForm sI eC eU sB lb1.line whileT.line lb2.line semi.line] ∧
      generate [whileForm sI eC eU sB forT.line forT.line forT.line forT.line]
        = generate [whileForm sI eC eU sB lb1.line whileT.line lb2.line semi.line] := by
  refine ⟨?_, ?_, rfl⟩
  · obtain ⟨c1, h1⟩ := forStatement_of_clauses forT hlp hrp hsemi heof hI hC hU hB
      (n + 2) (by omega) [] eof [] (by rw [heof]; decide)
    have h2 : declaration (n + 3)
        ⟨[], forT :: lp :: (I ++ (C ++ semi :: (U ++ rp :: (B ++ [eof]))))⟩
        = Res.ok (whileForm sI eC eU sB forT.line forT.line forT.line forT.line)
            ⟨c1, [eof]⟩ := by
      apply declaration_of_statement (n + 2) [] forT _ _ _ (by rw [hfor]; rfl)
      exact (statement_for _ (n + 1) _ _ _ hfor).trans h1
    have h3 : parse (n + 4) (forSource forT lp semi rp eof I C U B)
        = Outcome.returned
            [whileForm sI eC eU sB forT.line forT.line forT.line forT.line] := by
      rw [parse, forSource, parseLoop_step _ _ _ _ _ (by rw [hfor]; decide), bind_ok h2,
        parseLoop_end _ _ _ _ _ heof]
      rfl
    exact parse_mono (by omega) h3 (by intro h; cases h)
  · obtain ⟨c1, h1⟩ := block_of_clauses hwhile hlp hrp hsemi hlb2 hrb1 hrb2 heof hI hC hU hB
      lb1 [] [eof]
    have h2 : declaration (n + 7)
        ⟨[], lb1 :: (I ++ whileT :: lp ::
          (C ++ rp :: lb2 :: (B ++ (U ++ semi :: rb2 :: rb1 :: [eof]))))⟩
        = Res.ok (whileForm sI eC eU sB lb1.line whileT.line lb2.line semi.line)
            ⟨c1, [eof]⟩ := by
      apply declaration_of_statement (n + 6) [] lb1 _ _ _ (by rw [hlb1]; rfl)
      exact (statement_block _ (n + 5) _ _ _ hlb1).trans h1
    have h3 : parse (n + 8) (whileSource lb1 whileT lp rp lb2 semi rb2 rb1 eof I C U B)
        = Outcome.returned
            [whileForm sI eC eU sB lb1.line whileT.line lb2.line semi.line] := by
      rw [parse, whileSource, parseLoop_step _ _ _ _ _ (by rw [hlb1]; decide), bind_ok h2,
        parseLoop_end _ _ _ _ _ heof]
      rfl
    exact parse_mono hfuel h3 (by intro h; cases h)

/-- C5, amended, at `for (num i = 0; i < 3; i = i + 1) print(i);` and
`{ num i = 0; while (i < 3) { print(i); i = i + 1; } }`, the second source
spread over the lines 1 to 6. -/
theorem for_desugars_to_while_witness :
    parse 14 (forSource ⟨FOR, 1, none⟩ ⟨LPAREN, 1, none⟩ ⟨SEMICOLON, 1, none⟩
        ⟨RPAREN, 1, none⟩ ⟨END_OF_FILE, 1, none⟩
        [⟨KEYWORD_VAR_NUM, 1, none⟩, ⟨IDENTIFIER, 1, some "i"⟩, ⟨ASSIGN, 1, none⟩,
          ⟨NUMBER, 1, some "0"⟩, ⟨SEMICOLON, 1, none⟩]
        [⟨IDENTIFIER, 1, some "i"⟩, ⟨LT, 1, none⟩, ⟨NUMBER, 1, some "3"⟩]
        [⟨IDENTIFIER, 1, some "i"⟩, ⟨ASSIGN, 1, none⟩, ⟨IDENTIFIER, 1, some "i"⟩,
          ⟨PLUS, 1, none⟩, ⟨NUMBER, 1, some "1"⟩]
        [⟨PRINT, 1, none⟩, ⟨LPAREN, 1, none⟩, ⟨IDENTIFIER, 1, some "i"⟩, ⟨RPAREN, 1, none⟩,
          ⟨SEMICOLON, 1, none⟩])
      = Outcome.returned
          [whileForm (Stmt.VarDeclStmt "num" "i" (some (Expr.LiteralExpr "0" NUMBER 1)) 1)
            (Expr.BinaryExpr (Expr.IdentifierExpr "i" 1) LT (Expr.LiteralExpr "3" NUMBER 1) 1)
            (Expr.BinaryExpr (Expr.IdentifierExpr "i" 1) ASSIGN
              (Expr.BinaryExpr (Expr.IdentifierExpr "i" 1) PLUS
                (Expr.LiteralExpr "1" NUMBER 1) 1) 1)
            (Stmt.ExprStmt (Expr.CallExpr "print" [Expr.IdentifierExpr "i" 1] 1) 1)
            1 1 1 1] ∧
      parse 14 (whileSource ⟨LBRACE, 1, none⟩ ⟨WHILE, 2, none⟩ ⟨LPAREN, 1, none⟩
        ⟨RPAREN, 1, none⟩ ⟨LBRACE, 3, none⟩ ⟨SEMICOLON, 1, none⟩ ⟨RBRACE, 5, none⟩
        ⟨RBRACE, 6, none⟩ ⟨END_OF_FILE, 1, none⟩
        [⟨KEYWORD_VAR_NUM, 1, none⟩, ⟨IDENTIFIER, 1, some "i"⟩, ⟨ASSIGN, 1, none⟩,
          ⟨NUMBER, 1, some "0"⟩, ⟨SEMICOLON, 1, none⟩]
        [⟨IDENTIFIER, 1, some "i"⟩, ⟨LT, 1, none⟩, ⟨NUMBER, 1, some "3"⟩]
        [⟨IDENTIFIER, 1, some "i"⟩, ⟨ASSIGN, 1, none⟩, ⟨IDENTIFIER, 1, some "i"⟩,
          ⟨PLUS, 1, none⟩, ⟨NUMBER, 1, some "1"⟩]
        [⟨PRINT, 1, none⟩, ⟨LPAREN, 1, none⟩, ⟨IDENTIFIER, 1, some "i"⟩, ⟨RPAREN, 1, none⟩,
          ⟨SEMICOLON, 1, none⟩])
      = Outcome.returned
          [whileForm (Stmt.VarDeclStmt "num" "i" (some (Expr.LiteralExpr "0" NUMBER 1)) 1)
            (Expr.BinaryExpr (Expr.IdentifierExpr "i" 1) LT (Expr.LiteralExpr "3" NUMBER 1) 1)
            (Expr.BinaryExpr (Expr.IdentifierExpr "i" 1) ASSIGN
              (Expr.BinaryExpr (Expr.IdentifierExpr "i" 1) PLUS
                (Expr.LiteralExpr "1" NUMBER 1) 1) 1)
            (Stmt.ExprStmt (Expr.CallExpr "print" [Expr.IdentifierExpr "i" 1] 1) 1)
            1 2 3 1] ∧
      generate
          [whileForm (Stmt.VarDeclStmt "num" "i" (some (Expr.LiteralExpr "0" NUMBER 1)) 1)
            (Expr.BinaryExpr (Expr.IdentifierExpr "i" 1) LT (Expr.LiteralExpr "3" NUMBER 1) 1)
            (Expr.BinaryExpr (Expr.IdentifierExpr "i" 1) ASSIGN
              (Expr.BinaryExpr (Expr.IdentifierExpr "i" 1) PLUS
                (Expr.LiteralExpr "1" NUMBER 1) 1) 1)
            (Stmt.ExprStmt (Expr.CallExpr "print" [Expr.IdentifierExpr "i" 1] 1) 1)
            1 1 1 1]
        = generate
          [whileForm (Stmt.VarDeclStmt "num" "i" (some (Expr.LiteralExpr "0" NUMBER 1)) 1)
            (Expr.BinaryExpr (Expr.IdentifierExpr "i" 1) LT (Expr.LiteralExpr "3" NUMBER 1) 1)
            (Expr.BinaryExpr (Expr.IdentifierExpr "i" 1) ASSIGN
              (Expr.BinaryExpr (Expr.IdentifierExpr "i" 1) PLUS
                (Expr.LiteralExpr "1" NUMBER 1) 1) 1)
            (Stmt.ExprStmt (Expr.CallExpr "print" [Expr.IdentifierExpr "i" 1] 1) 1)
            1 2 3 1] :=
  for_desugars_to_while 6 ⟨FOR, 1, none⟩ ⟨WHILE, 2, none⟩ ⟨LPAREN, 1, none⟩
    ⟨RPAREN, 1, none⟩ ⟨SEMICOLON, 1, none⟩ ⟨LBRACE, 1, none⟩ ⟨LBRACE, 3, none⟩
    ⟨RBRACE, 6, none⟩ ⟨RBRACE, 5, none⟩ ⟨END_OF_FILE, 1, none⟩
    [⟨KEYWORD_VAR_NUM, 1, none⟩, ⟨IDENTIFIER, 1, some "i"⟩, ⟨ASSIGN, 1, none⟩,
      ⟨NUMBER, 1, some "0"⟩, ⟨SEMICOLON, 1, none⟩]
    [⟨IDENTIFIER, 1, some "i"⟩, ⟨LT, 1, none⟩, ⟨NUMBER, 1, some "3"⟩]
    [⟨IDENTIFIER, 1, some "i"⟩, ⟨ASSIGN, 1, none⟩, ⟨IDENTIFIER, 1, some "i"⟩,
      ⟨PLUS, 1, none⟩, ⟨NUMBER, 1, some "1"⟩]
    [⟨PRINT, 1, none⟩, ⟨LPAREN, 1, none⟩, ⟨IDENTIFIER, 1, some "i"⟩, ⟨RPAREN, 1, none⟩,
      ⟨SEMICOLON, 1, none⟩]
    (Stmt.VarDeclStmt "num" "i" (some (Expr.LiteralExpr "0" NUMBER 1)) 1)
    (Expr.BinaryExpr (Expr.IdentifierExpr "i" 1) LT (Expr.LiteralExpr "3" NUMBER 1) 1)
    (Expr.BinaryExpr (Expr.IdentifierExpr "i" 1) ASSIGN
      (Expr.BinaryExpr (Expr.IdentifierExpr "i" 1) PLUS (Expr.LiteralExpr "1" NUMBER 1) 1) 1)
    (Stmt.ExprStmt (Expr.CallExpr "print" [Expr.IdentifierExpr "i" 1] 1) 1)
    rfl rfl rfl rfl rfl rfl rfl rfl rfl rfl
    (Or.inl ⟨⟨KEYWORD_VAR_NUM, 1, none⟩, [⟨IDENTIFIER, 1, some "i"⟩, ⟨ASSIGN, 1, none⟩,
      ⟨NUMBER, 1, some "0"⟩, ⟨SEMICOLON, 1, none⟩], rfl, rfl, rfl⟩) rfl rfl rfl 14 (by decide)

/-! ## The first error raised is the one reported -/

theorem eof_mem_suffix {u s1 : List Token} (hu : ∀ t ∈ u, matched t.type = true)
    (h : ∃ e ∈ u ++ s1, e.type = END_OF_FILE) : ∃ e ∈ s1, e.type = END_OF_FILE := by
  obtain ⟨e, he, hty⟩ := h
  rcases List.mem_append.1 he with h1 | h1
  · have := hu e h1
    rw [hty] at this
    cases this
  · exact ⟨e, h1, hty⟩

theorem parseLoopRaw_error_head {fuel : Nat} {acc : List Stmt} {c : List Token} {t : Token}
    {r : List Token} {w : String} {q : Parser}
    (h : parseLoopRaw fuel acc ⟨c, t :: r⟩ = Res.error w q) : t.type ≠ END_OF_FILE := by
  intro ht
  cases fuel with
  | zero => simp [parseLoopRaw, noFuel] at h
  | succ fuel =>
    rw [parseLoopRaw, bind_ok (isAtEnd_cons _ _ _)] at h
    simp [ht, pure_def] at h

/-- The state in which the parser without recovery throws is that of a run in
progress, and the throw is the same on every token vector that agrees with the
given one up to the token under the cursor. -/
theorem parseLoopRaw_error_state {fuel : Nat} {toks : List Token} {w : String} {q : Parser}
    (heof : ∃ e ∈ toks, e.type = END_OF_FILE)
    (h : parseLoopRaw fuel [] ⟨[], toks⟩ = Res.error w q) :
    toks = q.consumed.reverse ++ q.remaining ∧ Inv q ∧
      ∀ rest2 : List Token, q.remaining.head? = rest2.head? →
        (∃ e ∈ rest2, e.type = END_OF_FILE) →
        parseLoopRaw fuel [] ⟨[], q.consumed.reverse ++ rest2⟩
            = Res.error w ⟨q.consumed, rest2⟩ ∧ Inv ⟨q.consumed, rest2⟩ := by
  obtain ⟨u, s1, h1, h2, h3, h4⟩ := (parseLoopRaw_loc fuel []).err [] toks w q h
  subst h2
  simp only [List.append_nil, List.reverse_reverse]
  have hs1 : ∃ e ∈ s1, e.type = END_OF_FILE := eof_mem_suffix h3 (h1 ▸ heof)
  have hhead : u = [] → ∃ t r, s1 = t :: r ∧ t.type ≠ END_OF_FILE := by
    intro hu
    subst hu
    simp only [List.nil_append] at h1
    subst h1
    cases toks with
    | nil => obtain ⟨e, he, _⟩ := heof; cases he
    | cons t r => exact ⟨t, r, rfl, parseLoopRaw_error_head h⟩
  have hinv : ∀ rest2 : List Token, s1.head? = rest2.head? →
      (∃ e ∈ rest2, e.type = END_OF_FILE) → Inv ⟨u.reverse, rest2⟩ := by
    intro rest2 hh he
    refine ⟨he, ?_⟩
    by_cases hu : u = []
    · right
      obtain ⟨t, r, hs, ht⟩ := hhead hu
      subst hs
      cases rest2 with
      | nil => cases hh
      | cons t2 r2 =>
        simp only [List.head?_cons, Option.some.injEq] at hh
        exact ⟨t2, r2, rfl, hh ▸ ht⟩
    · left
      simpa using hu
  refine ⟨h1, hinv s1 rfl hs1, fun rest2 hh he => ⟨?_, hinv rest2 hh he⟩⟩
  have := h4 [] rest2 hh (fun hb => absurd hb (by decide))
  simpa using this

/-- C9. The triggering error is surfaced: when the parser run without its
recovery handler throws a first error `w` on a token sequence that holds the
end marker, `parse` throws `w` and returns no statement list, whatever the
handlers of the enclosing declarations skip afterwards; and `parse` throws the
same `w`, with any fuel not smaller, on every token sequence that agrees with
the given one up to the token under the cursor at the throw and still holds
the end marker. -/
theorem first_error_surfaced (fuel : Nat) (toks : List Token) (w : String) (q : Parser)
    (heof : ∃ e ∈ toks, e.type = END_OF_FILE)
    (hraw : parseLoopRaw fuel [] ⟨[], toks⟩ = Res.error w q) :
    parse fuel toks = Outcome.threw w ∧
      toks = q.consumed.reverse ++ q.remaining ∧
      ∀ (rest2 : List Token) (fuel2 : Nat), q.remaining.head? = rest2.head? →
        (∃ e ∈ rest2, e.type = END_OF_FILE) → fuel ≤ fuel2 →
        parse fuel2 (q.consumed.reverse ++ rest2) = Outcome.threw w := by
  obtain ⟨h1, h2, h3⟩ := parseLoopRaw_error_state heof hraw
  refine ⟨?_, h1, ?_⟩
  · obtain ⟨q2, hq2, _⟩ := ((parseLoop_sim fuel []).err _ w q hraw).2 h2
    rw [parse, hq2]
    rfl
  · intro rest2 fuel2 hh he hf
    obtain ⟨h4, h5⟩ := h3 rest2 hh he
    obtain ⟨q2, hq2, _⟩ := ((parseLoop_sim fuel []).err _ w _ h4).2 h5
    have h6 : parse fuel (q.consumed.reverse ++ rest2) = Outcome.threw w := by
      rw [parse, hq2]
      rfl
    exact parse_mono hf h6 (by intro h; cases h)

/-- C9, at the two faulty statements `a + ;` on line 1 and `b * ;` on line 2:
the error of line 1 is the one reported, also when other tokens follow the
first `;`. -/
theorem first_error_surfaced_witness :
    parse 12 [⟨IDENTIFIER, 1, some "a"⟩, ⟨PLUS, 1, none⟩, ⟨SEMICOLON, 1, none⟩,
        ⟨IDENTIFIER, 2, some "b"⟩, ⟨ASTER, 2, none⟩, ⟨SEMICOLON, 2, none⟩,
        ⟨END_OF_FILE, 2, none⟩]
      = Outcome.threw "[Line 1] Error: Error expected expression" ∧
    ∀ (rest2 : List Token) (fuel2 : Nat),
      some (⟨SEMICOLON, 1, none⟩ : Token) = rest2.head? →
      (∃ e ∈ rest2, e.type = END_OF_FILE) → 12 ≤ fuel2 →
      parse fuel2 ([⟨IDENTIFIER, 1, some "a"⟩, ⟨PLUS, 1, none⟩] ++ rest2)
        = Outcome.threw "[Line 1] Error: Error expected expression" :=
  have h := first_error_surfaced 12
    [⟨IDENTIFIER, 1, some "a"⟩, ⟨PLUS, 1, none⟩, ⟨SEMICOLON, 1, none⟩,
      ⟨IDENTIFIER, 2, some "b"⟩, ⟨ASTER, 2, none⟩, ⟨SEMICOLON, 2, none⟩,
      ⟨END_OF_FILE, 2, none⟩]
    "[Line 1] Error: Error expected expression"
    ⟨[⟨PLUS, 1, none⟩, ⟨IDENTIFIER, 1, some "a"⟩],
      [⟨SEMICOLON, 1, none⟩, ⟨IDENTIFIER, 2, some "b"⟩, ⟨ASTER, 2, none⟩,
        ⟨SEMICOLON, 2, none⟩, ⟨END_OF_FILE, 2, none⟩]⟩
    ⟨⟨END_OF_FILE, 2, none⟩, by simp, rfl⟩ rfl
  ⟨h.1, h.2.2⟩

/-! ## Tokens the grammar does not consume -/

theorem unmatchedKinds_not_matched {ty : TokenType} (h : ty ∈ unmatchedKinds) :
    matched ty = false := by
  simp only [unmatchedKinds, List.mem_cons, List.mem_singleton, List.not_mem_nil,
    or_false] at h
  rcases h with h | h | h | h | h | h | h | h | h | h | h | h | h | h | h | h <;>
    subst h <;> rfl

theorem parseLoopRaw_ok_end (fuel : Nat) :
    ∀ (acc : List Stmt) (p : Parser) (a : List Stmt) (q : Parser),
      parseLoopRaw fuel acc p = Res.ok a q →
      ∃ t r, q.remaining = t :: r ∧ t.type = END_OF_FILE := by
  induction fuel with
  | zero => intro acc p a q h; simp [parseLoopRaw, noFuel] at h
  | succ fuel ih =>
    intro acc p a q h
    obtain ⟨c, rem⟩ := p
    cases rem with
    | nil => simp [parseLoopRaw, isAtEnd, peek, bind_def, P.bind] at h
    | cons t r =>
      rw [parseLoopRaw, bind_ok (isAtEnd_cons _ _ _)] at h
      by_cases ht : t.type = END_OF_FILE
      · simp only [ht, beq_self_eq_true, Bool.not_true, Bool.false_eq_true, if_false,
          pure_def, Res.ok.injEq] at h
        rw [← h.2]
        exact ⟨t, r, rfl, ht⟩
      · have hb : (t.type == END_OF_FILE) = false := by simp [ht]
        simp only [hb, Bool.not_false, if_true] at h
        obtain ⟨s, p1, _, h2⟩ := bind_eq_ok h
        exact ih _ _ _ _ h2

theorem prefix_before_end (pre : List Token) :
    ∀ (u : List Token) (eof t : Token) (r : List Token),
      pre ++ [eof] = u ++ t :: r → t.type = END_OF_FILE →
      (∀ x ∈ pre, x.type ≠ END_OF_FILE) → (∀ x ∈ u, x.type ≠ END_OF_FILE) → u = pre := by
  induction pre with
  | nil =>
    intro u eof t r h ht _ hu
    cases u with
    | nil => rfl
    | cons x u2 =>
      simp only [List.nil_append, List.cons_append, List.cons.injEq] at h
      have := congrArg List.length h.2
      simp at this
      omega
  | cons p ps ih =>
    intro u eof t r h ht hpre hu
    cases u with
    | nil =>
      simp only [List.cons_append, List.nil_append, List.cons.injEq] at h
      exact absurd (h.1 ▸ ht) (hpre p (List.mem_cons_self _ _))
    | cons x u2 =>
      simp only [List.cons_append, List.cons.injEq] at h
      rw [h.1, ih u2 eof t r h.2 ht (fun y hy => hpre y (List.mem_cons_of_mem _ hy))
        (fun y hy => hu y (List.mem_cons_of_mem _ hy))]

/-- C10. Tokens the grammar does not consume are rejected: on a token
sequence that ends in its only `END_OF_FILE`, whose identifiers and literals
carry their lexeme, and that holds before the `END_OF_FILE` a token of kind
`UNKNOWN` (or `AT`, `LBRACKET`, `RBRACKET`, `LT_EQ`, `GT_EQ`, `BITWISE_NOT`,
`TRUE`, `FALSE`, `ELIF`, `DO`, `BREAK`, `CONTINUE`, `STREAM_OUT`, `ARROW_LEFT`,
`ARROW_RIGHT`), `parse` throws a parse error, with any fuel that exceeds the
number of tokens by five. -/
theorem unmatched_token_rejected (pre : List Token) (eof bad : Token)
    (heof : eof.type = END_OF_FILE) (hpre : ∀ t ∈ pre, t.type ≠ END_OF_FILE)
    (hlex : ∀ t ∈ pre, Lexeme t) (hbad : bad ∈ pre) (hkind : bad.type ∈ unmatchedKinds)
    (fuel : Nat) (hf : pre.length + 6 ≤ fuel) :
    ∃ w, parse fuel (pre ++ [eof]) = Outcome.threw w := by
  have hmem : ∃ e ∈ pre ++ [eof], e.type = END_OF_FILE :=
    ⟨eof, List.mem_append_right _ (List.mem_singleton_self _), heof⟩
  have hv : Valid ⟨[], pre ++ [eof]⟩ := by
    refine ⟨hmem, ?_⟩
    intro t ht
    rcases List.mem_append.1 ht with h1 | h1
    · exact hlex t h1
    · simp only [List.mem_singleton] at h1
      subst h1
      intro h2
      rw [heof] at h2
      rcases h2 with h2 | h2 | h2 <;> cases h2
  rcases parseLoopRaw_safe fuel (pre.length + 1) [] (by omega) [] (pre ++ [eof]) hv
    (fun h => absurd h (by decide)) (by simp) with ⟨w, q, h⟩ | ⟨a, u, s1, h, _, _, _⟩
  · obtain ⟨_, hq, _⟩ := parseLoopRaw_error_state hmem h
    obtain ⟨q2, hq2, _⟩ := ((parseLoop_sim fuel []).err _ w q h).2 hq
    exact ⟨w, by rw [parse, hq2]; rfl⟩
  · exfalso
    obtain ⟨u2, s2, h1, h2, _, h4, _⟩ := (parseLoopRaw_loc fuel []).ok [] _ a _ h
    obtain ⟨t, r, h5, h6⟩ := parseLoopRaw_ok_end fuel [] _ a _ h
    rw [h2] at h5
    simp only at h5
    subst h5
    have hu2 : ∀ x ∈ u2, x.type ≠ END_OF_FILE := by
      intro x hx h7
      have := h4 x hx
      rw [h7] at this
      cases this
    have := prefix_before_end pre u2 eof t r h1 h6 hpre hu2
    subst this
    have h8 := h4 bad hbad
    rw [unmatchedKinds_not_matched hkind] at h8
    cases h8

/-- C10, at the tokens of the unterminated string `str s = "oops;`. -/
theorem unmatched_token_rejected_witness :
    ∃ w, parse 10 ([⟨KEYWORD_VAR_STR, 1, none⟩, ⟨IDENTIFIER, 1, some "s"⟩,
        ⟨ASSIGN, 1, none⟩, ⟨UNKNOWN, 1, some "oops;"⟩] ++ [⟨END_OF_FILE, 1, none⟩])
      = Outcome.threw w :=
  unmatched_token_rejected
    [⟨KEYWORD_VAR_STR, 1, none⟩, ⟨IDENTIFIER, 1, some "s"⟩, ⟨ASSIGN, 1, none⟩,
      ⟨UNKNOWN, 1, some "oops;"⟩]
    ⟨END_OF_FILE, 1, none⟩ ⟨UNKNOWN, 1, some "oops;"⟩ rfl (by decide)
    (by
      intro t ht h
      simp only [List.mem_cons, List.mem_singleton, List.not_mem_nil, or_false] at ht
      rcases ht with h1 | h1 | h1 | h1 <;> subst h1 <;> simp at h ⊢)
    (by simp) (by decide) 10 (by decide)

/-! # The lexer -/

section LexerTheorems

open Lexer

/-! ## The inner loops of the lexer -/

theorem branch {α : Type} (P : α → Prop) {p : Prop} [Decidable p] {x y : α}
    (hx : p → P x) (hy : ¬p → P y) : P (if p then x else y) := by
  by_cases h : p
  · rw [if_pos h]; exact hx h
  · rw [if_neg h]; exact hy h

theorem lexAdvance_cons (c : Char) (r : List Char) (line : Int) :
    (Lexer.advance ⟨c :: r, line⟩).2 = ⟨r, line⟩ := rfl

theorem lexAdvance_suffix (l : Lexer) : (Lexer.advance l).2.source <:+ l.source := by
  obtain ⟨s, line⟩ := l
  cases s with
  | nil => exact List.suffix_refl _
  | cons c r => exact List.suffix_cons c r

theorem lexAdvance_line (l : Lexer) : (Lexer.advance l).2.m_cline = l.m_cline := by
  obtain ⟨s, line⟩ := l
  cases s <;> rfl

theorem scanWhile_split (p : Char → Bool) (l : List Char) :
    (scanWhile p l).1 ++ (scanWhile p l).2 = l := by
  induction l with
  | nil => rfl
  | cons c r ih =>
    rw [scanWhile]
    by_cases h : p c
    · simp [h, ih]
    · simp [h]

theorem scanWhile_suffix (p : Char → Bool) (l : List Char) : (scanWhile p l).2 <:+ l :=
  ⟨(scanWhile p l).1, scanWhile_split p l⟩

theorem scanWhile_cons (p : Char → Bool) (c : Char) (r : List Char) (h : p c = true) :
    scanWhile p (c :: r) = (c :: (scanWhile p r).1, (scanWhile p r).2) := by
  rw [scanWhile, if_pos h]

theorem scanWhile_stop (p : Char → Bool) (c : Char) (r : List Char) (h : p c = false) :
    scanWhile p (c :: r) = ([], c :: r) := by
  rw [scanWhile]; simp [h]

/-- The scanning loop reads a prefix of characters of the class in full. -/
theorem scanWhile_append (p : Char → Bool) (a b : List Char) (h : ∀ c ∈ a, p c = true) :
    scanWhile p (a ++ b) = (a ++ (scanWhile p b).1, (scanWhile p b).2) := by
  induction a with
  | nil => rfl
  | cons c r ih =>
    have hc : p c = true := h c (List.mem_cons_self _ _)
    have hr : ∀ x ∈ r, p x = true := fun x hx => h x (List.mem_cons_of_mem _ hx)
    rw [List.cons_append, scanWhile_cons p c _ hc, ih hr]
    rfl

theorem scanWhile_all (p : Char → Bool) (a : List Char) (h : ∀ c ∈ a, p c = true) :
    scanWhile p a = (a, []) := by
  have := scanWhile_append p a [] h
  simpa [scanWhile] using this

theorem skipCommentLoop_suffix (s : List Char) : skipCommentLoop s <:+ s := by
  induction s with
  | nil => exact List.suffix_refl _
  | cons c r ih =>
    rw [skipCommentLoop]
    by_cases h : c = Char.ofNat 10
    · simp [h]
    · simp only [bne_iff_ne, ne_eq, h, not_false_eq_true, if_true]
      exact ih.trans (List.suffix_cons c r)

theorem skipSpaces_suffix (s : List Char) (line : Int) : (skipSpaces s line).1 <:+ s := by
  induction s generalizing line with
  | nil => exact List.suffix_refl _
  | cons c r ih =>
    rw [skipSpaces]
    by_cases h : isspace c = true
    · rw [if_pos h]
      exact (ih _).trans (List.suffix_cons c r)
    · rw [if_neg h]

theorem stringLoop_suffix (s : List Char) (line : Int) : (stringLoop s line).2.2 <:+ s := by
  induction s generalizing line with
  | nil => exact List.suffix_refl _
  | cons c r ih =>
    rw [stringLoop]
    by_cases h : c = '"'
    · simp [h]
    · simp only [bne_iff_ne, ne_eq, h, not_false_eq_true, if_true]
      exact (ih _).trans (List.suffix_cons c r)

/-! ## One call of `nextToken` moves the cursor forward -/

theorem directive_progress (c : Char) (r : List Char) (line : Int) :
    (directive ⟨c :: r, line⟩).2.source <:+ r := by
  unfold directive
  simp only [lexAdvance_cons]
  apply branch (fun x : Token × Lexer => x.2.source <:+ r) <;> intro _
  · apply branch (fun x : Token × Lexer => x.2.source <:+ r) <;> intro _
    · exact (scanWhile_suffix _ _).trans ((skipSpaces_suffix _ _).trans (scanWhile_suffix _ _))
    · exact scanWhile_suffix _ _
  · exact List.suffix_refl _

theorem stringLiteral_progress (c : Char) (r : List Char) (line : Int) :
    (stringLiteral ⟨c :: r, line⟩).2.source <:+ r := by
  unfold stringLiteral
  simp only [lexAdvance_cons]
  apply branch (fun x : Token × Lexer => x.2.source <:+ r) <;> intro _
  · exact stringLoop_suffix _ _
  · exact (lexAdvance_suffix _).trans (stringLoop_suffix _ _)

theorem numberLiteral_progress (c : Char) (r : List Char) (line : Int) (h : isdigit c = true) :
    (numberLiteral ⟨c :: r, line⟩).2.source <:+ r := by
  unfold numberLiteral
  simp only [scanWhile_cons isdigit c r h]
  apply branch (fun x : Token × Lexer => x.2.source <:+ r) <;> intro _
  · exact (scanWhile_suffix _ _).trans ((lexAdvance_suffix _).trans (scanWhile_suffix _ _))
  · exact scanWhile_suffix _ _

theorem identifier_progress (c : Char) (r : List Char) (line : Int)
    (h : (isalpha c || c == '_') = true) :
    (identifier ⟨c :: r, line⟩).2.source <:+ r := by
  have hc : (fun c => isalnum c || c == '_') c = true := by
    simp only [isalnum]
    cases ha : isalpha c <;> simp_all
  unfold identifier
  simp only [scanWhile_cons (fun c => isalnum c || c == '_') c r hc]
  split <;> exact scanWhile_suffix _ _

theorem ampersand_progress (c : Char) (r : List Char) (line : Int) :
    (ampersand ⟨c :: r, line⟩).2.source <:+ r := by
  unfold ampersand
  simp only [lexAdvance_cons]
  apply branch (fun x : Token × Lexer => x.2.source <:+ r) <;> intro _
  · exact lexAdvance_suffix _
  · exact List.suffix_refl _

theorem one_progress (type : TokenType) (c : Char) (r : List Char) (line : Int) :
    (∃ t, (one type ⟨c :: r, line⟩).1 = some t ∧ (one type ⟨c :: r, line⟩).2.source <:+ r) ∨
      one type ⟨c :: r, line⟩ = (none, ⟨c :: r, line⟩) :=
  Or.inl ⟨_, rfl, List.suffix_refl _⟩

theorem two_progress (type : TokenType) (c : Char) (r : List Char) (line : Int) :
    (∃ t, (two type ⟨c :: r, line⟩).1 = some t ∧ (two type ⟨c :: r, line⟩).2.source <:+ r) ∨
      two type ⟨c :: r, line⟩ = (none, ⟨c :: r, line⟩) :=
  Or.inl ⟨_, rfl, lexAdvance_suffix ⟨r, line⟩⟩

theorem ret_progress (x : Token × Lexer) (c : Char) (r : List Char) (line : Int)
    (h : x.2.source <:+ r) :
    (∃ t, (ret x).1 = some t ∧ (ret x).2.source <:+ r) ∨ ret x = (none, ⟨c :: r, line⟩) :=
  Or.inl ⟨_, rfl, h⟩

/-- One call of `nextToken` on a source that is not at its end either returns
a token and moves the cursor past the first character, or returns no token and
leaves the lexer alone. -/
theorem dispatch_progress (c : Char) (r : List Char) (line : Int) :
    (∃ t, (dispatch c ⟨c :: r, line⟩).1 = some t ∧
        (dispatch c ⟨c :: r, line⟩).2.source <:+ r) ∨
      dispatch c ⟨c :: r, line⟩ = (none, ⟨c :: r, line⟩) := by
  unfold dispatch
  repeat' first
    | apply branch (fun x : Option Token × Lexer =>
        (∃ t, x.1 = some t ∧ x.2.source <:+ r) ∨ x = (none, ⟨c :: r, line⟩)) <;> intro _
  all_goals first
    | with_reducible exact one_progress _ _ _ _
    | with_reducible exact two_progress _ _ _ _
    | with_reducible exact ret_progress _ _ _ _ (directive_progress _ _ _)
    | with_reducible exact ret_progress _ _ _ _ (ampersand_progress _ _ _)
    | with_reducible exact ret_progress _ _ _ _ (stringLiteral_progress _ _ _)
    | with_reducible exact ret_progress _ _ _ _ (numberLiteral_progress _ _ _ (by assumption))
    | with_reducible exact ret_progress _ _ _ _ (identifier_progress _ _ _ (by assumption))
    | exact Or.inr rfl

/-! ## The token returned by one call of `nextToken` -/

theorem one_token (Q : Token → Prop) (type : TokenType) (l : Lexer)
    (h : Q ⟨type, l.m_cline, none⟩) : ∀ t, (one type l).1 = some t → Q t := by
  intro t ht
  cases ht
  exact h

theorem two_token (Q : Token → Prop) (type : TokenType) (l : Lexer)
    (h : Q ⟨type, l.m_cline, none⟩) : ∀ t, (two type l).1 = some t → Q t := by
  intro t ht
  cases ht
  exact h

theorem ret_token (Q : Token → Prop) (x : Token × Lexer) (h : Q x.1) :
    ∀ t, (ret x).1 = some t → Q t := by
  intro t ht
  cases ht
  exact h

theorem peekNext_eq (c : Char) (r : List Char) (line : Int) (d : Char) (hd : d ≠ Char.ofNat 0)
    (h : (Lexer.peekNext ⟨c :: r, line⟩ == d) = true) : ∃ r1, r = d :: r1 := by
  cases r with
  | nil =>
    simp only [Lexer.peekNext, beq_iff_eq] at h
    exact absurd h.symm hd
  | cons e r1 =>
    simp only [Lexer.peekNext, beq_iff_eq] at h
    exact ⟨r1, by rw [h]⟩

/-- Case analysis of the token that `nextToken` returns at `c :: r`. -/
theorem dispatch_token (Q : Token → Prop) (c : Char) (r : List Char) (line : Int)
    (hplain : ∀ type ∈ plainKinds, Q ⟨type, line, none⟩)
    (hle : c = '=' → ∀ r1, r = '<' :: r1 → Q ⟨LT_EQ, line, none⟩)
    (hge : c = '=' → ∀ r1, r = '>' :: r1 → Q ⟨GT_EQ, line, none⟩)
    (hdir : Q (directive ⟨c :: r, line⟩).1)
    (hamp : Q (ampersand ⟨c :: r, line⟩).1)
    (hstr : Q (stringLiteral ⟨c :: r, line⟩).1)
    (hnum : isdigit c = true → Q (numberLiteral ⟨c :: r, line⟩).1)
    (hid : (isalpha c || c == '_') = true → Q (identifier ⟨c :: r, line⟩).1) :
    ∀ t, (dispatch c ⟨c :: r, line⟩).1 = some t → Q t := by
  unfold dispatch
  repeat' first
    | apply branch (fun x : Option Token × Lexer => ∀ t, x.1 = some t → Q t) <;> intro _
  all_goals first
    | with_reducible refine one_token Q _ _ ?_
    | with_reducible refine two_token Q _ _ ?_
    | with_reducible exact ret_token Q _ hdir
    | with_reducible exact ret_token Q _ hamp
    | with_reducible exact ret_token Q _ hstr
    | with_reducible exact ret_token Q _ (hnum (by assumption))
    | with_reducible exact ret_token Q _ (hid (by assumption))
    | exact fun t ht => absurd ht (by simp)
  all_goals first
    | exact hplain _ (by decide)
    | skip
  · rename_i h1 _ h3
    obtain ⟨r1, hr⟩ := peekNext_eq c r line '<' (by decide) h3
    exact hle (by simpa using h1) r1 hr
  · rename_i h1 _ _ h4
    obtain ⟨r1, hr⟩ := peekNext_eq c r line '>' (by decide) h4
    exact hge (by simpa using h1) r1 hr

theorem dispatch_default (c : Char) (l : Lexer) (h : c ∉ switchChars) :
    dispatch c l =
      if isdigit c then ret (numberLiteral l)
      else if isalpha c || c == '_' then ret (identifier l)
      else (none, l) := by
  simp only [switchChars, List.mem_cons, List.mem_singleton, not_or, List.not_mem_nil,
    not_false_eq_true, and_true] at h
  obtain ⟨h1, h2, h3, h4, h5, h6, h7, h8, h9, h10, h11, h12, h13, h14, h15, h16, h17, h18,
    h19, h20, h21, h22⟩ := h
  unfold dispatch
  rw [if_neg (by simpa using h1), if_neg (by simpa using h2), if_neg (by simpa using h3),
    if_neg (by simpa using h4), if_neg (by simpa using h5), if_neg (by simpa using h6),
    if_neg (by simpa using h7), if_neg (by simpa using h8), if_neg (by simpa using h9),
    if_neg (by simpa using h10), if_neg (by simpa using h11), if_neg (by simpa using h12),
    if_neg (by simpa using h13), if_neg (by simpa using h14), if_neg (by simpa using h15),
    if_neg (by simpa using h16), if_neg (by simpa using h17), if_neg (by simpa using h18),
    if_neg (by simpa using h19), if_neg (by simpa using h20), if_neg (by simpa using h21),
    if_neg (by simpa using h22)]

/-! ## One iteration of the loop of `tokenize` -/

theorem tokenizeLoop_end (fuel : Nat) (line : Int) (acc : List Token) :
    tokenizeLoop (fuel + 1) ⟨[], line⟩ acc = some (acc ++ [⟨END_OF_FILE, line, none⟩]) := rfl

theorem tokenizeLoop_space (fuel : Nat) (c : Char) (r : List Char) (line : Int)
    (acc : List Token) (h : isspace c = true) :
    tokenizeLoop (fuel + 1) ⟨c :: r, line⟩ acc =
      tokenizeLoop fuel ⟨r, if c = Char.ofNat 10 then line + 1 else line⟩ acc := by
  rw [tokenizeLoop]
  simp only [Lexer.isAtEnd, Lexer.peek, List.isEmpty_cons, Bool.false_eq_true, if_false, h,
    if_true]
  by_cases hc : c = Char.ofNat 10
  · simp [hc, Lexer.advance]
  · simp [hc, Lexer.advance]

theorem skipCommentLoop_slash (r : List Char) :
    skipCommentLoop ('/' :: r) = skipCommentLoop r := by
  rw [skipCommentLoop]; rfl

theorem tokenizeLoop_comment (fuel : Nat) (r : List Char) (line : Int) (acc : List Token) :
    tokenizeLoop (fuel + 1) ⟨'/' :: '/' :: r, line⟩ acc =
      tokenizeLoop fuel ⟨skipCommentLoop r, line⟩ acc := by
  rw [tokenizeLoop]
  have h : isspace '/' = false := by decide
  simp only [Lexer.isAtEnd, Lexer.peek, Lexer.peekNext, List.isEmpty_cons, Bool.false_eq_true,
    if_false, h, beq_self_eq_true, Bool.and_self, if_true, skipComment, skipCommentLoop_slash]

/-- The test `peek() == '/' && peekNext() == '/'` at `c :: r`. -/
theorem comment_test (c : Char) (r : List Char) (line : Int) :
    (Lexer.peek ⟨c :: r, line⟩ == '/' && Lexer.peekNext ⟨c :: r, line⟩ == '/') = true ↔
      c = '/' ∧ ∃ r1, r = '/' :: r1 := by
  cases r with
  | nil => simp [Lexer.peek, Lexer.peekNext]
  | cons d r1 => simp [Lexer.peek, Lexer.peekNext]

theorem tokenizeLoop_token (fuel : Nat) (c : Char) (r : List Char) (line : Int)
    (acc : List Token) (t : Token) (l1 : Lexer) (hs : isspace c = false)
    (hc : ¬(c = '/' ∧ ∃ r1, r = '/' :: r1))
    (h : dispatch c ⟨c :: r, line⟩ = (some t, l1)) :
    tokenizeLoop (fuel + 1) ⟨c :: r, line⟩ acc = tokenizeLoop fuel l1 (acc ++ [t]) := by
  rw [← comment_test c r line] at hc
  rw [tokenizeLoop]
  simp only [Lexer.isAtEnd, List.isEmpty_cons, Bool.false_eq_true, if_false, hc]
  have hp : Lexer.peek ⟨c :: r, line⟩ = c := rfl
  rw [hp, hs]
  simp only [Bool.false_eq_true, if_false, nextToken, hp, h]

theorem tokenizeLoop_unknown (fuel : Nat) (c : Char) (r : List Char) (line : Int)
    (acc : List Token) (hs : isspace c = false)
    (hc : ¬(c = '/' ∧ ∃ r1, r = '/' :: r1))
    (h : dispatch c ⟨c :: r, line⟩ = (none, ⟨c :: r, line⟩)) :
    tokenizeLoop (fuel + 1) ⟨c :: r, line⟩ acc =
      tokenizeLoop fuel ⟨r, line⟩ (acc ++ [⟨UNKNOWN, line, some (String.singleton c)⟩]) := by
  rw [← comment_test c r line] at hc
  rw [tokenizeLoop]
  simp only [Lexer.isAtEnd, List.isEmpty_cons, Bool.false_eq_true, if_false, hc]
  have hp : Lexer.peek ⟨c :: r, line⟩ = c := rfl
  rw [hp, hs]
  simp only [Bool.false_eq_true, if_false, nextToken, hp, h, lexAdvance_cons]

/-! ## The loop of `tokenize` as a whole -/

/-- Every token pushed by the loop satisfies `Q` when the tokens of
`nextToken` and the `UNKNOWN` tokens of the loop do, at every position of the
source `s`; the loop returns, and what it returns ends with the
`END_OF_FILE` token. -/
theorem tokenizeLoop_tokens (s : List Char) (Q : Token → Prop)
    (hQ : ∀ c r line t l1, c :: r <:+ s → dispatch c ⟨c :: r, line⟩ = (some t, l1) → Q t)
    (hU : ∀ c r line, c :: r <:+ s → dispatch c ⟨c :: r, line⟩ = (none, ⟨c :: r, line⟩) →
      Q ⟨UNKNOWN, line, some (String.singleton c)⟩) :
    ∀ (fuel : Nat) (l : Lexer) (acc : List Token), l.source <:+ s → l.source.length < fuel →
      (∀ t ∈ acc, Q t) →
      ∃ body line, tokenizeLoop fuel l acc = some (body ++ [⟨END_OF_FILE, line, none⟩]) ∧
        ∀ t ∈ body, Q t := by
  intro fuel
  induction fuel with
  | zero => intro l acc _ h; exact absurd h (Nat.not_lt_zero _)
  | succ fuel ih =>
    intro l acc hsuf hlen hacc
    obtain ⟨src, line⟩ := l
    cases src with
    | nil => exact ⟨acc, line, rfl, hacc⟩
    | cons c r =>
      have hr : r <:+ s := (List.suffix_cons c r).trans hsuf
      have hlen1 : r.length < fuel := by simpa using hlen
      by_cases hs : isspace c = true
      · rw [tokenizeLoop_space fuel c r line acc hs]
        exact ih _ acc hr hlen1 hacc
      · have hs1 : isspace c = false := by simpa using hs
        by_cases hc : c = '/' ∧ ∃ r1, r = '/' :: r1
        · obtain ⟨rfl, r1, rfl⟩ := hc
          rw [tokenizeLoop_comment]
          have h1 : skipCommentLoop r1 <:+ '/' :: r1 :=
            (skipCommentLoop_suffix r1).trans (List.suffix_cons _ _)
          refine ih _ acc (h1.trans hr) (lt_of_le_of_lt h1.length_le hlen1) hacc
        · rcases dispatch_progress c r line with ⟨t, ht, hp⟩ | hn
          · have hd : dispatch c ⟨c :: r, line⟩ = (some t, (dispatch c ⟨c :: r, line⟩).2) := by
              rw [← ht]
            rw [tokenizeLoop_token fuel c r line acc t _ hs1 hc hd]
            refine ih _ _ (hp.trans hr) (lt_of_le_of_lt hp.length_le hlen1) ?_
            intro x hx
            rcases List.mem_append.1 hx with hx | hx
            · exact hacc x hx
            · rw [List.mem_singleton.1 hx]
              exact hQ c r line t _ hsuf hd
          · rw [tokenizeLoop_unknown fuel c r line acc hs1 hc hn]
            refine ih _ _ hr hlen1 ?_
            intro x hx
            rcases List.mem_append.1 hx with hx | hx
            · exact hacc x hx
            · rw [List.mem_singleton.1 hx]
              exact hU c r line hsuf hn

/-- The loop of `tokenize` returns whenever the fuel exceeds the number of
characters left. -/
theorem tokenizeLoop_total (fuel : Nat) (l : Lexer) (acc : List Token)
    (h : l.source.length < fuel) : ∃ toks, tokenizeLoop fuel l acc = some toks := by
  obtain ⟨body, line, hb, _⟩ := tokenizeLoop_tokens l.source (fun _ => True)
    (fun _ _ _ _ _ _ _ => trivial) (fun _ _ _ _ _ => trivial) fuel l acc (List.suffix_refl _) h
    (fun _ _ => trivial)
  exact ⟨_, hb⟩

/-- More fuel does not change what the loop returns. -/
theorem tokenizeLoop_mono (fuel : Nat) :
    ∀ (l : Lexer) (acc toks : List Token), tokenizeLoop fuel l acc = some toks →
      tokenizeLoop (fuel + 1) l acc = some toks := by
  induction fuel with
  | zero => intro l acc toks h; exact absurd h (by simp [tokenizeLoop])
  | succ fuel ih =>
    intro l acc toks h
    obtain ⟨src, line⟩ := l
    cases src with
    | nil => exact h
    | cons c r =>
      by_cases hs : isspace c = true
      · rw [tokenizeLoop_space _ c r line acc hs] at h ⊢
        exact ih _ _ _ h
      · have hs1 : isspace c = false := by simpa using hs
        by_cases hc : c = '/' ∧ ∃ r1, r = '/' :: r1
        · obtain ⟨rfl, r1, rfl⟩ := hc
          rw [tokenizeLoop_comment] at h ⊢
          exact ih _ _ _ h
        · rcases dispatch_progress c r line with ⟨t, ht, _⟩ | hn
          · have hd : dispatch c ⟨c :: r, line⟩ = (some t, (dispatch c ⟨c :: r, line⟩).2) := by
              rw [← ht]
            rw [tokenizeLoop_token _ c r line acc t _ hs1 hc hd] at h ⊢
            exact ih _ _ _ h
          · rw [tokenizeLoop_unknown _ c r line acc hs1 hc hn] at h ⊢
            exact ih _ _ _ h

/-- The result of the loop does not depend on the fuel, once there is enough
of it. -/
theorem tokenizeLoop_fuel (l : Lexer) (acc : List Token) (fuel : Nat)
    (h : l.source.length < fuel) :
    tokenizeLoop fuel l acc = tokenizeLoop (l.source.length + 1) l acc := by
  obtain ⟨toks, ht⟩ := tokenizeLoop_total (l.source.length + 1) l acc (Nat.lt_succ_self _)
  rw [ht]
  obtain ⟨k, rfl⟩ : ∃ k, fuel = l.source.length + 1 + k := ⟨fuel - (l.source.length + 1), by omega⟩
  clear h
  induction k with
  | zero => exact ht
  | succ k ih => exact tokenizeLoop_mono _ _ _ _ ih

/-- The tokens pushed before the loop runs stay in front of the ones it
pushes. -/
theorem tokenizeLoop_acc (fuel : Nat) :
    ∀ (l : Lexer) (acc : List Token),
      tokenizeLoop fuel l acc = (tokenizeLoop fuel l []).map (fun toks => acc ++ toks) := by
  induction fuel with
  | zero => intro l acc; rfl
  | succ fuel ih =>
    intro l acc
    obtain ⟨src, line⟩ := l
    cases src with
    | nil => simp [tokenizeLoop_end]
    | cons c r =>
      by_cases hs : isspace c = true
      · rw [tokenizeLoop_space _ c r line acc hs, tokenizeLoop_space _ c r line [] hs]
        exact ih _ _
      · have hs1 : isspace c = false := by simpa using hs
        by_cases hc : c = '/' ∧ ∃ r1, r = '/' :: r1
        · obtain ⟨rfl, r1, rfl⟩ := hc
          rw [tokenizeLoop_comment, tokenizeLoop_comment]
          exact ih _ _
        · rcases dispatch_progress c r line with ⟨t, ht, _⟩ | hn
          · have hd : dispatch c ⟨c :: r, line⟩ = (some t, (dispatch c ⟨c :: r, line⟩).2) := by
              rw [← ht]
            rw [tokenizeLoop_token _ c r line acc t _ hs1 hc hd,
              tokenizeLoop_token _ c r line [] t _ hs1 hc hd, ih _ (acc ++ [t]), ih _ ([] ++ [t])]
            simp [Option.map_map, Function.comp_def]
          · rw [tokenizeLoop_unknown _ c r line acc hs1 hc hn,
              tokenizeLoop_unknown _ c r line [] hs1 hc hn, ih _ (acc ++ _), ih _ ([] ++ _)]
            simp [Option.map_map, Function.comp_def]

/-! ## Character classes -/

theorem space_mem (c : Char) (h : isspace c = true) : c ∈ spaceChars := by
  simp only [isspace, Bool.or_eq_true, beq_iff_eq] at h
  simp only [spaceChars, List.mem_cons, List.mem_singleton, List.not_mem_nil, or_false]
  tauto

theorem not_space_of (p : Char → Bool) (hp : ∀ c ∈ spaceChars, p c = false) (c : Char)
    (h : p c = true) : isspace c = false := by
  cases hs : isspace c
  · rfl
  · rw [hp c (space_mem c hs)] at h
    exact absurd h (by decide)

theorem not_switch_of (p : Char → Bool) (hp : ∀ c ∈ switchChars, p c = false) (c : Char)
    (h : p c = true) : c ∉ switchChars := by
  intro hc
  rw [hp c hc] at h
  exact absurd h (by decide)

theorem not_slash_of (c : Char) (h : c ∉ switchChars) (r : List Char) :
    ¬(c = '/' ∧ ∃ r1, r = '/' :: r1) := by
  rintro ⟨rfl, _⟩
  exact h (by decide)

/-! ## `tokenize` at the first character -/

theorem tokenize_nil : tokenize [] = some [eofToken 1] := rfl

theorem tokenize_total (s : List Char) : ∃ toks, tokenize s = some toks :=
  tokenizeLoop_total _ _ _ (Nat.lt_succ_self _)

/-- A token scanned at the first character is followed by the tokens of the
text that `nextToken` leaves, provided the line has not changed. -/
theorem tokenize_token (c : Char) (r : List Char) (t : Token) (r1 : List Char)
    (hs : isspace c = false) (hc : ¬(c = '/' ∧ ∃ r2, r = '/' :: r2))
    (h : dispatch c ⟨c :: r, 1⟩ = (some t, ⟨r1, 1⟩)) :
    tokenize (c :: r) = (tokenize r1).map (fun toks => t :: toks) := by
  have hsuf : r1 <:+ r := by
    rcases dispatch_progress c r 1 with ⟨_, _, hp⟩ | hn
    · rw [h] at hp; exact hp
    · rw [h] at hn; cases hn
  unfold tokenize
  rw [List.length_cons, tokenizeLoop_token _ c r 1 [] t _ hs hc h,
    tokenizeLoop_fuel ⟨r1, 1⟩ _ (r.length + 1) (Nat.lt_succ_of_le hsuf.length_le),
    tokenizeLoop_acc]
  rfl

/-- A token scanned at the first character that uses up the text is followed
by the `END_OF_FILE` token alone. -/
theorem tokenize_last (c : Char) (r : List Char) (t : Token) (line : Int)
    (hs : isspace c = false) (hc : ¬(c = '/' ∧ ∃ r2, r = '/' :: r2))
    (h : dispatch c ⟨c :: r, 1⟩ = (some t, ⟨[], line⟩)) :
    tokenize (c :: r) = some [t, eofToken line] := by
  unfold tokenize
  rw [List.length_cons, tokenizeLoop_token _ c r 1 [] t _ hs hc h]
  rfl

theorem tokenize_unknown (c : Char) (r : List Char)
    (hs : isspace c = false) (hc : ¬(c = '/' ∧ ∃ r2, r = '/' :: r2))
    (h : dispatch c ⟨c :: r, 1⟩ = (none, ⟨c :: r, 1⟩)) :
    tokenize (c :: r) =
      (tokenize r).map (fun toks => ⟨UNKNOWN, 1, some (String.singleton c)⟩ :: toks) := by
  unfold tokenize
  rw [List.length_cons, tokenizeLoop_unknown _ c r 1 [] hs hc h, tokenizeLoop_acc]
  rfl

theorem tokenize_comment (r : List Char) :
    tokenize ('/' :: '/' :: r) = tokenize (skipCommentLoop r) := by
  unfold tokenize
  rw [List.length_cons, tokenizeLoop_comment]
  exact tokenizeLoop_fuel ⟨skipCommentLoop r, 1⟩ [] _
    (Nat.lt_succ_of_le ((skipCommentLoop_suffix r).length_le.trans (Nat.le_succ _)))

/-! ## The kinds of the tokens of the sub-scanners -/

theorem lookup_mem {β : Type} (k : String) (v : β) :
    ∀ l : List (String × β), l.lookup k = some v → (k, v) ∈ l := by
  intro l
  induction l with
  | nil => intro h; cases h
  | cons p l ih =>
    obtain ⟨k1, v1⟩ := p
    intro h
    by_cases hk : k = k1
    · subst hk
      simp only [List.lookup, beq_self_eq_true] at h
      cases h
      exact List.mem_cons_self _ _
    · have hb : (k == k1) = false := by simpa using hk
      simp only [List.lookup, hb] at h
      exact List.mem_cons_of_mem _ (ih h)

theorem lookup_none {β : Type} (k : String) :
    ∀ l : List (String × β), l.lookup k = none ↔ k ∉ l.map Prod.fst := by
  intro l
  induction l with
  | nil => simp
  | cons p l ih =>
    obtain ⟨k1, v1⟩ := p
    by_cases hk : k = k1
    · subst hk
      simp [List.lookup]
    · have hb : (k == k1) = false := by simpa using hk
      simp only [List.lookup, hb, ih, List.map_cons, List.mem_cons, hk, false_or]

theorem lookup_of_mem {β : Type} (k : String) (v : β) :
    ∀ l : List (String × β), (l.map Prod.fst).Nodup → (k, v) ∈ l → l.lookup k = some v := by
  intro l
  induction l with
  | nil => intro _ h; cases h
  | cons p l ih =>
    obtain ⟨k1, v1⟩ := p
    intro hnd hmem
    rw [List.map_cons, List.nodup_cons] at hnd
    rcases List.mem_cons.1 hmem with h | h
    · cases h
      simp [List.lookup]
    · have hk : k ≠ k1 := by
        rintro rfl
        exact hnd.1 (List.mem_map.2 ⟨(k, v), h, rfl⟩)
      have hb : (k == k1) = false := by simpa using hk
      simp only [List.lookup, hb]
      exact ih hnd.2 h

/-- The token of `identifier`: a keyword of the table with its kind and no
lexeme, or an `IDENTIFIER` whose lexeme is not in the table. -/
theorem identifier_token (l : Lexer) :
    (∃ w type, (w, type) ∈ keywords ∧ (identifier l).1 = ⟨type, l.m_cline, none⟩) ∨
      ∃ w, keywords.lookup w = none ∧ (identifier l).1 = ⟨IDENTIFIER, l.m_cline, some w⟩ := by
  unfold identifier
  simp only
  split
  · rename_i type h
    exact Or.inl ⟨_, type, lookup_mem _ _ _ h, rfl⟩
  · rename_i h
    exact Or.inr ⟨_, h, rfl⟩

theorem directive_type (l : Lexer) :
    (directive l).1.type = IMPORT ∨ (directive l).1.type = AT := by
  unfold directive
  simp only
  split_ifs
  · exact Or.inl rfl
  · exact Or.inr rfl
  · exact Or.inr rfl

theorem ampersand_type (l : Lexer) :
    (ampersand l).1.type = LOGICAL_AND ∨ (ampersand l).1.type = AND := by
  unfold ampersand
  simp only
  split_ifs
  · exact Or.inl rfl
  · exact Or.inr rfl

theorem stringLiteral_type (l : Lexer) :
    (stringLiteral l).1.type = UNKNOWN ∨ (stringLiteral l).1.type = STRING_LIT := by
  unfold stringLiteral
  simp only
  split_ifs
  · exact Or.inl rfl
  · exact Or.inr rfl

theorem numberLiteral_type (l : Lexer) : (numberLiteral l).1.type = NUMBER := by
  unfold numberLiteral
  simp only
  split_ifs <;> rfl

theorem kind_other (c : Char) (r : List Char) (t : Token) (type : TokenType)
    (ht : t.type = type)
    (h : type ≠ END_OF_FILE ∧ type ≠ LT_EQ ∧ type ≠ GT_EQ ∧ type ≠ IDENTIFIER) :
    t.type ≠ END_OF_FILE ∧
      (t.type = LT_EQ → c = '=' ∧ ∃ r1, r = '<' :: r1) ∧
      (t.type = GT_EQ → c = '=' ∧ ∃ r1, r = '>' :: r1) ∧
      (t.type = IDENTIFIER → ∀ w, t.value = some w → keywords.lookup w = none) := by
  rw [ht]
  exact ⟨h.1, fun e => absurd e h.2.1, fun e => absurd e h.2.2.1, fun e => absurd e h.2.2.2⟩

/-- What the kind of a token returned by `nextToken` at `c :: r` tells: it is
not `END_OF_FILE`; `LT_EQ` and `GT_EQ` come from `=` followed by `<` and by
`>`; the lexeme of an `IDENTIFIER` is not in the keyword table. -/
theorem dispatch_kind (c : Char) (r : List Char) (line : Int) (t : Token)
    (h : (dispatch c ⟨c :: r, line⟩).1 = some t) :
    t.type ≠ END_OF_FILE ∧
      (t.type = LT_EQ → c = '=' ∧ ∃ r1, r = '<' :: r1) ∧
      (t.type = GT_EQ → c = '=' ∧ ∃ r1, r = '>' :: r1) ∧
      (t.type = IDENTIFIER → ∀ w, t.value = some w → keywords.lookup w = none) := by
  revert t
  apply dispatch_token
  · intro type htype
    have h1 : ∀ x ∈ plainKinds, x ≠ END_OF_FILE ∧ x ≠ LT_EQ ∧ x ≠ GT_EQ ∧ x ≠ IDENTIFIER := by
      decide
    exact kind_other c r _ type rfl (h1 type htype)
  · intro hc r1 hr
    exact ⟨fun e => absurd e (by simp), fun _ => ⟨hc, r1, hr⟩,
      fun e => absurd e (by simp), fun e => absurd e (by simp)⟩
  · intro hc r1 hr
    exact ⟨fun e => absurd e (by simp), fun e => absurd e (by simp),
      fun _ => ⟨hc, r1, hr⟩, fun e => absurd e (by simp)⟩
  · rcases directive_type ⟨c :: r, line⟩ with h | h <;>
      exact kind_other c r _ _ h (by decide)
  · rcases ampersand_type ⟨c :: r, line⟩ with h | h <;>
      exact kind_other c r _ _ h (by decide)
  · rcases stringLiteral_type ⟨c :: r, line⟩ with h | h <;>
      exact kind_other c r _ _ h (by decide)
  · intro _
    exact kind_other c r _ _ (numberLiteral_type _) (by decide)
  · intro _
    rcases identifier_token ⟨c :: r, line⟩ with ⟨w, type, hmem, h⟩ | ⟨w, hw, h⟩
    · rw [h]
      have h1 : ∀ x ∈ keywords,
          x.2 ≠ END_OF_FILE ∧ x.2 ≠ LT_EQ ∧ x.2 ≠ GT_EQ ∧ x.2 ≠ IDENTIFIER := by
        decide
      exact kind_other c r _ type rfl (h1 _ hmem)
    · rw [h]
      refine ⟨fun e => absurd e (by simp), fun e => absurd e (by simp),
        fun e => absurd e (by simp), ?_⟩
      intro _ w1 hw1
      cases hw1
      exact hw

/-! # The claims about the lexer -/

/-! ## The end marker -/

/-- C11. For every source text, `tokenize` returns a non-empty sequence: some
tokens, none of kind `END_OF_FILE`, followed by one `END_OF_FILE` token. -/
theorem ends_with_single_end_of_file (s : List Char) :
    ∃ body line, tokenize s = some (body ++ [⟨END_OF_FILE, line, none⟩]) ∧
      ∀ t ∈ body, t.type ≠ END_OF_FILE := by
  refine tokenizeLoop_tokens s (fun t => t.type ≠ END_OF_FILE) ?_ ?_ _ ⟨s, 1⟩ []
    (List.suffix_refl _) (Nat.lt_succ_self _) (fun _ h => absurd h (List.not_mem_nil _))
  · intro c r line t l1 _ h
    exact (dispatch_kind c r line t (by rw [h])).1
  · intro c r line _ _
    simp

/-! ## Comparison operators -/

theorem dispatch_lt_eq (r : List Char) (line : Int) :
    dispatch '=' ⟨'=' :: '<' :: r, line⟩ = (some ⟨LT_EQ, line, none⟩, ⟨r, line⟩) := rfl

theorem dispatch_gt_eq (r : List Char) (line : Int) :
    dispatch '=' ⟨'=' :: '>' :: r, line⟩ = (some ⟨GT_EQ, line, none⟩, ⟨r, line⟩) := rfl

/-- C12. The text `=<` lexes to `LT_EQ` and `=>` to `GT_EQ`, whereas `<=` lexes
to `LT`, `ASSIGN` and `>=` to `GT`, `ASSIGN`; and in the output for any source
text `s`, a token of kind `LT_EQ` (`GT_EQ`) is the token that `nextToken`
returns at an occurrence of the two characters `=<` (`=>`) in `s`, on the line
of the token, consuming exactly these two characters. -/
theorem comparison_only_after_equals :
    tokenize ['=', '<'] = some [⟨LT_EQ, 1, none⟩, ⟨END_OF_FILE, 1, none⟩] ∧
    tokenize ['=', '>'] = some [⟨GT_EQ, 1, none⟩, ⟨END_OF_FILE, 1, none⟩] ∧
    tokenize ['<', '='] = some [⟨LT, 1, none⟩, ⟨ASSIGN, 1, none⟩, ⟨END_OF_FILE, 1, none⟩] ∧
    tokenize ['>', '='] = some [⟨GT, 1, none⟩, ⟨ASSIGN, 1, none⟩, ⟨END_OF_FILE, 1, none⟩] ∧
    ∀ (s : List Char) (toks : List Token), tokenize s = some toks → ∀ t ∈ toks,
      (t.type = LT_EQ → ∃ before r, s = before ++ '=' :: '<' :: r ∧
        nextToken ⟨'=' :: '<' :: r, t.line⟩ = (some t, ⟨r, t.line⟩)) ∧
      (t.type = GT_EQ → ∃ before r, s = before ++ '=' :: '>' :: r ∧
        nextToken ⟨'=' :: '>' :: r, t.line⟩ = (some t, ⟨r, t.line⟩)) := by
  refine ⟨rfl, rfl, rfl, rfl, ?_⟩
  intro s toks hs
  obtain ⟨body, line, hb, hall⟩ := tokenizeLoop_tokens s
    (fun t =>
      (t.type = LT_EQ → ∃ before r, s = before ++ '=' :: '<' :: r ∧
        nextToken ⟨'=' :: '<' :: r, t.line⟩ = (some t, ⟨r, t.line⟩)) ∧
      (t.type = GT_EQ → ∃ before r, s = before ++ '=' :: '>' :: r ∧
        nextToken ⟨'=' :: '>' :: r, t.line⟩ = (some t, ⟨r, t.line⟩)))
    (by
      intro c r line t l1 hsuf h
      obtain ⟨before, hbefore⟩ := hsuf
      have hk := dispatch_kind c r line t (by rw [h])
      constructor
      · intro ht
        obtain ⟨rfl, r1, rfl⟩ := hk.2.1 ht
        rw [dispatch_lt_eq] at h
        cases h
        exact ⟨before, r1, hbefore.symm, rfl⟩
      · intro ht
        obtain ⟨rfl, r1, rfl⟩ := hk.2.2.1 ht
        rw [dispatch_gt_eq] at h
        cases h
        exact ⟨before, r1, hbefore.symm, rfl⟩)
    (by
      intro c r line _ _
      exact ⟨fun e => absurd e (by simp), fun e => absurd e (by simp)⟩)
    _ ⟨s, 1⟩ [] (List.suffix_refl _) (Nat.lt_succ_self _)
    (fun _ h => absurd h (List.not_mem_nil _))
  have hb1 : tokenize s = some (body ++ [⟨END_OF_FILE, line, none⟩]) := hb
  rw [hs] at hb1
  cases hb1
  intro t ht
  rcases List.mem_append.1 ht with h | h
  · exact hall t h
  · rw [List.mem_singleton.1 h]
    exact ⟨fun e => absurd e (by simp), fun e => absurd e (by simp)⟩

/-- C12 at the source `a =< b`: its `LT_EQ` token stems from the characters
`=<` that follow `a `. -/
theorem comparison_only_after_equals_witness :
    tokenize "a =< b".toList = some [⟨IDENTIFIER, 1, some "a"⟩, ⟨LT_EQ, 1, none⟩,
        ⟨IDENTIFIER, 1, some "b"⟩, ⟨END_OF_FILE, 1, none⟩] ∧
      ∃ before r, "a =< b".toList = before ++ '=' :: '<' :: r ∧
        nextToken ⟨'=' :: '<' :: r, 1⟩ = (some ⟨LT_EQ, 1, none⟩, ⟨r, 1⟩) :=
  ⟨rfl, (comparison_only_after_equals.2.2.2.2 "a =< b".toList _ rfl ⟨LT_EQ, 1, none⟩
    (by decide)).1 rfl⟩

/-! ## Operators -/

/-- The token of a one-character operator followed by a character that is not
excluded for it. -/
theorem dispatch_single (x : Char × List Char × TokenType) (hx : x ∈ specSingleOperators)
    (rest : List Char) (line : Int) (h : ∀ n, rest.head? = some n → n ∉ x.2.1) :
    dispatch x.1 ⟨x.1 :: rest, line⟩ = (some ⟨x.2.2, line, none⟩, ⟨rest, line⟩) := by
  cases rest with
  | nil =>
    simp only [specSingleOperators, List.mem_cons, List.mem_singleton, List.not_mem_nil,
      or_false] at hx
    rcases hx with rfl | rfl | rfl | rfl | rfl | rfl | rfl | rfl | rfl | rfl <;> rfl
  | cons n r =>
    have hn := h n rfl
    simp only [specSingleOperators, List.mem_cons, List.mem_singleton, List.not_mem_nil,
      or_false] at hx
    rcases hx with rfl | rfl | rfl | rfl | rfl | rfl | rfl | rfl | rfl | rfl <;>
      simp only [List.mem_cons, List.mem_singleton, not_or, List.not_mem_nil, not_false_eq_true,
        and_true] at hn <;>
      simp [dispatch, Lexer.peekNext, Lexer.peek, hn, one, ret, ampersand, Lexer.advance]

/-- C13. Each two-character operator spelling lexes to its one token followed
by `END_OF_FILE`; each one-character operator, followed by nothing or by a
character that is not excluded for it, lexes to its one-character token, and
the rest of the text is lexed as it is on its own. -/
theorem operators_by_lookahead :
    (∀ x ∈ specDoubleOperators,
      tokenize [x.1, x.2.1] = some [⟨x.2.2, 1, none⟩, ⟨END_OF_FILE, 1, none⟩]) ∧
    ∀ x ∈ specSingleOperators, ∀ rest : List Char, (∀ n, rest.head? = some n → n ∉ x.2.1) →
      ∃ toks, tokenize rest = some toks ∧
        tokenize (x.1 :: rest) = some (⟨x.2.2, 1, none⟩ :: toks) := by
  constructor
  · decide
  · intro x hx rest h
    obtain ⟨toks, ht⟩ := tokenize_total rest
    refine ⟨toks, ht, ?_⟩
    have hs1 : ∀ y ∈ specSingleOperators, isspace y.1 = false := by decide
    have hc1 : ∀ y ∈ specSingleOperators, y.1 = '/' → '/' ∈ y.2.1 := by decide
    have hs : isspace x.1 = false := hs1 x hx
    have hc : ¬(x.1 = '/' ∧ ∃ r2, rest = '/' :: r2) := by
      rintro ⟨h1, r2, rfl⟩
      exact h '/' rfl (hc1 x hx h1)
    rw [tokenize_token x.1 rest _ rest hs hc (dispatch_single x hx rest 1 h), ht]
    rfl

/-- C13 at `-x` and at `<=`: `-` before `x` is `MINUS` and `x` is lexed next;
`<` before `=` is `LT` and `=` is lexed next. -/
theorem operators_by_lookahead_witness :
    (∃ toks, tokenize ['x'] = some toks ∧
      tokenize ('-' :: ['x']) = some (⟨MINUS, 1, none⟩ :: toks)) ∧
    ∃ toks, tokenize ['='] = some toks ∧
      tokenize ('<' :: ['=']) = some (⟨LT, 1, none⟩ :: toks) :=
  ⟨operators_by_lookahead.2 ('-', ['=', '-', '>'], MINUS) (by decide) ['x']
      (by intro n hn; cases hn; decide),
    operators_by_lookahead.2 ('<', ['<', '-'], LT) (by decide) ['=']
      (by intro n hn; cases hn; decide)⟩

/-! ## Unknown characters -/

/-- C14. The function `tokenize` returns a token sequence for every source
text; a first character that is not whitespace, not a letter, digit or
underscore and not a case label of `nextToken` yields the `UNKNOWN` token
holding that character on line 1, followed by the tokens of the rest of the
text. -/
theorem unknown_character_recovered :
    (∀ s : List Char, ∃ toks, tokenize s = some toks) ∧
    ∀ (c : Char) (r : List Char), isspace c = false → isalnum c = false → c ≠ '_' →
      c ∉ switchChars →
      ∃ toks, tokenize r = some toks ∧
        tokenize (c :: r) = some (⟨UNKNOWN, 1, some (String.singleton c)⟩ :: toks) := by
  refine ⟨tokenize_total, ?_⟩
  intro c r hs ha hu hsw
  obtain ⟨toks, ht⟩ := tokenize_total r
  refine ⟨toks, ht, ?_⟩
  have ha1 : isalpha c = false ∧ isdigit c = false := by
    simpa [isalnum] using ha
  have hd : dispatch c ⟨c :: r, 1⟩ = (none, ⟨c :: r, 1⟩) := by
    rw [dispatch_default c _ hsw]
    simp [ha1.1, ha1.2, hu]
  rw [tokenize_unknown c r hs (not_slash_of c hsw r) hd, ht]
  rfl

/-- C14 at the character `,` before the text `x`. -/
theorem unknown_character_recovered_witness :
    ∃ toks, tokenize ['x'] = some toks ∧
      tokenize (',' :: ['x']) = some (⟨UNKNOWN, 1, some (String.singleton ',')⟩ :: toks) :=
  unknown_character_recovered.2 ',' ['x'] (by decide) (by decide) (by decide) (by decide)

/-! ## Line comments -/

theorem skipCommentLoop_line (c t : List Char) (h : Char.ofNat 10 ∉ c) :
    skipCommentLoop (c ++ Char.ofNat 10 :: t) = Char.ofNat 10 :: t := by
  induction c with
  | nil => rfl
  | cons x c ih =>
    have hx : x ≠ Char.ofNat 10 := fun e => h (e ▸ List.mem_cons_self _ _)
    have hc : Char.ofNat 10 ∉ c := fun e => h (List.mem_cons_of_mem _ e)
    rw [List.cons_append, skipCommentLoop]
    simp only [bne_iff_ne, ne_eq, hx, not_false_eq_true, if_true]
    exact ih hc

theorem skipCommentLoop_all (c : List Char) (h : Char.ofNat 10 ∉ c) :
    skipCommentLoop c = [] := by
  induction c with
  | nil => rfl
  | cons x c ih =>
    have hx : x ≠ Char.ofNat 10 := fun e => h (e ▸ List.mem_cons_self _ _)
    have hc : Char.ofNat 10 ∉ c := fun e => h (List.mem_cons_of_mem _ e)
    rw [skipCommentLoop]
    simp only [bne_iff_ne, ne_eq, hx, not_false_eq_true, if_true]
    exact ih hc

/-- C19. A line comment produces no token: the text `//` followed by a comment
without a newline, the newline and a text `t` lexes to the tokens of the
newline followed by `t`; a comment that ends the text lexes to the
`END_OF_FILE` token on line 1. -/
theorem line_comment_skipped (c t : List Char) (h : Char.ofNat 10 ∉ c) :
    (∃ toks, tokenize (Char.ofNat 10 :: t) = some toks ∧
      tokenize ('/' :: '/' :: (c ++ Char.ofNat 10 :: t)) = some toks) ∧
    tokenize ('/' :: '/' :: c) = some [⟨END_OF_FILE, 1, none⟩] := by
  constructor
  · obtain ⟨toks, ht⟩ := tokenize_total (Char.ofNat 10 :: t)
    exact ⟨toks, ht, by rw [tokenize_comment, skipCommentLoop_line c t h, ht]⟩
  · rw [tokenize_comment, skipCommentLoop_all c h]
    rfl

/-- C19 at `// note` followed by a newline and `x`, and at `// note` alone. -/
theorem line_comment_skipped_witness :
    Char.ofNat 10 ∉ " note".toList ∧
    (∃ toks, tokenize (Char.ofNat 10 :: ['x']) = some toks ∧
      tokenize ('/' :: '/' :: (" note".toList ++ Char.ofNat 10 :: ['x'])) = some toks) ∧
    tokenize ('/' :: '/' :: " note".toList) = some [⟨END_OF_FILE, 1, none⟩] :=
  ⟨by decide, line_comment_skipped " note".toList ['x'] (by decide)⟩

/-! ## The scenario `num x = 5; print(x);` -/

/-- C20. The text `num x = 5; print(x);` lexes to the eleven tokens of the
scenario, all on line 1 and with a lexeme exactly on the `IDENTIFIER` and
`NUMBER` tokens, and `parse` returns on these tokens the declaration of `x`
with the literal `5` followed by the call of `print` on `x`. -/
theorem scenario_num_print (fuel : Nat) :
    tokenize scenarioSource = some scenarioTokens ∧
    (∀ t ∈ scenarioTokens,
      t.line = 1 ∧ (t.value.isSome = true ↔ t.type = IDENTIFIER ∨ t.type = NUMBER)) ∧
    parse (fuel + 8) scenarioTokens = Outcome.returned scenarioProgram := by
  refine ⟨rfl, by decide, ?_⟩
  have h8 : parse 8 scenarioTokens = Outcome.returned scenarioProgram := rfl
  exact parse_mono (Nat.le_add_left 8 fuel) h8 (by simp)

/-! ## Unterminated strings -/

theorem newlines_cons (c : Char) (t : List Char) :
    newlines (c :: t) = (if c = Char.ofNat 10 then 1 else 0) + newlines t := by
  unfold newlines
  by_cases h : c = Char.ofNat 10
  · subst h
    rw [List.count_cons_self, if_pos rfl]
    push_cast
    ring
  · rw [List.count_cons_of_ne (fun e => h e.symm), if_neg h]
    ring

theorem stringLoop_all (t : List Char) (line : Int) (h : '"' ∉ t) :
    stringLoop t line = (t, line + newlines t, []) := by
  induction t generalizing line with
  | nil => simp [stringLoop, newlines]
  | cons c t ih =>
    have hc : c ≠ '"' := fun e => h (e ▸ List.mem_cons_self _ _)
    have ht : '"' ∉ t := fun e => h (List.mem_cons_of_mem _ e)
    rw [stringLoop]
    simp only [bne_iff_ne, ne_eq, hc, not_false_eq_true, if_true, ih _ ht, newlines_cons]
    by_cases hn : c = Char.ofNat 10
    · simp [hn, add_assoc]
    · simp [hn]

/-- C15. An opening double quote followed by a text `t` without a double quote
lexes to the `UNKNOWN` token with lexeme `t` followed by `END_OF_FILE`, both on
line 1 plus the number of newlines of `t`. -/
theorem unterminated_string_unknown (t : List Char) (h : '"' ∉ t) :
    tokenize ('"' :: t) = some [⟨UNKNOWN, 1 + newlines t, some (String.mk t)⟩,
      ⟨END_OF_FILE, 1 + newlines t, none⟩] := by
  have hd : dispatch '"' ⟨'"' :: t, 1⟩ =
      (some ⟨UNKNOWN, 1 + newlines t, some (String.mk t)⟩, ⟨[], 1 + newlines t⟩) := by
    have h1 : dispatch '"' ⟨'"' :: t, 1⟩ = ret (stringLiteral ⟨'"' :: t, 1⟩) := rfl
    rw [h1]
    unfold stringLiteral
    simp only [lexAdvance_cons, stringLoop_all t 1 h]
    rfl
  exact tokenize_last '"' t _ _ (by decide) (by rintro ⟨h1, _⟩; exact absurd h1 (by decide)) hd

/-- C15 at the text `"ab`, a newline, `c`. -/
theorem unterminated_string_unknown_witness :
    '"' ∉ ['a', 'b', Char.ofNat 10, 'c'] ∧
    tokenize ('"' :: ['a', 'b', Char.ofNat 10, 'c']) =
      some [⟨UNKNOWN, 1 + newlines ['a', 'b', Char.ofNat 10, 'c'],
          some (String.mk ['a', 'b', Char.ofNat 10, 'c'])⟩,
        ⟨END_OF_FILE, 1 + newlines ['a', 'b', Char.ofNat 10, 'c'], none⟩] ∧
    1 + newlines ['a', 'b', Char.ofNat 10, 'c'] = 2 :=
  ⟨by decide, unterminated_string_unknown ['a', 'b', Char.ofNat 10, 'c'] (by decide), by decide⟩

/-! ## Numeric literals -/

theorem digit_not_space : ∀ c ∈ spaceChars, isdigit c = false := by decide

theorem digit_not_switch : ∀ c ∈ switchChars, isdigit c = false := by decide

theorem dispatch_digit (c : Char) (l : Lexer) (h : isdigit c = true) :
    dispatch c l = ret (numberLiteral l) := by
  rw [dispatch_default c l (not_switch_of isdigit digit_not_switch c h), if_pos h]

/-- The text `d` of digits followed by `rest`, which starts neither with a
digit nor with a dot and a digit, is read as the number `d`. -/
theorem numberLiteral_whole (d rest : List Char) (line : Int)
    (hd : ∀ c ∈ d, isdigit c = true) (h1 : ∀ c, rest.head? = some c → isdigit c = false)
    (h2 : ∀ c r, rest = '.' :: c :: r → isdigit c = false) :
    numberLiteral ⟨d ++ rest, line⟩ = (⟨NUMBER, line, some (String.mk d)⟩, ⟨rest, line⟩) := by
  have hs : scanWhile isdigit rest = ([], rest) := by
    cases rest with
    | nil => rfl
    | cons c r => exact scanWhile_stop _ _ _ (h1 c rfl)
  have hcond : (Lexer.peek ⟨rest, line⟩ == '.' && isdigit (Lexer.peekNext ⟨rest, line⟩)) =
      false := by
    rcases rest with _ | ⟨x, _ | ⟨y, r⟩⟩
    · rfl
    · cases hx : (x == '.')
      · simp [Lexer.peek, hx]
      · simp only [Lexer.peek, Lexer.peekNext, hx, Bool.true_and]
        decide
    · by_cases hx : x = '.'
      · subst hx
        simp [Lexer.peek, Lexer.peekNext, h2 y r rfl]
      · simp [Lexer.peek, hx]
  unfold numberLiteral
  simp only [scanWhile_append isdigit d rest hd, hs, List.append_nil, hcond, Bool.false_eq_true,
    if_false]

/-- The text `d.e` of digits around a dot is read as one number. -/
theorem numberLiteral_fraction (d e : List Char) (line : Int) (he : e ≠ [])
    (hd : ∀ c ∈ d, isdigit c = true) (hee : ∀ c ∈ e, isdigit c = true) :
    numberLiteral ⟨d ++ '.' :: e, line⟩ =
      (⟨NUMBER, line, some (String.mk (d ++ '.' :: e))⟩, ⟨[], line⟩) := by
  obtain ⟨x, r, rfl⟩ := List.exists_cons_of_ne_nil he
  have hx : isdigit x = true := hee x (List.mem_cons_self _ _)
  have hs : scanWhile isdigit ('.' :: x :: r) = ([], '.' :: x :: r) :=
    scanWhile_stop _ _ _ (by decide)
  unfold numberLiteral
  simp only [scanWhile_append isdigit d _ hd, hs, List.append_nil, Lexer.peek, Lexer.peekNext,
    beq_self_eq_true, hx, Bool.and_self, if_true, lexAdvance_cons, scanWhile_all isdigit _ hee]

/-- C16. For non-empty digit strings `d` and `e`, the text `d` lexes to the
number `d`, the text `d.e` to the number `d.e`, and the text `d.` to the
number `d` followed by an `UNKNOWN` token for the dot; each sequence ends with
`END_OF_FILE`, and every token is on line 1. -/
theorem number_literals (d e : List Char) (hd : d ≠ []) (he : e ≠ [])
    (hdd : ∀ c ∈ d, isdigit c = true) (hee : ∀ c ∈ e, isdigit c = true) :
    tokenize d = some [⟨NUMBER, 1, some (String.mk d)⟩, ⟨END_OF_FILE, 1, none⟩] ∧
    tokenize (d ++ '.' :: e) =
      some [⟨NUMBER, 1, some (String.mk (d ++ '.' :: e))⟩, ⟨END_OF_FILE, 1, none⟩] ∧
    tokenize (d ++ ['.']) =
      some [⟨NUMBER, 1, some (String.mk d)⟩, ⟨UNKNOWN, 1, some "."⟩,
        ⟨END_OF_FILE, 1, none⟩] := by
  obtain ⟨x, r, rfl⟩ := List.exists_cons_of_ne_nil hd
  have hx : isdigit x = true := hdd x (List.mem_cons_self _ _)
  have hs : isspace x = false := not_space_of isdigit digit_not_space x hx
  have hsw : x ∉ switchChars := not_switch_of isdigit digit_not_switch x hx
  refine ⟨?_, ?_, ?_⟩
  · have h := numberLiteral_whole (x :: r) [] 1 hdd (fun c hc => by cases hc)
      (fun c r1 hc => by cases hc)
    rw [List.append_nil] at h
    exact tokenize_last x r _ 1 hs (not_slash_of x hsw r)
      (by rw [dispatch_digit x _ hx, h]; rfl)
  · have h := numberLiteral_fraction (x :: r) e 1 he hdd hee
    exact tokenize_last x (r ++ '.' :: e) _ 1 hs (not_slash_of x hsw _)
      (by rw [dispatch_digit x _ hx]; rw [List.cons_append] at h; rw [h]; rfl)
  · have h := numberLiteral_whole (x :: r) ['.'] 1 hdd
      (fun c hc => by cases hc; decide) (fun c r1 hc => by cases hc)
    have h3 := tokenize_token x (r ++ ['.']) _ ['.'] hs (not_slash_of x hsw _)
      (by rw [dispatch_digit x _ hx]; rw [List.cons_append] at h; rw [h]; rfl)
    rw [List.cons_append, h3]
    rfl

/-- C16 at `12`, `12.50` and `12.`. -/
theorem number_literals_witness :
    tokenize ['1', '2'] = some [⟨NUMBER, 1, some "12"⟩, ⟨END_OF_FILE, 1, none⟩] ∧
    tokenize (['1', '2'] ++ '.' :: ['5', '0']) =
      some [⟨NUMBER, 1, some "12.50"⟩, ⟨END_OF_FILE, 1, none⟩] ∧
    tokenize (['1', '2'] ++ ['.']) =
      some [⟨NUMBER, 1, some "12"⟩, ⟨UNKNOWN, 1, some "."⟩, ⟨END_OF_FILE, 1, none⟩] :=
  number_literals ['1', '2'] ['5', '0'] (by decide) (by decide) (by decide) (by decide)

/-! ## Identifiers and keywords -/

theorem word_not_space : ∀ c ∈ spaceChars, (isalpha c || c == '_') = false := by decide

theorem word_not_switch : ∀ c ∈ switchChars, (isalpha c || c == '_') = false := by decide

theorem alpha_not_digit (c : Char) (h : (isalpha c || c == '_') = true) : isdigit c = false := by
  cases hd : isdigit c
  · rfl
  · exfalso
    simp only [isdigit, Bool.and_eq_true, decide_eq_true_eq] at hd
    simp only [isalpha, Bool.or_eq_true, Bool.and_eq_true, decide_eq_true_eq, beq_iff_eq] at h
    rcases h with (h | h) | h
    · omega
    · omega
    · subst h
      exact absurd hd (by decide)

theorem dispatch_word (c : Char) (l : Lexer) (h : (isalpha c || c == '_') = true) :
    dispatch c l = ret (identifier l) := by
  rw [dispatch_default c l (not_switch_of _ word_not_switch c h), alpha_not_digit c h, if_pos h]
  rfl

theorem keywords_nodup : (keywords.map Prod.fst).Nodup := by decide

/-- A word lexes to the token that `identifier` makes of it. -/
theorem tokenize_word (c : Char) (r : List Char) (h : (isalpha c || c == '_') = true)
    (hr : ∀ x ∈ r, (isalnum x || x == '_') = true) :
    tokenize (c :: r) =
      some [match keywords.lookup (String.mk (c :: r)) with
        | some type => ⟨type, 1, none⟩
        | none => ⟨IDENTIFIER, 1, some (String.mk (c :: r))⟩,
        ⟨END_OF_FILE, 1, none⟩] := by
  have hc : (fun c => isalnum c || c == '_') c = true := by
    simp only [isalnum]
    cases ha : isalpha c <;> simp_all
  have hall : ∀ x ∈ c :: r, (fun c => isalnum c || c == '_') x = true := by
    intro x hx
    rcases List.mem_cons.1 hx with rfl | hx
    · exact hc
    · exact hr x hx
  have hd : dispatch c ⟨c :: r, 1⟩ =
      (some (match keywords.lookup (String.mk (c :: r)) with
        | some type => ⟨type, 1, none⟩
        | none => ⟨IDENTIFIER, 1, some (String.mk (c :: r))⟩), ⟨[], 1⟩) := by
    rw [dispatch_word c _ h]
    unfold identifier
    simp only [scanWhile_all _ _ hall, ret]
    cases keywords.lookup (String.mk (c :: r)) <;> rfl
  exact tokenize_last c r _ 1 (not_space_of _ word_not_space c h)
    (not_slash_of c (not_switch_of _ word_not_switch c h) r) hd

/-- C17. The keyword table holds the seventeen keywords. A word (a letter or
underscore followed by letters, digits and underscores) that the table pairs
with a kind lexes to the token of that kind without a lexeme, and a word that
is not a keyword lexes to the `IDENTIFIER` token holding the word, each
followed by `END_OF_FILE`. In the output for any source text no `IDENTIFIER`
token holds a keyword. -/
theorem identifiers_and_keywords :
    keywords.map Prod.fst = specKeywords ∧
    (∀ (c : Char) (r : List Char), (isalpha c || c == '_') = true →
      (∀ x ∈ r, (isalnum x || x == '_') = true) →
      (∀ type, (String.mk (c :: r), type) ∈ keywords →
        tokenize (c :: r) = some [⟨type, 1, none⟩, ⟨END_OF_FILE, 1, none⟩]) ∧
      (String.mk (c :: r) ∉ specKeywords →
        tokenize (c :: r) =
          some [⟨IDENTIFIER, 1, some (String.mk (c :: r))⟩, ⟨END_OF_FILE, 1, none⟩])) ∧
    ∀ (s : List Char) (toks : List Token), tokenize s = some toks → ∀ t ∈ toks,
      t.type = IDENTIFIER → ∀ w, t.value = some w → w ∉ specKeywords := by
  have hkeys : keywords.map Prod.fst = specKeywords := rfl
  refine ⟨hkeys, ?_, ?_⟩
  · intro c r h hr
    constructor
    · intro type hmem
      rw [tokenize_word c r h hr, lookup_of_mem _ _ _ keywords_nodup hmem]
    · intro hno
      rw [← hkeys, ← lookup_none] at hno
      rw [tokenize_word c r h hr, hno]
  · intro s toks hs
    obtain ⟨body, line, hb, hall⟩ := tokenizeLoop_tokens s
      (fun t => t.type = IDENTIFIER → ∀ w, t.value = some w → w ∉ specKeywords)
      (by
        intro c r line t l1 _ h ht w hw
        rw [← hkeys, ← lookup_none]
        exact (dispatch_kind c r line t (by rw [h])).2.2.2 ht w hw)
      (by
        intro c r line _ _ e
        exact absurd e (by simp))
      _ ⟨s, 1⟩ [] (List.suffix_refl _) (Nat.lt_succ_self _)
      (fun _ h => absurd h (List.not_mem_nil _))
    have hb1 : tokenize s = some (body ++ [⟨END_OF_FILE, line, none⟩]) := hb
    rw [hs] at hb1
    cases hb1
    intro t ht
    rcases List.mem_append.1 ht with h | h
    · exact hall t h
    · rw [List.mem_singleton.1 h]
      exact fun e => absurd e (by simp)

/-- C17 at the keyword `num` and at the word `numb`. -/
theorem identifiers_and_keywords_witness :
    tokenize ('n' :: ['u', 'm']) = some [⟨KEYWORD_VAR_NUM, 1, none⟩, ⟨END_OF_FILE, 1, none⟩] ∧
    tokenize ('n' :: ['u', 'm', 'b']) =
      some [⟨IDENTIFIER, 1, some (String.mk ('n' :: ['u', 'm', 'b']))⟩,
        ⟨END_OF_FILE, 1, none⟩] :=
  ⟨(identifiers_and_keywords.2.1 'n' ['u', 'm'] (by decide) (by decide)).1 KEYWORD_VAR_NUM
      (by decide),
    (identifiers_and_keywords.2.1 'n' ['u', 'm', 'b'] (by decide) (by decide)).2 (by decide)⟩

/-! ## Directives -/

theorem alpha_not_space : ∀ c ∈ spaceChars, isalpha c = false := by decide

theorem module_not_space :
    ∀ c ∈ spaceChars, (isalnum c || c == '_' || c == '.') = false := by decide

theorem skipSpaces_append (w b : List Char) (line : Int) (h : ∀ c ∈ w, isspace c = true) :
    skipSpaces (w ++ b) line = skipSpaces b (line + newlines w) := by
  induction w generalizing line with
  | nil => simp [newlines]
  | cons c w ih =>
    have hc : isspace c = true := h c (List.mem_cons_self _ _)
    have hw : ∀ x ∈ w, isspace x = true := fun x hx => h x (List.mem_cons_of_mem _ hx)
    rw [List.cons_append, skipSpaces, if_pos hc, ih _ hw, newlines_cons]
    by_cases hn : c = Char.ofNat 10
    · simp [hn, add_assoc]
    · simp [hn]

theorem skipSpaces_stop (b : List Char) (line : Int)
    (h : ∀ c, b.head? = some c → isspace c = false) : skipSpaces b line = (b, line) := by
  cases b with
  | nil => rfl
  | cons c r =>
    rw [skipSpaces]
    simp [h c rfl]

/-- The `case '@'` on `@import`, whitespace and a module name. -/
theorem directive_import (w m : List Char) (line : Int) (hw : w ≠ [])
    (hws : ∀ c ∈ w, isspace c = true)
    (hm : ∀ c ∈ m, (isalnum c || c == '_' || c == '.') = true) :
    directive ⟨'@' :: ("import".toList ++ (w ++ m)), line⟩ =
      (⟨IMPORT, line + newlines w, some (String.mk m)⟩, ⟨[], line + newlines w⟩) := by
  obtain ⟨x, w1, rfl⟩ := List.exists_cons_of_ne_nil hw
  have hx : isalpha x = false := by
    cases ha : isalpha x
    · rfl
    · exact absurd (not_space_of isalpha alpha_not_space x ha)
        (by rw [hws x (List.mem_cons_self _ _)]; decide)
  have h1 : scanWhile isalpha ("import".toList ++ (x :: w1 ++ m)) =
      ("import".toList, x :: w1 ++ m) := by
    rw [scanWhile_append isalpha _ _ (by decide), List.cons_append, scanWhile_stop _ _ _ hx,
      List.append_nil]
  have h2 : skipSpaces (x :: w1 ++ m) line = (m, line + newlines (x :: w1)) := by
    rw [skipSpaces_append _ _ _ hws]
    apply skipSpaces_stop
    intro c hc
    have hcm : c ∈ m := by
      cases m with
      | nil => cases hc
      | cons y m1 => cases hc; exact List.mem_cons_self _ _
    exact not_space_of _ module_not_space c (hm c hcm)
  have hp : isalpha (Lexer.peek ⟨"import".toList ++ (x :: w1 ++ m), line⟩) = true := rfl
  have he : (String.mk "import".toList == "import") = true := by decide
  unfold directive
  simp only [lexAdvance_cons, hp, if_true, h1, he, h2, scanWhile_all _ m hm]

/-- The `case '@'` on `@` and a word of letters other than `import`. -/
theorem directive_other (d : List Char) (line : Int) (hd : d ≠ [])
    (hda : ∀ c ∈ d, isalpha c = true) (hne : String.mk d ≠ "import") :
    directive ⟨'@' :: d, line⟩ = (⟨AT, line, none⟩, ⟨[], line⟩) := by
  obtain ⟨x, d1, rfl⟩ := List.exists_cons_of_ne_nil hd
  have hp : isalpha (Lexer.peek ⟨x :: d1, line⟩) = true := hda x (List.mem_cons_self _ _)
  have he : (String.mk (x :: d1) == "import") = false := by simpa using hne
  unfold directive
  simp only [lexAdvance_cons, hp, if_true, scanWhile_all isalpha _ hda, he, Bool.false_eq_true,
    if_false]

/-- C18. The text `@import`, a non-empty run of whitespace `w` and a module
name `m` of letters, digits, underscores and dots lexes to the `IMPORT` token
with lexeme `m` followed by `END_OF_FILE`, both on line 1 plus the number of
newlines of `w`; the text `@` followed by a non-empty word of letters other
than `import` lexes to the `AT` token without a lexeme followed by
`END_OF_FILE`. -/
theorem directive_tokens :
    (∀ w m : List Char, w ≠ [] → (∀ c ∈ w, isspace c = true) → m ≠ [] →
      (∀ c ∈ m, (isalnum c || c == '_' || c == '.') = true) →
      tokenize ("@import".toList ++ w ++ m) =
        some [⟨IMPORT, 1 + newlines w, some (String.mk m)⟩,
          ⟨END_OF_FILE, 1 + newlines w, none⟩]) ∧
    ∀ d : List Char, d ≠ [] → (∀ c ∈ d, isalpha c = true) → String.mk d ≠ "import" →
      tokenize ('@' :: d) = some [⟨AT, 1, none⟩, ⟨END_OF_FILE, 1, none⟩] := by
  constructor
  · intro w m hw hws _ hm
    have hd : dispatch '@' ⟨'@' :: ("import".toList ++ (w ++ m)), 1⟩ =
        (some ⟨IMPORT, 1 + newlines w, some (String.mk m)⟩, ⟨[], 1 + newlines w⟩) := by
      have h1 : dispatch '@' ⟨'@' :: ("import".toList ++ (w ++ m)), 1⟩ =
          ret (directive ⟨'@' :: ("import".toList ++ (w ++ m)), 1⟩) := rfl
      rw [h1, directive_import w m 1 hw hws hm]
      rfl
    have hsrc : "@import".toList ++ w ++ m = '@' :: ("import".toList ++ (w ++ m)) := by
      rw [List.append_assoc]
      rfl
    rw [hsrc]
    exact tokenize_last '@' _ _ _ (by decide)
      (by rintro ⟨h1, _⟩; exact absurd h1 (by decide)) hd
  · intro d hd hda hne
    have hdis : dispatch '@' ⟨'@' :: d, 1⟩ = (some ⟨AT, 1, none⟩, ⟨[], 1⟩) := by
      have h1 : dispatch '@' ⟨'@' :: d, 1⟩ = ret (directive ⟨'@' :: d, 1⟩) := rfl
      rw [h1, directive_other d 1 hd hda hne]
      rfl
    exact tokenize_last '@' _ _ _ (by decide)
      (by rintro ⟨h1, _⟩; exact absurd h1 (by decide)) hdis

/-- C18 at `@import`, a blank and a newline, `std.io`, and at `@include`. -/
theorem directive_tokens_witness :
    tokenize ("@import".toList ++ [' ', Char.ofNat 10] ++ "std.io".toList) =
      some [⟨IMPORT, 1 + newlines [' ', Char.ofNat 10], some (String.mk "std.io".toList)⟩,
        ⟨END_OF_FILE, 1 + newlines [' ', Char.ofNat 10], none⟩] ∧
    tokenize ('@' :: "include".toList) = some [⟨AT, 1, none⟩, ⟨END_OF_FILE, 1, none⟩] :=
  ⟨directive_tokens.1 [' ', Char.ofNat 10] "std.io".toList (by decide) (by decide) (by decide)
      (by decide),
    directive_tokens.2 "include".toList (by decide) (by decide) (by decide)⟩

end LexerTheorems

/-! # The emitter -/

/-! ## Expressions are written after what the stream holds -/

mutual
theorem generateExpr_append : ∀ (e : Expr) (ss : String),
    generateExpr e ss = ss ++ generateExpr e ""
  | Expr.BinaryExpr l op r line, ss => by
    by_cases h : op = STREAM_OUT
    · subst h
      simp only [generateExpr, if_true]
      rw [generateExpr_append r (ss ++ "std::cout << "),
        generateExpr_append r ("" ++ "std::cout << ")]
      simp [String.append_assoc]
    · simp only [generateExpr, if_neg h]
      rw [generateExpr_append r, generateExpr_append l,
        generateExpr_append r (generateExpr l ("" ++ "(") ++ binaryOpText op),
        generateExpr_append l ("" ++ "(")]
      simp [String.append_assoc]
  | Expr.UnaryExpr op r line, ss => by
    simp only [generateExpr]
    rw [generateExpr_append r, generateExpr_append r ("" ++ unaryOpText op)]
    simp [String.append_assoc]
  | Expr.LiteralExpr value type line, ss => by
    simp [generateExpr]
  | Expr.IdentifierExpr name line, ss => by
    simp [generateExpr]
  | Expr.CallExpr callee args line, ss => by
    simp only [generateExpr]
    split_ifs
    · rw [generatePrintArgs_append args, generatePrintArgs_append args ("" ++ "cout")]
      simp [String.append_assoc]
    · rw [generateCallArgs_append args, generateCallArgs_append args ("" ++ callee ++ "(")]
      simp [String.append_assoc]
theorem generatePrintArgs_append : ∀ (args : List Expr) (ss : String),
    generatePrintArgs args ss = ss ++ generatePrintArgs args ""
  | [], ss => by simp [generatePrintArgs]
  | arg :: rest, ss => by
    simp only [generatePrintArgs]
    rw [generatePrintArgs_append rest, generateExpr_append arg,
      generatePrintArgs_append rest (generateExpr arg ("" ++ " << ")),
      generateExpr_append arg ("" ++ " << ")]
    simp [String.append_assoc]
theorem generateCallArgs_append : ∀ (args : List Expr) (ss : String),
    generateCallArgs args ss = ss ++ generateCallArgs args ""
  | [], ss => by simp [generateCallArgs]
  | [arg], ss => by
    simp only [generateCallArgs]
    exact generateExpr_append arg ss
  | arg :: next :: rest, ss => by
    simp only [generateCallArgs]
    rw [generateCallArgs_append (next :: rest), generateExpr_append arg,
      generateCallArgs_append (next :: rest) (generateExpr arg "" ++ ", ")]
    simp [String.append_assoc]
end

theorem generateExpr_emit (e : Expr) (ss : String) : generateExpr e ss = ss ++ emit e :=
  generateExpr_append e ss

theorem generatePrintArgs_chain (args : List Expr) :
    ∀ ss, generatePrintArgs args ss = ss ++ specPrintChain args := by
  induction args with
  | nil => intro ss; simp [generatePrintArgs, specPrintChain]
  | cons a rest ih =>
    intro ss
    rw [generatePrintArgs, ih, generateExpr_emit]
    simp [specPrintChain, String.append_assoc]

/-! ## The claims about expressions -/

/-- C29. A call of `print` is written as `cout`, then ` << ` and the text of
each argument in order, then ` << std::endl`; and the source
`num x = 5; print(x);` is lexed, parsed and emitted as the header, the line
`double x = 5;`, the opening of `main`, the line `cout << x << std::endl;` and
the closing of `main`. -/
theorem print_emission :
    (∀ (args : List Expr) (line : Int) (ss : String),
      generateExpr (Expr.CallExpr "print" args line) ss =
        ss ++ "cout" ++ specPrintChain args ++ " << std::endl") ∧
    Lexer.tokenize scenarioSource = some scenarioTokens ∧
    parse 8 scenarioTokens = Outcome.returned scenarioProgram ∧
    generate scenarioProgram = some scenarioOutput := by
  refine ⟨?_, rfl, rfl, by rfl⟩
  intro args line ss
  rw [generateExpr, if_pos rfl, generatePrintArgs_chain]

/-- C29 at `print()`, `print(x)` and `print(x, 1)`. -/
theorem print_emission_witness :
    generateExpr (Expr.CallExpr "print" [] 1) "" = "cout << std::endl" ∧
    generateExpr (Expr.CallExpr "print" [Expr.IdentifierExpr "x" 1] 1) "" =
      "cout << x << std::endl" ∧
    generateExpr (Expr.CallExpr "print"
        [Expr.IdentifierExpr "x" 1, Expr.LiteralExpr "1" NUMBER 1] 1) "" =
      "cout << x << 1 << std::endl" :=
  ⟨(print_emission.1 [] 1 "").trans (by decide),
    (print_emission.1 [Expr.IdentifierExpr "x" 1] 1 "").trans (by decide),
    (print_emission.1 [Expr.IdentifierExpr "x" 1, Expr.LiteralExpr "1" NUMBER 1] 1 "").trans
      (by decide)⟩

/-- C30. A `Binary` node with an operator other than `STREAM_OUT` is written
as `(`, the left operand, the text of the operator, the right operand and `)`;
for the 22 operators of the table the text of the operator is the one listed;
with `STREAM_OUT` the node is written as `std::cout << ` followed by the right
operand, the left operand being left out. -/
theorem binary_operator_table :
    (∀ (l r : Expr) (op : TokenType) (line : Int) (ss : String), op ≠ STREAM_OUT →
      generateExpr (Expr.BinaryExpr l op r line) ss =
        ss ++ "(" ++ emit l ++ binaryOpText op ++ emit r ++ ")") ∧
    (∀ x ∈ specBinaryTable, ∀ (l r : Expr) (line : Int) (ss : String),
      generateExpr (Expr.BinaryExpr l x.1 r line) ss =
        ss ++ "(" ++ emit l ++ x.2 ++ emit r ++ ")") ∧
    ∀ (l r : Expr) (line : Int) (ss : String),
      generateExpr (Expr.BinaryExpr l STREAM_OUT r line) ss = ss ++ "std::cout << " ++ emit r := by
  have h1 : ∀ (l r : Expr) (op : TokenType) (line : Int) (ss : String), op ≠ STREAM_OUT →
      generateExpr (Expr.BinaryExpr l op r line) ss =
        ss ++ "(" ++ emit l ++ binaryOpText op ++ emit r ++ ")" := by
    intro l r op line ss h
    rw [generateExpr, if_neg h, generateExpr_emit r, generateExpr_emit l]
  refine ⟨h1, ?_, ?_⟩
  · intro x hx l r line ss
    have h2 : ∀ y ∈ specBinaryTable, y.1 ≠ STREAM_OUT ∧ binaryOpText y.1 = y.2 := by decide
    rw [h1 l r x.1 line ss (h2 x hx).1, (h2 x hx).2]
  · intro l r line ss
    rw [generateExpr, if_pos rfl, generateExpr_emit r]

/-- C30 at `a <= 1`, `p->q` and `a << b`. -/
theorem binary_operator_table_witness :
    generateExpr (Expr.BinaryExpr (Expr.IdentifierExpr "a" 1) LT_EQ
        (Expr.LiteralExpr "1" NUMBER 1) 1) "" = "(a <= 1)" ∧
    generateExpr (Expr.BinaryExpr (Expr.IdentifierExpr "p" 1) ARROW_RIGHT
        (Expr.IdentifierExpr "q" 1) 1) "" = "(p->q)" ∧
    generateExpr (Expr.BinaryExpr (Expr.IdentifierExpr "a" 1) STREAM_OUT
        (Expr.IdentifierExpr "b" 1) 1) "" = "std::cout << b" :=
  ⟨(binary_operator_table.2.1 (LT_EQ, " <= ") (by decide) _ _ 1 "").trans (by decide),
    (binary_operator_table.2.1 (ARROW_RIGHT, "->") (by decide) _ _ 1 "").trans (by decide),
    (binary_operator_table.2.2 _ _ 1 "").trans (by decide)⟩

/-! ## Return-type inference -/

theorem inferExprType_spec (g : Generator) (e : Expr) : inferExprType g e = specExprType g e := by
  cases e with
  | BinaryExpr l op r line => rfl
  | UnaryExpr op r line => rfl
  | LiteralExpr value type line =>
    cases type <;> rfl
  | IdentifierExpr name line =>
    simp only [inferExprType, specExprType, StringMap.count, StringMap.at]
    cases g.m_varTypes.lookup name <;> rfl
  | CallExpr callee args line =>
    simp only [inferExprType, specExprType, StringMap.count, StringMap.at]
    cases g.m_functionReturnTypes.lookup callee <;> rfl

theorem inferFromStatements_spec (g : Generator) (statements : List Stmt) :
    inferFromStatements g statements = specReturnType g statements := by
  induction statements with
  | nil => rfl
  | cons s rest ih =>
    cases s with
    | ReturnStmt value line =>
      cases value with
      | none => rfl
      | some v =>
        simp only [inferFromStatements, specReturnType, List.find?, Stmt.isReturn]
        exact inferExprType_spec g v
    | ImportStmt _ _ => simpa [inferFromStatements, specReturnType, Stmt.isReturn] using ih
    | VarDeclStmt _ _ _ _ =>
      simpa [inferFromStatements, specReturnType, Stmt.isReturn] using ih
    | ExprStmt _ _ => simpa [inferFromStatements, specReturnType, Stmt.isReturn] using ih
    | BlockStmt _ _ => simpa [inferFromStatements, specReturnType, Stmt.isReturn] using ih
    | IfStmt _ _ _ _ => simpa [inferFromStatements, specReturnType, Stmt.isReturn] using ih
    | ForStmt _ _ _ _ _ =>
      simpa [inferFromStatements, specReturnType, Stmt.isReturn] using ih
    | WhileStmt _ _ _ => simpa [inferFromStatements, specReturnType, Stmt.isReturn] using ih
    | FunctionStmt _ _ _ _ =>
      simpa [inferFromStatements, specReturnType, Stmt.isReturn] using ih

/-- C26. For a function whose body is a block, `inferFunctionReturnType`
returns what the reference definition returns on the immediate statement list
of the block, whatever the recorded variable and return types are. -/
theorem return_type_inference (g : Generator) (statements : List Stmt) (line : Int) :
    inferFunctionReturnType g (Stmt.BlockStmt statements line) = specReturnType g statements :=
  inferFromStatements_spec g statements

/-- C26 at a body whose only `return` is nested in an `if` (inferred `void`),
at a body with a nested block before `return 5;` (inferred `double`), and at a
body returning the recorded variable `s`. -/
theorem return_type_inference_witness :
    inferFunctionReturnType {}
        (Stmt.BlockStmt [Stmt.IfStmt (Expr.IdentifierExpr "c" 1)
          (Stmt.BlockStmt [Stmt.ReturnStmt (some (Expr.LiteralExpr "1" NUMBER 1)) 1] 1)
          none 1] 1) = "void" ∧
    inferFunctionReturnType {}
        (Stmt.BlockStmt [Stmt.BlockStmt
            [Stmt.ReturnStmt (some (Expr.LiteralExpr "s" STRING_LIT 1)) 1] 1,
          Stmt.ReturnStmt (some (Expr.LiteralExpr "5" NUMBER 2)) 2,
          Stmt.ReturnStmt none 3] 1) = "double" ∧
    inferFunctionReturnType { m_varTypes := [("s", "std::string")] }
        (Stmt.BlockStmt [Stmt.ReturnStmt (some (Expr.IdentifierExpr "s" 1)) 1] 1) =
      "std::string" :=
  ⟨(return_type_inference _ _ 1).trans (by decide),
    (return_type_inference _ _ 1).trans (by decide),
    (return_type_inference _ _ 1).trans (by decide)⟩

/-! ## Escaping -/

theorem unescapeChars_escapeChar (c : Char) (rest : List Char) :
    unescapeChars (escapeChar c ++ rest) = c :: unescapeChars rest := by
  unfold escapeChar
  split_ifs with h1 h2 h3 h4
  · subst h1; simp [unescapeChars]
  · subst h2; simp [unescapeChars]
  · subst h3; simp [unescapeChars]
  · subst h4; simp [unescapeChars]
  · cases rest with
    | nil => simp [unescapeChars]
    | cons d r => simp [unescapeChars, h4]

theorem unescapeChars_flatMap (s : List Char) : unescapeChars (s.flatMap escapeChar) = s := by
  induction s with
  | nil => rfl
  | cons c r ih => rw [List.flatMap_cons, unescapeChars_escapeChar, ih]

theorem unescape_escapeString (s : String) : unescape (escapeString s) = s := by
  simp [unescape, escapeString, unescapeChars_flatMap]

theorem escapeChar_shape (c : Char) :
    (escapeChar c = [c] ∧ c ≠ '"' ∧ c ≠ Char.ofNat 10 ∧ c ≠ Char.ofNat 9 ∧ c ≠ Char.ofNat 92) ∨
      ((c = '"' ∨ c = Char.ofNat 10 ∨ c = Char.ofNat 9 ∨ c = Char.ofNat 92) ∧
        ∃ x, escapeChar c = [Char.ofNat 92, x] ∧ x ≠ Char.ofNat 10 ∧ x ≠ Char.ofNat 9) := by
  unfold escapeChar
  split_ifs with h1 h2 h3 h4
  · exact Or.inr ⟨Or.inr (Or.inl h1), 'n', rfl, by decide, by decide⟩
  · exact Or.inr ⟨Or.inr (Or.inr (Or.inl h2)), 't', rfl, by decide, by decide⟩
  · exact Or.inr ⟨Or.inl h3, '"', rfl, by decide, by decide⟩
  · exact Or.inr ⟨Or.inr (Or.inr (Or.inr h4)), Char.ofNat 92, rfl, by decide, by decide⟩
  · exact Or.inl ⟨rfl, h3, h1, h2, h4⟩

theorem escaped_no_raw (s : List Char) :
    ∀ c ∈ s.flatMap escapeChar, c ≠ Char.ofNat 10 ∧ c ≠ Char.ofNat 9 := by
  intro c hc
  obtain ⟨a, _, hca⟩ := List.mem_flatMap.1 hc
  rcases escapeChar_shape a with ⟨h, _, h2, h3, _⟩ | ⟨_, x, h, hx1, hx2⟩
  · rw [h, List.mem_singleton] at hca
    subst hca
    exact ⟨h2, h3⟩
  · rw [h] at hca
    simp only [List.mem_cons, List.mem_singleton, List.not_mem_nil, or_false] at hca
    rcases hca with rfl | rfl
    · exact ⟨by decide, by decide⟩
    · exact ⟨hx1, hx2⟩

theorem escaped_quotes (s : List Char) :
    ∀ before after, s.flatMap escapeChar = before ++ '"' :: after →
      ∃ b, before = b ++ [Char.ofNat 92] := by
  induction s with
  | nil =>
    intro before after h
    cases before <;> cases h
  | cons c r ih =>
    intro before after h
    rw [List.flatMap_cons] at h
    rcases escapeChar_shape c with ⟨hc, hq, _⟩ | ⟨_, x, hc, _⟩
    · rw [hc] at h
      cases before with
      | nil =>
        simp only [List.singleton_append, List.nil_append, List.cons.injEq] at h
        exact absurd h.1 hq
      | cons p0 before2 =>
        simp only [List.singleton_append, List.cons_append, List.cons.injEq] at h
        obtain ⟨b, hb⟩ := ih before2 after h.2
        exact ⟨p0 :: b, by rw [hb]; rfl⟩
    · rw [hc] at h
      rcases before with _ | ⟨p0, _ | ⟨p1, before2⟩⟩
      · simp only [List.cons_append, List.nil_append, List.cons.injEq] at h
        exact absurd h.1 (by decide)
      · simp only [List.cons_append, List.nil_append, List.cons.injEq] at h
        exact ⟨[], by rw [← h.1]; rfl⟩
      · simp only [List.cons_append, List.nil_append, List.cons.injEq] at h
        obtain ⟨b, hb⟩ := ih before2 after h.2.2
        exact ⟨p0 :: p1 :: b, by rw [hb]; rfl⟩

theorem escapeString_append (a b : String) :
    escapeString (a ++ b) = escapeString a ++ escapeString b := by
  simp [escapeString, String.ext_iff, List.flatMap_append]

/-- C28. The function `escapeString` replaces a newline by backslash `n`, a
tab by backslash `t`, a double quote by backslash and double quote, a
backslash by two backslashes and copies every other character, character by
character; `unescape` is a left inverse of it, so it is injective; its result
holds no newline and no tab, and every double quote of its result stands
right after a backslash. -/
theorem escape_left_inverse :
    escapeString (String.mk [Char.ofNat 10]) = String.mk [Char.ofNat 92, 'n'] ∧
    escapeString (String.mk [Char.ofNat 9]) = String.mk [Char.ofNat 92, 't'] ∧
    escapeString (String.mk ['"']) = String.mk [Char.ofNat 92, '"'] ∧
    escapeString (String.mk [Char.ofNat 92]) = String.mk [Char.ofNat 92, Char.ofNat 92] ∧
    (∀ c : Char, c ∉ [Char.ofNat 10, Char.ofNat 9, '"', Char.ofNat 92] →
      escapeString (String.mk [c]) = String.mk [c]) ∧
    (∀ a b : String, escapeString (a ++ b) = escapeString a ++ escapeString b) ∧
    (∀ s : String, unescape (escapeString s) = s) ∧
    Function.Injective escapeString ∧
    (∀ s : String, ∀ c ∈ (escapeString s).data, c ≠ Char.ofNat 10 ∧ c ≠ Char.ofNat 9) ∧
    ∀ (s : String) (before after : List Char),
      (escapeString s).data = before ++ '"' :: after → ∃ b, before = b ++ [Char.ofNat 92] := by
  refine ⟨by decide, by decide, by decide, by decide, ?_, escapeString_append,
    unescape_escapeString, Function.LeftInverse.injective unescape_escapeString,
    fun s => escaped_no_raw s.data, fun s => escaped_quotes s.data⟩
  intro c hc
  simp only [List.mem_cons, List.mem_singleton, List.not_mem_nil, or_false, not_or] at hc
  simp [escapeString, escapeChar, hc]

/-- C28 at the text `a"b`, a backslash, a newline, `c`. -/
theorem escape_left_inverse_witness :
    escapeString (String.mk ['a', '"', 'b', Char.ofNat 92, Char.ofNat 10, 'c']) =
      String.mk ['a', Char.ofNat 92, '"', 'b', Char.ofNat 92, Char.ofNat 92, Char.ofNat 92,
        'n', 'c'] ∧
    unescape (escapeString (String.mk ['a', '"', 'b', Char.ofNat 92, Char.ofNat 10, 'c'])) =
      String.mk ['a', '"', 'b', Char.ofNat 92, Char.ofNat 10, 'c'] :=
  ⟨by decide, escape_left_inverse.2.2.2.2.2.2.1 _⟩

/-! ## Literals from the source text to the emitted text -/

theorem stringLoop_quote (t rest : List Char) (line : Int) (h : '"' ∉ t) :
    Lexer.stringLoop (t ++ '"' :: rest) line = (t, line + newlines t, '"' :: rest) := by
  induction t generalizing line with
  | nil => simp [Lexer.stringLoop, newlines]
  | cons c t ih =>
    have hc : c ≠ '"' := fun e => h (e ▸ List.mem_cons_self _ _)
    have ht : '"' ∉ t := fun e => h (List.mem_cons_of_mem _ e)
    rw [List.cons_append, Lexer.stringLoop]
    simp only [bne_iff_ne, ne_eq, hc, not_false_eq_true, if_true, ih _ ht, newlines_cons]
    by_cases hn : c = Char.ofNat 10
    · simp [hn, add_assoc]
    · simp [hn]

theorem tokenize_string (t : List Char) (h : '"' ∉ t) :
    Lexer.tokenize ('"' :: (t ++ ['"'])) =
      some [⟨STRING_LIT, 1 + newlines t, some (String.mk t)⟩,
        ⟨END_OF_FILE, 1 + newlines t, none⟩] := by
  have hd : Lexer.dispatch '"' ⟨'"' :: (t ++ ['"']), 1⟩ =
      (some ⟨STRING_LIT, 1 + newlines t, some (String.mk t)⟩, ⟨[], 1 + newlines t⟩) := by
    have h1 : Lexer.dispatch '"' ⟨'"' :: (t ++ ['"']), 1⟩ =
        Lexer.ret (Lexer.stringLiteral ⟨'"' :: (t ++ ['"']), 1⟩) := rfl
    rw [h1]
    unfold Lexer.stringLiteral
    simp only [lexAdvance_cons, stringLoop_quote t [] 1 h]
    rfl
  exact tokenize_last '"' _ _ _ (by decide) (by rintro ⟨h1, _⟩; exact absurd h1 (by decide)) hd

theorem tokenize_digits (d : List Char) (hd : d ≠ []) (hdd : ∀ c ∈ d, isdigit c = true) :
    Lexer.tokenize d = some [⟨NUMBER, 1, some (String.mk d)⟩, ⟨END_OF_FILE, 1, none⟩] := by
  obtain ⟨x, r, rfl⟩ := List.exists_cons_of_ne_nil hd
  have hx : isdigit x = true := hdd x (List.mem_cons_self _ _)
  have h := numberLiteral_whole (x :: r) [] 1 hdd (fun c hc => by cases hc)
    (fun c r1 hc => by cases hc)
  rw [List.append_nil] at h
  exact tokenize_last x r _ 1 (not_space_of isdigit digit_not_space x hx)
    (not_slash_of x (not_switch_of isdigit digit_not_switch x hx) r)
    (by rw [dispatch_digit x _ hx, h]; rfl)

theorem tokenize_fraction (d e : List Char) (hd : d ≠ []) (he : e ≠ [])
    (hdd : ∀ c ∈ d, isdigit c = true) (hee : ∀ c ∈ e, isdigit c = true) :
    Lexer.tokenize (d ++ '.' :: e) =
      some [⟨NUMBER, 1, some (String.mk (d ++ '.' :: e))⟩, ⟨END_OF_FILE, 1, none⟩] := by
  obtain ⟨x, r, rfl⟩ := List.exists_cons_of_ne_nil hd
  have hx : isdigit x = true := hdd x (List.mem_cons_self _ _)
  have h := numberLiteral_fraction (x :: r) e 1 he hdd hee
  exact tokenize_last x (r ++ '.' :: e) _ 1 (not_space_of isdigit digit_not_space x hx)
    (not_slash_of x (not_switch_of isdigit digit_not_switch x hx) _)
    (by rw [dispatch_digit x _ hx]; rw [List.cons_append] at h; rw [h]; rfl)

theorem flatMap_escapeChar_length (t : List Char) :
    t.length ≤ (t.flatMap escapeChar).length ∧
      ((t.flatMap escapeChar).length = t.length → ∀ c ∈ t, escapeChar c = [c]) := by
  induction t with
  | nil => exact ⟨le_refl _, fun _ c hc => absurd hc (List.not_mem_nil c)⟩
  | cons x t ih =>
    rw [List.flatMap_cons, List.length_append, List.length_cons]
    rcases escapeChar_shape x with ⟨hx, _⟩ | ⟨_, y, hx, _⟩
    · rw [hx]
      refine ⟨by simp only [List.length_singleton]; omega, fun hlen c hc => ?_⟩
      simp only [List.length_singleton] at hlen
      rcases List.mem_cons.1 hc with rfl | hc
      · exact hx
      · exact ih.2 (by omega) c hc
    · rw [hx]
      simp only [List.length_cons, List.length_nil]
      exact ⟨by omega, fun hlen => absurd hlen (by omega)⟩

/-- The text is escaped to itself exactly when it holds no newline, tab,
double quote or backslash. -/
theorem escape_fixed (t : List Char) :
    t.flatMap escapeChar = t ↔
      ∀ c ∈ t, c ≠ '"' ∧ c ≠ Char.ofNat 10 ∧ c ≠ Char.ofNat 9 ∧ c ≠ Char.ofNat 92 := by
  constructor
  · intro h c hc
    have h1 := (flatMap_escapeChar_length t).2 (by rw [h]) c hc
    rcases escapeChar_shape c with ⟨_, h2⟩ | ⟨_, y, hy, _⟩
    · exact h2
    · rw [hy] at h1
      cases h1
  · intro h
    induction t with
    | nil => rfl
    | cons x t ih =>
      rw [List.flatMap_cons, ih (fun c hc => h c (List.mem_cons_of_mem _ hc))]
      rcases escapeChar_shape x with ⟨hx, _⟩ | ⟨hx, _⟩
      · rw [hx]; rfl
      · have := h x (List.mem_cons_self _ _)
        rcases hx with hx | hx | hx | hx
        · exact absurd hx this.1
        · exact absurd hx this.2.1
        · exact absurd hx this.2.2.1
        · exact absurd hx this.2.2.2

/-- C27, amended. For a text `t` without a double quote, the source
`"t"` lexes to the `STRING_LIT` token with lexeme `t`, `generateLiteral`
writes for it the escaped text of `t` between double quotes, and this is the
source form `"t"` exactly when `t` holds no newline, tab or backslash. For
non-empty digit strings `d` and `e`, the sources `d` and `d.e` lex to the
`NUMBER` token holding the source text, which `generateLiteral` writes
unchanged. -/
theorem literal_round_trip :
    (∀ t : List Char, '"' ∉ t →
      Lexer.tokenize ('"' :: (t ++ ['"'])) =
        some [⟨STRING_LIT, 1 + newlines t, some (String.mk t)⟩,
          ⟨END_OF_FILE, 1 + newlines t, none⟩] ∧
      generateLiteral (String.mk t) STRING_LIT =
        "\"" ++ escapeString (String.mk t) ++ "\"" ∧
      (generateLiteral (String.mk t) STRING_LIT = String.mk ('"' :: (t ++ ['"'])) ↔
        Char.ofNat 10 ∉ t ∧ Char.ofNat 9 ∉ t ∧ Char.ofNat 92 ∉ t)) ∧
    ∀ d e : List Char, d ≠ [] → e ≠ [] → (∀ c ∈ d, isdigit c = true) →
      (∀ c ∈ e, isdigit c = true) →
      Lexer.tokenize d = some [⟨NUMBER, 1, some (String.mk d)⟩, ⟨END_OF_FILE, 1, none⟩] ∧
      generateLiteral (String.mk d) NUMBER = String.mk d ∧
      Lexer.tokenize (d ++ '.' :: e) =
        some [⟨NUMBER, 1, some (String.mk (d ++ '.' :: e))⟩, ⟨END_OF_FILE, 1, none⟩] ∧
      generateLiteral (String.mk (d ++ '.' :: e)) NUMBER = String.mk (d ++ '.' :: e) := by
  constructor
  · intro t ht
    refine ⟨tokenize_string t ht, rfl, ?_⟩
    have h1 : generateLiteral (String.mk t) STRING_LIT =
        String.mk ('"' :: (t.flatMap escapeChar ++ ['"'])) := by
      simp [generateLiteral, escapeString, String.ext_iff]
    rw [h1]
    constructor
    · intro h
      have h2 : t.flatMap escapeChar = t := by
        simpa [String.ext_iff] using h
      have h3 := (escape_fixed t).1 h2
      exact ⟨fun hc => (h3 _ hc).2.1 rfl, fun hc => (h3 _ hc).2.2.1 rfl,
        fun hc => (h3 _ hc).2.2.2 rfl⟩
    · rintro ⟨h2, h3, h4⟩
      have h5 : t.flatMap escapeChar = t := by
        refine (escape_fixed t).2 fun c hc => ⟨?_, ?_, ?_, ?_⟩ <;> rintro rfl
        · exact ht hc
        · exact h2 hc
        · exact h3 hc
        · exact h4 hc
      rw [h5]
  · intro d e hd he hdd hee
    exact ⟨tokenize_digits d hd hdd, rfl, tokenize_fraction d e hd he hdd hee, rfl⟩

/-- C27, amended, at the sources `"hi"` and `3.14`. -/
theorem literal_round_trip_witness :
    (Lexer.tokenize ('"' :: (['h', 'i'] ++ ['"'])) =
        some [⟨STRING_LIT, 1 + newlines ['h', 'i'], some (String.mk ['h', 'i'])⟩,
          ⟨END_OF_FILE, 1 + newlines ['h', 'i'], none⟩] ∧
      generateLiteral (String.mk ['h', 'i']) STRING_LIT =
        String.mk ('"' :: (['h', 'i'] ++ ['"']))) ∧
    Lexer.tokenize (['3'] ++ '.' :: ['1', '4']) =
      some [⟨NUMBER, 1, some (String.mk (['3'] ++ '.' :: ['1', '4']))⟩,
        ⟨END_OF_FILE, 1, none⟩] ∧
    generateLiteral (String.mk (['3'] ++ '.' :: ['1', '4'])) NUMBER =
      String.mk (['3'] ++ '.' :: ['1', '4']) :=
  ⟨⟨(literal_round_trip.1 ['h', 'i'] (by decide)).1,
      (literal_round_trip.1 ['h', 'i'] (by decide)).2.2.2 (by decide)⟩,
    (literal_round_trip.2 ['3'] ['1', '4'] (by decide) (by decide) (by decide)
      (by decide)).2.2⟩

/-- C27, counterexample. The source `"\"` (a backslash between double quotes)
holds no double quote inside; it lexes to the `STRING_LIT` token whose lexeme
is the backslash, and `generateLiteral` writes two backslashes between the
double quotes, which is not the source form. -/
theorem literal_round_trip_fails_on_backslash :
    '"' ∉ [Char.ofNat 92] ∧
    Lexer.tokenize ('"' :: ([Char.ofNat 92] ++ ['"'])) =
      some [⟨STRING_LIT, 1, some (String.mk [Char.ofNat 92])⟩, ⟨END_OF_FILE, 1, none⟩] ∧
    generateLiteral (String.mk [Char.ofNat 92]) STRING_LIT =
      String.mk ['"', Char.ofNat 92, Char.ofNat 92, '"'] ∧
    generateLiteral (String.mk [Char.ofNat 92]) STRING_LIT ≠
      String.mk ('"' :: ([Char.ofNat 92] ++ ['"'])) :=
  ⟨by decide, by decide, by decide, by decide⟩

/-! # Statements, calls and required tokens -/

/-! ## The first statement of a program -/

theorem consume_error {ty : TokenType} {msg : String} {c : List Token} {t : Token}
    {r : List Token} (h : t.type ≠ ty ∨ t.type = END_OF_FILE) :
    consume ty msg ⟨c, t :: r⟩ = Res.error (parseError t msg) ⟨c, t :: r⟩ := by
  rw [consume_cons, if_neg]
  rintro ⟨h1, h2⟩
  rcases h with h | h
  · exact h h2
  · exact h1 h

/-- A program whose first declaration is read up to the end marker. -/
theorem parse_first_ok (f : Nat) (t0 : Token) (r0 : List Token) (s : Stmt) (c : List Token)
    (eof : Token) (r : List Token) (hne : t0.type ≠ END_OF_FILE)
    (h : declarationBody (declaration f) f ⟨[], t0 :: r0⟩ = Res.ok s ⟨c, eof :: r⟩)
    (he : eof.type = END_OF_FILE) :
    ∀ N, f + 2 ≤ N → parse N (t0 :: r0) = Outcome.returned [s] := by
  intro N hN
  refine parse_mono hN ?_ (by intro h; cases h)
  have hd : declaration (f + 1) ⟨[], t0 :: r0⟩ = Res.ok s ⟨c, eof :: r⟩ := by
    rw [declaration]
    exact catchSynchronize_ok h
  rw [parse, parseLoop_step _ _ _ _ _ hne, bind_ok hd]
  rw [parseLoop_end _ _ _ _ _ he]
  rfl

/-- A program whose first declaration throws after consuming a token, with
the end marker still ahead. -/
theorem parse_first_error (f : Nat) (t0 : Token) (r0 : List Token) (w : String)
    (c rem : List Token) (hne : t0.type ≠ END_OF_FILE)
    (h : declarationBody (declaration f) f ⟨[], t0 :: r0⟩ = Res.error w ⟨c, rem⟩)
    (hc : c ≠ []) (he : ∃ e ∈ rem, e.type = END_OF_FILE) :
    ∀ N, f + 2 ≤ N → parse N (t0 :: r0) = Outcome.threw w := by
  intro N hN
  refine parse_mono hN ?_ (by intro h; cases h)
  obtain ⟨t1, c1, rfl⟩ := List.exists_cons_of_ne_nil hc
  obtain ⟨p2, hp2⟩ := catchSynchronize_error h he
  have hd : declaration (f + 1) ⟨[], t0 :: r0⟩ = Res.error w p2 := by
    rw [declaration]
    exact hp2
  rw [parse, parseLoop_step _ _ _ _ _ hne, bind_error hd]
  rfl

/-! ## Import statements -/

theorem declarationBody_import (d : P Stmt) (f : Nat) (c : List Token) (t : Token)
    (r : List Token) (h : t.type = IMPORT) :
    declarationBody d f ⟨c, t :: r⟩ = importStatement ⟨t :: c, r⟩ := by
  rw [declarationBody]
  rw [bind_ok (matchType_false (by rw [h]; decide))]; simp only [Bool.false_eq_true, if_false]
  rw [bind_ok (matchType_false (by rw [h]; decide))]; simp only [Bool.false_eq_true, if_false]
  rw [bind_ok (matchType_false (by rw [h]; decide))]; simp only [Bool.false_eq_true, if_false]
  rw [bind_ok (matchType_false (by rw [h]; decide))]; simp only [Bool.false_eq_true, if_false]
  rw [bind_ok (matchType_true h (by decide))]; simp only [if_true]

theorem importStatement_payload (importT semi : Token) (c r : List Token) (m : String)
    (hv : importT.value = some m) (hs : semi.type = SEMICOLON) :
    importStatement ⟨importT :: c, semi :: r⟩ =
      Res.ok (Stmt.ImportStmt m importT.line) ⟨semi :: importT :: c, r⟩ := by
  rw [importStatement, bind_ok (previous_cons _ _ _)]
  simp only [hv]
  rw [bind_ok (pure_def _ _), bind_ok (consume_ok hs (by decide))]
  rfl

theorem importStatement_string (importT strT semi : Token) (c r : List Token) (m : String)
    (hv : importT.value = none) (hst : strT.type = STRING_LIT) (hm : strT.value = some m)
    (hs : semi.type = SEMICOLON) :
    importStatement ⟨importT :: c, strT :: semi :: r⟩ =
      Res.ok (Stmt.ImportStmt m importT.line) ⟨semi :: strT :: importT :: c, r⟩ := by
  rw [importStatement, bind_ok (previous_cons _ _ _)]
  simp only [hv]
  rw [bind_ok (matchType_true hst (by decide))]
  simp only [if_true]
  have h1 : valueOf strT ⟨strT :: importT :: c, semi :: r⟩ =
      Res.ok m ⟨strT :: importT :: c, semi :: r⟩ := by
    simp [valueOf, hm, pure_def]
  rw [bind_ok (previous_cons _ _ _), bind_ok h1, bind_ok (consume_ok hs (by decide))]
  rfl

theorem importStatement_missing (importT bad : Token) (c r : List Token)
    (hv : importT.value = none) (hb : bad.type ≠ STRING_LIT) :
    importStatement ⟨importT :: c, bad :: r⟩ =
      Res.error (parseError bad "Expect module name after import")
        ⟨importT :: c, bad :: r⟩ := by
  rw [importStatement, bind_ok (previous_cons _ _ _)]
  simp only [hv]
  rw [bind_ok (matchType_false hb)]
  simp only [Bool.false_eq_true, if_false]
  rw [bind_ok (peek_cons _ _ _)]
  rfl

/-- C24. An `IMPORT` token carrying the lexeme `m`, followed by `;`, parses to
`Import(m)`; an `IMPORT` token without lexeme, followed by the string literal
`m` and `;`, parses to `Import(m)`; an `IMPORT` token without lexeme followed
by any other token makes `parse` throw "Expect module name after import",
tagged with the line of that token. The sources `@import io;` and
`import "io";` lex and parse to `[Import(io)]`, and `import io;` lexes to
tokens on which `parse` throws that error. -/
theorem import_module_name :
    (∀ (importT semi eof : Token) (m : String) (N : Nat), importT.type = IMPORT →
      importT.value = some m → semi.type = SEMICOLON → eof.type = END_OF_FILE → 2 ≤ N →
      parse N [importT, semi, eof] = Outcome.returned [Stmt.ImportStmt m importT.line]) ∧
    (∀ (importT strT semi eof : Token) (m : String) (N : Nat), importT.type = IMPORT →
      importT.value = none → strT.type = STRING_LIT → strT.value = some m →
      semi.type = SEMICOLON → eof.type = END_OF_FILE → 2 ≤ N →
      parse N [importT, strT, semi, eof] = Outcome.returned [Stmt.ImportStmt m importT.line]) ∧
    (∀ (importT bad : Token) (r : List Token) (N : Nat), importT.type = IMPORT →
      importT.value = none → bad.type ≠ STRING_LIT →
      (∃ e ∈ bad :: r, e.type = END_OF_FILE) → 2 ≤ N →
      parse N (importT :: bad :: r) =
        Outcome.threw (parseError bad "Expect module name after import")) ∧
    (Lexer.tokenize "@import io;".toList).map (parse 2) =
      some (Outcome.returned [Stmt.ImportStmt "io" 1]) ∧
    (Lexer.tokenize "import \"io\";".toList).map (parse 2) =
      some (Outcome.returned [Stmt.ImportStmt "io" 1]) ∧
    (Lexer.tokenize "import io;".toList).map (parse 2) =
      some (Outcome.threw "[Line 1] Error: Expect module name after import") := by
  refine ⟨?_, ?_, ?_, rfl, rfl, rfl⟩
  · intro importT semi eof m N hi hv hs he hN
    refine parse_first_ok 0 importT [semi, eof] (Stmt.ImportStmt m importT.line)
      [semi, importT] eof [] (by rw [hi]; decide) ?_ he N hN
    rw [declarationBody_import _ _ _ _ _ hi]
    exact importStatement_payload importT semi [] [eof] m hv hs
  · intro importT strT semi eof m N hi hv hst hm hs he hN
    refine parse_first_ok 0 importT [strT, semi, eof] (Stmt.ImportStmt m importT.line)
      [semi, strT, importT] eof [] (by rw [hi]; decide) ?_ he N hN
    rw [declarationBody_import _ _ _ _ _ hi]
    exact importStatement_string importT strT semi [] [eof] m hv hst hm hs
  · intro importT bad r N hi hv hb he hN
    refine parse_first_error 0 importT (bad :: r)
      (parseError bad "Expect module name after import") [importT] (bad :: r)
      (by rw [hi]; decide) ?_ (by simp) he N hN
    rw [declarationBody_import _ _ _ _ _ hi]
    exact importStatement_missing importT bad [] r hv hb

/-- C24 at the tokens of `@import io;`, of `import "io";` and of
`import io;`. -/
theorem import_module_name_witness :
    parse 2 [⟨IMPORT, 1, some "io"⟩, ⟨SEMICOLON, 1, none⟩, ⟨END_OF_FILE, 1, none⟩] =
      Outcome.returned [Stmt.ImportStmt "io" 1] ∧
    parse 2 [⟨IMPORT, 1, none⟩, ⟨STRING_LIT, 1, some "io"⟩, ⟨SEMICOLON, 1, none⟩,
        ⟨END_OF_FILE, 1, none⟩] = Outcome.returned [Stmt.ImportStmt "io" 1] ∧
    parse 2 (⟨IMPORT, 1, none⟩ :: ⟨IDENTIFIER, 1, some "io"⟩ ::
        [⟨SEMICOLON, 1, none⟩, ⟨END_OF_FILE, 1, none⟩]) =
      Outcome.threw (parseError ⟨IDENTIFIER, 1, some "io"⟩ "Expect module name after import") :=
  ⟨import_module_name.1 ⟨IMPORT, 1, some "io"⟩ ⟨SEMICOLON, 1, none⟩ ⟨END_OF_FILE, 1, none⟩
      "io" 2 rfl rfl rfl rfl (le_refl 2),
    import_module_name.2.1 ⟨IMPORT, 1, none⟩ ⟨STRING_LIT, 1, some "io"⟩ ⟨SEMICOLON, 1, none⟩
      ⟨END_OF_FILE, 1, none⟩ "io" 2 rfl rfl rfl rfl rfl rfl (le_refl 2),
    import_module_name.2.2.1 ⟨IMPORT, 1, none⟩ ⟨IDENTIFIER, 1, some "io"⟩
      [⟨SEMICOLON, 1, none⟩, ⟨END_OF_FILE, 1, none⟩] 2 rfl rfl (by decide)
      ⟨⟨END_OF_FILE, 1, none⟩, by decide, rfl⟩ (le_refl 2)⟩

/-! ## An expression read in full, in another state -/

theorem exprRel_ends : ExprRel EndsExpression := by
  refine ⟨fun t => Or.inl rfl, fun ty hty t1 t2 h => ?_⟩
  rcases h with h | ⟨h1, h2⟩
  · subst h; exact Iff.rfl
  · constructor
    · rintro ⟨_, h3⟩
      rw [h3, hty] at h1
      cases h1
    · rintro ⟨_, h3⟩
      rw [h3, hty] at h2
      cases h2

/-- An expression read in full before the token `t` is read the same, with any
fuel not smaller, in every state that holds its tokens before `t` or, when `t`
does not continue an expression, before another token that does not. -/
theorem expression_at {n : Nat} {X : List Token} {t : Token} {e : Expr}
    (h : expression n ⟨[], X ++ [t]⟩ = Res.ok e ⟨X.reverse, [t]⟩)
    (k : Nat) (hk : n ≤ k) (c : List Token) (t2 : Token) (r2 : List Token)
    (ht2 : EndsExpression t t2) :
    expression k ⟨c, X ++ t2 :: r2⟩ = Res.ok e ⟨X.reverse ++ c, t2 :: r2⟩ :=
  (expression_le n k hk).ok
    ((expression_loc exprRel_ends n).ok_move_b h rfl c (t2 :: r2) ht2
      (fun hb => absurd hb (by decide)))

/-! ## The `print` statement -/

theorem statement_print (d : P Stmt) (k : Nat) (t : Token) (c r : List Token)
    (h : t.type = PRINT) :
    statement d (k + 1) ⟨c, t :: r⟩ = printStatement k ⟨t :: c, r⟩ := by
  rw [statement]
  rw [bind_ok (matchType_false (by rw [h]; decide))]; simp only [Bool.false_eq_true, if_false]
  rw [bind_ok (matchType_false (by rw [h]; decide))]; simp only [Bool.false_eq_true, if_false]
  rw [bind_ok (matchType_false (by rw [h]; decide))]; simp only [Bool.false_eq_true, if_false]
  rw [bind_ok (matchType_false (by rw [h]; decide))]; simp only [Bool.false_eq_true, if_false]
  rw [bind_ok (matchType_false (by rw [h]; decide))]; simp only [Bool.false_eq_true, if_false]
  rw [bind_ok (matchType_true h (by decide))]; simp only [if_true]

theorem declarationBody_print (d : P Stmt) (k : Nat) (t : Token) (c r : List Token)
    (h : t.type = PRINT) :
    declarationBody d (k + 1) ⟨c, t :: r⟩ = printStatement k ⟨t :: c, r⟩ := by
  rw [declarationBody_other d (k + 1) c t r (by
    intro ty hty
    rw [h]
    simp only [List.mem_cons, List.mem_singleton, List.not_mem_nil, or_false] at hty
    rcases hty with rfl | rfl | rfl | rfl | rfl <;> decide)]
  exact statement_print d k t c r h

/-- C21. For an expression read in full before a `)`, with tree `E`: the
statement `print ( e ) ;` is read as the expression statement of the call of
`print` with the one argument `E`, both nodes on the line of `print`, and a
program made of it parses to that statement; a token other than `(` after
`print`, a token other than `)` after the expression (one that does not
continue the expression), and a token other than `;` after the `)` each make
`parse` throw the error of the missing token, tagged with the line of the
token found. -/
theorem print_desugars (n : Nat) (X : List Token) (t : Token) (E : Expr)
    (printT lp rp semi : Token)
    (hE : expression n ⟨[], X ++ [t]⟩ = Res.ok E ⟨X.reverse, [t]⟩) (ht : t.type = RPAREN)
    (hp : printT.type = PRINT) (hlp : lp.type = LPAREN) (hrp : rp.type = RPAREN)
    (hsemi : semi.type = SEMICOLON) :
    (∀ (d : P Stmt) (k : Nat) (c r : List Token), n ≤ k →
      statement d (k + 1) ⟨c, printT :: lp :: (X ++ rp :: semi :: r)⟩ =
        Res.ok (Stmt.ExprStmt (Expr.CallExpr "print" [E] printT.line) printT.line)
          ⟨semi :: rp :: (X.reverse ++ lp :: printT :: c), r⟩) ∧
    (∀ (eof : Token) (N : Nat), eof.type = END_OF_FILE → n + 3 ≤ N →
      parse N (printT :: lp :: (X ++ [rp, semi, eof])) =
        Outcome.returned
          [Stmt.ExprStmt (Expr.CallExpr "print" [E] printT.line) printT.line]) ∧
    (∀ (bad : Token) (r : List Token) (N : Nat), bad.type ≠ LPAREN →
      (∃ e ∈ bad :: r, e.type = END_OF_FILE) → 3 ≤ N →
      parse N (printT :: bad :: r) =
        Outcome.threw (parseError bad "Expect '(' after 'print'")) ∧
    (∀ (bad : Token) (r : List Token) (N : Nat), bad.type ≠ RPAREN →
      exprTrailing bad.type = false → (∃ e ∈ bad :: r, e.type = END_OF_FILE) → n + 3 ≤ N →
      parse N (printT :: lp :: (X ++ bad :: r)) =
        Outcome.threw (parseError bad "Expect ')' after print expression")) ∧
    ∀ (bad : Token) (r : List Token) (N : Nat), bad.type ≠ SEMICOLON →
      (∃ e ∈ bad :: r, e.type = END_OF_FILE) → n + 3 ≤ N →
      parse N (printT :: lp :: (X ++ rp :: bad :: r)) =
        Outcome.threw (parseError bad "Expect ';' after print statement") := by
  have hne : printT.type ≠ END_OF_FILE := by rw [hp]; decide
  have hrun : ∀ (k : Nat) (c r : List Token), n ≤ k →
      printStatement k ⟨printT :: c, lp :: (X ++ rp :: semi :: r)⟩ =
        Res.ok (Stmt.ExprStmt (Expr.CallExpr "print" [E] printT.line) printT.line)
          ⟨semi :: rp :: (X.reverse ++ lp :: printT :: c), r⟩ := by
    intro k c r hk
    rw [printStatement, bind_ok (previous_cons _ _ _), bind_ok (consume_ok hlp (by decide)),
      bind_ok (expression_at hE k hk (lp :: printT :: c) rp (semi :: r)
        (Or.inr ⟨by rw [ht]; rfl, by rw [hrp]; rfl⟩)),
      bind_ok (consume_ok hrp (by decide)), bind_ok (consume_ok hsemi (by decide))]
    rfl
  refine ⟨?_, ?_, ?_, ?_, ?_⟩
  · intro d k c r hk
    rw [statement_print d k printT c _ hp]
    exact hrun k c r hk
  · intro eof N he hN
    refine parse_first_ok (n + 1) printT (lp :: (X ++ [rp, semi, eof])) _
      (semi :: rp :: (X.reverse ++ lp :: [printT])) eof [] hne ?_ he N hN
    rw [declarationBody_print _ _ _ _ _ hp]
    exact hrun n [] [eof] (le_refl n)
  · intro bad r N hb he hN
    refine parse_first_error 1 printT (bad :: r) _ [printT] (bad :: r) hne ?_ (by simp) he N hN
    rw [declarationBody_print _ _ _ _ _ hp, printStatement, bind_ok (previous_cons _ _ _),
      bind_error (consume_error (Or.inl hb))]
  · intro bad r N hb htr he hN
    refine parse_first_error (n + 1) printT (lp :: (X ++ bad :: r)) _
      (X.reverse ++ lp :: [printT]) (bad :: r) hne ?_ (by simp) he N hN
    rw [declarationBody_print _ _ _ _ _ hp, printStatement, bind_ok (previous_cons _ _ _),
      bind_ok (consume_ok hlp (by decide)),
      bind_ok (expression_at hE n (le_refl n) (lp :: [printT]) bad r
        (Or.inr ⟨by rw [ht]; rfl, htr⟩)),
      bind_error (consume_error (Or.inl hb))]
  · intro bad r N hb he hN
    refine parse_first_error (n + 1) printT (lp :: (X ++ rp :: bad :: r)) _
      (rp :: (X.reverse ++ lp :: [printT])) (bad :: r) hne ?_ (by simp) he N hN
    rw [declarationBody_print _ _ _ _ _ hp, printStatement, bind_ok (previous_cons _ _ _),
      bind_ok (consume_ok hlp (by decide)),
      bind_ok (expression_at hE n (le_refl n) (lp :: [printT]) rp (bad :: r)
        (Or.inr ⟨by rw [ht]; rfl, by rw [hrp]; rfl⟩)),
      bind_ok (consume_ok hrp (by decide)), bind_error (consume_error (Or.inl hb))]

/-- C21 at `print(x);`, `print x);`, `print(x;` and `print(x)` before the end
marker. -/
theorem print_desugars_witness :
    parse 7 (⟨PRINT, 1, none⟩ :: ⟨LPAREN, 1, none⟩ ::
        ([⟨IDENTIFIER, 1, some "x"⟩] ++
          [⟨RPAREN, 1, none⟩, ⟨SEMICOLON, 1, none⟩, ⟨END_OF_FILE, 1, none⟩])) =
      Outcome.returned
        [Stmt.ExprStmt (Expr.CallExpr "print" [Expr.IdentifierExpr "x" 1] 1) 1] ∧
    parse 7 (⟨PRINT, 1, none⟩ :: ⟨IDENTIFIER, 1, some "x"⟩ ::
        [⟨RPAREN, 1, none⟩, ⟨SEMICOLON, 1, none⟩, ⟨END_OF_FILE, 1, none⟩]) =
      Outcome.threw (parseError ⟨IDENTIFIER, 1, some "x"⟩ "Expect '(' after 'print'") ∧
    parse 7 (⟨PRINT, 1, none⟩ :: ⟨LPAREN, 1, none⟩ ::
        ([⟨IDENTIFIER, 1, some "x"⟩] ++
          ⟨SEMICOLON, 1, none⟩ :: [⟨END_OF_FILE, 1, none⟩])) =
      Outcome.threw (parseError ⟨SEMICOLON, 1, none⟩ "Expect ')' after print expression") ∧
    parse 7 (⟨PRINT, 1, none⟩ :: ⟨LPAREN, 1, none⟩ ::
        ([⟨IDENTIFIER, 1, some "x"⟩] ++
          ⟨RPAREN, 1, none⟩ :: ⟨END_OF_FILE, 2, none⟩ :: [])) =
      Outcome.threw (parseError ⟨END_OF_FILE, 2, none⟩ "Expect ';' after print statement") :=
  have h := print_desugars 4 [⟨IDENTIFIER, 1, some "x"⟩] ⟨RPAREN, 1, none⟩
    (Expr.IdentifierExpr "x" 1) ⟨PRINT, 1, none⟩ ⟨LPAREN, 1, none⟩ ⟨RPAREN, 1, none⟩
    ⟨SEMICOLON, 1, none⟩ rfl rfl rfl rfl rfl rfl
  ⟨h.2.1 ⟨END_OF_FILE, 1, none⟩ 7 rfl (le_refl 7),
    h.2.2.1 ⟨IDENTIFIER, 1, some "x"⟩ _ 7 (by decide) ⟨⟨END_OF_FILE, 1, none⟩, by decide, rfl⟩
      (by decide),
    h.2.2.2.1 ⟨SEMICOLON, 1, none⟩ _ 7 (by decide) rfl ⟨⟨END_OF_FILE, 1, none⟩, by decide, rfl⟩
      (le_refl 7),
    h.2.2.2.2 ⟨END_OF_FILE, 2, none⟩ [] 7 (by decide) ⟨⟨END_OF_FILE, 2, none⟩, by decide, rfl⟩
      (le_refl 7)⟩

/-! ## Required tokens -/

theorem declarationBody_num (d : P Stmt) (f : Nat) (c : List Token) (t : Token)
    (r : List Token) (h : t.type = KEYWORD_VAR_NUM) :
    declarationBody d f ⟨c, t :: r⟩ = numVarDeclaration f ⟨t :: c, r⟩ := by
  rw [declarationBody]
  rw [bind_ok (matchType_false (by rw [h]; decide))]; simp only [Bool.false_eq_true, if_false]
  rw [bind_ok (matchType_true h (by decide))]; simp only [if_true]

/-- The declaration `num NAME = e` followed by a token other than `;`. -/
theorem numVarDeclaration_missing (k : Nat) (numT nameT eqT t : Token) (name : String)
    (c X r : List Token) (E : Expr)
    (hname : nameT.type = IDENTIFIER) (hv : nameT.value = some name)
    (heq : eqT.type = ASSIGN) (ht : t.type ≠ SEMICOLON ∨ t.type = END_OF_FILE)
    (hE : expression k ⟨eqT :: nameT :: numT :: c, X ++ t :: r⟩ =
      Res.ok E ⟨X.reverse ++ eqT :: nameT :: numT :: c, t :: r⟩) :
    numVarDeclaration k ⟨numT :: c, nameT :: eqT :: (X ++ t :: r)⟩ =
      Res.error (parseError t "Expect ';' after variable declaration")
        ⟨X.reverse ++ eqT :: nameT :: numT :: c, t :: r⟩ := by
  have h1 : valueOf nameT ⟨nameT :: numT :: c, eqT :: (X ++ t :: r)⟩ =
      Res.ok name ⟨nameT :: numT :: c, eqT :: (X ++ t :: r)⟩ := by
    simp [valueOf, hv, pure_def]
  rw [numVarDeclaration, typedVarDeclaration, bind_ok (previous_cons _ _ _)]
  simp only
  rw [bind_ok (pure_def _ _), bind_ok (consume_ok hname (by decide)), bind_ok h1,
    bind_ok (matchType_true heq (by decide))]
  simp only [if_true]
  rw [bind_ok hE, bind_ok (pure_def _ _), bind_error (consume_error ht)]

/-- C23. When `consume(kind, message)` finds a token of another kind, or the
end marker, under the cursor, it throws "[Line N] Error: " followed by the
message, with N the line of that token, and leaves the cursor in place; an
error thrown in a run without the recovery handler of `declaration` is thrown
by `parse` unchanged, on every token sequence that holds the end marker. In
particular, for a declaration `num NAME = e` followed by a token `t` other than
`;`: `declaration` throws "Expect ';' after variable declaration" tagged with
the line of `t`, and so does `parse` when the declaration opens the program. -/
theorem missing_token_line_tagged :
    (∀ (type : TokenType) (message : String) (c : List Token) (t : Token) (r : List Token),
      t.type ≠ type ∨ t.type = END_OF_FILE →
      consume type message ⟨c, t :: r⟩ =
        Res.error ("[Line " ++ toString t.line ++ "] Error: " ++ message) ⟨c, t :: r⟩) ∧
    (∀ (fuel : Nat) (toks : List Token) (w : String) (q : Parser),
      (∃ e ∈ toks, e.type = END_OF_FILE) →
      parseLoopRaw fuel [] ⟨[], toks⟩ = Res.error w q → parse fuel toks = Outcome.threw w) ∧
    ∀ (n : Nat) (X : List Token) (t : Token) (E : Expr) (numT nameT eqT : Token)
      (name : String),
      expression n ⟨[], X ++ [t]⟩ = Res.ok E ⟨X.reverse, [t]⟩ →
      numT.type = KEYWORD_VAR_NUM → nameT.type = IDENTIFIER → nameT.value = some name →
      eqT.type = ASSIGN → (t.type ≠ SEMICOLON ∨ t.type = END_OF_FILE) →
      (∀ (k : Nat) (c r : List Token), n ≤ k →
        declarationRaw (k + 1) ⟨c, numT :: nameT :: eqT :: (X ++ t :: r)⟩ =
          Res.error ("[Line " ++ toString t.line ++ "] Error: " ++
              "Expect ';' after variable declaration")
            ⟨X.reverse ++ eqT :: nameT :: numT :: c, t :: r⟩) ∧
      ∀ (r : List Token) (N : Nat), (∃ e ∈ t :: r, e.type = END_OF_FILE) → n + 2 ≤ N →
        parse N (numT :: nameT :: eqT :: (X ++ t :: r)) =
          Outcome.threw ("[Line " ++ toString t.line ++ "] Error: " ++
            "Expect ';' after variable declaration") := by
  refine ⟨fun type message c t r h => consume_error h, ?_, ?_⟩
  · intro fuel toks w q heof hraw
    obtain ⟨_, h2, _⟩ := parseLoopRaw_error_state heof hraw
    obtain ⟨q2, hq2, _⟩ := ((parseLoop_sim fuel []).err _ w q hraw).2 h2
    rw [parse, hq2]
    rfl
  · intro n X t E numT nameT eqT name hE hnum hname hv heq ht
    have hrun : ∀ (k : Nat) (c r : List Token), n ≤ k →
        numVarDeclaration k ⟨numT :: c, nameT :: eqT :: (X ++ t :: r)⟩ =
          Res.error (parseError t "Expect ';' after variable declaration")
            ⟨X.reverse ++ eqT :: nameT :: numT :: c, t :: r⟩ := by
      intro k c r hk
      exact numVarDeclaration_missing k numT nameT eqT t name c X r E hname hv heq ht
        (expression_at hE k hk _ t r (Or.inl rfl))
    constructor
    · intro k c r hk
      rw [declarationRaw, declarationBody_num _ _ _ _ _ hnum]
      exact hrun k c r hk
    · intro r N he hN
      refine parse_first_error n numT (nameT :: eqT :: (X ++ t :: r)) _
        (X.reverse ++ eqT :: nameT :: [numT]) (t :: r) (by rw [hnum]; decide) ?_ (by simp)
        he N hN
      rw [declarationBody_num _ _ _ _ _ hnum]
      exact hrun n [] r (le_refl n)

/-- C23 at `num x = 5 print` with `print` on line 2. -/
theorem missing_token_line_tagged_witness :
    parse 6 (⟨KEYWORD_VAR_NUM, 1, none⟩ :: ⟨IDENTIFIER, 1, some "x"⟩ :: ⟨ASSIGN, 1, none⟩ ::
        ([⟨NUMBER, 1, some "5"⟩] ++ ⟨PRINT, 2, none⟩ :: [⟨END_OF_FILE, 2, none⟩])) =
      Outcome.threw "[Line 2] Error: Expect ';' after variable declaration" :=
  (missing_token_line_tagged.2.2 4 [⟨NUMBER, 1, some "5"⟩] ⟨PRINT, 2, none⟩
    (Expr.LiteralExpr "5" NUMBER 1) ⟨KEYWORD_VAR_NUM, 1, none⟩ ⟨IDENTIFIER, 1, some "x"⟩
    ⟨ASSIGN, 1, none⟩ "x" rfl rfl rfl rfl rfl (by decide)).2 [⟨END_OF_FILE, 2, none⟩] 6
    ⟨⟨END_OF_FILE, 2, none⟩, by decide, rfl⟩ (le_refl 6)

/-! ## Calls -/

/-- The run of `finishCall` up to the test of the callee: the argument list
and the `)` are read the same whatever the callee is. -/
theorem finishCall_arguments (e : P Expr) (f : Nat) (callee : Expr) (p : Parser) (x : Expr)
    (q : Parser) (h : finishCall e f callee p = Res.ok x q) :
    ∃ (lp rp : Token) (c1 c2 : List Token) (args : List Expr),
      p.consumed = lp :: c1 ∧ q.consumed = rp :: c2 ∧ rp.type = RPAREN ∧
      ∀ callee2 : Expr, finishCall e f callee2 p =
        (match callee2 with
          | Expr.IdentifierExpr name _ => Res.ok (Expr.CallExpr name args lp.line) q
          | _ => Res.error (parseError rp "Can only call functions") q) := by
  obtain ⟨c, rem⟩ := p
  cases c with
  | nil => simp [finishCall, previous, bind_def, P.bind] at h
  | cons lp c1 =>
    have h0 := h
    have hfin : ∀ (callee2 : Expr) (b : Bool) (p2 : Parser) (args : List Expr) (c2 : List Token)
        (rp : Token) (r : List Token), check RPAREN ⟨lp :: c1, rem⟩ = Res.ok b p2 →
        (if (!b) = true then argumentsLoop e f [] else pure []) p2 = Res.ok args ⟨c2, rp :: r⟩ →
        rp.type = RPAREN →
        finishCall e f callee2 ⟨lp :: c1, rem⟩ =
          (match callee2 with
            | Expr.IdentifierExpr name _ => Res.ok (Expr.CallExpr name args lp.line) ⟨rp :: c2, r⟩
            | _ => Res.error (parseError rp "Can only call functions") ⟨rp :: c2, r⟩) := by
      intro callee2 b p2 args c2 rp r hb hargs hrp
      rw [finishCall, bind_ok (previous_cons _ _ _), bind_ok hb]
      simp only
      cases b with
      | false =>
        simp only [Bool.not_false, if_true] at hargs ⊢
        rw [bind_ok hargs, bind_ok (consume_ok hrp (by decide))]
        cases callee2 with
        | IdentifierExpr name line => rfl
        | BinaryExpr _ _ _ _ => simp only; rw [bind_ok (previous_cons _ _ _)]; rfl
        | UnaryExpr _ _ _ => simp only; rw [bind_ok (previous_cons _ _ _)]; rfl
        | LiteralExpr _ _ _ => simp only; rw [bind_ok (previous_cons _ _ _)]; rfl
        | CallExpr _ _ _ => simp only; rw [bind_ok (previous_cons _ _ _)]; rfl
      | true =>
        simp only [Bool.not_true, Bool.false_eq_true, if_false] at hargs ⊢
        rw [bind_ok hargs, bind_ok (consume_ok hrp (by decide))]
        cases callee2 with
        | IdentifierExpr name line => rfl
        | BinaryExpr _ _ _ _ => simp only; rw [bind_ok (previous_cons _ _ _)]; rfl
        | UnaryExpr _ _ _ => simp only; rw [bind_ok (previous_cons _ _ _)]; rfl
        | LiteralExpr _ _ _ => simp only; rw [bind_ok (previous_cons _ _ _)]; rfl
        | CallExpr _ _ _ => simp only; rw [bind_ok (previous_cons _ _ _)]; rfl
    rw [finishCall, bind_ok (previous_cons _ _ _)] at h
    obtain ⟨b, p2, hb, h⟩ := bind_eq_ok h
    simp only at h
    have hsplit : ∃ args p3, (if (!b) = true then argumentsLoop e f [] else pure []) p2 =
        Res.ok args p3 ∧ ∃ rp0 p4, consume RPAREN "Expect ')' after arguments" p3 =
          Res.ok rp0 p4 := by
      cases b with
      | false =>
        simp only [Bool.not_false, if_true] at h ⊢
        obtain ⟨args, p3, h3, h⟩ := bind_eq_ok h
        obtain ⟨rp0, p4, h4, _⟩ := bind_eq_ok h
        exact ⟨args, p3, h3, rp0, p4, h4⟩
      | true =>
        simp only [Bool.not_true, Bool.false_eq_true, if_false] at h ⊢
        obtain ⟨args, p3, h3, h⟩ := bind_eq_ok h
        obtain ⟨rp0, p4, h4, _⟩ := bind_eq_ok h
        exact ⟨args, p3, h3, rp0, p4, h4⟩
    obtain ⟨args, ⟨c2, rem2⟩, h3, rp0, p4, h4⟩ := hsplit
    cases rem2 with
    | nil => simp [consume, check, isAtEnd, peek, bind_def, P.bind] at h4
    | cons rp r =>
      rw [consume_cons] at h4
      split_ifs at h4 with hc
      have hall := fun callee2 => hfin callee2 b p2 args c2 rp r hb h3 hc.2
      have hq : q = ⟨rp :: c2, r⟩ := by
        have h5 := hall callee
        rw [h0] at h5
        cases callee with
        | IdentifierExpr _ _ => simp only at h5; cases h5; rfl
        | BinaryExpr _ _ _ _ => simp only at h5; cases h5
        | UnaryExpr _ _ _ => simp only at h5; cases h5
        | LiteralExpr _ _ _ => simp only at h5; cases h5
        | CallExpr _ _ _ => simp only at h5; cases h5
      subst hq
      exact ⟨lp, rp, c1, c2, args, rfl, rfl, hc.2, hall⟩

theorem level_error (e : P Expr) (f : Nat) (p : Parser) (w : String) (q : Parser)
    (h : unary e f p = Res.error w q) (d : Nat) :
    ∀ i, i + d = 9 → levelFn i e f p = Res.error w q := by
  induction d with
  | zero =>
    intro i hi
    have : i = 9 := by omega
    subst this
    exact h
  | succ d ih =>
    intro i hi
    rw [levelFn_succ i (by omega), bind_error (ih (i + 1) (by omega))]

/-- An error thrown by `unary` at the first token of a program that opens an
expression statement is thrown by `parse`, when the throw happens after a token
has been consumed and the end marker is still ahead. -/
theorem parse_unary_error (m : Nat) (t0 : Token) (r0 : List Token) (w : String)
    (c rem : List Token) (h0 : opensStatement t0.type = false)
    (h : unary (expression (m + 1)) m ⟨[], t0 :: r0⟩ = Res.error w ⟨c, rem⟩)
    (hc : c ≠ []) (he : ∃ e ∈ rem, e.type = END_OF_FILE) :
    ∀ N, m + 5 ≤ N → parse N (t0 :: r0) = Outcome.threw w := by
  have hne : t0.type ≠ END_OF_FILE := by
    intro h1
    rw [h1] at h0
    exact absurd h0 (by decide)
  have h1 : expression (m + 2) ⟨[], t0 :: r0⟩ = Res.error w ⟨c, rem⟩ := by
    rw [expression, assignment]
    exact bind_error (level_error _ _ _ _ _ h 9 0 (by omega))
  have h2 : expressionStatement (m + 2) ⟨[], t0 :: r0⟩ = Res.error w ⟨c, rem⟩ := by
    rw [expressionStatement, bind_error h1]
  have h3 : declarationBody (declaration (m + 3)) (m + 3) ⟨[], t0 :: r0⟩ =
      Res.error w ⟨c, rem⟩ := by
    rw [declarationBody_other _ _ _ _ _ (by
      intro ty hty h4
      rw [h4] at h0
      simp only [List.mem_cons, List.mem_singleton, List.not_mem_nil, or_false] at hty
      rcases hty with rfl | rfl | rfl | rfl | rfl <;> cases h0),
      statement_expression _ _ _ _ _ h0]
    exact h2
  exact parse_first_error (m + 3) t0 r0 w c rem hne h3 hc he

/-- C22. After a `(`, when `finishCall` reads a well-formed argument list and
its `)` for an identifier callee, it returns the `Call` node of that callee
and the arguments, for every identifier; for every callee that is another node
(a literal, the result of another call, a unary or binary node) it throws "Can
only call functions" tagged with the line of the `)`, and so does the loop of
`call`. At the start of a program, a number or string literal followed by such
an argument list makes `parse` throw that error. The sources `1(2);`,
`"s"(2);` and `f(1)(2);` lex to tokens on which `parse` throws it, and
`f(1);` parses to the call of `f` with the argument `1`. -/
theorem only_identifiers_called :
    (∀ (e : P Expr) (f : Nat) (name0 : String) (line0 : Int) (c : List Token) (lp : Token)
      (r : List Token) (x : Expr) (q : Parser), lp.type = LPAREN →
      finishCall e f (Expr.IdentifierExpr name0 line0) ⟨lp :: c, r⟩ = Res.ok x q →
      ∃ (rp : Token) (c2 : List Token) (args : List Expr),
        q.consumed = rp :: c2 ∧ rp.type = RPAREN ∧
        (∀ (name : String) (line : Int),
          finishCall e f (Expr.IdentifierExpr name line) ⟨lp :: c, r⟩ =
            Res.ok (Expr.CallExpr name args lp.line) q) ∧
        ∀ callee : Expr, (∀ name line, callee ≠ Expr.IdentifierExpr name line) →
          finishCall e f callee ⟨lp :: c, r⟩ =
            Res.error (parseError rp "Can only call functions") q ∧
          callLoop e (f + 1) callee ⟨c, lp :: r⟩ =
            Res.error (parseError rp "Can only call functions") q) ∧
    (∀ (m f : Nat) (lit lp : Token) (v name0 : String) (line0 : Int) (r : List Token)
      (x : Expr) (rp : Token) (c2 rem : List Token) (N : Nat),
      (lit.type = NUMBER ∨ lit.type = STRING_LIT) → lit.value = some v → lp.type = LPAREN →
      finishCall (expression m) f (Expr.IdentifierExpr name0 line0) ⟨[lp, lit], r⟩ =
        Res.ok x ⟨rp :: c2, rem⟩ →
      (∃ e ∈ rem, e.type = END_OF_FILE) → m + f + 8 ≤ N →
      parse N (lit :: lp :: r) = Outcome.threw (parseError rp "Can only call functions")) ∧
    (Lexer.tokenize "1(2);".toList).map (parse 12) =
      some (Outcome.threw "[Line 1] Error: Can only call functions") ∧
    (Lexer.tokenize "\"s\"(2);".toList).map (parse 12) =
      some (Outcome.threw "[Line 1] Error: Can only call functions") ∧
    (Lexer.tokenize "f(1)(2);".toList).map (parse 12) =
      some (Outcome.threw "[Line 1] Error: Can only call functions") ∧
    (Lexer.tokenize "f(1);".toList).map (parse 12) =
      some (Outcome.returned [Stmt.ExprStmt (Expr.CallExpr "f"
        [Expr.LiteralExpr "1" NUMBER 1] 1) 1]) := by
  have hcall : ∀ (e : P Expr) (f : Nat) (name0 : String) (line0 : Int) (c : List Token)
      (lp : Token) (r : List Token) (x : Expr) (q : Parser), lp.type = LPAREN →
      finishCall e f (Expr.IdentifierExpr name0 line0) ⟨lp :: c, r⟩ = Res.ok x q →
      ∃ (rp : Token) (c2 : List Token) (args : List Expr),
        q.consumed = rp :: c2 ∧ rp.type = RPAREN ∧
        (∀ (name : String) (line : Int),
          finishCall e f (Expr.IdentifierExpr name line) ⟨lp :: c, r⟩ =
            Res.ok (Expr.CallExpr name args lp.line) q) ∧
        ∀ callee : Expr, (∀ name line, callee ≠ Expr.IdentifierExpr name line) →
          finishCall e f callee ⟨lp :: c, r⟩ =
            Res.error (parseError rp "Can only call functions") q ∧
          callLoop e (f + 1) callee ⟨c, lp :: r⟩ =
            Res.error (parseError rp "Can only call functions") q := by
    intro e f name0 line0 c lp r x q hlp h
    obtain ⟨lp1, rp, c1, c2, args, h1, h2, h3, h4⟩ := finishCall_arguments e f _ _ x q h
    cases h1
    refine ⟨rp, c2, args, h2, h3, fun name line => h4 _, ?_⟩
    intro callee hcallee
    have h5 : finishCall e f callee ⟨lp :: c, r⟩ =
        Res.error (parseError rp "Can only call functions") q := by
      rw [h4 callee]
      cases callee with
      | IdentifierExpr name line => exact absurd rfl (hcallee name line)
      | BinaryExpr _ _ _ _ => rfl
      | UnaryExpr _ _ _ => rfl
      | LiteralExpr _ _ _ => rfl
      | CallExpr _ _ _ => rfl
    refine ⟨h5, ?_⟩
    rw [callLoop, bind_ok (matchType_true hlp (by decide))]
    simp only [if_true]
    rw [bind_error h5]
  refine ⟨hcall, ?_, rfl, rfl, rfl, rfl⟩
  intro m f lit lp v name0 line0 r x rp c2 rem N hlit hv hlp h he hN
  have hle := finishCall_le (expression_le m (m + f + 4) (by omega)) f (m + f + 1) (by omega)
    (Expr.IdentifierExpr name0 line0)
  obtain ⟨rp1, c3, args, h1, _, _, h4⟩ := hcall _ _ name0 line0 [lit] lp r x _ hlp (hle.ok h)
  cases h1
  have hl : ∀ ty ∈ [NOT, MINUS, PLUS_PLUS, MINUS_MINUS], lit.type ≠ ty := by
    intro ty hty
    simp only [List.mem_cons, List.mem_singleton, List.not_mem_nil, or_false] at hty
    rcases hlit with h6 | h6 <;> rw [h6] <;> rcases hty with rfl | rfl | rfl | rfl <;> decide
  have hprim : primary (expression (m + f + 4)) ⟨[], lit :: lp :: r⟩ =
      Res.ok (Expr.LiteralExpr v lit.type lit.line) ⟨[lit], lp :: r⟩ := by
    rcases hlit with h6 | h6 <;>
      simp [primary, bind_def, P.bind, matchType_cons, h6, pure_def, previous_cons, valueOf, hv]
  have hun : unary (expression (m + f + 4)) (m + f + 3) ⟨[], lit :: lp :: r⟩ =
      Res.error (parseError rp "Can only call functions") ⟨rp :: c2, rem⟩ := by
    have hm : matchTypes [NOT, MINUS, PLUS_PLUS, MINUS_MINUS] ⟨[], lit :: lp :: r⟩ =
        Res.ok false ⟨[], lit :: lp :: r⟩ := by
      rw [matchTypes_cons, if_neg]
      rintro ⟨_, h7⟩
      exact hl _ h7 rfl
    rw [unary, bind_ok hm]
    simp only [Bool.false_eq_true, if_false]
    rw [call, bind_ok hprim]
    exact (h4 _ (by intro name line h8; cases h8)).2
  refine parse_unary_error (m + f + 3) lit (lp :: r) _ (rp :: c2) rem ?_ hun (by simp) he N
    (by omega)
  rcases hlit with h6 | h6 <;> rw [h6] <;> rfl

/-- C22 at the tokens of `g(7)` read after a `(`, with the callees `g` and
`5`. -/
theorem only_identifiers_called_witness :
    ∃ (rp : Token) (c2 : List Token) (args : List Expr),
      (⟨[⟨RPAREN, 1, none⟩, ⟨NUMBER, 1, some "7"⟩, ⟨LPAREN, 1, none⟩],
          [⟨END_OF_FILE, 1, none⟩]⟩ : Parser).consumed = rp :: c2 ∧
      rp.type = RPAREN ∧
      (∀ (name : String) (line : Int),
        finishCall (expression 4) 4 (Expr.IdentifierExpr name line)
            ⟨⟨LPAREN, 1, none⟩ :: [],
              [⟨NUMBER, 1, some "7"⟩, ⟨RPAREN, 1, none⟩, ⟨END_OF_FILE, 1, none⟩]⟩ =
          Res.ok (Expr.CallExpr name args (⟨LPAREN, 1, none⟩ : Token).line)
            ⟨[⟨RPAREN, 1, none⟩, ⟨NUMBER, 1, some "7"⟩, ⟨LPAREN, 1, none⟩],
              [⟨END_OF_FILE, 1, none⟩]⟩) ∧
      ∀ callee : Expr, (∀ name line, callee ≠ Expr.IdentifierExpr name line) →
        finishCall (expression 4) 4 callee
            ⟨⟨LPAREN, 1, none⟩ :: [],
              [⟨NUMBER, 1, some "7"⟩, ⟨RPAREN, 1, none⟩, ⟨END_OF_FILE, 1, none⟩]⟩ =
          Res.error (parseError rp "Can only call functions")
            ⟨[⟨RPAREN, 1, none⟩, ⟨NUMBER, 1, some "7"⟩, ⟨LPAREN, 1, none⟩],
              [⟨END_OF_FILE, 1, none⟩]⟩ ∧
        callLoop (expression 4) (4 + 1) callee
            ⟨[], ⟨LPAREN, 1, none⟩ ::
              [⟨NUMBER, 1, some "7"⟩, ⟨RPAREN, 1, none⟩, ⟨END_OF_FILE, 1, none⟩]⟩ =
          Res.error (parseError rp "Can only call functions")
            ⟨[⟨RPAREN, 1, none⟩, ⟨NUMBER, 1, some "7"⟩, ⟨LPAREN, 1, none⟩],
              [⟨END_OF_FILE, 1, none⟩]⟩ :=
  only_identifiers_called.1 (expression 4) 4 "g" 1 [] ⟨LPAREN, 1, none⟩
    [⟨NUMBER, 1, some "7"⟩, ⟨RPAREN, 1, none⟩, ⟨END_OF_FILE, 1, none⟩]
    (Expr.CallExpr "g" [Expr.LiteralExpr "7" NUMBER 1] 1)
    ⟨[⟨RPAREN, 1, none⟩, ⟨NUMBER, 1, some "7"⟩, ⟨LPAREN, 1, none⟩], [⟨END_OF_FILE, 1, none⟩]⟩
    rfl rfl

/-! ## No `ForStmt` node is built -/

theorem forFree_bind {α β : Type} [Shape α] [Shape β] {x : P α} {f : α → P β}
    (hx : ForFree x) (hf : ∀ a, Shape.forFree a → ForFree (f a)) : ForFree (x >>= f) := by
  intro p b q h
  obtain ⟨a, p1, h1, h2⟩ := bind_eq_ok h
  exact hf a (hx p a p1 h1) p1 b q h2

theorem forFree_pure {α : Type} [Shape α] {a : α} (h : Shape.forFree a) :
    ForFree (pure a : P α) := by
  intro p b q hb
  cases hb
  exact h

theorem forFree_ite {α : Type} [Shape α] {c : Prop} [Decidable c] {x y : P α}
    (hx : ForFree x) (hy : ForFree y) : ForFree (if c then x else y) := by
  by_cases h : c
  · rw [if_pos h]; exact hx
  · rw [if_neg h]; exact hy

theorem forFree_any {α : Type} (x : P α) : @ForFree α (shapeAny α) x :=
  fun _ _ _ _ => trivial

theorem forFree_catch {α : Type} [Shape α] {body : P α} (h : ForFree body) :
    ForFree (catchSynchronize body) := by
  intro p a q hq
  unfold catchSynchronize at hq
  cases hb : body p with
  | ok a1 p1 =>
    rw [hb] at hq
    cases hq
    exact h p a q hb
  | error w p1 =>
    rw [hb] at hq
    simp only at hq
    cases hs : synchronize p1 <;> rw [hs] at hq <;> cases hq
  | fault => rw [hb] at hq; cases hq
  | outOfFuel => rw [hb] at hq; cases hq

theorem forFree_noFuel {α : Type} [Shape α] : ForFree (noFuel : P α) := by
  intro p a q h
  cases h

theorem hasForList_append (l : List Stmt) (s : Stmt) :
    hasForList (l ++ [s]) = (hasForList l || s.hasFor) := by
  induction l with
  | nil => simp [hasForList]
  | cons x l ih => simp [hasForList, ih, Bool.or_assoc]

theorem hasFor_if (c : Expr) (t : Stmt) (o : Option Stmt) (l : Int)
    (ht : t.hasFor = false) (ho : ∀ s, o = some s → s.hasFor = false) :
    (Stmt.IfStmt c t o l).hasFor = false := by
  cases o <;> simp_all [Stmt.hasFor]

theorem expressionStatement_forFree (fuel : Nat) : ForFree (expressionStatement fuel) := by
  unfold expressionStatement
  repeat' first
    | with_reducible exact forFree_any _
    | with_reducible exact forFree_noFuel
    | with_reducible assumption
    | with_reducible apply forFree_bind
    | with_reducible apply forFree_ite
    | with_reducible apply forFree_pure
    | with_reducible intro _
    | dsimp only
    | split
  all_goals simp_all [Shape.forFree, Stmt.hasFor, hasForList, hasForList_append]

theorem typedVarDeclaration_forFree (fuel : Nat) (type : TokenType) :
    ForFree (typedVarDeclaration fuel type) := by
  unfold typedVarDeclaration
  cases type <;> repeat' first
      | with_reducible exact forFree_any _
      | with_reducible exact forFree_noFuel
      | with_reducible assumption
      | with_reducible apply forFree_bind
      | with_reducible apply forFree_ite
      | with_reducible apply forFree_pure
      | with_reducible intro _
      | dsimp only
      | split
  all_goals simp_all [Shape.forFree, Stmt.hasFor, hasForList, hasForList_append]

theorem importStatement_forFree : ForFree importStatement := by
  unfold importStatement
  repeat' first
    | with_reducible exact forFree_any _
    | with_reducible exact forFree_noFuel
    | with_reducible assumption
    | with_reducible apply forFree_bind
    | with_reducible apply forFree_ite
    | with_reducible apply forFree_pure
    | with_reducible intro _
    | dsimp only
    | split
  all_goals simp_all [Shape.forFree, Stmt.hasFor, hasForList, hasForList_append]

theorem returnStatement_forFree (fuel : Nat) : ForFree (returnStatement fuel) := by
  unfold returnStatement
  repeat' first
    | with_reducible exact forFree_any _
    | with_reducible exact forFree_noFuel
    | with_reducible assumption
    | with_reducible apply forFree_bind
    | with_reducible apply forFree_ite
    | with_reducible apply forFree_pure
    | with_reducible intro _
    | dsimp only
    | split
  all_goals simp_all [Shape.forFree, Stmt.hasFor, hasForList, hasForList_append]

theorem printStatement_forFree (fuel : Nat) : ForFree (printStatement fuel) := by
  unfold printStatement
  repeat' first
    | with_reducible exact forFree_any _
    | with_reducible exact forFree_noFuel
    | with_reducible assumption
    | with_reducible apply forFree_bind
    | with_reducible apply forFree_ite
    | with_reducible apply forFree_pure
    | with_reducible intro _
    | dsimp only
    | split
  all_goals simp_all [Shape.forFree, Stmt.hasFor, hasForList, hasForList_append]

theorem ifStatement_forFree {s : P Stmt} (hs : ForFree s) (fuel : Nat) :
    ForFree (ifStatement s fuel) := by
  unfold ifStatement
  repeat' first
    | with_reducible exact forFree_any _
    | with_reducible exact forFree_noFuel
    | with_reducible assumption
    | with_reducible apply forFree_bind
    | with_reducible apply forFree_ite
    | with_reducible apply forFree_pure
    | with_reducible intro _
    | dsimp only
    | split
  all_goals first
    | exact hasFor_if _ _ _ _ (by assumption) (by assumption)
    | simp_all [Shape.forFree, Stmt.hasFor, hasForList, hasForList_append]

theorem whileStatement_forFree {s : P Stmt} (hs : ForFree s) (fuel : Nat) :
    ForFree (whileStatement s fuel) := by
  unfold whileStatement
  repeat' first
    | with_reducible exact forFree_any _
    | with_reducible exact forFree_noFuel
    | with_reducible assumption
    | with_reducible apply forFree_bind
    | with_reducible apply forFree_ite
    | with_reducible apply forFree_pure
    | with_reducible intro _
    | dsimp only
    | split
  all_goals simp_all [Shape.forFree, Stmt.hasFor, hasForList, hasForList_append]

set_option maxHeartbeats 4000000 in
theorem forStatement_forFree {s : P Stmt} (hs : ForFree s) (fuel : Nat) :
    ForFree (forStatement s fuel) := by
  have h1 := typedVarDeclaration_forFree fuel KEYWORD_VAR_NUM
  have h2 := expressionStatement_forFree fuel
  unfold forStatement numVarDeclaration
  repeat' first
    | with_reducible exact forFree_any _
    | with_reducible exact forFree_noFuel
    | with_reducible assumption
    | with_reducible apply forFree_bind
    | with_reducible apply forFree_ite
    | with_reducible apply forFree_pure
    | with_reducible intro _
    | dsimp only
    | split
  all_goals simp_all [Shape.forFree, Stmt.hasFor, hasForList]

theorem blockLoop_forFree {d : P Stmt} (hd : ForFree d) (fuel : Nat) :
    ∀ acc, Shape.forFree acc → ForFree (blockLoop d fuel acc) := by
  induction fuel with
  | zero => intro acc _; exact forFree_noFuel
  | succ fuel ih =>
    intro acc hacc
    unfold blockLoop
    have ih2 : ∀ s, Shape.forFree s → ForFree (blockLoop d fuel (acc ++ [s])) := by
      intro s hs
      apply ih
      simp_all [Shape.forFree, hasForList_append]
    repeat' first
      | with_reducible exact forFree_any _
      | with_reducible exact forFree_noFuel
      | with_reducible assumption
      | with_reducible apply forFree_bind
      | with_reducible apply forFree_ite
      | with_reducible apply forFree_pure
      | with_reducible intro _

theorem block_forFree {d : P Stmt} (hd : ForFree d) (fuel : Nat) :
    ForFree (block d fuel) := by
  have h1 := blockLoop_forFree hd fuel [] rfl
  unfold block
  repeat' first
    | with_reducible exact forFree_any _
    | with_reducible exact forFree_noFuel
    | with_reducible assumption
    | with_reducible apply forFree_bind
    | with_reducible apply forFree_ite
    | with_reducible apply forFree_pure
    | with_reducible intro _
    | dsimp only
    | split
  all_goals simp_all [Shape.forFree, Stmt.hasFor, hasForList, hasForList_append]

theorem statement_forFree {d : P Stmt} (hd : ForFree d) (fuel : Nat) :
    ForFree (statement d fuel) := by
  induction fuel with
  | zero => exact forFree_noFuel
  | succ fuel ih =>
    have h1 := ifStatement_forFree ih fuel
    have h2 := whileStatement_forFree ih fuel
    have h3 := forStatement_forFree ih fuel
    have h4 := block_forFree hd fuel
    have h5 := returnStatement_forFree fuel
    have h6 := printStatement_forFree fuel
    have h7 := expressionStatement_forFree fuel
    unfold statement
    repeat' first
      | with_reducible exact forFree_any _
      | with_reducible exact forFree_noFuel
      | with_reducible assumption
      | with_reducible apply forFree_bind
      | with_reducible apply forFree_ite
      | with_reducible apply forFree_pure
      | with_reducible intro _

theorem function_forFree {d : P Stmt} (hd : ForFree d) (fuel : Nat) :
    ForFree (function d fuel) := by
  have h1 := block_forFree hd fuel
  unfold function
  repeat' first
    | with_reducible exact forFree_any _
    | with_reducible exact forFree_noFuel
    | with_reducible assumption
    | with_reducible apply forFree_bind
    | with_reducible apply forFree_ite
    | with_reducible apply forFree_pure
    | with_reducible intro _
    | dsimp only
    | split
  all_goals simp_all [Shape.forFree, Stmt.hasFor, hasForList, hasForList_append]

theorem declarationBody_forFree {d : P Stmt} (hd : ForFree d) (fuel : Nat) :
    ForFree (declarationBody d fuel) := by
  have h1 := function_forFree hd fuel
  have h2 := typedVarDeclaration_forFree fuel KEYWORD_VAR_NUM
  have h3 := typedVarDeclaration_forFree fuel KEYWORD_VAR_STR
  have h4 := typedVarDeclaration_forFree fuel KEYWORD_VAR_ARR
  have h5 := importStatement_forFree
  have h6 := statement_forFree hd fuel
  unfold declarationBody numVarDeclaration strVarDeclaration arrVarDeclaration
  repeat' first
    | with_reducible exact forFree_any _
    | with_reducible exact forFree_noFuel
    | with_reducible assumption
    | with_reducible apply forFree_bind
    | with_reducible apply forFree_ite
    | with_reducible apply forFree_pure
    | with_reducible intro _

theorem declaration_forFree (fuel : Nat) : ForFree (declaration fuel) := by
  induction fuel with
  | zero => exact forFree_noFuel
  | succ fuel ih =>
    rw [declaration]
    exact forFree_catch (declarationBody_forFree ih fuel)

theorem parseLoop_forFree (fuel : Nat) :
    ∀ acc, Shape.forFree acc → ForFree (parseLoop fuel acc) := by
  induction fuel with
  | zero => intro acc _; exact forFree_noFuel
  | succ fuel ih =>
    intro acc hacc
    have hd := declaration_forFree fuel
    unfold parseLoop
    have ih2 : ∀ s, Shape.forFree s → ForFree (parseLoop fuel (acc ++ [s])) := by
      intro s hs
      apply ih
      simp_all [Shape.forFree, hasForList_append]
    repeat' first
      | with_reducible exact forFree_any _
      | with_reducible exact forFree_noFuel
      | with_reducible assumption
      | with_reducible apply forFree_bind
      | with_reducible apply forFree_ite
      | with_reducible apply forFree_pure
      | with_reducible intro _

/-- C25. The parser never produces a `ForStmt` node: whenever `parse` returns
a list of statements, with any fuel and on any token sequence, no statement of
the list and no statement nested in one of them (in a block, in a branch of an
`if`, in the body of a `while` or of a function) is a `ForStmt`. These are the
statements `generateStatement` is called on, so its `ForStmt` branch is never
taken on the output of the parser. -/
theorem parser_builds_no_for (fuel : Nat) (tokens : List Token) (statements : List Stmt)
    (h : parse fuel tokens = Outcome.returned statements) :
    hasForList statements = false := by
  unfold parse at h
  cases hr : parseLoop fuel [] ⟨[], tokens⟩ with
  | ok a q =>
    rw [hr] at h
    cases h
    exact parseLoop_forFree fuel [] rfl _ _ _ hr
  | error w q => rw [hr] at h; cases h
  | fault => rw [hr] at h; cases h
  | outOfFuel => rw [hr] at h; cases h

/-- C25, witness. The source `for (num i = 0; i < 3; i++) print(i);` parses to
a block holding the declaration and a `while`, a tree without `ForStmt`. -/
theorem parser_builds_no_for_witness :
    parse 12 forExample = Outcome.returned
      [whileForm (Stmt.VarDeclStmt "num" "i" (some (Expr.LiteralExpr "0" NUMBER 1)) 1)
        (Expr.BinaryExpr (Expr.IdentifierExpr "i" 1) LT (Expr.LiteralExpr "3" NUMBER 1) 1)
        (Expr.UnaryExpr PLUS_PLUS (Expr.IdentifierExpr "i" 1) 1)
        (Stmt.ExprStmt (Expr.CallExpr "print" [Expr.IdentifierExpr "i" 1] 1) 1) 1 1 1 1] ∧
    hasForList
      [whileForm (Stmt.VarDeclStmt "num" "i" (some (Expr.LiteralExpr "0" NUMBER 1)) 1)
        (Expr.BinaryExpr (Expr.IdentifierExpr "i" 1) LT (Expr.LiteralExpr "3" NUMBER 1) 1)
        (Expr.UnaryExpr PLUS_PLUS (Expr.IdentifierExpr "i" 1) 1)
        (Stmt.ExprStmt (Expr.CallExpr "print" [Expr.IdentifierExpr "i" 1] 1) 1) 1 1 1 1]
      = false :=
  ⟨rfl, parser_builds_no_for 12 forExample _ rfl⟩

/-! # Type and import tables, repeated emission -/

/-- C31. `mapType` sends `num`, `str`, `arr`, `bool` and `void` to `double`,
`std::string`, `std::vector<double>`, `bool` and `void`; every other string is
returned unchanged; and `mapType` applied twice gives what it gives applied
once. -/
theorem mapType_table :
    mapType "num" = "double" ∧ mapType "str" = "std::string" ∧
    mapType "arr" = "std::vector<double>" ∧ mapType "bool" = "bool" ∧
    mapType "void" = "void" ∧
    (∀ t : String, t ≠ "num" → t ≠ "str" → t ≠ "arr" → t ≠ "bool" → t ≠ "void" →
      mapType t = t) ∧
    ∀ t : String, mapType (mapType t) = mapType t := by
  refine ⟨rfl, rfl, rfl, rfl, rfl, ?_, ?_⟩
  · intro t h1 h2 h3 h4 h5
    simp only [mapType, if_neg h1, if_neg h2, if_neg h3, if_neg h4, if_neg h5]
  · intro t
    by_cases h1 : t = "num"
    · subst h1; rfl
    by_cases h2 : t = "str"
    · subst h2; rfl
    by_cases h3 : t = "arr"
    · subst h3; rfl
    by_cases h4 : t = "bool"
    · subst h4; rfl
    by_cases h5 : t = "void"
    · subst h5; rfl
    have h : mapType t = t := by
      simp only [mapType, if_neg h1, if_neg h2, if_neg h3, if_neg h4, if_neg h5]
    rw [h, h]

/-- C31 at a type name outside the table. -/
theorem mapType_table_witness : mapType "int" = "int" :=
  mapType_table.2.2.2.2.2.1 "int" (by decide) (by decide) (by decide) (by decide) (by decide)

/-- C32. `generateImport` writes the include line of the table for `io`,
`math`, `vector`, `string` and `map`, and for every other module name the
comment line naming it; `generateStatement` returns on every `ImportStmt`, with
the generator unchanged. The source of `@import io;` and `@import frobnicate;`
on two lines is lexed, parsed and generated: the output holds the include of
`<iostream>` and the comment naming `frobnicate`. -/
theorem import_mapping :
    generateImport "io" = "#include <iostream>\n" ∧
    generateImport "math" = "#include <cmath>\n" ∧
    generateImport "vector" = "#include <vector>\n" ∧
    generateImport "string" = "#include <string>\n" ∧
    generateImport "map" = "#include <unordered_map>\n" ∧
    (∀ m : String, m ≠ "io" → m ≠ "math" → m ≠ "vector" → m ≠ "string" → m ≠ "map" →
      generateImport m = "// (Import state is coming soon) Import: " ++ m ++ "\n") ∧
    (∀ (m : String) (line : Int) (g : Generator) (ss : String),
      generateStatement (Stmt.ImportStmt m line) g ss = some (g, ss ++ generateImport m)) ∧
    Lexer.tokenize "@import io;\n@import frobnicate;".toList =
      some [⟨IMPORT, 1, some "io"⟩, ⟨SEMICOLON, 1, none⟩,
        ⟨IMPORT, 2, some "frobnicate"⟩, ⟨SEMICOLON, 2, none⟩, ⟨END_OF_FILE, 2, none⟩] ∧
    parse 4 [⟨IMPORT, 1, some "io"⟩, ⟨SEMICOLON, 1, none⟩,
        ⟨IMPORT, 2, some "frobnicate"⟩, ⟨SEMICOLON, 2, none⟩, ⟨END_OF_FILE, 2, none⟩] =
      Outcome.returned [Stmt.ImportStmt "io" 1, Stmt.ImportStmt "frobnicate" 2] ∧
    generate [Stmt.ImportStmt "io" 1, Stmt.ImportStmt "frobnicate" 2] =
      some (header ++ "int main() \x7b\n" ++ "#include <iostream>\n" ++
        "// (Import state is coming soon) Import: frobnicate\n" ++
        "    return 0;\n" ++ "\x7d\n") := by
  refine ⟨rfl, rfl, rfl, rfl, rfl, ?_, fun _ _ _ _ => rfl, rfl, rfl, by rfl⟩
  intro m h1 h2 h3 h4 h5
  simp only [generateImport, if_neg h1, if_neg h2, if_neg h3, if_neg h4, if_neg h5]

/-- C32 at the module name `frobnicate`. -/
theorem import_mapping_witness :
    generateImport "frobnicate" =
      "// (Import state is coming soon) Import: " ++ "frobnicate" ++ "\n" :=
  import_mapping.2.2.2.2.2.1 "frobnicate" (by decide) (by decide) (by decide) (by decide)
    (by decide)

/-- C38. A unary node is written as the text of its operator directly followed
by the text of its operand. The sources `- -x;` and `--x;` lex to different
tokens and parse to different trees, the negation of a negation and the
decrement, and `generate` returns the same text for both, with the line
`--x;`. -/
theorem unary_emission_not_injective :
    (∀ (op : TokenType) (e : Expr) (line : Int) (ss : String),
      generateExpr (Expr.UnaryExpr op e line) ss = generateExpr e (ss ++ unaryOpText op)) ∧
    unaryOpText MINUS = "-" ∧ unaryOpText MINUS_MINUS = "--" ∧
    Lexer.tokenize "- -x;".toList =
      some [⟨MINUS, 1, none⟩, ⟨MINUS, 1, none⟩, ⟨IDENTIFIER, 1, some "x"⟩,
        ⟨SEMICOLON, 1, none⟩, ⟨END_OF_FILE, 1, none⟩] ∧
    Lexer.tokenize "--x;".toList =
      some [⟨MINUS_MINUS, 1, none⟩, ⟨IDENTIFIER, 1, some "x"⟩,
        ⟨SEMICOLON, 1, none⟩, ⟨END_OF_FILE, 1, none⟩] ∧
    parse 12 [⟨MINUS, 1, none⟩, ⟨MINUS, 1, none⟩, ⟨IDENTIFIER, 1, some "x"⟩,
        ⟨SEMICOLON, 1, none⟩, ⟨END_OF_FILE, 1, none⟩] =
      Outcome.returned [Stmt.ExprStmt (Expr.UnaryExpr MINUS
        (Expr.UnaryExpr MINUS (Expr.IdentifierExpr "x" 1) 1) 1) 1] ∧
    parse 12 [⟨MINUS_MINUS, 1, none⟩, ⟨IDENTIFIER, 1, some "x"⟩,
        ⟨SEMICOLON, 1, none⟩, ⟨END_OF_FILE, 1, none⟩] =
      Outcome.returned [Stmt.ExprStmt (Expr.UnaryExpr MINUS_MINUS
        (Expr.IdentifierExpr "x" 1) 1) 1] ∧
    Expr.UnaryExpr MINUS (Expr.UnaryExpr MINUS (Expr.IdentifierExpr "x" 1) 1) 1 ≠
      Expr.UnaryExpr MINUS_MINUS (Expr.IdentifierExpr "x" 1) 1 ∧
    generate [Stmt.ExprStmt (Expr.UnaryExpr MINUS
        (Expr.UnaryExpr MINUS (Expr.IdentifierExpr "x" 1) 1) 1) 1] =
      some (header ++ "int main() \x7b\n" ++ "--x;\n" ++ "    return 0;\n" ++ "\x7d\n") ∧
    generate [Stmt.ExprStmt (Expr.UnaryExpr MINUS_MINUS (Expr.IdentifierExpr "x" 1) 1) 1] =
      some (header ++ "int main() \x7b\n" ++ "--x;\n" ++ "    return 0;\n" ++ "\x7d\n") := by
  refine ⟨fun _ _ _ _ => ?_, rfl, rfl, rfl, rfl, rfl, rfl, ?_, by rfl, by rfl⟩
  · rw [generateExpr]
  · intro h
    cases h

/-! ## Repeated emission -/

theorem at_touch {V : Type} (m : StringMap V) (key name : String) (dflt : V) :
    (m.touch key dflt).at name dflt = m.at name dflt := by
  unfold StringMap.touch StringMap.at StringMap.count
  cases hk : List.lookup key m with
  | some v => simp
  | none =>
    simp only [Option.isSome_none, Bool.false_eq_true, if_false, List.lookup_cons]
    by_cases h : name = key
    · subst h; simp [hk]
    · have : (name == key) = false := by simpa using h
      rw [this]

theorem sameTables_refl (g : Generator) : g.sameTables g := ⟨fun _ => rfl, fun _ => rfl⟩

theorem sameTables_symm {g1 g2 : Generator} (h : g1.sameTables g2) : g2.sameTables g1 :=
  ⟨fun n => (h.1 n).symm, fun n => (h.2 n).symm⟩

theorem sameTables_trans {g1 g2 g3 : Generator} (h1 : g1.sameTables g2)
    (h2 : g2.sameTables g3) : g1.sameTables g3 :=
  ⟨fun n => (h1.1 n).trans (h2.1 n), fun n => (h1.2 n).trans (h2.2 n)⟩

/-- What `generateStatement` does on each kind of statement. -/
theorem generateStatement_import (m : String) (line : Int) (g : Generator) (ss : String) :
    generateStatement (Stmt.ImportStmt m line) g ss = some (g, ss ++ generateImport m) := rfl

theorem generateStatement_varDecl (type name : String) (i : Option Expr) (line : Int)
    (g : Generator) (ss : String) :
    generateStatement (Stmt.VarDeclStmt type name i line) g ss =
      some ({ g with m_varTypes := g.m_varTypes.set name (mapType type) },
        varDeclText type name i ss) := rfl

theorem generateStatement_expr (e : Expr) (line : Int) (g : Generator) (ss : String) :
    generateStatement (Stmt.ExprStmt e line) g ss = some (g, generateExpr e ss ++ ";\n") := rfl

theorem generateStatement_return (v : Option Expr) (line : Int) (g : Generator) (ss : String) :
    ∃ out, generateStatement (Stmt.ReturnStmt v line) g ss = some (g, out) := ⟨_, rfl⟩

theorem generateStatement_while (c : Expr) (b : Stmt) (l : Int) (g : Generator) (ss : String) :
    generateStatement (Stmt.WhileStmt c b l) g ss =
      generateStatement b g (generateExpr c (ss ++ "while (") ++ ") ") := rfl

set_option smartUnfolding false in
theorem generateStatement_block (l : List Stmt) (line : Int) (g : Generator) (ss : String) :
    generateStatement (Stmt.BlockStmt l line) g ss =
      (generateStatements l g (ss ++ "\x7b\n")).bind fun x =>
        some (x.1, x.2 ++ "\x7d\n") := rfl

set_option smartUnfolding false in
theorem generateStatement_function (name : String) (params : List String) (body : Stmt)
    (line : Int) (g : Generator) (ss : String) :
    generateStatement (Stmt.FunctionStmt name params body line) g ss =
      match generateParams (g.m_functionParams.at name []) params 0
          (ss ++ g.m_functionReturnTypes.at name "" ++ " " ++ name ++ "(") with
      | none => none
      | some ss =>
        (generateStatement body
            { g with
              m_functionReturnTypes := g.m_functionReturnTypes.touch name ""
              m_functionParams := g.m_functionParams.touch name [] } (ss ++ ") ")).bind
          fun x => some (x.1, x.2 ++ "\n") := rfl

set_option smartUnfolding false in
theorem generateStatement_if (c : Expr) (t : Stmt) (e : Option Stmt) (line : Int)
    (g : Generator) (ss : String) :
    generateStatement (Stmt.IfStmt c t e line) g ss =
      (generateStatement t g (generateExpr c (ss ++ "if (") ++ ") ")).bind fun x =>
        match e with
        | some e => generateStatement e x.1 (x.2 ++ "else ")
        | none => some (x.1, x.2) := by
  cases e <;> exact rfl

set_option smartUnfolding false in
/-- The text written between the initializer and the body of a `ForStmt`. -/
theorem generateStatement_for (i : Option Stmt) (c u : Option Expr) (b : Stmt) (line : Int) :
    ∃ clauses : String → String, ∀ (g : Generator) (ss : String),
      generateStatement (Stmt.ForStmt i c u b line) g ss =
        (match i with
          | some init =>
            (generateStatement init g (ss ++ "for (")).bind fun x =>
              some (x.1, dropTrailingNewline x.2)
          | none => some (g, ss ++ "for (" ++ ";")).bind fun x =>
          generateStatement b x.1 (clauses x.2) := by
  refine ⟨fun ss => (match u with
            | some u => generateExpr u
                ((match c with
                  | some c => generateExpr c (ss ++ " ")
                  | none => ss ++ " ") ++ "; ")
            | none => (match c with
                  | some c => generateExpr c (ss ++ " ")
                  | none => ss ++ " ") ++ "; ") ++ ") ", fun g ss => ?_⟩
  cases i <;> exact rfl

theorem generateStatements_nil (g : Generator) (ss : String) :
    generateStatements [] g ss = some (g, ss) := rfl

set_option smartUnfolding false in
theorem generateStatements_cons (s : Stmt) (rest : List Stmt) (g : Generator) (ss : String) :
    generateStatements (s :: rest) g ss =
      (generateStatement s g ss).bind fun x => generateStatements rest x.1 x.2 := rfl

/-! ### Runs from states with the same tables -/

theorem agree_some {g1 g2 h1 h2 : Generator} (out : String) (e1 : g1.sameTables h1)
    (e2 : g2.sameTables h2) : Agree g1 g2 (some (h1, out)) (some (h2, out)) :=
  ⟨rfl, e1, e2⟩

theorem agree_from {g1 g2 h1 h2 : Generator} {r1 r2 : Option (Generator × String)}
    (e1 : g1.sameTables h1) (e2 : g2.sameTables h2) (h : Agree h1 h2 r1 r2) :
    Agree g1 g2 r1 r2 := by
  cases r1 with
  | none => cases r2 with
    | none => trivial
    | some b => exact h
  | some a => cases r2 with
    | none => exact h
    | some b =>
      obtain ⟨a1, a2⟩ := a
      obtain ⟨b1, b2⟩ := b
      exact ⟨h.1, sameTables_trans e1 h.2.1, sameTables_trans e2 h.2.2⟩

theorem agree_seq {g1 g2 : Generator} {r1 r2 : Option (Generator × String)}
    (K1 K2 : Generator → String → Option (Generator × String)) (h : Agree g1 g2 r1 r2)
    (hK : ∀ h1 h2 out, g1.sameTables h1 → g2.sameTables h2 →
      Agree h1 h2 (K1 h1 out) (K2 h2 out)) :
    Agree g1 g2 (r1.bind fun x => K1 x.1 x.2) (r2.bind fun x => K2 x.1 x.2) := by
  cases r1 with
  | none => cases r2 with
    | none => trivial
    | some b => exact False.elim h
  | some a => cases r2 with
    | none => exact False.elim h
    | some b =>
      obtain ⟨a1, a2⟩ := a
      obtain ⟨b1, b2⟩ := b
      obtain ⟨h1, h2, h3⟩ := h
      subst h1
      exact agree_from h2 h3 (hK a1 b1 a2 h2 h3)

mutual
theorem generateStatement_agree : ∀ (s : Stmt) (g1 g2 : Generator) (ss : String),
    g1.sameTables g2 → Agree g1 g2 (generateStatement s g1 ss) (generateStatement s g2 ss)
  | Stmt.ImportStmt m line, g1, g2, ss, _ => by
    rw [generateStatement_import, generateStatement_import]
    exact agree_some _ (sameTables_refl _) (sameTables_refl _)
  | Stmt.VarDeclStmt type name i line, g1, g2, ss, _ => by
    rw [generateStatement_varDecl, generateStatement_varDecl]
    exact agree_some _ ⟨fun _ => rfl, fun _ => rfl⟩ ⟨fun _ => rfl, fun _ => rfl⟩
  | Stmt.ExprStmt e line, g1, g2, ss, _ => by
    rw [generateStatement_expr, generateStatement_expr]
    exact agree_some _ (sameTables_refl _) (sameTables_refl _)
  | Stmt.ReturnStmt v line, g1, g2, ss, _ =>
    agree_some _ (sameTables_refl _) (sameTables_refl _)
  | Stmt.WhileStmt c b line, g1, g2, ss, h => by
    rw [generateStatement_while, generateStatement_while]
    exact generateStatement_agree b g1 g2 _ h
  | Stmt.BlockStmt l line, g1, g2, ss, h => by
    rw [generateStatement_block, generateStatement_block]
    exact agree_seq (fun g ss => some (g, ss ++ "\x7d\n")) (fun g ss => some (g, ss ++ "\x7d\n"))
      (generateStatements_agree l g1 g2 _ h)
      (fun h1 h2 out _ _ => agree_some _ (sameTables_refl _) (sameTables_refl _))
  | Stmt.FunctionStmt name params body line, g1, g2, ss, h => by
    rw [generateStatement_function, generateStatement_function, h.1 name, h.2 name]
    cases generateParams (g2.m_functionParams.at name []) params 0
        (ss ++ g2.m_functionReturnTypes.at name "" ++ " " ++ name ++ "(") with
    | none => trivial
    | some out =>
      have e1 : g1.sameTables { g1 with
          m_functionReturnTypes := g1.m_functionReturnTypes.touch name ""
          m_functionParams := g1.m_functionParams.touch name [] } :=
        ⟨fun n => (at_touch _ _ n _).symm, fun n => (at_touch _ _ n _).symm⟩
      have e2 : g2.sameTables { g2 with
          m_functionReturnTypes := g2.m_functionReturnTypes.touch name ""
          m_functionParams := g2.m_functionParams.touch name [] } :=
        ⟨fun n => (at_touch _ _ n _).symm, fun n => (at_touch _ _ n _).symm⟩
      refine agree_from e1 e2 ?_
      exact agree_seq (fun g ss => some (g, ss ++ "\n")) (fun g ss => some (g, ss ++ "\n"))
        (generateStatement_agree body _ _ _
          (sameTables_trans (sameTables_symm e1) (sameTables_trans h e2)))
        (fun h1 h2 out _ _ => agree_some _ (sameTables_refl _) (sameTables_refl _))
  | Stmt.IfStmt c t e line, g1, g2, ss, h => by
    rw [generateStatement_if, generateStatement_if]
    refine agree_seq
      (fun g ss => match e with
        | some e => generateStatement e g (ss ++ "else ")
        | none => some (g, ss))
      (fun g ss => match e with
        | some e => generateStatement e g (ss ++ "else ")
        | none => some (g, ss))
      (generateStatement_agree t g1 g2 _ h) (fun h1 h2 out e1 e2 => ?_)
    simp only []
    cases e with
    | none => exact agree_some _ (sameTables_refl _) (sameTables_refl _)
    | some e =>
      exact generateStatement_agree e h1 h2 _
        (sameTables_trans (sameTables_symm e1) (sameTables_trans h e2))
  | Stmt.ForStmt i c u b line, g1, g2, ss, h => by
    obtain ⟨k, hk⟩ := generateStatement_for i c u b line
    rw [hk g1 ss, hk g2 ss]
    refine agree_seq (fun g ss => generateStatement b g (k ss))
      (fun g ss => generateStatement b g (k ss)) ?_ (fun h1 h2 out e1 e2 => ?_)
    · cases i with
      | none => exact agree_some _ (sameTables_refl _) (sameTables_refl _)
      | some init =>
        exact agree_seq (fun g ss => some (g, dropTrailingNewline ss))
          (fun g ss => some (g, dropTrailingNewline ss))
          (generateStatement_agree init g1 g2 _ h)
          (fun h1 h2 out _ _ => agree_some _ (sameTables_refl _) (sameTables_refl _))
    · exact generateStatement_agree b h1 h2 _
        (sameTables_trans (sameTables_symm e1) (sameTables_trans h e2))
theorem generateStatements_agree : ∀ (l : List Stmt) (g1 g2 : Generator) (ss : String),
    g1.sameTables g2 → Agree g1 g2 (generateStatements l g1 ss) (generateStatements l g2 ss)
  | [], g1, g2, ss, _ => agree_some _ (sameTables_refl _) (sameTables_refl _)
  | s :: rest, g1, g2, ss, h => by
    rw [generateStatements_cons, generateStatements_cons]
    refine agree_seq (fun g ss => generateStatements rest g ss)
      (fun g ss => generateStatements rest g ss)
      (generateStatement_agree s g1 g2 _ h) (fun h1 h2 out e1 e2 => ?_)
    exact generateStatements_agree rest h1 h2 _
      (sameTables_trans (sameTables_symm e1) (sameTables_trans h e2))
end

theorem generateDeclarations_agree : ∀ (l : List Stmt) (g1 g2 : Generator) (ss : String),
    g1.sameTables g2 →
      (generateDeclarations l g1 ss).2 = (generateDeclarations l g2 ss).2 ∧
      g1.sameTables (generateDeclarations l g1 ss).1 ∧
      g2.sameTables (generateDeclarations l g2 ss).1
  | [], g1, g2, ss, _ => ⟨rfl, sameTables_refl _, sameTables_refl _⟩
  | Stmt.VarDeclStmt type name i line :: rest, g1, g2, ss, h =>
    generateDeclarations_agree rest g1 g2 _ h
  | Stmt.FunctionStmt name params body line :: rest, g1, g2, ss, h => by
    have e1 : g1.sameTables
        { g1 with m_functionReturnTypes := g1.m_functionReturnTypes.touch name "" } :=
      ⟨fun n => (at_touch _ _ n _).symm, fun _ => rfl⟩
    have e2 : g2.sameTables
        { g2 with m_functionReturnTypes := g2.m_functionReturnTypes.touch name "" } :=
      ⟨fun n => (at_touch _ _ n _).symm, fun _ => rfl⟩
    obtain ⟨k1, k2, k3⟩ := generateDeclarations_agree rest _ _
      (ss ++ g1.m_functionReturnTypes.at name "" ++ " " ++ name ++ "(" ++ ");\n")
      (sameTables_trans (sameTables_symm e1) (sameTables_trans h e2))
    refine ⟨?_, sameTables_trans e1 k2, sameTables_trans e2 ?_⟩
    · rw [generateDeclarations, generateDeclarations, ← h.1 name]
      exact k1
    · rw [generateDeclarations, ← h.1 name]
      exact k3
  | Stmt.ImportStmt m line :: rest, g1, g2, ss, h => generateDeclarations_agree rest g1 g2 _ h
  | Stmt.ExprStmt e line :: rest, g1, g2, ss, h => generateDeclarations_agree rest g1 g2 _ h
  | Stmt.BlockStmt l line :: rest, g1, g2, ss, h => generateDeclarations_agree rest g1 g2 _ h
  | Stmt.IfStmt c t e line :: rest, g1, g2, ss, h => generateDeclarations_agree rest g1 g2 _ h
  | Stmt.ForStmt i c u b line :: rest, g1, g2, ss, h =>
    generateDeclarations_agree rest g1 g2 _ h
  | Stmt.WhileStmt c b line :: rest, g1, g2, ss, h => generateDeclarations_agree rest g1 g2 _ h
  | Stmt.ReturnStmt v line :: rest, g1, g2, ss, h => generateDeclarations_agree rest g1 g2 _ h

set_option smartUnfolding false in
theorem generateMainBody_agree : ∀ (l : List Stmt) (g1 g2 : Generator) (ss : String),
    g1.sameTables g2 → Agree g1 g2 (generateMainBody l g1 ss) (generateMainBody l g2 ss) := by
  intro l
  induction l with
  | nil => intro g1 g2 ss _; exact agree_some _ (sameTables_refl _) (sameTables_refl _)
  | cons s rest ih =>
    intro g1 g2 ss h
    have hstep : ∀ g1 g2 : Generator, g1.sameTables g2 →
        Agree g1 g2
          ((generateStatement s g1 ss).bind fun x => generateMainBody rest x.1 x.2)
          ((generateStatement s g2 ss).bind fun x => generateMainBody rest x.1 x.2) :=
      fun g1 g2 h =>
        agree_seq (fun g ss => generateMainBody rest g ss) (fun g ss => generateMainBody rest g ss)
          (generateStatement_agree s g1 g2 ss h)
          (fun h1 h2 out e1 e2 =>
            ih h1 h2 out (sameTables_trans (sameTables_symm e1) (sameTables_trans h e2)))
    cases s with
    | VarDeclStmt type name i line => exact ih g1 g2 ss h
    | FunctionStmt name params body line => exact ih g1 g2 ss h
    | ImportStmt m line => exact hstep g1 g2 h
    | ExprStmt e line => exact hstep g1 g2 h
    | BlockStmt l line => exact hstep g1 g2 h
    | IfStmt c t e line => exact hstep g1 g2 h
    | ForStmt i c u b line => exact hstep g1 g2 h
    | WhileStmt c b line => exact hstep g1 g2 h
    | ReturnStmt v line => exact hstep g1 g2 h

set_option smartUnfolding false in
theorem generateFunctions_agree : ∀ (l : List Stmt) (g1 g2 : Generator) (ss : String),
    g1.sameTables g2 → Agree g1 g2 (generateFunctions l g1 ss) (generateFunctions l g2 ss) := by
  intro l
  induction l with
  | nil => intro g1 g2 ss _; exact agree_some _ (sameTables_refl _) (sameTables_refl _)
  | cons s rest ih =>
    intro g1 g2 ss h
    cases s with
    | FunctionStmt name params body line =>
      exact agree_seq (fun g ss => generateFunctions rest g ss)
        (fun g ss => generateFunctions rest g ss)
        (generateStatement_agree (Stmt.FunctionStmt name params body line) g1 g2 ss h)
        (fun h1 h2 out e1 e2 =>
          ih h1 h2 out (sameTables_trans (sameTables_symm e1) (sameTables_trans h e2)))
    | VarDeclStmt type name i line => exact ih g1 g2 ss h
    | ImportStmt m line => exact ih g1 g2 ss h
    | ExprStmt e line => exact ih g1 g2 ss h
    | BlockStmt l line => exact ih g1 g2 ss h
    | IfStmt c t e line => exact ih g1 g2 ss h
    | ForStmt i c u b line => exact ih g1 g2 ss h
    | WhileStmt c b line => exact ih g1 g2 ss h
    | ReturnStmt v line => exact ih g1 g2 ss h

/-- Two runs of `generate` from states with the same tables agree. -/
theorem generate_agree (statements : List Stmt) (g1 g2 : Generator) (h : g1.sameTables g2) :
    Agree g1 g2 (g1.generate statements) (g2.generate statements) := by
  obtain ⟨k1, k2, k3⟩ := generateDeclarations_agree statements g1 g2 header h
  have hmain := generateMainBody_agree statements _ _
    ((generateDeclarations statements g1 header).2 ++ "int main() \x7b\n")
    (sameTables_trans (sameTables_symm k2) (sameTables_trans h k3))
  have hrun : ∀ g : Generator, g.generate statements =
      (generateMainBody statements (generateDeclarations statements g header).1
        ((generateDeclarations statements g header).2 ++ "int main() \x7b\n")).bind fun x =>
        generateFunctions statements x.1 (x.2 ++ "    return 0;\n" ++ "\x7d\n") := by
    intro g
    unfold Generator.generate
    rcases hd : generateDeclarations statements g header with ⟨g0, ss0⟩
    simp only []
    cases generateMainBody statements g0 (ss0 ++ "int main() \x7b\n") <;> rfl
  rw [hrun g1, hrun g2, ← k1]
  refine agree_from k2 k3 ?_
  exact agree_seq
    (fun g ss => generateFunctions statements g (ss ++ "    return 0;\n" ++ "\x7d\n"))
    (fun g ss => generateFunctions statements g (ss ++ "    return 0;\n" ++ "\x7d\n"))
    hmain
    (fun h1 h2 out e1 e2 => generateFunctions_agree statements h1 h2 _
      (sameTables_trans (sameTables_symm e1)
        (sameTables_trans (sameTables_trans (sameTables_symm k2) (sameTables_trans h k3)) e2)))

/-- Running `generate` again on the generator left by a first run returns
the same text: for every statement list, when `generate` run on a new
generator returns `out` and leaves the generator `g1`, `generate` run on `g1`
returns `out` as well, and `g1` answers every read of `m_functionReturnTypes`
and of `m_functionParams` as the new generator does, so the return type
written for every function is the same in both runs. More generally two runs
from generators with the same tables both read out of range or both return the
same text. -/
theorem generate_twice_when_returned (statements : List Stmt) :
    (∀ g1 g2 : Generator, g1.sameTables g2 →
      Agree g1 g2 (g1.generate statements) (g2.generate statements)) ∧
    (∀ (g1 : Generator) (out : String),
      Generator.generate {} statements = some (g1, out) →
        (∃ g2, g1.generate statements = some (g2, out)) ∧
        (Generator.generate g1 statements).map Prod.snd = generate statements ∧
        ∀ name : String, g1.m_functionReturnTypes.at name "" = "" ∧
          g1.m_functionParams.at name [] = []) := by
  refine ⟨generate_agree statements, fun g1 out h => ?_⟩
  have h1 := generate_agree statements {} {} (sameTables_refl _)
  rw [h] at h1
  have e1 : Generator.sameTables {} g1 := h1.2.1
  have h2 := generate_agree statements {} g1 e1
  rw [h] at h2
  have hg : generate statements = some out := by
    unfold generate
    rw [h]
  cases hr : g1.generate statements with
  | none => rw [hr] at h2; exact False.elim h2
  | some r =>
    obtain ⟨g2, out2⟩ := r
    rw [hr] at h2
    obtain ⟨h3, _, _⟩ := h2
    subst h3
    exact ⟨⟨g2, rfl⟩, by rw [hg]; rfl, fun name => ⟨(e1.1 name).symm, (e1.2 name).symm⟩⟩

/-- The statement list of `func f() { num y = 1; return y; } f();`: the
first run leaves tables with entries for `f` and `y`, and the second run, from
these tables, returns the same text. -/
theorem generate_twice_example :
    Generator.generate {}
        [Stmt.FunctionStmt "f" []
          (Stmt.BlockStmt [Stmt.VarDeclStmt "num" "y" (some (Expr.LiteralExpr "1" NUMBER 1)) 1,
            Stmt.ReturnStmt (some (Expr.IdentifierExpr "y" 1)) 1] 1) 1,
          Stmt.ExprStmt (Expr.CallExpr "f" [] 1) 1] =
      some (⟨false, [("y", "double")], [("f", "")], [("f", [])]⟩,
        header ++ " f();\n" ++ "int main() \x7b\n" ++ "f();\n" ++ "    return 0;\n" ++
          "\x7d\n" ++ " f() \x7b\n" ++ "double y = 1;\n" ++ "return y;\n" ++ "\x7d\n" ++
          "\n") ∧
    ∃ g2, Generator.generate ⟨false, [("y", "double")], [("f", "")], [("f", [])]⟩
        [Stmt.FunctionStmt "f" []
          (Stmt.BlockStmt [Stmt.VarDeclStmt "num" "y" (some (Expr.LiteralExpr "1" NUMBER 1)) 1,
            Stmt.ReturnStmt (some (Expr.IdentifierExpr "y" 1)) 1] 1) 1,
          Stmt.ExprStmt (Expr.CallExpr "f" [] 1) 1] =
      some (g2, header ++ " f();\n" ++ "int main() \x7b\n" ++ "f();\n" ++ "    return 0;\n" ++
          "\x7d\n" ++ " f() \x7b\n" ++ "double y = 1;\n" ++ "return y;\n" ++ "\x7d\n" ++
          "\n") :=
  ⟨by rfl, ((generate_twice_when_returned _).2 _ _ (by rfl)).1⟩

/-- C33, evaluated at `func f(a) { }`: the parser returns a function with one
parameter. `generate` never runs `generateForwardDeclarations`, so
`m_functionParams["f"]` is the empty vector and `generateFunction` reads
`params[0]` outside it: the first call of `generate` returns no text, and
neither does a call on any generator whose tables answer as those of the new
one, so no text is returned twice. On the statement lists for which the first
call does return, a second call on the generator it leaves returns the same
text. -/
theorem repeated_emission_reads_out_of_range :
    (Lexer.tokenize "func f(a) \x7b \x7d".toList).map (parse 8) =
      some (Outcome.returned [Stmt.FunctionStmt "f" ["a"] (Stmt.BlockStmt [] 1) 1]) ∧
    Generator.generate {} [Stmt.FunctionStmt "f" ["a"] (Stmt.BlockStmt [] 1) 1] = none ∧
    generate [Stmt.FunctionStmt "f" ["a"] (Stmt.BlockStmt [] 1) 1] = none ∧
    (∀ g : Generator, g.sameTables {} →
      g.generate [Stmt.FunctionStmt "f" ["a"] (Stmt.BlockStmt [] 1) 1] = none) ∧
    ∀ (statements : List Stmt) (g1 : Generator) (out : String),
      Generator.generate {} statements = some (g1, out) →
        ∃ g2, g1.generate statements = some (g2, out) := by
  have h0 : Generator.generate {} [Stmt.FunctionStmt "f" ["a"] (Stmt.BlockStmt [] 1) 1] =
      none := by rfl
  refine ⟨by rfl, h0, by rfl, fun g hg => ?_, fun statements g1 out h => ?_⟩
  · have h := generate_agree [Stmt.FunctionStmt "f" ["a"] (Stmt.BlockStmt [] 1) 1] g {} hg
    rw [h0] at h
    cases hr : g.generate [Stmt.FunctionStmt "f" ["a"] (Stmt.BlockStmt [] 1) 1] with
    | none => rfl
    | some r =>
      rw [hr] at h
      exact False.elim h
  · have h1 := generate_agree statements {} {} (sameTables_refl _)
    rw [h] at h1
    have h2 := generate_agree statements {} g1 h1.2.1
    rw [h] at h2
    cases hr : g1.generate statements with
    | none => rw [hr] at h2; exact False.elim h2
    | some r =>
      obtain ⟨g2, out2⟩ := r
      rw [hr] at h2
      obtain ⟨h3, _, _⟩ := h2
      subst h3
      exact ⟨g2, rfl⟩

/-! # The prototype translator of `test.cpp` -/

theorem scanAlpha_suffix (s : List Char) : (TestCpp.scanAlpha s).2 <:+ s := by
  induction s with
  | nil => exact List.suffix_refl _
  | cons c r ih =>
    rw [TestCpp.scanAlpha]
    by_cases h : isalpha c = true
    · simp only [h, if_true]
      exact ih.trans (List.suffix_cons c r)
    · simp [h]

theorem scanString_suffix (s : List Char) (line : Int) :
    (TestCpp.scanString s line).2.2 <:+ s := by
  induction s generalizing line with
  | nil => exact List.suffix_refl _
  | cons c r ih =>
    rw [TestCpp.scanString]
    by_cases h : c = '"'
    · simp [h]
    · simp only [bne_iff_ne, ne_eq, h, not_false_eq_true, if_true]
      exact (ih _).trans (List.suffix_cons c r)

theorem scanString_quote (t rest : List Char) (line : Int) (h : '"' ∉ t) :
    TestCpp.scanString (t ++ '"' :: rest) line = (t, line + newlines t, '"' :: rest) := by
  induction t generalizing line with
  | nil => simp [TestCpp.scanString, newlines]
  | cons c t ih =>
    have hc : c ≠ '"' := fun e => h (e ▸ List.mem_cons_self _ _)
    have ht : '"' ∉ t := fun e => h (List.mem_cons_of_mem _ e)
    rw [List.cons_append, TestCpp.scanString]
    simp only [bne_iff_ne, ne_eq, hc, not_false_eq_true, if_true, ih _ ht, newlines_cons]
    by_cases hn : c = Char.ofNat 10
    · simp [hn, add_assoc]
    · simp [hn]

/-- The loop of `Tokenize` returns when it has more fuel than characters. -/
theorem TokenizeLoop_total (fuel : Nat) :
    ∀ (source : List Char) (line : Int) (tokens : List TestCpp.Token),
      source.length < fuel → ∃ out, TestCpp.TokenizeLoop fuel source line tokens = some out := by
  induction fuel with
  | zero => intro source line tokens h; exact absurd h (Nat.not_lt_zero _)
  | succ fuel ih =>
    intro source line tokens h
    cases source with
    | nil => exact ⟨tokens, rfl⟩
    | cons c rest =>
      have hr : rest.length < fuel := by simpa using h
      have ha : isalpha c = true → (TestCpp.scanAlpha (c :: rest)).2.length < fuel := by
        intro h2
        rw [TestCpp.scanAlpha]
        simp only [h2, if_true]
        exact lt_of_le_of_lt (scanAlpha_suffix rest).length_le hr
      rw [TestCpp.TokenizeLoop]
      by_cases h1 : isspace c = true
      · simp only [h1, if_true]
        exact ih _ _ _ hr
      simp only [h1, Bool.false_eq_true, if_false]
      by_cases h2 : isalpha c = true
      · simp only [h2, if_true]
        split_ifs
        · exact ih _ _ _ (ha h2)
        · exact ih _ _ _ (ha h2)
      simp only [h2, Bool.false_eq_true, if_false]
      by_cases h3 : (c == '(') = true
      · simp only [h3, if_true]
        exact ih _ _ _ hr
      simp only [h3, Bool.false_eq_true, if_false]
      by_cases h4 : (c == ')') = true
      · simp only [h4, if_true]
        exact ih _ _ _ hr
      simp only [h4, Bool.false_eq_true, if_false]
      by_cases h5 : (c == '"') = true
      · simp only [h5, if_true]
        have hs := scanString_suffix rest line
        cases hq : (TestCpp.scanString rest line).2.2 with
        | nil => exact ⟨[], rfl⟩
        | cons q after =>
          simp only []
          refine ih _ _ _ ?_
          rw [hq] at hs
          have := hs.length_le
          simp only [List.length_cons] at this
          omega
      simp only [h5, Bool.false_eq_true, if_false]
      exact ih _ _ _ hr

theorem token_to_cpp_print (l : String) (line1 line2 line3 line4 : Int) :
    TestCpp.token_to_cpp
        [⟨TestCpp.TokenType.PRINT, "print", line1⟩, ⟨TestCpp.TokenType.LPAREN, "(", line2⟩,
          ⟨TestCpp.TokenType.STRING, l, line3⟩, ⟨TestCpp.TokenType.RPAREN, ")", line4⟩] =
      "std::cout << \"" ++ l ++ "\";" := by
  simp [TestCpp.token_to_cpp, TestCpp.token_to_cpp_loop, String.ext_iff]

/-- C40. For every text `s` without a double quote, `Tokenize` returns for
`print("s")` exactly the four tokens `PRINT`, `LPAREN`, `STRING` with the
lexeme `s`, `RPAREN`, and `token_to_cpp` turns them into `std::cout << "s";`.
`Tokenize` returns on every source. -/
theorem prototype_translates_print :
    (∀ s : List Char, '"' ∉ s →
      TestCpp.Tokenize ("print(\"".toList ++ s ++ "\")".toList) =
        some [⟨TestCpp.TokenType.PRINT, "print", 1⟩, ⟨TestCpp.TokenType.LPAREN, "(", 1⟩,
          ⟨TestCpp.TokenType.STRING, String.mk s, 1 + newlines s⟩,
          ⟨TestCpp.TokenType.RPAREN, ")", 1 + newlines s⟩] ∧
      (TestCpp.Tokenize ("print(\"".toList ++ s ++ "\")".toList)).map TestCpp.token_to_cpp =
        some ("std::cout << \"" ++ String.mk s ++ "\";")) ∧
    ∀ source : List Char, ∃ tokens, TestCpp.Tokenize source = some tokens := by
  refine ⟨fun s h => ?_, fun source => TokenizeLoop_total _ source 1 [] (Nat.lt_succ_self _)⟩
  have hloop : ∀ k : Nat,
      TestCpp.TokenizeLoop (k + 5) ("print(\"".toList ++ s ++ "\")".toList) 1 [] =
        some [⟨TestCpp.TokenType.PRINT, "print", 1⟩, ⟨TestCpp.TokenType.LPAREN, "(", 1⟩,
          ⟨TestCpp.TokenType.STRING, String.mk s, 1 + newlines s⟩,
          ⟨TestCpp.TokenType.RPAREN, ")", 1 + newlines s⟩] := by
    intro k
    have h1 : TestCpp.TokenizeLoop (k + 5) ("print(\"".toList ++ s ++ "\")".toList) 1 [] =
        TestCpp.TokenizeLoop (k + 3) ('"' :: (s ++ '"' :: [')'])) 1
          [⟨TestCpp.TokenType.PRINT, "print", 1⟩, ⟨TestCpp.TokenType.LPAREN, "(", 1⟩] := by
      simp [TestCpp.TokenizeLoop, TestCpp.scanAlpha, isspace, isalpha]
    rw [h1, TestCpp.TokenizeLoop]
    simp only [scanString_quote s [')'] 1 h]
    simp [TestCpp.TokenizeLoop, isspace, isalpha]
  have htok : TestCpp.Tokenize ("print(\"".toList ++ s ++ "\")".toList) =
      some [⟨TestCpp.TokenType.PRINT, "print", 1⟩, ⟨TestCpp.TokenType.LPAREN, "(", 1⟩,
        ⟨TestCpp.TokenType.STRING, String.mk s, 1 + newlines s⟩,
        ⟨TestCpp.TokenType.RPAREN, ")", 1 + newlines s⟩] := by
    unfold TestCpp.Tokenize
    have hlen : ("print(\"".toList ++ s ++ "\")".toList).length + 1 = (s.length + 5) + 5 := by
      simp only [List.length_append]
      have e1 : "print(\"".toList.length = 7 := rfl
      have e2 : "\")".toList.length = 2 := rfl
      omega
    rw [hlen]
    exact hloop _
  refine ⟨htok, ?_⟩
  rw [htok, Option.map_some']
  exact congrArg some (token_to_cpp_print _ _ _ _ _)

/-- C40 at the source of `main`: `print("Hello world")`. -/
theorem prototype_translates_print_witness :
    TestCpp.Tokenize ("print(\"".toList ++ "Hello world".toList ++ "\")".toList) =
        some [⟨TestCpp.TokenType.PRINT, "print", 1⟩, ⟨TestCpp.TokenType.LPAREN, "(", 1⟩,
          ⟨TestCpp.TokenType.STRING, String.mk "Hello world".toList,
            1 + newlines "Hello world".toList⟩,
          ⟨TestCpp.TokenType.RPAREN, ")", 1 + newlines "Hello world".toList⟩] ∧
      (TestCpp.Tokenize
          ("print(\"".toList ++ "Hello world".toList ++ "\")".toList)).map
          TestCpp.token_to_cpp =
        some ("std::cout << \"" ++ String.mk "Hello world".toList ++ "\";") :=
  prototype_translates_print.1 "Hello world".toList (by decide)

/-! # Panic-mode recovery -/

theorem specSyncKinds_contains (ty : TokenType) : specSyncKinds.contains ty = isSyncStart ty := by
  cases ty <;> rfl

/-- The test of the loop of `synchronize` with `prev` before the cursor and `x`
under it is the synchronization point of the specification at the cursor. -/
theorem syncPoint_at (c : List Token) (prev x : Token) (rest : List Token) :
    syncPoint ((prev :: c).reverse ++ x :: rest) (c.length + 1) =
      (x.type == END_OF_FILE || isSyncStart x.type || prev.type == SEMICOLON) := by
  have h1 : ((prev :: c).reverse ++ x :: rest)[c.length + 1]? = some x := by
    rw [List.getElem?_append_right (by simp)]
    simp
  have h2 : ((prev :: c).reverse ++ x :: rest)[c.length]? = some prev := by
    rw [List.getElem?_append_left (by simp)]
    simp [List.getElem?_append_right]
  simp only [syncPoint, h1, h2, specSyncKinds_contains]

theorem synchronizeLoop_point (rest : List Token) :
    ∀ (prev : Token) (c : List Token), (∃ e ∈ rest, e.type = END_OF_FILE) →
      ∃ u s1, synchronizeLoop (prev :: c) rest = Res.ok () ⟨u.reverse ++ prev :: c, s1⟩ ∧
        rest = u ++ s1 ∧
        syncPoint ((prev :: c).reverse ++ rest) (c.length + 1 + u.length) = true ∧
        (∀ q, c.length < q → q < c.length + 1 + u.length →
          syncPoint ((prev :: c).reverse ++ rest) q = false) ∧
        ∀ x ∈ u, x.type ≠ END_OF_FILE := by
  induction rest with
  | nil => intro prev c h; obtain ⟨t, ht, _⟩ := h; cases ht
  | cons x rest ih =>
    intro prev c h
    have hp := syncPoint_at c prev x rest
    rw [synchronizeLoop]
    by_cases h1 : x.type = END_OF_FILE
    · refine ⟨[], x :: rest, by simp [h1], rfl, ?_, ?_, ?_⟩
      · rw [List.length_nil, Nat.add_zero, hp]; simp [h1]
      · intro q hq1 hq2; simp only [List.length_nil] at hq2; omega
      · intro y hy; cases hy
    by_cases h2 : prev.type = SEMICOLON
    · refine ⟨[], x :: rest, by simp [h1, h2], rfl, ?_, ?_, ?_⟩
      · rw [List.length_nil, Nat.add_zero, hp]; simp [h2]
      · intro q hq1 hq2; simp only [List.length_nil] at hq2; omega
      · intro y hy; cases hy
    by_cases h3 : isSyncStart x.type = true
    · refine ⟨[], x :: rest, by simp [h1, h2, h3], rfl, ?_, ?_, ?_⟩
      · rw [List.length_nil, Nat.add_zero, hp]; simp [h3]
      · intro q hq1 hq2; simp only [List.length_nil] at hq2; omega
      · intro y hy; cases hy
    have hrest : ∃ e ∈ rest, e.type = END_OF_FILE := by
      obtain ⟨e, he1, he2⟩ := h
      rcases List.mem_cons.1 he1 with rfl | hm
      · exact absurd he2 h1
      · exact ⟨e, hm, he2⟩
    obtain ⟨u, s1, hu1, hu2, hu3, hu4, hu5⟩ := ih x (prev :: c) hrest
    have htoks : (x :: prev :: c).reverse ++ rest = (prev :: c).reverse ++ x :: rest := by
      simp
    rw [htoks] at hu3 hu4
    refine ⟨x :: u, s1, ?_, by rw [hu2]; rfl, ?_, ?_, ?_⟩
    · simp only [h1, h2, h3, beq_iff_eq, if_false, Bool.false_eq_true]
      rw [hu1]
      simp
    · have e : c.length + 1 + (x :: u).length = (prev :: c).length + 1 + u.length := by
        simp only [List.length_cons]; omega
      rw [e]; exact hu3
    · intro q hq1 hq2
      by_cases hq : q = c.length + 1
      · rw [hq, hp]
        simp [h1, h2, h3]
      · refine hu4 q ?_ ?_
        · simp only [List.length_cons]; omega
        · simp only [List.length_cons] at hq2 ⊢; omega
    · intro y hy
      rcases List.mem_cons.1 hy with rfl | hm
      · exact h1
      · exact hu5 y hm

/-- C37. Called with the cursor at position `p` on a token other than
`END_OF_FILE`, in a token vector that holds `END_OF_FILE` further on,
`synchronize` returns with the cursor at the smallest position `q > p` that is
a synchronization point of the specification (the token at `q` is
`END_OF_FILE` or opens a declaration or statement, or the token at `q - 1` is
`SEMICOLON`); every token it moves over is other than `END_OF_FILE`. The
token vector is `c.reverse ++ t :: rest` and `p` is the length of `c`. -/
theorem synchronize_stops (c : List Token) (t : Token) (rest : List Token)
    (ht : t.type ≠ END_OF_FILE) (he : ∃ e ∈ rest, e.type = END_OF_FILE) :
    ∃ u s1, synchronize ⟨c, t :: rest⟩ = Res.ok () ⟨u.reverse ++ t :: c, s1⟩ ∧
      rest = u ++ s1 ∧
      syncPoint (c.reverse ++ t :: rest) (c.length + 1 + u.length) = true ∧
      (∀ q, c.length < q → q < c.length + 1 + u.length →
        syncPoint (c.reverse ++ t :: rest) q = false) ∧
      ∀ x ∈ t :: u, x.type ≠ END_OF_FILE := by
  obtain ⟨u, s1, h1, h2, h3, h4, h5⟩ := synchronizeLoop_point rest t c he
  have htoks : (t :: c).reverse ++ rest = c.reverse ++ t :: rest := by simp
  rw [htoks] at h3 h4
  refine ⟨u, s1, ?_, h2, h3, h4, ?_⟩
  · rw [synchronize, bind_ok (advance_cons c t rest ht)]
    exact h1
  · intro x hx
    rcases List.mem_cons.1 hx with rfl | hm
    · exact ht
    · exact h5 x hm

/-- C37 at the tokens `1 + ; 2 ; <eof>` with the cursor on `+`: the cursor
stops after the first `;`. -/
theorem synchronize_stops_witness :
    ∃ u s1, synchronize ⟨[⟨NUMBER, 1, some "1"⟩],
        ⟨PLUS, 1, none⟩ :: [⟨SEMICOLON, 1, none⟩, ⟨NUMBER, 2, some "2"⟩,
          ⟨SEMICOLON, 2, none⟩, ⟨END_OF_FILE, 2, none⟩]⟩ =
        Res.ok () ⟨u.reverse ++ ⟨PLUS, 1, none⟩ :: [⟨NUMBER, 1, some "1"⟩], s1⟩ ∧
      [⟨SEMICOLON, 1, none⟩, ⟨NUMBER, 2, some "2"⟩, ⟨SEMICOLON, 2, none⟩,
        ⟨END_OF_FILE, 2, none⟩] = u ++ s1 ∧
      syncPoint (([⟨NUMBER, 1, some "1"⟩] : List Token).reverse ++ ⟨PLUS, 1, none⟩ ::
        [⟨SEMICOLON, 1, none⟩, ⟨NUMBER, 2, some "2"⟩, ⟨SEMICOLON, 2, none⟩,
          ⟨END_OF_FILE, 2, none⟩])
        (([⟨NUMBER, 1, some "1"⟩] : List Token).length + 1 + u.length) = true ∧
      (∀ q, ([⟨NUMBER, 1, some "1"⟩] : List Token).length < q →
        q < ([⟨NUMBER, 1, some "1"⟩] : List Token).length + 1 + u.length →
        syncPoint (([⟨NUMBER, 1, some "1"⟩] : List Token).reverse ++ ⟨PLUS, 1, none⟩ ::
          [⟨SEMICOLON, 1, none⟩, ⟨NUMBER, 2, some "2"⟩, ⟨SEMICOLON, 2, none⟩,
            ⟨END_OF_FILE, 2, none⟩]) q = false) ∧
      ∀ x ∈ (⟨PLUS, 1, none⟩ : Token) :: u, x.type ≠ END_OF_FILE :=
  synchronize_stops [⟨NUMBER, 1, some "1"⟩] ⟨PLUS, 1, none⟩
    [⟨SEMICOLON, 1, none⟩, ⟨NUMBER, 2, some "2"⟩, ⟨SEMICOLON, 2, none⟩, ⟨END_OF_FILE, 2, none⟩]
    (by decide) ⟨⟨END_OF_FILE, 2, none⟩, by simp, rfl⟩

/-! # `for` statements with omitted clauses -/

theorem lexeme_of_kind (t : Token) (h1 : t.type ≠ IDENTIFIER) (h2 : t.type ≠ NUMBER)
    (h3 : t.type ≠ STRING_LIT) : Lexeme t := by
  intro h
  rcases h with h | h | h
  · exact absurd h h1
  · exact absurd h h2
  · exact absurd h h3

/-- A token of a kind other than the three lexeme kinds, `COMMA` and
`END_OF_FILE`. -/
theorem plain_token (t : Token)
    (h : t.type ≠ IDENTIFIER ∧ t.type ≠ NUMBER ∧ t.type ≠ STRING_LIT ∧ t.type ≠ COMMA ∧
      t.type ≠ END_OF_FILE) :
    Lexeme t ∧ t.type ≠ COMMA ∧ t.type ≠ END_OF_FILE :=
  ⟨lexeme_of_kind t h.1 h.2.1 h.2.2.1, h.2.2.2.1, h.2.2.2.2⟩

/-- Every token of `tokenize` respects the invariant on lexemes, and none is a
`COMMA`. -/
theorem tokenize_lexemes (s : List Char) :
    ∃ body line, Lexer.tokenize s = some (body ++ [⟨END_OF_FILE, line, none⟩]) ∧
      ∀ t ∈ body, Lexeme t ∧ t.type ≠ COMMA ∧ t.type ≠ END_OF_FILE := by
  refine tokenizeLoop_tokens s (fun t => Lexeme t ∧ t.type ≠ COMMA ∧ t.type ≠ END_OF_FILE)
    ?_ ?_ _ ⟨s, 1⟩ [] (List.suffix_refl _) (Nat.lt_succ_self _)
    (fun _ h => absurd h (List.not_mem_nil _))
  · intro c r line t l1 _ h
    have hd : (Lexer.dispatch c ⟨c :: r, line⟩).1 = some t := by rw [h]
    refine dispatch_token (fun t => Lexeme t ∧ t.type ≠ COMMA ∧ t.type ≠ END_OF_FILE)
      c r line ?_ ?_ ?_ ?_ ?_ ?_ ?_ ?_ t hd
    · intro type htype
      have h1 : ∀ x ∈ plainKinds, x ≠ IDENTIFIER ∧ x ≠ NUMBER ∧ x ≠ STRING_LIT ∧ x ≠ COMMA ∧
          x ≠ END_OF_FILE := by decide
      exact plain_token _ (h1 type htype)
    · intro _ _ _
      exact plain_token _ (by simp)
    · intro _ _ _
      exact plain_token _ (by simp)
    · rcases directive_type ⟨c :: r, line⟩ with h | h <;>
        exact plain_token _ (by rw [h]; decide)
    · rcases ampersand_type ⟨c :: r, line⟩ with h | h <;>
        exact plain_token _ (by rw [h]; decide)
    · have hv : (Lexer.stringLiteral ⟨c :: r, line⟩).1.value ≠ none := by
        unfold Lexer.stringLiteral
        simp only
        split_ifs <;> simp
      rcases stringLiteral_type ⟨c :: r, line⟩ with h | h <;>
        exact ⟨fun _ => hv, by rw [h]; decide, by rw [h]; decide⟩
    · intro _
      have hv : (Lexer.numberLiteral ⟨c :: r, line⟩).1.value ≠ none := by
        unfold Lexer.numberLiteral
        simp only
        split_ifs <;> simp
      have h := numberLiteral_type ⟨c :: r, line⟩
      exact ⟨fun _ => hv, by rw [h]; decide, by rw [h]; decide⟩
    · intro _
      rcases identifier_token ⟨c :: r, line⟩ with ⟨w, type, hm, h⟩ | ⟨w, _, h⟩
      · have h1 : ∀ x ∈ Lexer.keywords, x.2 ≠ IDENTIFIER ∧ x.2 ≠ NUMBER ∧ x.2 ≠ STRING_LIT ∧
            x.2 ≠ COMMA ∧ x.2 ≠ END_OF_FILE := by decide
        rw [h]
        exact plain_token _ (h1 _ hm)
      · rw [h]
        exact ⟨fun _ => by simp, by simp, by simp⟩
  · intro c r line _ _
    exact ⟨fun _ => by simp, by simp, by simp⟩

/-- The output of the lexer is a valid start state of the parser. -/
theorem tokenize_valid (s : List Char) :
    ∃ toks, Lexer.tokenize s = some toks ∧ Valid ⟨[], toks⟩ ∧
      ∀ t ∈ toks, t.type ≠ COMMA := by
  obtain ⟨body, line, h1, h2⟩ := tokenize_lexemes s
  refine ⟨_, h1, ⟨⟨_, List.mem_append_right _ (List.mem_singleton_self _), rfl⟩, ?_⟩, ?_⟩
  · intro t ht
    rcases List.mem_append.1 ht with h | h
    · exact (h2 t h).1
    · simp only [List.mem_singleton] at h
      subst h
      intro h3
      rcases h3 with h3 | h3 | h3 <;> cases h3
  · intro t ht
    rcases List.mem_append.1 ht with h | h
    · exact (h2 t h).2.1
    · simp only [List.mem_singleton] at h
      subst h
      simp

/-- On a valid token vector `parse` returns or throws when its fuel exceeds
the number of tokens by five, and with no fuel does it read out of range. -/
theorem parse_total (toks : List Token) (hv : Valid ⟨[], toks⟩) :
    (∀ fuel, toks.length + 5 ≤ fuel →
      (∃ stmts, parse fuel toks = Outcome.returned stmts) ∨
        ∃ w, parse fuel toks = Outcome.threw w) ∧
    ∀ fuel, parse fuel toks ≠ Outcome.fault := by
  have h1 : ∀ fuel, toks.length + 5 ≤ fuel →
      (∃ stmts, parse fuel toks = Outcome.returned stmts) ∨
        ∃ w, parse fuel toks = Outcome.threw w := by
    intro fuel hf
    rcases parseLoopRaw_safe fuel toks.length [] hf [] toks hv
      (fun h => absurd h (by decide)) (le_refl _) with ⟨w, q, h⟩ | ⟨a, u, s1, h, _, _, _⟩
    · obtain ⟨_, hq, _⟩ := parseLoopRaw_error_state hv.1 h
      obtain ⟨q2, hq2, _⟩ := ((parseLoop_sim fuel []).err _ w q h).2 hq
      exact Or.inr ⟨w, by rw [parse, hq2]; rfl⟩
    · have := (parseLoop_sim fuel []).ok _ _ _ h
      exact Or.inl ⟨a, by rw [parse, this]; rfl⟩
  refine ⟨h1, fun fuel hfault => ?_⟩
  have h2 := parse_mono (Nat.le_add_right fuel (toks.length + 5)) hfault
    (by intro h; cases h)
  rcases h1 (fuel + (toks.length + 5)) (by omega) with ⟨a, h3⟩ | ⟨w, h3⟩ <;>
    rw [h2] at h3 <;> cases h3

/-- C34. For every source text, `tokenize` returns a token vector on which
`parse` returns a statement list or throws a parse error whenever its fuel
exceeds the number of tokens by five, and on which it reads out of range with
no fuel at all: `peek` and `previous` always find their token and `.value()`
is only called on a token that carries a lexeme. -/
theorem parser_total_on_lexer_output (s : List Char) :
    ∃ toks, Lexer.tokenize s = some toks ∧
      (∀ fuel, toks.length + 5 ≤ fuel →
        (∃ stmts, parse fuel toks = Outcome.returned stmts) ∨
          ∃ w, parse fuel toks = Outcome.threw w) ∧
      ∀ fuel, parse fuel toks ≠ Outcome.fault := by
  obtain ⟨toks, h1, h2, _⟩ := tokenize_valid s
  exact ⟨toks, h1, parse_total toks h2⟩

/-! ## No `COMMA`, so at most one argument and one parameter -/

theorem keeps_bind {α β : Type} [Narrow α] [Narrow β] {x : P α} {f : α → P β}
    (hx : Keeps x) (hf : ∀ a, Narrow.holds a → Keeps (f a)) : Keeps (x >>= f) := by
  intro p b q hp h
  obtain ⟨a, p1, h1, h2⟩ := bind_eq_ok h
  obtain ⟨hp1, ha⟩ := hx p a p1 hp h1
  exact hf a ha p1 b q hp1 h2

theorem keeps_pure {α : Type} [Narrow α] {a : α} (h : Narrow.holds a) :
    Keeps (pure a : P α) := by
  intro p b q hp hb
  cases hb
  exact ⟨hp, h⟩

theorem keeps_ite {α : Type} [Narrow α] {c : Prop} [Decidable c] {x y : P α}
    (hx : Keeps x) (hy : Keeps y) : Keeps (if c then x else y) := by
  by_cases h : c
  · rw [if_pos h]; exact hx
  · rw [if_neg h]; exact hy

theorem keeps_catch {α : Type} [Narrow α] {body : P α} (h : Keeps body) :
    Keeps (catchSynchronize body) := by
  intro p a q hp hq
  unfold catchSynchronize at hq
  cases hb : body p with
  | ok a1 p1 =>
    rw [hb] at hq
    cases hq
    exact h p a q hp hb
  | error w p1 =>
    rw [hb] at hq
    simp only at hq
    cases hs : synchronize p1 <;> rw [hs] at hq <;> cases hq
  | fault => rw [hb] at hq; cases hq
  | outOfFuel => rw [hb] at hq; cases hq

theorem keeps_noFuel {α : Type} [Narrow α] : Keeps (noFuel : P α) := by
  intro p a q _ h
  cases h

theorem keeps_raise {α : Type} [Narrow α] (w : String) : Keeps (raise w : P α) := by
  intro p a q _ h
  cases h

theorem keeps_faulty {α : Type} [Narrow α] : Keeps (faulty : P α) := by
  intro p a q _ h
  cases h

theorem keeps_peek : @Keeps Token (narrowAny Token) peek := by
  intro p a q hp h
  obtain ⟨c, rem⟩ := p
  cases rem with
  | nil => cases h
  | cons t r =>
    cases h
    exact ⟨hp, trivial⟩

theorem keeps_previous : @Keeps Token (narrowAny Token) previous := by
  intro p a q hp h
  obtain ⟨c, rem⟩ := p
  cases c with
  | nil => cases h
  | cons t r =>
    cases h
    exact ⟨hp, trivial⟩

theorem keeps_bump : @Keeps Unit (narrowAny Unit) bump := by
  intro p a q hp h
  obtain ⟨c, rem⟩ := p
  cases rem with
  | nil => cases h
  | cons t r =>
    cases h
    exact ⟨fun x hx => hp x (List.mem_cons_of_mem _ hx), trivial⟩

theorem narrowList_append (l : List Stmt) (s : Stmt) :
    narrowList (l ++ [s]) = (narrowList l && s.narrow) := by
  induction l with
  | nil => simp [narrowList]
  | cons x l ih => simp [narrowList, ih, Bool.and_assoc]

theorem narrow_if (c : Expr) (t : Stmt) (o : Option Stmt) (l : Int) (hc : c.narrow = true)
    (ht : t.narrow = true) (ho : ∀ s, o = some s → s.narrow = true) :
    (Stmt.IfStmt c t o l).narrow = true := by
  cases o <;> simp_all [Stmt.narrow]

theorem keeps_isAtEnd : @Keeps Bool (narrowAny Bool) isAtEnd := by
  unfold isAtEnd
  repeat' first
    | with_reducible (first
        | exact keeps_peek | exact keeps_previous | exact keeps_bump | exact keeps_raise _
        | exact keeps_faulty | exact keeps_noFuel | assumption | apply keeps_bind
        | apply keeps_ite | apply keeps_pure | intro _)
    | dsimp only
    | split
  all_goals simp_all [Narrow.holds, Expr.narrow, narrowArgs, narrowOption, Stmt.narrow, narrowList,
      narrowList_append]

theorem keeps_check (type : TokenType) : @Keeps Bool (narrowAny Bool) (check type) := by
  unfold check
  repeat' first
    | with_reducible (first
        | exact keeps_peek | exact keeps_previous | exact keeps_bump | exact keeps_isAtEnd
        | exact keeps_raise _ | exact keeps_faulty | exact keeps_noFuel | assumption
        | apply keeps_bind | apply keeps_ite | apply keeps_pure | intro _)
    | dsimp only
    | split
  all_goals simp_all [Narrow.holds, Expr.narrow, narrowArgs, narrowOption, Stmt.narrow, narrowList,
      narrowList_append]

theorem keeps_advance : @Keeps Token (narrowAny Token) advance := by
  unfold advance
  repeat' first
    | with_reducible (first
        | exact keeps_peek | exact keeps_previous | exact keeps_bump | exact keeps_isAtEnd
        | exact keeps_check _ | exact keeps_raise _ | exact keeps_faulty | exact keeps_noFuel
        | assumption | apply keeps_bind | apply keeps_ite | apply keeps_pure | intro _)
    | dsimp only
    | split
  all_goals simp_all [Narrow.holds, Expr.narrow, narrowArgs, narrowOption, Stmt.narrow, narrowList,
      narrowList_append]

theorem keeps_matchType (type : TokenType) : @Keeps Bool (narrowAny Bool) (matchType type) := by
  unfold matchType
  repeat' first
    | with_reducible (first
        | exact keeps_peek | exact keeps_previous | exact keeps_bump | exact keeps_isAtEnd
        | exact keeps_check _ | exact keeps_advance | exact keeps_raise _ | exact keeps_faulty
        | exact keeps_noFuel | assumption | apply keeps_bind | apply keeps_ite | apply keeps_pure
        | intro _)
    | dsimp only
    | split
  all_goals simp_all [Narrow.holds, Expr.narrow, narrowArgs, narrowOption, Stmt.narrow, narrowList,
      narrowList_append]

theorem keeps_matchTypes (types : List TokenType) :
    @Keeps Bool (narrowAny Bool) (matchTypes types) := by
  induction types with
  | nil => exact keeps_pure trivial
  | cons type types ih =>
    unfold matchTypes
    repeat' first
      | with_reducible (first
          | exact keeps_peek | exact keeps_previous | exact keeps_bump | exact keeps_isAtEnd
          | exact keeps_check _ | exact keeps_advance | exact keeps_matchType _
          | exact keeps_raise _ | exact keeps_faulty | exact keeps_noFuel | assumption
          | apply keeps_bind | apply keeps_ite | apply keeps_pure | intro _)
      | dsimp only
      | split
    all_goals simp_all [Narrow.holds, Expr.narrow, narrowArgs, narrowOption, Stmt.narrow, narrowList,
        narrowList_append]

theorem keeps_consume (type : TokenType) (message : String) :
    @Keeps Token (narrowAny Token) (consume type message) := by
  unfold consume
  repeat' first
    | with_reducible (first
        | exact keeps_peek | exact keeps_previous | exact keeps_bump | exact keeps_isAtEnd
        | exact keeps_check _ | exact keeps_advance | exact keeps_matchType _
        | exact keeps_matchTypes _ | exact keeps_raise _ | exact keeps_faulty | exact keeps_noFuel
        | assumption | apply keeps_bind | apply keeps_ite | apply keeps_pure | intro _)

theorem keeps_valueOf (token : Token) : @Keeps String (narrowAny String) (valueOf token) := by
  unfold valueOf
  repeat' first
    | with_reducible (first
        | exact keeps_peek | exact keeps_previous | exact keeps_bump | exact keeps_isAtEnd
        | exact keeps_check _ | exact keeps_advance | exact keeps_matchType _
        | exact keeps_matchTypes _ | exact keeps_consume _ _ | exact keeps_raise _
        | exact keeps_faulty | exact keeps_noFuel | assumption | apply keeps_bind
        | apply keeps_ite | apply keeps_pure | intro _)
    | dsimp only
    | split
  all_goals simp_all [Narrow.holds, Expr.narrow, narrowArgs, narrowOption, Stmt.narrow, narrowList,
      narrowList_append]

/-- With no `COMMA` ahead, `match(COMMA)` is false and leaves the cursor. -/
theorem matchType_comma {p q : Parser} {b : Bool} (hp : NoComma p)
    (h : matchType COMMA p = Res.ok b q) : b = false ∧ q = p := by
  obtain ⟨c, rem⟩ := p
  cases rem with
  | nil => cases h
  | cons t r =>
    rw [matchType_false (hp t (List.mem_cons_self _ _))] at h
    cases h
    exact ⟨rfl, rfl⟩

theorem argumentsLoop_keeps {e : P Expr} (he : Keeps e) (fuel : Nat) :
    Keeps (argumentsLoop e fuel []) := by
  cases fuel with
  | zero => exact keeps_noFuel
  | succ fuel =>
    intro p a q hp h
    rw [argumentsLoop] at h
    obtain ⟨x, p1, h1, h2⟩ := bind_eq_ok h
    obtain ⟨hp1, hx⟩ := he p x p1 hp h1
    obtain ⟨b, p2, h3, h4⟩ := bind_eq_ok h2
    obtain ⟨rfl, rfl⟩ := matchType_comma hp1 h3
    simp only [Bool.false_eq_true, if_false] at h4
    cases h4
    refine ⟨hp1, ?_⟩
    have hx1 : x.narrow = true := hx
    simp [Narrow.holds, narrowArgs, hx1]

theorem parametersLoop_keeps (fuel : Nat) : Keeps (parametersLoop fuel []) := by
  cases fuel with
  | zero => exact keeps_noFuel
  | succ fuel =>
    intro p a q hp h
    rw [parametersLoop] at h
    obtain ⟨t, p1, h1, h2⟩ := bind_eq_ok h
    obtain ⟨hp1, _⟩ := keeps_consume _ _ p t p1 hp h1
    obtain ⟨x, p2, h3, h4⟩ := bind_eq_ok h2
    obtain ⟨hp2, _⟩ := keeps_valueOf _ p1 x p2 hp1 h3
    obtain ⟨b, p3, h5, h6⟩ := bind_eq_ok h4
    obtain ⟨rfl, rfl⟩ := matchType_comma hp2 h5
    simp only [Bool.false_eq_true, if_false] at h6
    cases h6
    refine ⟨hp2, ?_⟩
    simp [Narrow.holds]

theorem primary_keeps {e : P Expr} (he : Keeps e) : Keeps (primary e) := by
  unfold primary
  repeat' first
    | with_reducible (first
        | exact keeps_peek | exact keeps_previous | exact keeps_bump | exact keeps_isAtEnd
        | exact keeps_check _ | exact keeps_advance | exact keeps_matchType _
        | exact keeps_matchTypes _ | exact keeps_consume _ _ | exact keeps_valueOf _
        | exact keeps_raise _ | exact keeps_faulty | exact keeps_noFuel | assumption
        | apply keeps_bind | apply keeps_ite | apply keeps_pure | intro _)
    | dsimp only
    | split
  all_goals simp_all [Narrow.holds, Expr.narrow, narrowArgs, narrowOption, Stmt.narrow, narrowList,
      narrowList_append]

theorem finishCall_keeps {e : P Expr} (he : Keeps e) (fuel : Nat) (callee : Expr) :
    Keeps (finishCall e fuel callee) := by
  have h1 := argumentsLoop_keeps he fuel
  unfold finishCall
  repeat' first
    | with_reducible (first
        | exact keeps_peek | exact keeps_previous | exact keeps_bump | exact keeps_isAtEnd
        | exact keeps_check _ | exact keeps_advance | exact keeps_matchType _
        | exact keeps_matchTypes _ | exact keeps_consume _ _ | exact keeps_valueOf _
        | exact keeps_raise _ | exact keeps_faulty | exact keeps_noFuel | assumption
        | apply keeps_bind | apply keeps_ite | apply keeps_pure | intro _)
    | dsimp only
    | split
  all_goals simp_all [Narrow.holds, Expr.narrow, narrowArgs, narrowOption, Stmt.narrow, narrowList,
      narrowList_append]

theorem callLoop_keeps {e : P Expr} (he : Keeps e) (fuel : Nat) :
    ∀ expr : Expr, expr.narrow = true → Keeps (callLoop e fuel expr) := by
  induction fuel with
  | zero => intro _ _; exact keeps_noFuel
  | succ fuel ih =>
    intro expr hexpr
    have h1 := finishCall_keeps he fuel expr
    have ih2 : ∀ x : Expr, Narrow.holds x → Keeps (callLoop e fuel x) := fun x hx => ih x hx
    unfold callLoop
    repeat' first
      | with_reducible (first
          | exact keeps_peek | exact keeps_previous | exact keeps_bump | exact keeps_isAtEnd
          | exact keeps_check _ | exact keeps_advance | exact keeps_matchType _
          | exact keeps_matchTypes _ | exact keeps_consume _ _ | exact keeps_valueOf _
          | exact keeps_raise _ | exact keeps_faulty | exact keeps_noFuel | assumption
          | apply keeps_bind | apply keeps_ite | apply keeps_pure | intro _)
      | dsimp only
      | split
    all_goals simp_all [Narrow.holds, Expr.narrow, narrowArgs, narrowOption, Stmt.narrow, narrowList,
        narrowList_append]

theorem call_keeps {e : P Expr} (he : Keeps e) (fuel : Nat) : Keeps (call e fuel) := by
  have h1 := primary_keeps he
  have h2 : ∀ x : Expr, Narrow.holds x → Keeps (callLoop e fuel x) :=
    fun x hx => callLoop_keeps he fuel x hx
  unfold call
  repeat' first
    | with_reducible (first
        | exact keeps_peek | exact keeps_previous | exact keeps_bump | exact keeps_isAtEnd
        | exact keeps_check _ | exact keeps_advance | exact keeps_matchType _
        | exact keeps_matchTypes _ | exact keeps_consume _ _ | exact keeps_valueOf _
        | exact keeps_raise _ | exact keeps_faulty | exact keeps_noFuel | assumption
        | apply keeps_bind)

theorem unary_keeps {e : P Expr} (he : Keeps e) (fuel : Nat) : Keeps (unary e fuel) := by
  induction fuel with
  | zero => exact keeps_noFuel
  | succ fuel ih =>
    have h1 := call_keeps he fuel
    unfold unary
    repeat' first
      | with_reducible (first
          | exact keeps_peek | exact keeps_previous | exact keeps_bump | exact keeps_isAtEnd
          | exact keeps_check _ | exact keeps_advance | exact keeps_matchType _
          | exact keeps_matchTypes _ | exact keeps_consume _ _ | exact keeps_valueOf _
          | exact keeps_raise _ | exact keeps_faulty | exact keeps_noFuel | assumption
          | apply keeps_bind | apply keeps_ite | apply keeps_pure | intro _)
      | dsimp only
      | split
    all_goals simp_all [Narrow.holds, Expr.narrow, narrowArgs, narrowOption, Stmt.narrow, narrowList,
        narrowList_append]

theorem binaryLoop_keeps (ops : List TokenType) {operand : P Expr} (ho : Keeps operand)
    (fuel : Nat) : ∀ expr : Expr, Narrow.holds expr → Keeps (binaryLoop ops operand fuel expr) := by
  induction fuel with
  | zero => intro _ _; exact keeps_noFuel
  | succ fuel ih =>
    intro expr hexpr
    unfold binaryLoop
    have ih2 : ∀ (op : TokenType) (right : Expr) (line : Int), Narrow.holds right →
        Keeps (binaryLoop ops operand fuel (Expr.BinaryExpr expr op right line)) := by
      intro op right line hr
      apply ih
      have h1 : expr.narrow = true := hexpr
      have h2 : right.narrow = true := hr
      simp [Narrow.holds, Expr.narrow, h1, h2]
    repeat' first
      | with_reducible (first
          | exact keeps_peek | exact keeps_previous | exact keeps_bump | exact keeps_isAtEnd
          | exact keeps_check _ | exact keeps_advance | exact keeps_matchType _
          | exact keeps_matchTypes _ | exact keeps_consume _ _ | exact keeps_valueOf _
          | exact keeps_raise _ | exact keeps_faulty | exact keeps_noFuel | assumption
          | apply keeps_bind | apply keeps_ite | apply keeps_pure | intro _)
      | dsimp only
      | split
    all_goals simp_all [Narrow.holds, Expr.narrow, narrowArgs, narrowOption, Stmt.narrow, narrowList,
        narrowList_append]

theorem factor_keeps {e : P Expr} (he : Keeps e) (fuel : Nat) : Keeps (factor e fuel) := by
  have h1 := unary_keeps he fuel
  have h2 := fun ops => binaryLoop_keeps ops h1 fuel
  unfold factor
  repeat' first
    | with_reducible (first
        | exact keeps_peek | exact keeps_previous | exact keeps_bump | exact keeps_isAtEnd
        | exact keeps_check _ | exact keeps_advance | exact keeps_matchType _
        | exact keeps_matchTypes _ | exact keeps_consume _ _ | exact keeps_valueOf _
        | exact keeps_raise _ | exact keeps_faulty | exact keeps_noFuel | assumption
        | apply keeps_bind | apply keeps_ite | apply keeps_pure | intro _)
    | dsimp only
    | split
  all_goals simp_all [Narrow.holds, Expr.narrow, narrowArgs, narrowOption, Stmt.narrow, narrowList,
      narrowList_append]

theorem term_keeps {e : P Expr} (he : Keeps e) (fuel : Nat) : Keeps (term e fuel) := by
  have h1 := factor_keeps he fuel
  have h2 := fun ops => binaryLoop_keeps ops h1 fuel
  unfold term
  repeat' first
    | with_reducible (first
        | exact keeps_peek | exact keeps_previous | exact keeps_bump | exact keeps_isAtEnd
        | exact keeps_check _ | exact keeps_advance | exact keeps_matchType _
        | exact keeps_matchTypes _ | exact keeps_consume _ _ | exact keeps_valueOf _
        | exact keeps_raise _ | exact keeps_faulty | exact keeps_noFuel | assumption
        | apply keeps_bind | apply keeps_ite | apply keeps_pure | intro _)
    | dsimp only
    | split
  all_goals simp_all [Narrow.holds, Expr.narrow, narrowArgs, narrowOption, Stmt.narrow, narrowList,
      narrowList_append]

theorem comparison_keeps {e : P Expr} (he : Keeps e) (fuel : Nat) : Keeps (comparison e fuel) := by
  have h1 := term_keeps he fuel
  have h2 := fun ops => binaryLoop_keeps ops h1 fuel
  unfold comparison
  repeat' first
    | with_reducible (first
        | exact keeps_peek | exact keeps_previous | exact keeps_bump | exact keeps_isAtEnd
        | exact keeps_check _ | exact keeps_advance | exact keeps_matchType _
        | exact keeps_matchTypes _ | exact keeps_consume _ _ | exact keeps_valueOf _
        | exact keeps_raise _ | exact keeps_faulty | exact keeps_noFuel | assumption
        | apply keeps_bind | apply keeps_ite | apply keeps_pure | intro _)
    | dsimp only
    | split
  all_goals simp_all [Narrow.holds, Expr.narrow, narrowArgs, narrowOption, Stmt.narrow, narrowList,
      narrowList_append]

theorem equality_keeps {e : P Expr} (he : Keeps e) (fuel : Nat) : Keeps (equality e fuel) := by
  have h1 := comparison_keeps he fuel
  have h2 := fun ops => binaryLoop_keeps ops h1 fuel
  unfold equality
  repeat' first
    | with_reducible (first
        | exact keeps_peek | exact keeps_previous | exact keeps_bump | exact keeps_isAtEnd
        | exact keeps_check _ | exact keeps_advance | exact keeps_matchType _
        | exact keeps_matchTypes _ | exact keeps_consume _ _ | exact keeps_valueOf _
        | exact keeps_raise _ | exact keeps_faulty | exact keeps_noFuel | assumption
        | apply keeps_bind | apply keeps_ite | apply keeps_pure | intro _)
    | dsimp only
    | split
  all_goals simp_all [Narrow.holds, Expr.narrow, narrowArgs, narrowOption, Stmt.narrow, narrowList,
      narrowList_append]

theorem bitwiseAnd_keeps {e : P Expr} (he : Keeps e) (fuel : Nat) : Keeps (bitwiseAnd e fuel) := by
  have h1 := equality_keeps he fuel
  have h2 := fun ops => binaryLoop_keeps ops h1 fuel
  unfold bitwiseAnd
  repeat' first
    | with_reducible (first
        | exact keeps_peek | exact keeps_previous | exact keeps_bump | exact keeps_isAtEnd
        | exact keeps_check _ | exact keeps_advance | exact keeps_matchType _
        | exact keeps_matchTypes _ | exact keeps_consume _ _ | exact keeps_valueOf _
        | exact keeps_raise _ | exact keeps_faulty | exact keeps_noFuel | assumption
        | apply keeps_bind | apply keeps_ite | apply keeps_pure | intro _)
    | dsimp only
    | split
  all_goals simp_all [Narrow.holds, Expr.narrow, narrowArgs, narrowOption, Stmt.narrow, narrowList,
      narrowList_append]

theorem bitwiseXor_keeps {e : P Expr} (he : Keeps e) (fuel : Nat) : Keeps (bitwiseXor e fuel) := by
  have h1 := bitwiseAnd_keeps he fuel
  have h2 := fun ops => binaryLoop_keeps ops h1 fuel
  unfold bitwiseXor
  repeat' first
    | with_reducible (first
        | exact keeps_peek | exact keeps_previous | exact keeps_bump | exact keeps_isAtEnd
        | exact keeps_check _ | exact keeps_advance | exact keeps_matchType _
        | exact keeps_matchTypes _ | exact keeps_consume _ _ | exact keeps_valueOf _
        | exact keeps_raise _ | exact keeps_faulty | exact keeps_noFuel | assumption
        | apply keeps_bind | apply keeps_ite | apply keeps_pure | intro _)
    | dsimp only
    | split
  all_goals simp_all [Narrow.holds, Expr.narrow, narrowArgs, narrowOption, Stmt.narrow, narrowList,
      narrowList_append]

theorem bitwiseOr_keeps {e : P Expr} (he : Keeps e) (fuel : Nat) : Keeps (bitwiseOr e fuel) := by
  have h1 := bitwiseXor_keeps he fuel
  have h2 := fun ops => binaryLoop_keeps ops h1 fuel
  unfold bitwiseOr
  repeat' first
    | with_reducible (first
        | exact keeps_peek | exact keeps_previous | exact keeps_bump | exact keeps_isAtEnd
        | exact keeps_check _ | exact keeps_advance | exact keeps_matchType _
        | exact keeps_matchTypes _ | exact keeps_consume _ _ | exact keeps_valueOf _
        | exact keeps_raise _ | exact keeps_faulty | exact keeps_noFuel | assumption
        | apply keeps_bind | apply keeps_ite | apply keeps_pure | intro _)
    | dsimp only
    | split
  all_goals simp_all [Narrow.holds, Expr.narrow, narrowArgs, narrowOption, Stmt.narrow, narrowList,
      narrowList_append]

theorem logicalAnd_keeps {e : P Expr} (he : Keeps e) (fuel : Nat) : Keeps (logicalAnd e fuel) := by
  have h1 := bitwiseOr_keeps he fuel
  have h2 := fun ops => binaryLoop_keeps ops h1 fuel
  unfold logicalAnd
  repeat' first
    | with_reducible (first
        | exact keeps_peek | exact keeps_previous | exact keeps_bump | exact keeps_isAtEnd
        | exact keeps_check _ | exact keeps_advance | exact keeps_matchType _
        | exact keeps_matchTypes _ | exact keeps_consume _ _ | exact keeps_valueOf _
        | exact keeps_raise _ | exact keeps_faulty | exact keeps_noFuel | assumption
        | apply keeps_bind | apply keeps_ite | apply keeps_pure | intro _)
    | dsimp only
    | split
  all_goals simp_all [Narrow.holds, Expr.narrow, narrowArgs, narrowOption, Stmt.narrow, narrowList,
      narrowList_append]

theorem logicalOr_keeps {e : P Expr} (he : Keeps e) (fuel : Nat) : Keeps (logicalOr e fuel) := by
  have h1 := logicalAnd_keeps he fuel
  have h2 := fun ops => binaryLoop_keeps ops h1 fuel
  unfold logicalOr
  repeat' first
    | with_reducible (first
        | exact keeps_peek | exact keeps_previous | exact keeps_bump | exact keeps_isAtEnd
        | exact keeps_check _ | exact keeps_advance | exact keeps_matchType _
        | exact keeps_matchTypes _ | exact keeps_consume _ _ | exact keeps_valueOf _
        | exact keeps_raise _ | exact keeps_faulty | exact keeps_noFuel | assumption
        | apply keeps_bind | apply keeps_ite | apply keeps_pure | intro _)
    | dsimp only
    | split
  all_goals simp_all [Narrow.holds, Expr.narrow, narrowArgs, narrowOption, Stmt.narrow, narrowList,
      narrowList_append]

theorem assignment_keeps {e : P Expr} (he : Keeps e) (fuel : Nat) :
    Keeps (assignment e fuel) := by
  induction fuel with
  | zero => exact keeps_noFuel
  | succ fuel ih =>
    have h1 := logicalOr_keeps he fuel
    unfold assignment
    repeat' first
      | with_reducible (first
          | exact keeps_peek | exact keeps_previous | exact keeps_bump | exact keeps_isAtEnd
          | exact keeps_check _ | exact keeps_advance | exact keeps_matchType _
          | exact keeps_matchTypes _ | exact keeps_consume _ _ | exact keeps_valueOf _
          | exact keeps_raise _ | exact keeps_faulty | exact keeps_noFuel | assumption
          | apply keeps_bind | apply keeps_ite | apply keeps_pure | intro _)
      | dsimp only
      | split
    all_goals simp_all [Narrow.holds, Expr.narrow, narrowArgs, narrowOption, Stmt.narrow, narrowList,
        narrowList_append]

theorem expression_keeps (fuel : Nat) : Keeps (expression fuel) := by
  induction fuel with
  | zero => exact keeps_noFuel
  | succ fuel ih =>
    rw [expression]
    exact assignment_keeps ih fuel

theorem expressionStatement_keeps (fuel : Nat) : Keeps (expressionStatement fuel) := by
  have h1 := expression_keeps fuel
  unfold expressionStatement
  repeat' first
    | with_reducible (first
        | exact keeps_peek | exact keeps_previous | exact keeps_bump | exact keeps_isAtEnd
        | exact keeps_check _ | exact keeps_advance | exact keeps_matchType _
        | exact keeps_matchTypes _ | exact keeps_consume _ _ | exact keeps_valueOf _
        | exact keeps_raise _ | exact keeps_faulty | exact keeps_noFuel | assumption
        | apply keeps_bind | apply keeps_ite | apply keeps_pure | intro _)
    | dsimp only
    | split
  all_goals simp_all [Narrow.holds, Expr.narrow, narrowArgs, narrowOption, Stmt.narrow, narrowList,
      narrowList_append]

set_option maxHeartbeats 4000000 in
theorem typedVarDeclaration_keeps (fuel : Nat) (type : TokenType) :
    Keeps (typedVarDeclaration fuel type) := by
  have h1 := expression_keeps fuel
  unfold typedVarDeclaration
  cases type <;>
    repeat' first
      | with_reducible (first
          | exact keeps_peek | exact keeps_previous | exact keeps_bump | exact keeps_isAtEnd
          | exact keeps_check _ | exact keeps_advance | exact keeps_matchType _
          | exact keeps_matchTypes _ | exact keeps_consume _ _ | exact keeps_valueOf _
          | exact keeps_raise _ | exact keeps_faulty | exact keeps_noFuel | assumption
          | apply keeps_bind | apply keeps_ite | apply keeps_pure | intro _)
      | dsimp only
      | split
  all_goals simp_all [Narrow.holds, Expr.narrow, narrowArgs, narrowOption, Stmt.narrow, narrowList,
        narrowList_append]

theorem importStatement_keeps : Keeps importStatement := by
  unfold importStatement
  repeat' first
    | with_reducible (first
        | exact keeps_peek | exact keeps_previous | exact keeps_bump | exact keeps_isAtEnd
        | exact keeps_check _ | exact keeps_advance | exact keeps_matchType _
        | exact keeps_matchTypes _ | exact keeps_consume _ _ | exact keeps_valueOf _
        | exact keeps_raise _ | exact keeps_faulty | exact keeps_noFuel | assumption
        | apply keeps_bind | apply keeps_ite | apply keeps_pure | intro _)
    | dsimp only
    | split
  all_goals simp_all [Narrow.holds, Expr.narrow, narrowArgs, narrowOption, Stmt.narrow, narrowList,
      narrowList_append]

theorem returnStatement_keeps (fuel : Nat) : Keeps (returnStatement fuel) := by
  have h1 := expression_keeps fuel
  unfold returnStatement
  repeat' first
    | with_reducible (first
        | exact keeps_peek | exact keeps_previous | exact keeps_bump | exact keeps_isAtEnd
        | exact keeps_check _ | exact keeps_advance | exact keeps_matchType _
        | exact keeps_matchTypes _ | exact keeps_consume _ _ | exact keeps_valueOf _
        | exact keeps_raise _ | exact keeps_faulty | exact keeps_noFuel | assumption
        | apply keeps_bind | apply keeps_ite | apply keeps_pure | intro _)
    | dsimp only
    | split
  all_goals simp_all [Narrow.holds, Expr.narrow, narrowArgs, narrowOption, Stmt.narrow, narrowList,
      narrowList_append]

theorem printStatement_keeps (fuel : Nat) : Keeps (printStatement fuel) := by
  have h1 := expression_keeps fuel
  unfold printStatement
  repeat' first
    | with_reducible (first
        | exact keeps_peek | exact keeps_previous | exact keeps_bump | exact keeps_isAtEnd
        | exact keeps_check _ | exact keeps_advance | exact keeps_matchType _
        | exact keeps_matchTypes _ | exact keeps_consume _ _ | exact keeps_valueOf _
        | exact keeps_raise _ | exact keeps_faulty | exact keeps_noFuel | assumption
        | apply keeps_bind | apply keeps_ite | apply keeps_pure | intro _)
    | dsimp only
    | split
  all_goals simp_all [Narrow.holds, Expr.narrow, narrowArgs, narrowOption, Stmt.narrow, narrowList,
      narrowList_append]

theorem ifStatement_keeps {s : P Stmt} (hs : Keeps s) (fuel : Nat) :
    Keeps (ifStatement s fuel) := by
  have h1 := expression_keeps fuel
  unfold ifStatement
  repeat' first
    | with_reducible (first
        | exact keeps_peek | exact keeps_previous | exact keeps_bump | exact keeps_isAtEnd
        | exact keeps_check _ | exact keeps_advance | exact keeps_matchType _
        | exact keeps_matchTypes _ | exact keeps_consume _ _ | exact keeps_valueOf _
        | exact keeps_raise _ | exact keeps_faulty | exact keeps_noFuel | assumption
        | apply keeps_bind | apply keeps_ite | apply keeps_pure | intro _)
    | dsimp only
    | split
  all_goals first
    | exact narrow_if _ _ _ _ (by assumption) (by assumption) (by assumption)
    | simp_all [Narrow.holds, Expr.narrow, narrowArgs, narrowOption, Stmt.narrow, narrowList,
      narrowList_append]

theorem whileStatement_keeps {s : P Stmt} (hs : Keeps s) (fuel : Nat) :
    Keeps (whileStatement s fuel) := by
  have h1 := expression_keeps fuel
  unfold whileStatement
  repeat' first
    | with_reducible (first
        | exact keeps_peek | exact keeps_previous | exact keeps_bump | exact keeps_isAtEnd
        | exact keeps_check _ | exact keeps_advance | exact keeps_matchType _
        | exact keeps_matchTypes _ | exact keeps_consume _ _ | exact keeps_valueOf _
        | exact keeps_raise _ | exact keeps_faulty | exact keeps_noFuel | assumption
        | apply keeps_bind | apply keeps_ite | apply keeps_pure | intro _)
    | dsimp only
    | split
  all_goals simp_all [Narrow.holds, Expr.narrow, narrowArgs, narrowOption, Stmt.narrow, narrowList,
      narrowList_append]

theorem incrementLoop_keeps (fuel : Nat) :
    ∀ expr : Expr, Narrow.holds expr → Keeps (incrementLoop fuel expr) := by
  induction fuel with
  | zero => intro _ _; exact keeps_noFuel
  | succ fuel ih =>
    intro expr hexpr
    unfold incrementLoop
    have ih2 : ∀ (op : TokenType) (line : Int),
        Keeps (incrementLoop fuel (Expr.UnaryExpr op expr line)) := by
      intro op line
      apply ih
      have h1 : expr.narrow = true := hexpr
      simp [Narrow.holds, Expr.narrow, h1]
    repeat' first
      | with_reducible (first
          | exact keeps_peek | exact keeps_previous | exact keeps_bump | exact keeps_isAtEnd
          | exact keeps_check _ | exact keeps_advance | exact keeps_matchType _
          | exact keeps_matchTypes _ | exact keeps_consume _ _ | exact keeps_valueOf _
          | exact keeps_raise _ | exact keeps_faulty | exact keeps_noFuel | assumption
          | apply keeps_bind | apply keeps_ite | apply keeps_pure | intro _)
      | dsimp only
      | split
    all_goals simp_all [Narrow.holds, Expr.narrow, narrowArgs, narrowOption, Stmt.narrow, narrowList,
        narrowList_append]

set_option maxHeartbeats 4000000 in
theorem forStatement_keeps {s : P Stmt} (hs : Keeps s) (fuel : Nat) :
    Keeps (forStatement s fuel) := by
  have h1 := expression_keeps fuel
  have h2 := typedVarDeclaration_keeps fuel KEYWORD_VAR_NUM
  have h3 := expressionStatement_keeps fuel
  have h4 := incrementLoop_keeps fuel
  unfold forStatement numVarDeclaration
  repeat' first
    | with_reducible (first
        | exact keeps_peek | exact keeps_previous | exact keeps_bump | exact keeps_isAtEnd
        | exact keeps_check _ | exact keeps_advance | exact keeps_matchType _
        | exact keeps_matchTypes _ | exact keeps_consume _ _ | exact keeps_valueOf _
        | exact keeps_raise _ | exact keeps_faulty | exact keeps_noFuel | assumption
        | apply keeps_bind | apply keeps_ite | apply keeps_pure | intro _)
    | dsimp only
    | split
  all_goals simp_all [Narrow.holds, Expr.narrow, narrowArgs, narrowOption, Stmt.narrow, narrowList,
      narrowList_append]

theorem blockLoop_keeps {d : P Stmt} (hd : Keeps d) (fuel : Nat) :
    ∀ acc : List Stmt, Narrow.holds acc → Keeps (blockLoop d fuel acc) := by
  induction fuel with
  | zero => intro acc _; exact keeps_noFuel
  | succ fuel ih =>
    intro acc hacc
    unfold blockLoop
    have ih2 : ∀ s : Stmt, Narrow.holds s → Keeps (blockLoop d fuel (acc ++ [s])) := by
      intro s hs
      apply ih
      have h1 : narrowList acc = true := hacc
      have h2 : s.narrow = true := hs
      simp [Narrow.holds, narrowList_append, h1, h2]
    repeat' first
      | with_reducible (first
          | exact keeps_peek | exact keeps_previous | exact keeps_bump | exact keeps_isAtEnd
          | exact keeps_check _ | exact keeps_advance | exact keeps_matchType _
          | exact keeps_matchTypes _ | exact keeps_consume _ _ | exact keeps_valueOf _
          | exact keeps_raise _ | exact keeps_faulty | exact keeps_noFuel | assumption
          | apply keeps_bind | apply keeps_ite | apply keeps_pure | intro _)
      | dsimp only
      | split
    all_goals simp_all [Narrow.holds, Expr.narrow, narrowArgs, narrowOption, Stmt.narrow, narrowList,
        narrowList_append]

theorem block_keeps {d : P Stmt} (hd : Keeps d) (fuel : Nat) : Keeps (block d fuel) := by
  have h1 := blockLoop_keeps hd fuel [] rfl
  unfold block
  repeat' first
    | with_reducible (first
        | exact keeps_peek | exact keeps_previous | exact keeps_bump | exact keeps_isAtEnd
        | exact keeps_check _ | exact keeps_advance | exact keeps_matchType _
        | exact keeps_matchTypes _ | exact keeps_consume _ _ | exact keeps_valueOf _
        | exact keeps_raise _ | exact keeps_faulty | exact keeps_noFuel | assumption
        | apply keeps_bind | apply keeps_ite | apply keeps_pure | intro _)
    | dsimp only
    | split
  all_goals simp_all [Narrow.holds, Expr.narrow, narrowArgs, narrowOption, Stmt.narrow, narrowList,
      narrowList_append]

theorem statement_keeps {d : P Stmt} (hd : Keeps d) (fuel : Nat) :
    Keeps (statement d fuel) := by
  induction fuel with
  | zero => exact keeps_noFuel
  | succ fuel ih =>
    have h1 := ifStatement_keeps ih fuel
    have h2 := whileStatement_keeps ih fuel
    have h3 := forStatement_keeps ih fuel
    have h4 := block_keeps hd fuel
    have h5 := returnStatement_keeps fuel
    have h6 := printStatement_keeps fuel
    have h7 := expressionStatement_keeps fuel
    unfold statement
    repeat' first
      | with_reducible (first
          | exact keeps_peek | exact keeps_previous | exact keeps_bump | exact keeps_isAtEnd
          | exact keeps_check _ | exact keeps_advance | exact keeps_matchType _
          | exact keeps_matchTypes _ | exact keeps_consume _ _ | exact keeps_valueOf _
          | exact keeps_raise _ | exact keeps_faulty | exact keeps_noFuel | assumption
          | apply keeps_bind | apply keeps_ite | apply keeps_pure | intro _)

theorem function_keeps {d : P Stmt} (hd : Keeps d) (fuel : Nat) : Keeps (function d fuel) := by
  have h1 := block_keeps hd fuel
  have h2 := parametersLoop_keeps fuel
  unfold function
  repeat' first
    | with_reducible (first
        | exact keeps_peek | exact keeps_previous | exact keeps_bump | exact keeps_isAtEnd
        | exact keeps_check _ | exact keeps_advance | exact keeps_matchType _
        | exact keeps_matchTypes _ | exact keeps_consume _ _ | exact keeps_valueOf _
        | exact keeps_raise _ | exact keeps_faulty | exact keeps_noFuel | assumption
        | apply keeps_bind | apply keeps_ite | apply keeps_pure | intro _)
    | dsimp only
    | split
  all_goals simp_all [Narrow.holds, Expr.narrow, narrowArgs, narrowOption, Stmt.narrow, narrowList,
      narrowList_append]

theorem declarationBody_keeps {d : P Stmt} (hd : Keeps d) (fuel : Nat) :
    Keeps (declarationBody d fuel) := by
  have h1 := function_keeps hd fuel
  have h2 := typedVarDeclaration_keeps fuel KEYWORD_VAR_NUM
  have h3 := typedVarDeclaration_keeps fuel KEYWORD_VAR_STR
  have h4 := typedVarDeclaration_keeps fuel KEYWORD_VAR_ARR
  have h5 := importStatement_keeps
  have h6 := statement_keeps hd fuel
  unfold declarationBody numVarDeclaration strVarDeclaration arrVarDeclaration
  repeat' first
    | with_reducible (first
        | exact keeps_peek | exact keeps_previous | exact keeps_bump | exact keeps_isAtEnd
        | exact keeps_check _ | exact keeps_advance | exact keeps_matchType _
        | exact keeps_matchTypes _ | exact keeps_consume _ _ | exact keeps_valueOf _
        | exact keeps_raise _ | exact keeps_faulty | exact keeps_noFuel | assumption
        | apply keeps_bind | apply keeps_ite | apply keeps_pure | intro _)

theorem declaration_keeps (fuel : Nat) : Keeps (declaration fuel) := by
  induction fuel with
  | zero => exact keeps_noFuel
  | succ fuel ih =>
    rw [declaration]
    exact keeps_catch (declarationBody_keeps ih fuel)

theorem parseLoop_keeps (fuel : Nat) :
    ∀ acc : List Stmt, Narrow.holds acc → Keeps (parseLoop fuel acc) := by
  induction fuel with
  | zero => intro acc _; exact keeps_noFuel
  | succ fuel ih =>
    intro acc hacc
    have hd := declaration_keeps fuel
    unfold parseLoop
    have ih2 : ∀ s : Stmt, Narrow.holds s → Keeps (parseLoop fuel (acc ++ [s])) := by
      intro s hs
      apply ih
      have h1 : narrowList acc = true := hacc
      have h2 : s.narrow = true := hs
      simp [Narrow.holds, narrowList_append, h1, h2]
    repeat' first
      | with_reducible (first
          | exact keeps_peek | exact keeps_previous | exact keeps_bump | exact keeps_isAtEnd
          | exact keeps_check _ | exact keeps_advance | exact keeps_matchType _
          | exact keeps_matchTypes _ | exact keeps_consume _ _ | exact keeps_valueOf _
          | exact keeps_raise _ | exact keeps_faulty | exact keeps_noFuel | assumption
          | apply keeps_bind | apply keeps_ite | apply keeps_pure | intro _)

set_option maxHeartbeats 4000000 in
/-- C35. The lexer never produces a `COMMA` token: a `,` at the start of a text
lexes to the `UNKNOWN` token holding it, and no token of `tokenize` is a
`COMMA`, for any source text. Hence, whenever `parse` returns on the output of
`tokenize`, every call in the returned statements has at most one argument and
every function at most one parameter, at any depth. The sources `f(1, 2);` and
`func f(a, b)` with an empty body are parse errors, and the function `f(a)`
whose body is the statement `g(1);` parses to a function with one parameter
holding a call with one argument. -/
theorem no_comma_so_single_argument :
    (∀ r : List Char, ∃ toks, Lexer.tokenize r = some toks ∧
      Lexer.tokenize (',' :: r) = some (⟨UNKNOWN, 1, some ","⟩ :: toks)) ∧
    (∀ (s : List Char) (toks : List Token), Lexer.tokenize s = some toks →
      ∀ t ∈ toks, t.type ≠ COMMA) ∧
    (∀ (s : List Char) (toks : List Token) (fuel : Nat) (stmts : List Stmt),
      Lexer.tokenize s = some toks → parse fuel toks = Outcome.returned stmts →
        narrowList stmts = true) ∧
    (Lexer.tokenize "f(1, 2);".toList).map (parse 12) =
      some (Outcome.threw "[Line 1] Error: Expect ')' after arguments") ∧
    (Lexer.tokenize "func f(a, b) \x7b \x7d".toList).map (parse 12) =
      some (Outcome.threw "[Line 1] Error: Expect ')' after parameters") ∧
    (Lexer.tokenize "func f(a) \x7b g(1); \x7d".toList).map (parse 9) =
      some (Outcome.returned [Stmt.FunctionStmt "f" ["a"]
        (Stmt.BlockStmt [Stmt.ExprStmt
          (Expr.CallExpr "g" [Expr.LiteralExpr "1" NUMBER 1] 1) 1] 1) 1]) := by
  have hno : ∀ (s : List Char) (toks : List Token), Lexer.tokenize s = some toks →
      ∀ t ∈ toks, t.type ≠ COMMA := by
    intro s toks h
    obtain ⟨toks2, h1, _, h2⟩ := tokenize_valid s
    rw [h] at h1
    cases h1
    exact h2
  refine ⟨fun r => ?_, hno, fun s toks fuel stmts h hp => ?_, rfl, rfl, rfl⟩
  · obtain ⟨toks, ht⟩ := tokenize_total r
    refine ⟨toks, ht, ?_⟩
    have hd : Lexer.dispatch ',' ⟨',' :: r, 1⟩ = (none, ⟨',' :: r, 1⟩) := by
      rw [dispatch_default ',' _ (by decide)]
      rfl
    rw [tokenize_unknown ',' r (by decide) (not_slash_of ',' (by decide) r) hd, ht]
    rfl
  · unfold parse at hp
    cases hr : parseLoop fuel [] ⟨[], toks⟩ with
    | ok a q =>
      rw [hr] at hp
      cases hp
      exact (parseLoop_keeps fuel [] rfl ⟨[], toks⟩ _ _ (hno s toks h) hr).2
    | error w q => rw [hr] at hp; cases hp
    | fault => rw [hr] at hp; cases hp
    | outOfFuel => rw [hr] at hp; cases hp

/-- C35 at the source `g(1);`. -/
theorem no_comma_so_single_argument_witness :
    narrowList [Stmt.ExprStmt (Expr.CallExpr "g" [Expr.LiteralExpr "1" NUMBER 1] 1) 1] = true :=
  no_comma_so_single_argument.2.2.1 "g(1);".toList
    [⟨IDENTIFIER, 1, some "g"⟩, ⟨LPAREN, 1, none⟩, ⟨NUMBER, 1, some "1"⟩, ⟨RPAREN, 1, none⟩,
      ⟨SEMICOLON, 1, none⟩, ⟨END_OF_FILE, 1, none⟩] 12
    [Stmt.ExprStmt (Expr.CallExpr "g" [Expr.LiteralExpr "1" NUMBER 1] 1) 1] rfl rfl

/-! # Line accounting of the lexer -/

theorem newlines_nonneg (s : List Char) : 0 ≤ newlines s := by
  unfold newlines
  exact Int.natCast_nonneg _

theorem newlines_cons_other (c : Char) (s : List Char) (h : c ≠ Char.ofNat 10) :
    newlines (c :: s) = newlines s := by
  rw [newlines_cons, if_neg h, zero_add]

theorem newlines_cons_newline (s : List Char) :
    newlines (Char.ofNat 10 :: s) = 1 + newlines s := by
  rw [newlines_cons, if_pos rfl]

theorem newlines_scanWhile (p : Char → Bool) (hp : p (Char.ofNat 10) = false) (s : List Char) :
    newlines (Lexer.scanWhile p s).2 = newlines s := by
  induction s with
  | nil => rfl
  | cons c r ih =>
    rw [Lexer.scanWhile]
    by_cases h : p c = true
    · have hc : c ≠ Char.ofNat 10 := by
        intro e
        rw [e, hp] at h
        cases h
      simp only [h, if_true]
      rw [ih, newlines_cons_other c r hc]
    · simp [h]

theorem newlines_skipCommentLoop (s : List Char) :
    newlines (Lexer.skipCommentLoop s) = newlines s := by
  induction s with
  | nil => rfl
  | cons c r ih =>
    rw [Lexer.skipCommentLoop]
    by_cases h : c = Char.ofNat 10
    · simp [h]
    · simp only [bne_iff_ne, ne_eq, h, not_false_eq_true, if_true]
      rw [ih, newlines_cons_other c r h]

theorem skipSpaces_lines (s : List Char) :
    ∀ line : Int, (Lexer.skipSpaces s line).2 + newlines (Lexer.skipSpaces s line).1 =
        line + newlines s ∧ line ≤ (Lexer.skipSpaces s line).2 := by
  induction s with
  | nil => intro line; exact ⟨rfl, le_refl _⟩
  | cons c r ih =>
    intro line
    rw [Lexer.skipSpaces]
    by_cases h : isspace c = true
    · simp only [h, if_true]
      by_cases hc : c = Char.ofNat 10
      · subst hc
        obtain ⟨h1, h2⟩ := ih (line + 1)
        simp only [beq_self_eq_true, if_true]
        rw [newlines_cons_newline]
        constructor
        · rw [h1]; ring
        · linarith
      · obtain ⟨h1, h2⟩ := ih line
        have hb : (c == Char.ofNat 10) = false := by simpa using hc
        simp only [hb, Bool.false_eq_true, if_false]
        rw [newlines_cons_other c r hc]
        exact ⟨h1, h2⟩
    · simp [h]

theorem stringLoop_lines (s : List Char) :
    ∀ line : Int, (Lexer.stringLoop s line).2.1 + newlines (Lexer.stringLoop s line).2.2 =
        line + newlines s ∧ line ≤ (Lexer.stringLoop s line).2.1 ∧
      ((Lexer.stringLoop s line).2.2 = [] ∨
        ∃ r, (Lexer.stringLoop s line).2.2 = '"' :: r) := by
  induction s with
  | nil => intro line; exact ⟨rfl, le_refl _, Or.inl rfl⟩
  | cons c r ih =>
    intro line
    by_cases h : c = '"'
    · subst h
      have e : Lexer.stringLoop ('"' :: r) line = ([], line, '"' :: r) := by
        simp [Lexer.stringLoop]
      rw [e]
      exact ⟨rfl, le_refl _, Or.inr ⟨r, rfl⟩⟩
    · rw [Lexer.stringLoop]
      simp only [bne_iff_ne, ne_eq, h, not_false_eq_true, if_true]
      by_cases hc : c = Char.ofNat 10
      · subst hc
        obtain ⟨h1, h2, h3⟩ := ih (line + 1)
        simp only [beq_self_eq_true, if_true]
        rw [newlines_cons_newline]
        refine ⟨?_, ?_, h3⟩
        · rw [h1]; ring
        · linarith
      · obtain ⟨h1, h2, h3⟩ := ih line
        have hb : (c == Char.ofNat 10) = false := by simpa using hc
        simp only [hb, Bool.false_eq_true, if_false]
        rw [newlines_cons_other c r hc]
        exact ⟨h1, h2, h3⟩

/-! ## One call of `nextToken` accounts for the newlines it passes -/

theorem one_accounts (type : TokenType) (c : Char) (r : List Char) (line : Int)
    (hc : c ≠ Char.ofNat 10) : Accounts line (c :: r) (Lexer.one type ⟨c :: r, line⟩) := by
  refine ⟨?_, le_refl _, ?_⟩
  · show line + newlines r = line + newlines (c :: r)
    rw [newlines_cons_other c r hc]
  · intro t ht
    cases ht
    exact ⟨le_refl _, le_refl _⟩

theorem two_accounts (type : TokenType) (c : Char) (r : List Char) (line : Int) (d : Char)
    (h : (Lexer.peekNext ⟨c :: r, line⟩ == d) = true)
    (hd : d ≠ Char.ofNat 0 ∧ d ≠ Char.ofNat 10) (hc : c ≠ Char.ofNat 10) :
    Accounts line (c :: r) (Lexer.two type ⟨c :: r, line⟩) := by
  obtain ⟨r1, rfl⟩ := peekNext_eq c r line d hd.1 h
  refine ⟨?_, le_refl _, ?_⟩
  · show line + newlines r1 = line + newlines (c :: d :: r1)
    rw [newlines_cons_other c _ hc, newlines_cons_other d _ hd.2]
  · intro t ht
    cases ht
    exact ⟨le_refl _, le_refl _⟩

theorem ret_accounts (line : Int) (src : List Char) (x : Token × Lexer)
    (h1 : x.2.m_cline + newlines x.2.source = line + newlines src)
    (h2 : line ≤ x.1.line) (h3 : x.1.line ≤ x.2.m_cline) :
    Accounts line src (Lexer.ret x) := by
  refine ⟨h1, le_trans h2 h3, ?_⟩
  intro t ht
  cases ht
  exact ⟨h2, h3⟩

theorem directive_accounts (c : Char) (r : List Char) (line : Int) (hc : c ≠ Char.ofNat 10) :
    Accounts line (c :: r) (Lexer.ret (Lexer.directive ⟨c :: r, line⟩)) := by
  have e0 := newlines_cons_other c r hc
  have ea := newlines_scanWhile isalpha (by decide) r
  unfold Lexer.directive
  simp only [lexAdvance_cons]
  split_ifs with h1 h2
  · obtain ⟨k1, k2⟩ := skipSpaces_lines (Lexer.scanWhile isalpha r).2 line
    refine ret_accounts _ _ _ ?_ k2 (le_refl _)
    show (Lexer.skipSpaces (Lexer.scanWhile isalpha r).2 line).2 +
        newlines (Lexer.scanWhile (fun c => isalnum c || c == '_' || c == '.')
          (Lexer.skipSpaces (Lexer.scanWhile isalpha r).2 line).1).2 = line + newlines (c :: r)
    rw [newlines_scanWhile _ (by decide), k1, ea, e0]
  · refine ret_accounts _ _ _ ?_ (le_refl _) (le_refl _)
    show line + newlines (Lexer.scanWhile isalpha r).2 = line + newlines (c :: r)
    rw [ea, e0]
  · refine ret_accounts _ _ _ ?_ (le_refl _) (le_refl _)
    show line + newlines r = line + newlines (c :: r)
    rw [e0]

theorem ampersand_accounts (c : Char) (r : List Char) (line : Int) (hc : c ≠ Char.ofNat 10) :
    Accounts line (c :: r) (Lexer.ret (Lexer.ampersand ⟨c :: r, line⟩)) := by
  have e0 := newlines_cons_other c r hc
  unfold Lexer.ampersand
  simp only [lexAdvance_cons]
  split_ifs with h1
  · cases r with
    | nil => simp [Lexer.peek] at h1
    | cons d r1 =>
      have hd : d = '&' := by simpa [Lexer.peek] using h1
      subst hd
      refine ret_accounts _ _ _ ?_ (le_refl _) (le_refl _)
      show line + newlines r1 = line + newlines (c :: '&' :: r1)
      rw [newlines_cons_other c _ hc, newlines_cons_other '&' _ (by decide)]
  · refine ret_accounts _ _ _ ?_ (le_refl _) (le_refl _)
    show line + newlines r = line + newlines (c :: r)
    rw [e0]

theorem stringLiteral_accounts (c : Char) (r : List Char) (line : Int)
    (hc : c ≠ Char.ofNat 10) :
    Accounts line (c :: r) (Lexer.ret (Lexer.stringLiteral ⟨c :: r, line⟩)) := by
  have e0 := newlines_cons_other c r hc
  obtain ⟨k1, k2, k3⟩ := stringLoop_lines r line
  unfold Lexer.stringLiteral
  simp only [lexAdvance_cons]
  rcases k3 with k3 | ⟨r1, k3⟩
  · rw [k3] at k1 ⊢
    rw [if_pos (by rfl)]
    refine ret_accounts _ _ _ ?_ k2 (le_refl _)
    show (Lexer.stringLoop r line).2.1 + newlines [] = line + newlines (c :: r)
    rw [k1, e0]
  · rw [k3] at k1 ⊢
    rw [if_neg (by simp [Lexer.isAtEnd])]
    rw [newlines_cons_other '"' _ (by decide)] at k1
    refine ret_accounts _ _ _ ?_ k2 (le_refl _)
    show (Lexer.stringLoop r line).2.1 + newlines r1 = line + newlines (c :: r)
    rw [k1, e0]

theorem numberLiteral_accounts (c : Char) (r : List Char) (line : Int) :
    Accounts line (c :: r) (Lexer.ret (Lexer.numberLiteral ⟨c :: r, line⟩)) := by
  have ed := newlines_scanWhile isdigit (by decide) (c :: r)
  unfold Lexer.numberLiteral
  simp only
  generalize (Lexer.scanWhile isdigit (c :: r)).2 = q at ed ⊢
  generalize (Lexer.scanWhile isdigit (c :: r)).1 = q1
  cases q with
  | nil =>
    rw [if_neg (by simp [Lexer.peek])]
    refine ret_accounts _ _ _ ?_ (le_refl _) (le_refl _)
    show line + newlines [] = line + newlines (c :: r)
    rw [ed]
  | cons d r1 =>
    split_ifs with h1
    · have hd : d = '.' := by
        have := (Bool.and_eq_true_iff.1 h1).1
        simpa [Lexer.peek] using this
      subst hd
      refine ret_accounts _ _ _ ?_ (le_refl _) (le_refl _)
      show line + newlines (Lexer.scanWhile isdigit r1).2 = line + newlines (c :: r)
      rw [newlines_scanWhile _ (by decide), ← ed, newlines_cons_other '.' _ (by decide)]
    · refine ret_accounts _ _ _ ?_ (le_refl _) (le_refl _)
      show line + newlines (d :: r1) = line + newlines (c :: r)
      rw [ed]

theorem identifier_accounts (c : Char) (r : List Char) (line : Int) :
    Accounts line (c :: r) (Lexer.ret (Lexer.identifier ⟨c :: r, line⟩)) := by
  have ed := newlines_scanWhile (fun c => isalnum c || c == '_') (by decide) (c :: r)
  unfold Lexer.identifier
  simp only
  split
  · refine ret_accounts _ _ _ ?_ (le_refl _) (le_refl _)
    show line + newlines (Lexer.scanWhile (fun c => isalnum c || c == '_') (c :: r)).2 =
      line + newlines (c :: r)
    rw [ed]
  · refine ret_accounts _ _ _ ?_ (le_refl _) (le_refl _)
    show line + newlines (Lexer.scanWhile (fun c => isalnum c || c == '_') (c :: r)).2 =
      line + newlines (c :: r)
    rw [ed]

theorem none_accounts (c : Char) (r : List Char) (line : Int) :
    Accounts line (c :: r) (none, ⟨c :: r, line⟩) :=
  ⟨rfl, le_refl _, fun t ht => by cases ht⟩

/-- One call of `nextToken` at a character other than a newline accounts for
the newlines it passes. -/
theorem dispatch_accounts (c : Char) (r : List Char) (line : Int) (hc : c ≠ Char.ofNat 10) :
    Accounts line (c :: r) (Lexer.dispatch c ⟨c :: r, line⟩) := by
  unfold Lexer.dispatch
  repeat' first
    | apply branch (fun x : Option Token × Lexer => Accounts line (c :: r) x) <;> intro _
  all_goals first
    | with_reducible exact one_accounts _ _ _ _ hc
    | with_reducible exact two_accounts _ _ _ _ _ (by assumption) (by decide) hc
    | with_reducible exact directive_accounts _ _ _ hc
    | with_reducible exact ampersand_accounts _ _ _ hc
    | with_reducible exact stringLiteral_accounts _ _ _ hc
    | with_reducible exact numberLiteral_accounts _ _ _
    | with_reducible exact identifier_accounts _ _ _
    | with_reducible exact none_accounts _ _ _

/-! ## The loop of `tokenize` accounts for every newline -/

theorem isspace_newline (c : Char) (h : isspace c = false) : c ≠ Char.ofNat 10 := by
  rintro rfl
  exact absurd h (by decide)

/-- The loop of `tokenize` started at `l` pushes tokens whose lines lie between
the line of `l` and that line plus the newlines left, in non-decreasing order,
and ends with the `END_OF_FILE` token on the line of `l` plus the newlines
left. -/
theorem tokenizeLoop_lines (fuel : Nat) :
    ∀ (l : Lexer) (acc : List Token), l.source.length < fuel →
      ∃ body, Lexer.tokenizeLoop fuel l acc =
          some (acc ++ (body ++ [⟨END_OF_FILE, l.m_cline + newlines l.source, none⟩])) ∧
        (∀ t ∈ body, l.m_cline ≤ t.line ∧ t.line ≤ l.m_cline + newlines l.source) ∧
        (body.map Token.line).Pairwise (· ≤ ·) := by
  induction fuel with
  | zero => intro l acc h; exact absurd h (Nat.not_lt_zero _)
  | succ fuel ih =>
    intro l acc hlen
    obtain ⟨src, line⟩ := l
    cases src with
    | nil =>
      refine ⟨[], ?_, fun t ht => absurd ht (List.not_mem_nil t), List.Pairwise.nil⟩
      rw [tokenizeLoop_end]
      simp [newlines]
    | cons c r =>
      have hlen1 : r.length < fuel := by simpa using hlen
      by_cases hs : isspace c = true
      · rw [tokenizeLoop_space fuel c r line acc hs]
        obtain ⟨body, hb, hl, hp⟩ := ih ⟨r, if c = Char.ofNat 10 then line + 1 else line⟩ acc hlen1
        have e : (if c = Char.ofNat 10 then line + 1 else line) + newlines r =
            line + newlines (c :: r) := by
          rw [newlines_cons]
          split_ifs <;> ring
        have e1 : line ≤ (if c = Char.ofNat 10 then line + 1 else line) := by
          split_ifs <;> linarith
        simp only [e] at hb hl
        exact ⟨body, hb, fun t ht => ⟨le_trans e1 (hl t ht).1, (hl t ht).2⟩, hp⟩
      · have hs1 : isspace c = false := by simpa using hs
        have hn := isspace_newline c hs1
        by_cases hc : c = '/' ∧ ∃ r1, r = '/' :: r1
        · obtain ⟨rfl, r1, rfl⟩ := hc
          rw [tokenizeLoop_comment]
          have h1 : Lexer.skipCommentLoop r1 <:+ '/' :: r1 :=
            (skipCommentLoop_suffix r1).trans (List.suffix_cons _ _)
          obtain ⟨body, hb, hl, hp⟩ := ih ⟨Lexer.skipCommentLoop r1, line⟩ acc
            (lt_of_le_of_lt h1.length_le hlen1)
          have e : newlines (Lexer.skipCommentLoop r1) = newlines ('/' :: '/' :: r1) := by
            rw [newlines_skipCommentLoop, newlines_cons_other '/' _ (by decide),
              newlines_cons_other '/' _ (by decide)]
          simp only [e] at hb hl
          exact ⟨body, hb, hl, hp⟩
        · rcases dispatch_progress c r line with ⟨t, ht, hp⟩ | hu
          · have hd : Lexer.dispatch c ⟨c :: r, line⟩ =
                (some t, (Lexer.dispatch c ⟨c :: r, line⟩).2) := by
              rw [← ht]
            obtain ⟨a1, a2, a3⟩ := dispatch_accounts c r line hn
            obtain ⟨a4, a5⟩ := a3 t ht
            rw [tokenizeLoop_token fuel c r line acc t _ hs1 hc hd]
            obtain ⟨body, hb, hl, hq⟩ := ih (Lexer.dispatch c ⟨c :: r, line⟩).2 (acc ++ [t])
              (lt_of_le_of_lt hp.length_le hlen1)
            rw [a1] at hb hl
            refine ⟨t :: body, ?_, ?_, ?_⟩
            · rw [hb]
              simp
            · intro x hx
              rcases List.mem_cons.1 hx with rfl | hx
              · exact ⟨a4, by have := newlines_nonneg (Lexer.dispatch c ⟨c :: r, line⟩).2.source
                              linarith⟩
              · exact ⟨le_trans a2 (hl x hx).1, (hl x hx).2⟩
            · rw [List.map_cons, List.pairwise_cons]
              refine ⟨?_, hq⟩
              intro y hy
              obtain ⟨x, hx, rfl⟩ := List.mem_map.1 hy
              exact le_trans a5 (hl x hx).1
          · rw [tokenizeLoop_unknown fuel c r line acc hs1 hc hu]
            obtain ⟨body, hb, hl, hq⟩ := ih ⟨r, line⟩
              (acc ++ [⟨UNKNOWN, line, some (String.singleton c)⟩]) hlen1
            have e : newlines r = newlines (c :: r) := (newlines_cons_other c r hn).symm
            simp only [e] at hb hl
            refine ⟨⟨UNKNOWN, line, some (String.singleton c)⟩ :: body, ?_, ?_, ?_⟩
            · rw [hb]
              simp
            · intro x hx
              rcases List.mem_cons.1 hx with rfl | hx
              · exact ⟨le_refl _, by have := newlines_nonneg (c :: r)
                                     linarith⟩
              · exact hl x hx
            · rw [List.map_cons, List.pairwise_cons]
              refine ⟨?_, hq⟩
              intro y hy
              obtain ⟨x, hx, rfl⟩ := List.mem_map.1 hy
              exact (hl x hx).1

/-- C39. Line accounting of `Lexer::tokenize`: for every source text `s` the
token sequence ends with the `END_OF_FILE` token on line 1 plus the number of
newline characters of `s`, every token before it lies on a line between 1 and
that line, and the lines are non-decreasing along the whole sequence. In the
text of the example a newline inside a string literal, one after `@import`
and one that ends a comment are each counted once. -/
theorem line_accounting (s : List Char) :
    (∃ body, Lexer.tokenize s = some (body ++ [eofToken (1 + newlines s)]) ∧
      (∀ t ∈ body, 1 ≤ t.line ∧ t.line ≤ 1 + newlines s) ∧
      ((body ++ [eofToken (1 + newlines s)]).map Token.line).Pairwise (· ≤ ·)) ∧
    Lexer.tokenize "\"a\nb\" @import\nio; // c\nx".toList =
      some [⟨STRING_LIT, 2, some "a\nb"⟩, ⟨IMPORT, 3, some "io"⟩, ⟨SEMICOLON, 3, none⟩,
        ⟨IDENTIFIER, 4, some "x"⟩, eofToken 4] ∧
    newlines "\"a\nb\" @import\nio; // c\nx".toList = 3 := by
  refine ⟨?_, by rfl, by rfl⟩
  obtain ⟨body, hb, hl, hp⟩ := tokenizeLoop_lines (s.length + 1) ⟨s, 1⟩ [] (Nat.lt_succ_self _)
  refine ⟨body, ?_, hl, ?_⟩
  · unfold Lexer.tokenize
    rw [hb]
    rfl
  · rw [List.map_append, List.pairwise_append]
    refine ⟨hp, List.pairwise_singleton _ _, ?_⟩
    intro x hx y hy
    obtain ⟨t, ht, rfl⟩ := List.mem_map.1 hx
    rw [List.map_singleton, List.mem_singleton] at hy
    rw [hy]
    exact (hl t ht).2

end Gvoid
